import Mathlib

/-!
# STARS-H: the Frobenius-error estimator and the great-circle kernels

A shallow embedding of `starsh_blrm__dfe` (backends/sequential/blrm/dfe.c) and of
the great-circle-distance kernels of applications/spatial.c.

Conventions of the embedding.

* The C type `double` is a type parameter `α` carrying field operations; the
  theorems instantiate it with the real numbers ("exact real arithmetic").
  The functions of `math.h` are parameters (`sqrt`, or a record `Libm`), so
  every definition below is executable on any carrier that provides them.
* A C array is a `List`; a pointer `p + k` into an array is the suffix
  `List.drop k`.  Every load and store is bounds-checked and the embedding
  returns `none` where the C code would leave the array.
* Sizes and indices that the code keeps in `int`/`size_t` and that are
  non-negative in every well-formed object are natural numbers.
* Freshly allocated memory (`malloc`, variable-length arrays) holds zeros.
-/

namespace StarsH

/-! ## Control and memory helpers -/

/-- The loop `for (k = 0; k < n; k++) s = body(k, s)`; it stops at the first
failing iteration. -/
def forLoop {σ : Type} (n : Nat) (body : Nat → σ → Option σ) (s : σ) : Option σ :=
  match n with
  | 0 => some s
  | m + 1 => (forLoop m body s).bind (body m)

/-- The store `a[k] = v`, which fails outside the array. -/
def store {α : Type} (a : List α) (k : Nat) (v : α) : Option (List α) :=
  if k < a.length then some (a.set k v) else none

/-- The compound assignment `a[k] *= c`. -/
def scaleAt {α : Type} [Mul α] (a : List α) (k : Nat) (c : α) : Option (List α) :=
  (a[k]?).bind (fun v => store a k (v * c))

/-! ## BLAS routines (external library, modelled by their documented result) -/

/-- Sum of the squares of the entries of a vector. -/
def sumsq {α : Type} [Field α] (xs : List α) : α :=
  (xs.map (fun x => x * x)).sum

/-- The routine `cblas_dnrm2(N, X, 1)`: the Euclidean norm of the first `N`
entries of `X`. -/
def cblas_dnrm2 {α : Type} [Field α] (sqrt : α → α) (N : Nat) (X : List α) : Option α :=
  if N ≤ X.length then some (sqrt (sumsq (X.take N))) else none

/-- Entry `(r, c)` of `A·Bᵗ` for column-major `A` (leading dimension `lda`)
and `B` (leading dimension `ldb`) with `K` columns each. -/
def dot_NT {α : Type} [Field α] (K : Nat) (A : List α) (lda : Nat) (B : List α) (ldb : Nat)
    (r c : Nat) : α :=
  ((List.range K).map (fun l => A.getD (r + l * lda) 0 * B.getD (c + l * ldb) 0)).sum

/-- The routine `cblas_dgemm(CblasColMajor, CblasNoTrans, CblasTrans, M, N, K,
alpha, A, lda, B, ldb, beta, C, ldc)`: `C := alpha·A·Bᵗ + beta·C` on the
`M×N` window of `C`; every other position of `C` keeps its value. -/
def cblas_dgemm_NT {α : Type} [Field α] (M N K : Nat) (alpha : α) (A : List α) (lda : Nat)
    (B : List α) (ldb : Nat) (beta : α) (C : List α) (ldc : Nat) : Option (List α) :=
  if (∀ r < M, ∀ l < K, r + l * lda < A.length) ∧
      (∀ c < N, ∀ l < K, c + l * ldb < B.length) ∧
      (∀ r < M, ∀ c < N, r + c * ldc < C.length) ∧ M ≤ ldc then
    some ((List.range C.length).map (fun p =>
      if p % ldc < M ∧ p / ldc < N then
        alpha * dot_NT K A lda B ldb (p % ldc) (p / ldc) + beta * C.getD p 0
      else C.getD p 0))
  else none

/-! ## Data model (the fields the code reads) -/

/-- The callback `STARSH_kernel`, called as
`kernel(nrows, ncols, irow, icol, row_data, col_data, result)`: it receives the
buffer `result` and returns its contents after the call. -/
abbrev STARSH_kernel (α δ : Type) : Type :=
  Nat → Nat → List Nat → List Nat → δ → δ → List α → Option (List α)

/-- The struct `STARSH_problem`. -/
structure STARSH_problem (α δ : Type) where
  kernel : STARSH_kernel α δ

/-- The struct `STARSH_cluster`. -/
structure STARSH_cluster (δ : Type) where
  data : δ
  pivot : List Nat
  start : List Nat
  size : List Nat

/-- The struct `STARSH_blrf` (block low-rank format). -/
structure STARSH_blrf (α δ : Type) where
  problem : STARSH_problem α δ
  symm : Char
  row_cluster : STARSH_cluster δ
  col_cluster : STARSH_cluster δ
  nblocks_far : Nat
  block_far : List Nat
  nblocks_near : Nat
  block_near : List Nat

/-- The struct `STARSH_blrm`; `far_U[bi]`, `far_V[bi]` and `near_D[bi]` are the
`data` buffers of the corresponding `Array` objects. -/
structure STARSH_blrm (α δ : Type) where
  format : STARSH_blrf α δ
  far_rank : List Int
  far_U : List (List α)
  far_V : List (List α)
  onfly : Int
  near_D : List (List α)

/-- The memory `starsh_blrm__dfe` works on: its argument and its local arrays
and scalars. -/
structure DfeFrame (α δ : Type) where
  M : STARSH_blrm α δ
  block_norm : List α
  far_block_diff : List α
  diff : α
  norm : α

/-! ## `starsh_blrm__dfe` -/

/-- The loop `for (k = 0; k < ncols; k++) D_norm[k] = cblas_dnrm2(nrows, D+k*nrows, 1)`
on a fresh array `D_norm[ncols]`. -/
def dfe_col_norms {α : Type} [Field α] (sqrt : α → α) (nrows ncols : Nat) (D : List α) :
    Option (List α) :=
  forLoop ncols
    (fun k D_norm => (cblas_dnrm2 sqrt nrows (D.drop (k * nrows))).bind (store D_norm k))
    (List.replicate ncols 0)

/-- Lines 39-42 (and 80-83, 98-101): the indices `i`, `j` of block `bi` of a
block list and the sizes `nrows`, `ncols` of its row and column clusters. -/
def dfe_block_dims {δ : Type} (R C : STARSH_cluster δ) (blocks : List Nat) (bi : Nat) :
    Option (Nat × Nat × Nat × Nat) := do
  let i ← blocks[2 * bi]?
  let j ← blocks[2 * bi + 1]?
  let nrows ← R.size[i]?
  let ncols ← C.size[j]?
  pure (i, j, nrows, ncols)

/-- Lines 47-51 (and 104-106): allocate `D` and fill it by
`kernel(nrows, ncols, R->pivot+R->start[i], C->pivot+C->start[j], RD, CD, D)`. -/
def dfe_kernel_block {α δ : Type} [Field α] (F : STARSH_blrf α δ) (i j nrows ncols : Nat) :
    Option (List α) := do
  let R := F.row_cluster
  let C := F.col_cluster
  let si ← R.start[i]?
  let sj ← C.start[j]?
  F.problem.kernel nrows ncols (R.pivot.drop si) (C.pivot.drop sj) R.data C.data
    (List.replicate (nrows * ncols) 0)

/-- Lines 53-55 (and 62-65, 86-88, 108-112): the column norms of `D` followed
by `cblas_dnrm2(ncols, D_norm, 1)`. -/
def dfe_block_fnorm {α : Type} [Field α] (sqrt : α → α) (nrows ncols : Nat) (D : List α) :
    Option α := do
  let D_norm ← dfe_col_norms sqrt nrows ncols D
  cblas_dnrm2 sqrt ncols D_norm

/-- Lines 39-66 of dfe.c: for far block `bi` the indices `i`, `j` and the
values `tmpnorm`, `tmpdiff`. -/
def dfe_far_norms {α δ : Type} [Field α] (sqrt : α → α) (M : STARSH_blrm α δ) (bi : Nat) :
    Option (Nat × Nat × α × α) := do
  let F := M.format
  let (i, j, nrows, ncols) ← dfe_block_dims F.row_cluster F.col_cluster F.block_far bi
  let rank ← M.far_rank[bi]?
  let D ← dfe_kernel_block F i j nrows ncols
  let tmpnorm ← dfe_block_fnorm sqrt nrows ncols D
  let U ← M.far_U[bi]?
  let V ← M.far_V[bi]?
  if rank < 0 then none else
  let D ← cblas_dgemm_NT nrows ncols rank.toNat (-1) U nrows V ncols 1 D nrows
  let tmpdiff ← dfe_block_fnorm sqrt nrows ncols D
  pure (i, j, tmpnorm, tmpdiff)

/-- One iteration of the loop over far blocks (lines 36-74). -/
def dfe_far_step {α δ : Type} [Field α] (sqrt : α → α) (bi : Nat) (st : DfeFrame α δ) :
    Option (DfeFrame α δ) := do
  let (i, j, tmpnorm, tmpdiff) ← dfe_far_norms sqrt st.M bi
  let block_norm ← store st.block_norm bi tmpnorm
  let far_block_diff ← store st.far_block_diff bi tmpdiff
  if i ≠ j ∧ st.M.format.symm = 'S' then
    let block_norm ← scaleAt block_norm bi (sqrt 2)
    let far_block_diff ← scaleAt far_block_diff bi (sqrt 2)
    pure { st with block_norm := block_norm, far_block_diff := far_block_diff }
  else
    pure { st with block_norm := block_norm, far_block_diff := far_block_diff }

/-- Lines 80-88 (stored near blocks, the loop taken when `onfly == 0`): the
indices `i`, `j` and the norm of the stored near block `bi`. -/
def dfe_near_norm_stored {α δ : Type} [Field α] (sqrt : α → α) (M : STARSH_blrm α δ)
    (bi : Nat) : Option (Nat × Nat × α) := do
  let F := M.format
  let (i, j, nrows, ncols) ← dfe_block_dims F.row_cluster F.col_cluster F.block_near bi
  let D ← M.near_D[bi]?
  let v ← dfe_block_fnorm sqrt nrows ncols D
  pure (i, j, v)

/-- Lines 98-112 (the loop taken when `onfly != 0`): the indices `i`, `j` and
the norm of near block `bi` regenerated by the kernel. -/
def dfe_near_norm_onfly {α δ : Type} [Field α] (sqrt : α → α) (M : STARSH_blrm α δ)
    (bi : Nat) : Option (Nat × Nat × α) := do
  let F := M.format
  let (i, j, nrows, ncols) ← dfe_block_dims F.row_cluster F.col_cluster F.block_near bi
  let D ← dfe_kernel_block F i j nrows ncols
  let v ← dfe_block_fnorm sqrt nrows ncols D
  pure (i, j, v)

/-- One iteration of a loop over near blocks (lines 78-92 with
`dfe_near_norm_stored`, lines 96-116 with `dfe_near_norm_onfly`);
`near_block_norm` is `block_norm + nblocks_far`. -/
def dfe_near_step {α δ : Type} [Field α] (sqrt : α → α)
    (near_norm : STARSH_blrm α δ → Nat → Option (Nat × Nat × α)) (nblocks_far : Nat)
    (bi : Nat) (st : DfeFrame α δ) : Option (DfeFrame α δ) := do
  let (i, j, v) ← near_norm st.M bi
  let block_norm ← store st.block_norm (nblocks_far + bi) v
  if i ≠ j ∧ st.M.format.symm = 'S' then
    let block_norm ← scaleAt block_norm (nblocks_far + bi) (sqrt 2)
    pure { st with block_norm := block_norm }
  else
    pure { st with block_norm := block_norm }

/-- Lines 75-116: the branch on `M->onfly` and the loop over near blocks. -/
def dfe_near_loop {α δ : Type} [Field α] (sqrt : α → α) (nblocks_far nblocks_near : Nat)
    (st : DfeFrame α δ) : Option (DfeFrame α δ) :=
  if st.M.onfly = 0 then
    forLoop nblocks_near (dfe_near_step sqrt (dfe_near_norm_stored sqrt) nblocks_far) st
  else
    forLoop nblocks_near (dfe_near_step sqrt (dfe_near_norm_onfly sqrt) nblocks_far) st

/-- The function `starsh_blrm__dfe` as a transformer of its memory: the
returned `double` together with the memory at the `return`. -/
def starsh_blrm__dfe_run {α δ : Type} [Field α] (sqrt : α → α) (M : STARSH_blrm α δ) :
    Option (α × DfeFrame α δ) := do
  let nblocks_far := M.format.nblocks_far
  let nblocks_near := M.format.nblocks_near
  let nblocks := nblocks_far + nblocks_near
  let st0 : DfeFrame α δ :=
    { M := M, block_norm := List.replicate nblocks 0,
      far_block_diff := List.replicate nblocks_far 0, diff := 0, norm := 0 }
  let st1 ← forLoop nblocks_far (dfe_far_step sqrt) st0
  let st2 ← dfe_near_loop sqrt nblocks_far nblocks_near st1
  let diff ← cblas_dnrm2 sqrt nblocks_far st2.far_block_diff
  let norm ← cblas_dnrm2 sqrt nblocks st2.block_norm
  pure (diff / norm, { st2 with diff := diff, norm := norm })

/-- The value `starsh_blrm__dfe(M)` returns. -/
def starsh_blrm__dfe {α δ : Type} [Field α] (sqrt : α → α) (M : STARSH_blrm α δ) : Option α :=
  (starsh_blrm__dfe_run sqrt M).map Prod.fst

/-! ## Values of the blocks (total readings of a well-formed object) -/

/-- Row-cluster index of block `bi` of a block list. -/
def blk_i (blocks : List Nat) (bi : Nat) : Nat := blocks.getD (2 * bi) 0

/-- Column-cluster index of block `bi` of a block list. -/
def blk_j (blocks : List Nat) (bi : Nat) : Nat := blocks.getD (2 * bi + 1) 0

/-- Number of rows of far block `bi`. -/
def far_nrows {α δ : Type} (M : STARSH_blrm α δ) (bi : Nat) : Nat :=
  M.format.row_cluster.size.getD (blk_i M.format.block_far bi) 0

/-- Number of columns of far block `bi`. -/
def far_ncols {α δ : Type} (M : STARSH_blrm α δ) (bi : Nat) : Nat :=
  M.format.col_cluster.size.getD (blk_j M.format.block_far bi) 0

/-- Number of rows of near block `bi`. -/
def near_nrows {α δ : Type} (M : STARSH_blrm α δ) (bi : Nat) : Nat :=
  M.format.row_cluster.size.getD (blk_i M.format.block_near bi) 0

/-- Number of columns of near block `bi`. -/
def near_ncols {α δ : Type} (M : STARSH_blrm α δ) (bi : Nat) : Nat :=
  M.format.col_cluster.size.getD (blk_j M.format.block_near bi) 0

/-- The dense block the kernel produces for the cluster pair `(i, j)`. -/
def kernel_block {α δ : Type} [Field α] (F : STARSH_blrf α δ) (i j : Nat) : List α :=
  (dfe_kernel_block F i j (F.row_cluster.size.getD i 0) (F.col_cluster.size.getD j 0)).getD []

/-- The kernel's dense block `D` of far block `bi`. -/
def far_D {α δ : Type} [Field α] (M : STARSH_blrm α δ) (bi : Nat) : List α :=
  kernel_block M.format (blk_i M.format.block_far bi) (blk_j M.format.block_far bi)

/-- The rank of far block `bi`. -/
def far_rk {α δ : Type} (M : STARSH_blrm α δ) (bi : Nat) : Nat := (M.far_rank.getD bi 0).toNat

/-- Entry `(r, c)` of `U[bi]·V[bi]ᵗ`:
`Σ_{k < rank} U[r + k·nrows]·V[c + k·ncols]`. -/
def far_UVt {α δ : Type} [Field α] (M : STARSH_blrm α δ) (bi : Nat) (r c : Nat) : α :=
  dot_NT (far_rk M bi) (M.far_U.getD bi []) (far_nrows M bi) (M.far_V.getD bi [])
    (far_ncols M bi) r c

/-- The dense block that yields the norm of near block `bi`: the stored block
when `onfly == 0`, the kernel's block otherwise. -/
def near_D_used {α δ : Type} [Field α] (M : STARSH_blrm α δ) (bi : Nat) : List α :=
  if M.onfly = 0 then M.near_D.getD bi []
  else kernel_block M.format (blk_i M.format.block_near bi) (blk_j M.format.block_near bi)

/-- The factor applied in the symmetric case: `sqrt(2)` for an off-diagonal
block of a format with `symm == 'S'`. -/
def symm_scaled {α : Type} [Field α] (sqrt : α → α) (symm : Char) (i j : Nat) (x : α) : α :=
  if i ≠ j ∧ symm = 'S' then x * sqrt 2 else x

/-- The 2-norm of the column 2-norms of the column-major `nrows×ncols` matrix
`D`, as lines 53-55 compute it. -/
def colnorm2 {α : Type} [Field α] (sqrt : α → α) (nrows ncols : Nat) (D : List α) : α :=
  sqrt (sumsq ((List.range ncols).map
    (fun k => sqrt (sumsq ((D.drop (k * nrows)).take nrows)))))

/-- The sum of the squares of the entries `A r c`, `r < nrows`, `c < ncols`, of
a matrix. -/
def block_sq {α : Type} [Field α] (nrows ncols : Nat) (A : Nat → Nat → α) : α :=
  ((List.range ncols).map (fun c =>
    ((List.range nrows).map (fun r => A r c * A r c)).sum)).sum

/-- The Frobenius norm of the `nrows×ncols` matrix with entries `A r c`: the
square root of the sum of the squares of its entries. -/
def frobenius {α : Type} [Field α] (sqrt : α → α) (nrows ncols : Nat) (A : Nat → Nat → α) : α :=
  sqrt (block_sq nrows ncols A)

/-! ## Well-formedness of the memory `starsh_blrm__dfe` reads -/

/-- A block of a block list names existing clusters. -/
def BlockOk {δ : Type} (R C : STARSH_cluster δ) (blocks : List Nat) (bi : Nat) : Prop :=
  2 * bi + 1 < blocks.length ∧ blk_i blocks bi < R.size.length ∧
    blk_j blocks bi < C.size.length

/-- The kernel fills the whole `nrows×ncols` buffer of the cluster pair `(i, j)`. -/
def KernelOk {α δ : Type} [Field α] (F : STARSH_blrf α δ) (i j : Nat) : Prop :=
  i < F.row_cluster.start.length ∧ j < F.col_cluster.start.length ∧
    (dfe_kernel_block F i j (F.row_cluster.size.getD i 0) (F.col_cluster.size.getD j 0)).map
      List.length = some (F.row_cluster.size.getD i 0 * F.col_cluster.size.getD j 0)

/-- Far block `bi` is well formed: its clusters exist, its rank is
non-negative, `U[bi]` holds `nrows·rank` and `V[bi]` holds `ncols·rank`
entries, and the kernel fills its buffer. -/
def FarBlockOk {α δ : Type} [Field α] (M : STARSH_blrm α δ) (bi : Nat) : Prop :=
  BlockOk M.format.row_cluster M.format.col_cluster M.format.block_far bi ∧
    bi < M.far_rank.length ∧ 0 ≤ M.far_rank.getD bi 0 ∧
    bi < M.far_U.length ∧ bi < M.far_V.length ∧
    far_nrows M bi * far_rk M bi ≤ (M.far_U.getD bi []).length ∧
    far_ncols M bi * far_rk M bi ≤ (M.far_V.getD bi []).length ∧
    KernelOk M.format (blk_i M.format.block_far bi) (blk_j M.format.block_far bi)

/-- Near block `bi` is well formed: its clusters exist, and either it is
stored with `nrows·ncols` entries (`onfly == 0`) or the kernel fills its
buffer. -/
def NearBlockOk {α δ : Type} [Field α] (M : STARSH_blrm α δ) (bi : Nat) : Prop :=
  BlockOk M.format.row_cluster M.format.col_cluster M.format.block_near bi ∧
    if M.onfly = 0 then
      bi < M.near_D.length ∧ near_nrows M bi * near_ncols M bi ≤ (M.near_D.getD bi []).length
    else KernelOk M.format (blk_i M.format.block_near bi) (blk_j M.format.block_near bi)

/-- Every far and near block of the matrix is well formed. -/
def WellFormed {α δ : Type} [Field α] (M : STARSH_blrm α δ) : Prop :=
  (∀ bi < M.format.nblocks_far, FarBlockOk M bi) ∧
    (∀ bi < M.format.nblocks_near, NearBlockOk M bi)

/-- The value lines 56 and 71 leave in `far_block_norm[bi]`. -/
def far_norm_val {α δ : Type} [Field α] (sqrt : α → α) (M : STARSH_blrm α δ) (bi : Nat) : α :=
  symm_scaled sqrt M.format.symm (blk_i M.format.block_far bi) (blk_j M.format.block_far bi)
    (colnorm2 sqrt (far_nrows M bi) (far_ncols M bi) (far_D M bi))

/-- The buffer `D` after the `cblas_dgemm` call of line 58. -/
def far_diff_buf {α δ : Type} [Field α] (M : STARSH_blrm α δ) (bi : Nat) : List α :=
  (cblas_dgemm_NT (far_nrows M bi) (far_ncols M bi) (far_rk M bi) (-1) (M.far_U.getD bi [])
    (far_nrows M bi) (M.far_V.getD bi []) (far_ncols M bi) 1 (far_D M bi)
    (far_nrows M bi)).getD []

/-- The value lines 66 and 72 leave in `far_block_diff[bi]`. -/
def far_diff_val {α δ : Type} [Field α] (sqrt : α → α) (M : STARSH_blrm α δ) (bi : Nat) : α :=
  symm_scaled sqrt M.format.symm (blk_i M.format.block_far bi) (blk_j M.format.block_far bi)
    (colnorm2 sqrt (far_nrows M bi) (far_ncols M bi) (far_diff_buf M bi))

/-- The value lines 88 and 91 (or 112 and 115) leave in `near_block_norm[bi]`. -/
def near_norm_val {α δ : Type} [Field α] (sqrt : α → α) (M : STARSH_blrm α δ) (bi : Nat) : α :=
  symm_scaled sqrt M.format.symm (blk_i M.format.block_near bi) (blk_j M.format.block_near bi)
    (colnorm2 sqrt (near_nrows M bi) (near_ncols M bi) (near_D_used M bi))

/-- The array `far_block_norm` after the loop over far blocks. -/
def far_norm_list {α δ : Type} [Field α] (sqrt : α → α) (M : STARSH_blrm α δ) : List α :=
  (List.range M.format.nblocks_far).map (far_norm_val sqrt M)

/-- The array `far_block_diff` after the loop over far blocks. -/
def far_diff_list {α δ : Type} [Field α] (sqrt : α → α) (M : STARSH_blrm α δ) : List α :=
  (List.range M.format.nblocks_far).map (far_diff_val sqrt M)

/-- The array `near_block_norm` after the loop over near blocks. -/
def near_norm_list {α δ : Type} [Field α] (sqrt : α → α) (M : STARSH_blrm α δ) : List α :=
  (List.range M.format.nblocks_near).map (near_norm_val sqrt M)

/-- The local `diff` of line 118: the 2-norm of `far_block_diff`. -/
def dfe_diff {α δ : Type} [Field α] (sqrt : α → α) (M : STARSH_blrm α δ) : α :=
  sqrt (sumsq (far_diff_list sqrt M))

/-- The local `norm` of line 120: the 2-norm of `block_norm`, the far norms
followed by the near norms. -/
def dfe_norm {α δ : Type} [Field α] (sqrt : α → α) (M : STARSH_blrm α δ) : α :=
  sqrt (sumsq (far_norm_list sqrt M ++ near_norm_list sqrt M))

/-- The memory at the `return` of `starsh_blrm__dfe` on a well-formed object. -/
def dfe_final {α δ : Type} [Field α] (sqrt : α → α) (M : STARSH_blrm α δ) : DfeFrame α δ :=
  { M := M, block_norm := far_norm_list sqrt M ++ near_norm_list sqrt M,
    far_block_diff := far_diff_list sqrt M, diff := dfe_diff sqrt M, norm := dfe_norm sqrt M }

/-! ## The kernel contract -/

/-- The kernel contract: called on `nrows` row indices, `ncols` column indices
and a buffer of `nrows·ncols` entries, the kernel fills the buffer column-major
with the values `K (irow[a]) (icol[b])`. -/
def KernelComputes {α δ : Type} [Field α] (kernel : STARSH_kernel α δ) (rd cd : δ)
    (K : Nat → Nat → α) : Prop :=
  ∀ (nrows ncols : Nat) (irow icol : List Nat) (buf : List α),
    nrows ≤ irow.length → ncols ≤ icol.length → buf.length = nrows * ncols →
    ∃ D, kernel nrows ncols irow icol rd cd buf = some D ∧ D.length = nrows * ncols ∧
      ∀ a < nrows, ∀ b < ncols, D.getD (a + b * nrows) 0 = K (irow.getD a 0) (icol.getD b 0)

/-- A kernel that fills the buffer column-major with `K (irow[a]) (icol[b])`. -/
def entry_kernel {α δ : Type} [Field α] (K : Nat → Nat → α) : STARSH_kernel α δ :=
  fun nrows ncols irow icol _ _ result =>
    if nrows ≤ irow.length ∧ ncols ≤ icol.length ∧ nrows * ncols ≤ result.length then
      some ((List.range result.length).map (fun p =>
        if p < nrows * ncols then K (irow.getD (p % nrows) 0) (icol.getD (p / nrows) 0)
        else result.getD p 0))
    else none

/-! ## A two-point example -/

/-- Example kernel values: `2` on the diagonal and `1` elsewhere. -/
def exK {α : Type} [Field α] : Nat → Nat → α := fun r c => if r = c then 2 else 1

/-- Example clusters: the indices `0` and `1`, one cluster each. -/
def exCluster : STARSH_cluster Unit :=
  { data := (), pivot := [0, 1], start := [0, 1], size := [1, 1] }

/-- Example non-symmetric format: far blocks `(0,1)` and `(1,0)`, near blocks
`(0,0)` and `(1,1)`. -/
def exFormatN {α : Type} [Field α] : STARSH_blrf α Unit :=
  { problem := { kernel := entry_kernel exK }, symm := 'N', row_cluster := exCluster,
    col_cluster := exCluster, nblocks_far := 2, block_far := [0, 1, 1, 0],
    nblocks_near := 2, block_near := [0, 0, 1, 1] }

/-- Example matrix on `exFormatN`: the far block `(0,1)` is exact, the far
block `(1,0)` is approximated by zero, the near blocks are regenerated. -/
def exN {α : Type} [Field α] : STARSH_blrm α Unit :=
  { format := exFormatN, far_rank := [1, 1], far_U := [[1], [1]], far_V := [[1], [0]],
    onfly := 1, near_D := [] }

/-- Example symmetric format: the far block `(0,1)` and the near blocks
`(0,0)` and `(1,1)`. -/
def exFormatS {α : Type} [Field α] : STARSH_blrf α Unit :=
  { problem := { kernel := entry_kernel exK }, symm := 'S', row_cluster := exCluster,
    col_cluster := exCluster, nblocks_far := 1, block_far := [0, 1],
    nblocks_near := 2, block_near := [0, 0, 1, 1] }

/-- Example matrix on `exFormatS` with stored near blocks; its far block is
approximated by zero. -/
def exS {α : Type} [Field α] : STARSH_blrm α Unit :=
  { format := exFormatS, far_rank := [1], far_U := [[1]], far_V := [[0]],
    onfly := 0, near_D := [[2], [2]] }

/-- The object `M` with its near part replaced: the number and list of near
blocks, the `onfly` flag and the stored near blocks. -/
def with_near {α δ : Type} (M : STARSH_blrm α δ) (nblocks_near : Nat) (block_near : List Nat)
    (onfly : Int) (near_D : List (List α)) : STARSH_blrm α δ :=
  { M with
      format := { M.format with nblocks_near := nblocks_near, block_near := block_near },
      onfly := onfly, near_D := near_D }

/-! ## The returned value in closed form -/

/-- The weight of a stored block in the sums of squares: `2` for an
off-diagonal block of a format with `symm == 'S'` (it stands for itself and its
mirror block), `1` otherwise. -/
def symm_weight {α : Type} [Field α] (symm : Char) (i j : Nat) : α :=
  if i ≠ j ∧ symm = 'S' then 2 else 1

/-- Sum of the squares of the entries of the kernel's block `D` of far block `bi`. -/
def far_normsq {α δ : Type} [Field α] (M : STARSH_blrm α δ) (bi : Nat) : α :=
  block_sq (far_nrows M bi) (far_ncols M bi)
    (fun r c => (far_D M bi).getD (r + c * far_nrows M bi) 0)

/-- Sum of the squares of the entries of `D − U[bi]·V[bi]ᵗ` for far block `bi`. -/
def far_diffsq {α δ : Type} [Field α] (M : STARSH_blrm α δ) (bi : Nat) : α :=
  block_sq (far_nrows M bi) (far_ncols M bi)
    (fun r c => (far_D M bi).getD (r + c * far_nrows M bi) 0 - far_UVt M bi r c)

/-- Sum of the squares of the entries of the dense block used for near block `bi`. -/
def near_normsq {α δ : Type} [Field α] (M : STARSH_blrm α δ) (bi : Nat) : α :=
  block_sq (near_nrows M bi) (near_ncols M bi)
    (fun r c => (near_D_used M bi).getD (r + c * near_nrows M bi) 0)

/-- The weighted sum over the far blocks of the squared block errors. -/
def dfe_diff_sq {α δ : Type} [Field α] (M : STARSH_blrm α δ) : α :=
  ((List.range M.format.nblocks_far).map (fun bi =>
    symm_weight M.format.symm (blk_i M.format.block_far bi) (blk_j M.format.block_far bi)
      * far_diffsq M bi)).sum

/-- The weighted sum over all far and near blocks of the squared block norms. -/
def dfe_norm_sq {α δ : Type} [Field α] (M : STARSH_blrm α δ) : α :=
  ((List.range M.format.nblocks_far).map (fun bi =>
    symm_weight M.format.symm (blk_i M.format.block_far bi) (blk_j M.format.block_far bi)
      * far_normsq M bi)).sum
  + ((List.range M.format.nblocks_near).map (fun bi =>
    symm_weight M.format.symm (blk_i M.format.block_near bi) (blk_j M.format.block_near bi)
      * near_normsq M bi)).sum

/-- Example matrix on `exFormatN` whose two far blocks are reproduced exactly
by their rank-1 factors. -/
def exE {α : Type} [Field α] : STARSH_blrm α Unit :=
  { format := exFormatN, far_rank := [1, 1], far_U := [[1], [1]], far_V := [[1], [1]],
    onfly := 1, near_D := [] }

/-! ## Block lists as lists of entries -/

/-- One far block: its cluster pair, its rank and its factors. -/
structure FarEntry (α : Type) where
  i : Nat
  j : Nat
  rank : Int
  U : List α
  V : List α

/-- One near block: its cluster pair and its stored dense block. -/
structure NearEntry (α : Type) where
  i : Nat
  j : Nat
  D : List α

/-- Far block `bi` of `M`: `block_far[2*bi]`, `block_far[2*bi+1]`, `far_rank[bi]`,
`far_U[bi]` and `far_V[bi]`. -/
def far_entry {α δ : Type} (M : STARSH_blrm α δ) (bi : Nat) : FarEntry α :=
  { i := blk_i M.format.block_far bi, j := blk_j M.format.block_far bi,
    rank := M.far_rank.getD bi 0, U := M.far_U.getD bi [], V := M.far_V.getD bi [] }

/-- Near block `bi` of `M`: `block_near[2*bi]`, `block_near[2*bi+1]` and
`near_D[bi]`. -/
def near_entry {α δ : Type} (M : STARSH_blrm α δ) (bi : Nat) : NearEntry α :=
  { i := blk_i M.format.block_near bi, j := blk_j M.format.block_near bi,
    D := M.near_D.getD bi [] }

/-- The far-block list of `M`. -/
def far_entries {α δ : Type} (M : STARSH_blrm α δ) : List (FarEntry α) :=
  (List.range M.format.nblocks_far).map (far_entry M)

/-- The near-block list of `M`. -/
def near_entries {α δ : Type} (M : STARSH_blrm α δ) : List (NearEntry α) :=
  (List.range M.format.nblocks_near).map (near_entry M)

/-- The object `M` with its symmetry flag, far-block list and near-block list
replaced; `block_far`, `far_rank`, `far_U`, `far_V`, `block_near` and `near_D`
are laid out from the entries in list order. -/
def with_blocks {α δ : Type} (M : STARSH_blrm α δ) (symm : Char) (fars : List (FarEntry α))
    (nears : List (NearEntry α)) : STARSH_blrm α δ :=
  { format :=
      { M.format with
          symm := symm
          nblocks_far := fars.length
          block_far := fars.flatMap (fun e => [e.i, e.j])
          nblocks_near := nears.length
          block_near := nears.flatMap (fun e => [e.i, e.j]) }
    far_rank := fars.map (fun e => e.rank)
    far_U := fars.map (fun e => e.U)
    far_V := fars.map (fun e => e.V)
    onfly := M.onfly
    near_D := nears.map (fun e => e.D) }

/-- Sum of the squares of the kernel's block of a far entry. -/
def FarEntry.normsq {α δ : Type} [Field α] (F : STARSH_blrf α δ) (e : FarEntry α) : α :=
  block_sq (F.row_cluster.size.getD e.i 0) (F.col_cluster.size.getD e.j 0)
    (fun r c => (kernel_block F e.i e.j).getD (r + c * F.row_cluster.size.getD e.i 0) 0)

/-- Sum of the squares of `D − U·Vᵗ` of a far entry. -/
def FarEntry.diffsq {α δ : Type} [Field α] (F : STARSH_blrf α δ) (e : FarEntry α) : α :=
  block_sq (F.row_cluster.size.getD e.i 0) (F.col_cluster.size.getD e.j 0)
    (fun r c => (kernel_block F e.i e.j).getD (r + c * F.row_cluster.size.getD e.i 0) 0
      - dot_NT e.rank.toNat e.U (F.row_cluster.size.getD e.i 0) e.V
          (F.col_cluster.size.getD e.j 0) r c)

/-- Sum of the squares of the dense block used for a near entry. -/
def NearEntry.normsq {α δ : Type} [Field α] (F : STARSH_blrf α δ) (onfly : Int)
    (e : NearEntry α) : α :=
  block_sq (F.row_cluster.size.getD e.i 0) (F.col_cluster.size.getD e.j 0)
    (fun r c => (if onfly = 0 then e.D else kernel_block F e.i e.j).getD
      (r + c * F.row_cluster.size.getD e.i 0) 0)

/-- A far entry is well formed for a format. -/
def FarEntryOk {α δ : Type} [Field α] (F : STARSH_blrf α δ) (e : FarEntry α) : Prop :=
  e.i < F.row_cluster.size.length ∧ e.j < F.col_cluster.size.length ∧ 0 ≤ e.rank ∧
    F.row_cluster.size.getD e.i 0 * e.rank.toNat ≤ e.U.length ∧
    F.col_cluster.size.getD e.j 0 * e.rank.toNat ≤ e.V.length ∧ KernelOk F e.i e.j

/-- A near entry is well formed for a format and an `onfly` flag. -/
def NearEntryOk {α δ : Type} [Field α] (F : STARSH_blrf α δ) (onfly : Int)
    (e : NearEntry α) : Prop :=
  e.i < F.row_cluster.size.length ∧ e.j < F.col_cluster.size.length ∧
    if onfly = 0 then
      F.row_cluster.size.getD e.i 0 * F.col_cluster.size.getD e.j 0 ≤ e.D.length
    else KernelOk F e.i e.j

/-! ## Clusters, the symmetric format and its mirror expansion -/

/-- The index range of every cluster lies inside the pivot array. -/
def ClusterRangesOk {δ : Type} (R : STARSH_cluster δ) : Prop :=
  ∀ i < R.size.length, i < R.start.length ∧ R.start.getD i 0 + R.size.getD i 0 ≤ R.pivot.length

/-- The global index `pivot[start[i] + r]` of the local index `r` of cluster `i`. -/
def cluster_index {δ : Type} (R : STARSH_cluster δ) (i r : Nat) : Nat :=
  R.pivot.getD (R.start.getD i 0 + r) 0

/-- The mirror `(j, i)` of a far block `(i, j)`: the factors `U` and `V` are
swapped. -/
def mirror_far {α : Type} (e : FarEntry α) : FarEntry α :=
  { i := e.j, j := e.i, rank := e.rank, U := e.V, V := e.U }

/-- The transpose of a column-major `nrows×ncols` matrix, as a column-major
`ncols×nrows` matrix. -/
def transpose_cm {α : Type} [Field α] (nrows ncols : Nat) (D : List α) : List α :=
  (List.range (nrows * ncols)).map (fun p => D.getD (p / ncols + (p % ncols) * nrows) 0)

/-- The mirror `(j, i)` of a near block `(i, j)`: the stored block is transposed. -/
def mirror_near {α δ : Type} [Field α] (F : STARSH_blrf α δ) (e : NearEntry α) : NearEntry α :=
  { i := e.j, j := e.i,
    D := transpose_cm (F.row_cluster.size.getD e.i 0) (F.col_cluster.size.getD e.j 0) e.D }

/-- The non-symmetric object (`symm = 'N'`) that stores the blocks of `M` and,
after them, the mirror `(j, i)` of every off-diagonal block `(i, j)`, `i != j`,
of `M`. -/
def mirror_blrm {α δ : Type} [Field α] (M : STARSH_blrm α δ) : STARSH_blrm α δ :=
  with_blocks M 'N'
    (far_entries M ++ ((far_entries M).filter (fun e => decide (e.i ≠ e.j))).map mirror_far)
    (near_entries M
      ++ ((near_entries M).filter (fun e => decide (e.i ≠ e.j))).map (mirror_near M.format))

/-! ## The whole matrix -/

/-- The global indices of all clusters in cluster order: for each cluster `i`
the entries `pivot[start[i]], …, pivot[start[i] + size[i] − 1]`. -/
def cluster_indices {δ : Type} (R : STARSH_cluster δ) : List Nat :=
  (List.range R.size.length).flatMap
    (fun i => (R.pivot.drop (R.start.getD i 0)).take (R.size.getD i 0))

/-- The clusters partition the index set `{0, …, N − 1}`: every cluster range
lies in the pivot array and the cluster ranges together list every index
exactly once. -/
def ClusterPartition {δ : Type} (R : STARSH_cluster δ) (N : Nat) : Prop :=
  ClusterRangesOk R ∧ (cluster_indices R).Perm (List.range N)

/-- All pairs `(i, j)` with `i < m` and `j < n`. -/
def all_pairs (m n : Nat) : List (Nat × Nat) :=
  (List.range m).flatMap (fun i => (List.range n).map (fun j => (i, j)))

/-- The cluster pairs of the far list followed by those of the near list. -/
def block_pairs {α δ : Type} (M : STARSH_blrm α δ) : List (Nat × Nat) :=
  (far_entries M).map (fun e => (e.i, e.j)) ++ (near_entries M).map (fun e => (e.i, e.j))

/-- The sum of the squares of the entries of the matrix `G` on the block of
the cluster pair `p`. -/
def pair_sq {α δ : Type} [Field α] (R C : STARSH_cluster δ) (G : Nat → Nat → α)
    (p : Nat × Nat) : α :=
  block_sq (R.size.getD p.1 0) (C.size.getD p.2 0)
    (fun r c => G (cluster_index R p.1 r) (cluster_index C p.2 c))

/-- Example matrix on `exFormatN` with stored near blocks: the far block
`(0,1)` is exact and the far block `(1,0)` is approximated by zero. -/
def exD {α : Type} [Field α] : STARSH_blrm α Unit :=
  { format := exFormatN, far_rank := [1, 1], far_U := [[1], [1]], far_V := [[1], [0]],
    onfly := 0, near_D := [[2], [2]] }

/-- The matrix the example `exD` represents: `2` on the diagonal, `1` at
`(0,1)` and `0` at `(1,0)`. -/
def exApprox {α : Type} [Field α] : Nat → Nat → α :=
  fun r c => if r = c then 2 else if r = 1 then 0 else 1

/-! ## The great-circle kernels of applications/spatial.c -/

/-- The functions of `math.h` the spatial kernels call. -/
structure Libm (α : Type) where
  sqrt : α → α
  sin : α → α
  cos : α → α
  asin : α → α
  exp : α → α

/-- The constant `PI` of spatial.c, a decimal literal. -/
def PI {α : Type} [Field α] : α := 3.14159265358979323846264338327950288

/-- The constant `earthRadiusKm`. -/
def earthRadiusKm {α : Type} [Field α] : α := 6371.0

/-- The function `deg2rad`: decimal degrees to radians. -/
def deg2rad {α : Type} [Field α] (deg : α) : α := deg * PI / 180

/-- The function `distanceEarth`: the haversine distance of two points given
by latitude and longitude in degrees. -/
def distanceEarth {α : Type} [Field α] (L : Libm α) (lat1d lon1d lat2d lon2d : α) : α :=
  let lat1r := deg2rad lat1d
  let lon1r := deg2rad lon1d
  let lat2r := deg2rad lat2d
  let lon2r := deg2rad lon2d
  let u := L.sin ((lat2r - lat1r) / 2)
  let v := L.sin ((lon2r - lon1r) / 2)
  2.0 * earthRadiusKm * L.asin (L.sqrt (u * u + L.cos lat1r * L.cos lat2r * v * v))

/-- The struct `STARSH_particles`: `count` points of dimension `ndim`, stored
coordinate by coordinate in `point`. -/
structure STARSH_particles (α : Type) where
  count : Nat
  ndim : Int
  point : List α

/-- The struct `STARSH_ssdata`. -/
structure STARSH_ssdata (α : Type) where
  particles : STARSH_particles α
  beta : α
  nu : α
  noise : α
  sigma : α

/-- The memory a spatial kernel works on: the arrays behind its pointer
arguments `irow`, `icol`, `row_data`, `col_data` and `result`. -/
structure KernelFrame (α : Type) where
  irow : List Nat
  icol : List Nat
  row_data : STARSH_ssdata α
  col_data : STARSH_ssdata α
  result : List α

/-- The store `buffer[idx] = v` into `result`, with the index computed in
`size_t`; it fails outside the buffer. -/
def write_result {α : Type} (m : KernelFrame α) (idx : Int) (v : α) : Option (KernelFrame α) :=
  if idx < 0 then none
  else (store m.result idx.toNat v).map (fun r => { m with result := r })

/-- The call `distanceEarth(x1[0][irow[i]], x1[1][irow[i]], x2[0][icol[j]],
x2[1][icol[j]])` with `x1[0] = data1->particles.point`, `x1[1] = x1[0] + count1`,
`x2[0] = data2->particles.point` and `x2[1] = x2[0] + count2`. -/
def gcd_dist {α : Type} [Field α] (L : Libm α) (count1 count2 : Nat) (m : KernelFrame α)
    (i j : Nat) : Option α := do
  let ii ← m.irow[i]?
  let jj ← m.icol[j]?
  let lat1 ← m.row_data.particles.point[ii]?
  let lon1 ← (m.row_data.particles.point.drop count1)[ii]?
  let lat2 ← m.col_data.particles.point[jj]?
  let lon2 ← (m.col_data.particles.point.drop count2)[jj]?
  pure (distanceEarth L lat1 lon1 lat2 lon2)

/-- The function `starsh_ssdata_block_exp_kernel_2d_simd_gcd`. -/
def starsh_ssdata_block_exp_kernel_2d_simd_gcd {α : Type} [Field α] [DecidableEq α]
    (L : Libm α) (nrows ncols : Int) (mem : KernelFrame α) (ld : Int) :
    Option (KernelFrame α) :=
  let data1 := mem.row_data
  let data2 := mem.col_data
  let beta := -data1.beta
  let noise := data1.noise
  let sigma := data1.sigma
  let count1 := data1.particles.count
  let count2 := data2.particles.count
  forLoop ncols.toNat (fun j m =>
    forLoop nrows.toNat (fun i m =>
      (gcd_dist L count1 count2 m i j).bind (fun dist =>
        let dist := dist / beta
        if dist = 0 then write_result m (j * ld + i) (sigma + noise)
        else write_result m (j * ld + i) (sigma * L.exp dist))) m) mem

/-- The function `starsh_ssdata_block_sqrexp_kernel_2d_simd_gcd`. -/
def starsh_ssdata_block_sqrexp_kernel_2d_simd_gcd {α : Type} [Field α] [DecidableEq α]
    (L : Libm α) (nrows ncols : Int) (mem : KernelFrame α) (ld : Int) :
    Option (KernelFrame α) :=
  let data1 := mem.row_data
  let data2 := mem.col_data
  let beta := -2 * data1.beta * data1.beta
  let noise := data1.noise
  let sigma := data1.sigma
  let count1 := data1.particles.count
  let count2 := data2.particles.count
  forLoop ncols.toNat (fun j m =>
    forLoop nrows.toNat (fun i m =>
      (gcd_dist L count1 count2 m i j).bind (fun dist =>
        let dist := dist * dist / beta
        if dist = 0 then write_result m (j * ld + i) (sigma + noise)
        else write_result m (j * ld + i) (sigma * L.exp dist))) m) mem

/-- The great-circle distance the kernels compute for the point `ii` of
`data1` and the point `jj` of `data2`. -/
def gcd_dist_val {α : Type} [Field α] (L : Libm α) (data1 data2 : STARSH_ssdata α)
    (ii jj : Nat) : α :=
  distanceEarth L (data1.particles.point.getD ii 0)
    (data1.particles.point.getD (data1.particles.count + ii) 0)
    (data2.particles.point.getD jj 0)
    (data2.particles.point.getD (data2.particles.count + jj) 0)

/-- The value the exponential great-circle kernel stores for the point `ii`
of `data1` and the point `jj` of `data2` (lines 104-108 of the kernel). -/
def exp_gcd_value {α : Type} [Field α] [DecidableEq α] (L : Libm α)
    (data1 data2 : STARSH_ssdata α) (ii jj : Nat) : α :=
  if gcd_dist_val L data1 data2 ii jj / (-data1.beta) = 0 then data1.sigma + data1.noise
  else data1.sigma * L.exp (gcd_dist_val L data1 data2 ii jj / (-data1.beta))

/-- The value the squared-exponential great-circle kernel stores for the point
`ii` of `data1` and the point `jj` of `data2`. -/
def sqrexp_gcd_value {α : Type} [Field α] [DecidableEq α] (L : Libm α)
    (data1 data2 : STARSH_ssdata α) (ii jj : Nat) : α :=
  if gcd_dist_val L data1 data2 ii jj * gcd_dist_val L data1 data2 ii jj
      / (-2 * data1.beta * data1.beta) = 0 then data1.sigma + data1.noise
  else data1.sigma * L.exp (gcd_dist_val L data1 data2 ii jj * gcd_dist_val L data1 data2 ii jj
      / (-2 * data1.beta * data1.beta))

/-- The loads of a great-circle kernel stay inside `irow`, `icol` and the two
coordinate arrays. -/
def GcdReadsOk {α : Type} (nrows ncols : Int) (mem : KernelFrame α) : Prop :=
  nrows.toNat ≤ mem.irow.length ∧ ncols.toNat ≤ mem.icol.length ∧
    (∀ i < nrows.toNat, mem.row_data.particles.count + mem.irow.getD i 0
      < mem.row_data.particles.point.length) ∧
    (∀ j < ncols.toNat, mem.col_data.particles.count + mem.icol.getD j 0
      < mem.col_data.particles.point.length)

/-- The stores of a great-circle kernel stay inside `result`. -/
def GcdWritesOk {α : Type} (nrows ncols ld : Int) (mem : KernelFrame α) : Prop :=
  ∀ j < ncols.toNat, ∀ i < nrows.toNat, j * ld.toNat + i < mem.result.length

/-- The buffer after the columns `0, …, J-1` and the rows `0, …, I-1` of column
`J` have been written with the values `val i j`. -/
def filled {α : Type} [Field α] (val : Nat → Nat → α) (ld nrows J I : Nat) (res : List α) :
    List α :=
  (List.range res.length).map (fun p =>
    if p % ld < nrows ∧ (p / ld < J ∨ (p / ld = J ∧ p % ld < I)) then val (p % ld) (p / ld)
    else res.getD p 0)

/-- What a great-circle kernel leaves in memory: `irow`, `icol`, `row_data` and
`col_data` are unchanged, `result[j*ld + i]` holds `val i j` for every
`0 ≤ i < nrows`, `0 ≤ j < ncols`, and every other position of `result` keeps
its value. -/
def GcdKernelPost {α : Type} (val : Nat → Nat → α) (nrows ncols ld : Int)
    (mem after : KernelFrame α) : Prop :=
  after.irow = mem.irow ∧ after.icol = mem.icol ∧ after.row_data = mem.row_data ∧
    after.col_data = mem.col_data ∧ after.result.length = mem.result.length ∧
    (∀ i j : Nat, (i : Int) < nrows → (j : Int) < ncols →
      after.result[j * ld.toNat + i]? = some (val i j)) ∧
    (∀ p : Nat, (∀ i j : Nat, (i : Int) < nrows → (j : Int) < ncols → p ≠ j * ld.toNat + i) →
      after.result[p]? = mem.result[p]?)

/-- Example kernel memory: two points `(0°, 0°)` and `(1°, 1°)`, one row index
and one column index, and a result buffer with leading dimension 2. -/
def exFrame {α : Type} [Field α] : KernelFrame α :=
  { irow := [0], icol := [1],
    row_data := { particles := { count := 2, ndim := 2, point := [0, 1, 0, 1] },
                  beta := 1, nu := 0, noise := 0, sigma := 1 },
    col_data := { particles := { count := 2, ndim := 2, point := [0, 1, 0, 1] },
                  beta := 1, nu := 0, noise := 0, sigma := 1 },
    result := [0, 0] }

/-! ## The random tiled matrix of applications/rndtiled.c -/

/-- The struct `STARSH_rndtiled`. -/
structure STARSH_rndtiled (α : Type) where
  n : Int
  dtype : Char
  nblocks : Int
  block_size : Int
  U : List α
  S : List α
  add_diag : α

/-- The load `a[idx]` with an `int` index, which fails outside the array. -/
def load {α : Type} (a : List α) (idx : Int) : Option α :=
  if idx < 0 then none else a[idx.toNat]?

/-- The `int` division `a / b` of C (truncating), undefined for `b == 0`. -/
def c_div (a b : Int) : Option Int := if b = 0 then none else some (Int.tdiv a b)

/-- The `int` remainder `a % b` of C (sign of the dividend), undefined for
`b == 0`. -/
def c_mod (a b : Int) : Option Int := if b = 0 then none else some (Int.tmod a b)

/-- Lines 35-37 of rndtiled.c: `res = 0` and the loop
`for (k = 0; k < block_size; k++) res += U[ii+k*n]*U[jj+k*n]*S[k]`. -/
def rndtiled_dot {α : Type} [Field α] (data : STARSH_rndtiled α) (ii jj : Nat) : Option α :=
  forLoop data.block_size.toNat (fun k res => do
    let a ← load data.U (ii + k * data.n)
    let b ← load data.U (jj + k * data.n)
    let s ← data.S[k]?
    pure (res + a * b * s)) 0

/-- Lines 33-41: one iteration of the loop over `j`. -/
def rndtiled_entry {α : Type} [Field α] (data : STARSH_rndtiled α) (nrows : Nat)
    (icol : List Nat) (i ii j : Nat) (buffer : List α) : Option (List α) := do
  let jj ← icol[j]?
  let _jbcol ← c_div jj data.block_size
  let res ← rndtiled_dot data ii jj
  if ii = jj then store buffer (j * nrows + i) (res + data.add_diag)
  else store buffer (j * nrows + i) res

/-- The function `starsh_rndtiled_block_kernel`; `nblocks`, `ibrow` and
`jbcol` are computed and never used. -/
def starsh_rndtiled_block_kernel {α : Type} [Field α] : STARSH_kernel α (STARSH_rndtiled α) :=
  fun nrows ncols irow icol row_data _ result =>
    forLoop nrows (fun i buffer => do
      let ii ← irow[i]?
      let _ibrow ← c_div ii row_data.block_size
      forLoop ncols (fun j buffer => rndtiled_entry row_data nrows icol i ii j buffer) buffer)
      result

/-- The sum `Σ_{k < block_size} U[ii + k·n]·U[jj + k·n]·S[k]`. -/
def rndtiled_sum {α : Type} [Field α] (data : STARSH_rndtiled α) (ii jj : Nat) : α :=
  ((List.range data.block_size.toNat).map (fun (k : Nat) =>
    data.U.getD ((ii : Int) + (k : Int) * data.n).toNat 0
      * data.U.getD ((jj : Int) + (k : Int) * data.n).toNat 0
      * data.S.getD k 0)).sum

/-- The entry of the random tiled matrix for the global indices `ii` and `jj`:
the sum, plus `add_diag` exactly when `ii == jj`. -/
def rndtiled_value {α : Type} [Field α] (data : STARSH_rndtiled α) (ii jj : Nat) : α :=
  if ii = jj then rndtiled_sum data ii jj + data.add_diag else rndtiled_sum data ii jj

/-- The object is laid out for matrix size `n` and tile size `block_size`:
`block_size > 0`, `n ≥ 0`, `U` holds `n·block_size` and `S` holds `block_size`
entries. -/
def RndtiledOk {α : Type} (data : STARSH_rndtiled α) : Prop :=
  0 < data.block_size ∧ 0 ≤ data.n ∧
    data.n.toNat * data.block_size.toNat ≤ data.U.length ∧
    data.block_size.toNat ≤ data.S.length

/-- The buffer after the rows `0, …, I-1` and the columns `0, …, J-1` of row `I`
of a column-major `nrows×ncols` matrix have been written with the values
`val i j`. -/
def filledT {α : Type} [Field α] (val : Nat → Nat → α) (nrows ncols I J : Nat) (res : List α) :
    List α :=
  (List.range res.length).map (fun p =>
    if (p % nrows < I ∧ p / nrows < ncols) ∨ (p % nrows = I ∧ p / nrows < J)
    then val (p % nrows) (p / nrows) else res.getD p 0)

/-- Example object: `n = 3`, `block_size = 1`, `U = (1, 2, 3)`, `S = (10)` and
`add_diag = 5`. -/
def exT {α : Type} [Field α] : STARSH_rndtiled α :=
  { n := 3, dtype := 'd', nblocks := 3, block_size := 1, U := [1, 2, 3], S := [10],
    add_diag := 5 }

/-- The matrix `A` of the index list `idx` with `m` rows:
`A[i,k] = U[idx[i] + k·n]` for `k < block_size`. -/
def rndtiled_A {α : Type} [Field α] (data : STARSH_rndtiled α) (idx : List Nat) (m : Nat) :
    Matrix (Fin m) (Fin data.block_size.toNat) α :=
  Matrix.of (fun i k =>
    data.U.getD (((idx.getD i.val 0 : Nat) : Int) + ((k.val : Nat) : Int) * data.n).toNat 0)

/-- The `nrows×ncols` matrix stored column-major in a buffer. -/
def block_matrix {α : Type} [Field α] (nrows ncols : Nat) (buf : List α) :
    Matrix (Fin nrows) (Fin ncols) α :=
  Matrix.of (fun i j => buf.getD (j.val * nrows + i.val) 0)

/-- The column-major buffer of the `m×block_size` matrix `A·diag(S)` of the
global indices `idx 0, …, idx (m-1)`. -/
def rndtiled_AS_cm {α : Type} [Field α] (data : STARSH_rndtiled α) (idx : Nat → Nat) (m : Nat) :
    List α :=
  (List.range (m * data.block_size.toNat)).map (fun p =>
    data.U.getD (((idx (p % m) : Nat) : Int) + ((p / m : Nat) : Int) * data.n).toNat 0
      * data.S.getD (p / m) 0)

/-- The column-major buffer of the `m×block_size` matrix `B` of the global
indices `idx 0, …, idx (m-1)`. -/
def rndtiled_B_cm {α : Type} [Field α] (data : STARSH_rndtiled α) (idx : Nat → Nat) (m : Nat) :
    List α :=
  (List.range (m * data.block_size.toNat)).map (fun p =>
    data.U.getD (((idx (p % m) : Nat) : Int) + ((p / m : Nat) : Int) * data.n).toNat 0)

/-- Far block `bi` has rank `block_size` and the factors `U[bi] = A·diag(S)`,
`V[bi] = B` of its row and column clusters. -/
def RndtiledFactors {α : Type} [Field α] (M : STARSH_blrm α (STARSH_rndtiled α)) (bi : Nat) :
    Prop :=
  bi < M.far_rank.length ∧ bi < M.far_U.length ∧ bi < M.far_V.length ∧
    M.far_rank.getD bi 0 = M.format.row_cluster.data.block_size ∧
    M.far_U.getD bi [] = rndtiled_AS_cm M.format.row_cluster.data
      (cluster_index M.format.row_cluster (blk_i M.format.block_far bi)) (far_nrows M bi) ∧
    M.far_V.getD bi [] = rndtiled_B_cm M.format.row_cluster.data
      (cluster_index M.format.col_cluster (blk_j M.format.block_far bi)) (far_ncols M bi)

/-- The global indices of a cluster pair differ, or nothing is added on the
diagonal. -/
def RndtiledOffDiag {α : Type} [Field α] (F : STARSH_blrf α (STARSH_rndtiled α)) (i j : Nat) :
    Prop :=
  (∀ a < F.row_cluster.size.getD i 0, ∀ b < F.col_cluster.size.getD j 0,
    cluster_index F.row_cluster i a ≠ cluster_index F.col_cluster j b) ∨
    F.row_cluster.data.add_diag = 0

/-- Every global index of every cluster lies in `[0, n)`. -/
def ClusterIndicesBelow {δ : Type} (R : STARSH_cluster δ) (n : Int) : Prop :=
  ∀ i < R.size.length, ∀ a < R.size.getD i 0, ((cluster_index R i a : Nat) : Int) < n

/-- Example clusters over `exT`: the index `0`, and the indices `1` and `2`. -/
def exClusterT {α : Type} [Field α] : STARSH_cluster (STARSH_rndtiled α) :=
  { data := exT, pivot := [0, 1, 2], start := [0, 1], size := [1, 2] }

/-- Example format over the random tiled kernel: far blocks `(0,1)` and
`(1,0)`, near blocks `(0,0)` and `(1,1)`. -/
def exFormatT {α : Type} [Field α] : STARSH_blrf α (STARSH_rndtiled α) :=
  { problem := { kernel := starsh_rndtiled_block_kernel }, symm := 'N',
    row_cluster := exClusterT, col_cluster := exClusterT, nblocks_far := 2,
    block_far := [0, 1, 1, 0], nblocks_near := 2, block_near := [0, 0, 1, 1] }

/-- Example matrix on `exFormatT`: both far blocks have rank `1 = block_size`
and the factors `A·diag(S)` and `B`; the near blocks are regenerated. -/
def exR {α : Type} [Field α] : STARSH_blrm α (STARSH_rndtiled α) :=
  { format := exFormatT, far_rank := [1, 1], far_U := [[10], [20, 30]],
    far_V := [[2, 3], [1]], onfly := 1, near_D := [] }

/-! ## The constructor of applications/rndtiled.c -/

/-- The macro `STARSH_MALLOC(var, expr_nitems)` is defined in a header that is
not embedded here and is taken as a parameter: `ok k` tells whether the `k`-th
allocation of a call succeeds, and `err` is the status with which the macro
makes the calling function return after a failed allocation, `var` being
`NULL` then. -/
structure STARSH_MALLOC where
  ok : Nat → Bool
  err : Int

/-- Lines 86-88 of rndtiled.c: `S[0] = 1.` and the loop
`for (i = 1; i < block_size; i++) S[i] = S[i-1]*decay` on the freshly allocated
array `S` of `block_size` entries. -/
def rndtiled_new_S {α : Type} [Field α] (block_size : Int) (decay : α) : Option (List α) :=
  (store (List.replicate block_size.toNat (0 : α)) 0 1).bind (fun S0 =>
    forLoop (block_size.toNat - 1) (fun t S =>
      (S[t]?).bind (fun prev => store S (t + 1) (prev * decay))) S0)

/-- Lines 89-97: `STARSH_MALLOC(*data, 1)`, the assignments of the seven fields
and `return 0`. The argument `data` is `none` for a `NULL` pointer and
`some slot` for the address of a pointer variable holding `slot`. -/
def rndtiled_new_object {α : Type} [Field α] (A : STARSH_MALLOC)
    (data : Option (Option (STARSH_rndtiled α))) (n : Int) (dtype : Char)
    (nblocks block_size : Int) (U S : List α) (add_diag : α) :
    Option (Int × Option (Option (STARSH_rndtiled α))) :=
  match data with
  | none => none
  | some _ =>
    if A.ok 4 then
      some (0, some (some (STARSH_rndtiled.mk n dtype nblocks block_size U S add_diag)))
    else some (A.err, some none)

/-- Lines 72-97: the four allocations `U`, `S`, `tau`, `work`, the LAPACK calls
(external library: `lapack n block_size` is the content they leave in `U`), the
array `S` and the creation of the object. -/
def rndtiled_new_alloc {α : Type} [Field α] (A : STARSH_MALLOC) (lapack : Int → Int → List α)
    (data : Option (Option (STARSH_rndtiled α))) (n : Int) (dtype : Char)
    (nblocks block_size : Int) (decay add_diag : α) :
    Option (Int × Option (Option (STARSH_rndtiled α))) :=
  if A.ok 0 = false then some (A.err, data)
  else if A.ok 1 = false then some (A.err, data)
  else if A.ok 2 = false then some (A.err, data)
  else if A.ok 3 = false then some (A.err, data)
  else
    (rndtiled_new_S block_size decay).bind (fun S =>
      rndtiled_new_object A data n dtype nblocks block_size (lapack n block_size) S add_diag)

/-- The function `starsh_rndtiled_new`: the returned status and the pointer
variable behind `data` afterwards; `none` stands for undefined behaviour (a
division by zero, a store outside an array, a `NULL` dereference). The type
`int` is modelled by the integers. -/
def starsh_rndtiled_new {α : Type} [Field α] (A : STARSH_MALLOC) (lapack : Int → Int → List α)
    (data : Option (Option (STARSH_rndtiled α))) (n : Int) (dtype : Char)
    (block_size : Int) (decay add_diag : α) :
    Option (Int × Option (Option (STARSH_rndtiled α))) :=
  if dtype ≠ 'd' then some (1, data)
  else
    (c_mod n block_size).bind (fun r =>
      if r ≠ 0 then some (1, data)
      else
        (c_div n block_size).bind (fun nblocks =>
          rndtiled_new_alloc A lapack data n dtype nblocks block_size decay add_diag))

/-- An allocator whose every allocation succeeds. -/
def exMalloc : STARSH_MALLOC := { ok := fun _ => true, err := 1 }

/-! ## Creation of the spatial statistics object (applications/spatial.c) -/

/-- The constants of the enumeration `STARSH_ERRNO` that spatial.c returns.
The header that defines them is not among the files embedded here, so their values
are parameters. -/
structure STARSH_ERRNO where
  STARSH_SUCCESS : Int
  STARSH_WRONG_PARAMETER : Int

/-- The function `starsh_ssdata_init`: the returned status and the pointer
variable behind `data` afterwards. The argument `data` is `none` for a `NULL`
pointer and `some slot` for the address of a pointer variable holding `slot`;
`point` stands for the caller's array, which the object refers to without
copying. -/
def starsh_ssdata_init {α : Type} [LinearOrderedField α] (E : STARSH_ERRNO) (A : STARSH_MALLOC)
    (data : Option (Option (STARSH_ssdata α))) (count : Nat) (ndim : Int) (point : List α)
    (beta nu noise sigma : α) : Int × Option (Option (STARSH_ssdata α)) :=
  match data with
  | none => (E.STARSH_WRONG_PARAMETER, data)
  | some _ =>
    if ndim ≤ 0 then (E.STARSH_WRONG_PARAMETER, data)
    else if beta ≤ 0 then (E.STARSH_WRONG_PARAMETER, data)
    else if nu < 0 then (E.STARSH_WRONG_PARAMETER, data)
    else if noise < 0 then (E.STARSH_WRONG_PARAMETER, data)
    else if sigma < 0 then (E.STARSH_WRONG_PARAMETER, data)
    else if A.ok 0 = false then (A.err, data)
    else
      (E.STARSH_SUCCESS,
        some (some (STARSH_ssdata.mk (STARSH_particles.mk count ndim point) beta nu noise sigma)))

/-- The function `starsh_ssdata_generate`: the returned status, the pointer
variable behind `data` afterwards and the state of the environment. The callee
`starsh_particles_generate` lives in a file that is not embedded here and is
a parameter: from the state `w` of the environment (its random number
generator), `count`, `ndim` and `place` it gives a status, the pointer it
stores in `particles` and the next state. The result `none` stands for the
undefined `*particles` of a callee that reports success and stores `NULL`. -/
def starsh_ssdata_generate {α ω : Type} [LinearOrderedField α] (E : STARSH_ERRNO)
    (A : STARSH_MALLOC)
    (particles_generate : ω → Nat → Int → Int → Int × Option (STARSH_particles α) × ω)
    (w : ω) (data : Option (Option (STARSH_ssdata α))) (count : Nat) (ndim : Int)
    (beta nu noise : α) (place : Int) (sigma : α) :
    Option (Int × Option (Option (STARSH_ssdata α)) × ω) :=
  match data with
  | none => some (E.STARSH_WRONG_PARAMETER, data, w)
  | some _ =>
    if beta ≤ 0 then some (E.STARSH_WRONG_PARAMETER, data, w)
    else if nu < 0 then some (E.STARSH_WRONG_PARAMETER, data, w)
    else if noise < 0 then some (E.STARSH_WRONG_PARAMETER, data, w)
    else if sigma < 0 then some (E.STARSH_WRONG_PARAMETER, data, w)
    else
      match particles_generate w count ndim place with
      | (info, particles, w1) =>
        if info ≠ E.STARSH_SUCCESS then some (info, data, w1)
        else if A.ok 0 = false then some (A.err, some none, w1)
        else
          match particles with
          | none => none
          | some p =>
            some (E.STARSH_SUCCESS, some (some (STARSH_ssdata.mk p beta nu noise sigma)), w1)

/-- One argument of a `va_list`: an `int` (also an enumeration value) or a
`double`. -/
inductive VaArg (α : Type) where
  | int (v : Int)
  | double (v : α)

/-- The constants of the enumeration `STARSH_SPATIAL_PARAM`, defined in a
header that is not embedded here: their values are parameters. -/
structure STARSH_SPATIAL_PARAM where
  STARSH_SPATIAL_NDIM : Int
  STARSH_SPATIAL_BETA : Int
  STARSH_SPATIAL_NU : Int
  STARSH_SPATIAL_NOISE : Int
  STARSH_SPATIAL_PLACE : Int
  STARSH_SPATIAL_SIGMA : Int

/-- The locals `ndim`, `beta`, `nu`, `noise`, `place` and `sigma` of
`starsh_ssdata_generate_va`. -/
structure SsdataLocals (α : Type) where
  ndim : Int
  beta : α
  nu : α
  noise : α
  place : Int
  sigma : α

/-- The `while` loop of `starsh_ssdata_generate_va` over the remaining
arguments: `none` is an undefined `va_arg` (no argument left, or one of the
other type), `some none` the `default` branch that returns
`STARSH_WRONG_PARAMETER`, and `some (some l)` the locals when the loop meets
the terminating `0`. -/
def ssdata_va_loop {α : Type} (P : STARSH_SPATIAL_PARAM) :
    List (VaArg α) → SsdataLocals α → Option (Option (SsdataLocals α))
  | [], _ => none
  | VaArg.double _ :: _, _ => none
  | [VaArg.int t], l =>
    if t = 0 then some (some l)
    else if t = P.STARSH_SPATIAL_NDIM ∨ t = P.STARSH_SPATIAL_BETA ∨ t = P.STARSH_SPATIAL_NU ∨
        t = P.STARSH_SPATIAL_NOISE ∨ t = P.STARSH_SPATIAL_PLACE ∨ t = P.STARSH_SPATIAL_SIGMA
    then none
    else some none
  | VaArg.int t :: VaArg.int v :: rest, l =>
    if t = 0 then some (some l)
    else if t = P.STARSH_SPATIAL_NDIM then ssdata_va_loop P rest { l with ndim := v }
    else if t = P.STARSH_SPATIAL_BETA then none
    else if t = P.STARSH_SPATIAL_NU then none
    else if t = P.STARSH_SPATIAL_NOISE then none
    else if t = P.STARSH_SPATIAL_PLACE then ssdata_va_loop P rest { l with place := v }
    else if t = P.STARSH_SPATIAL_SIGMA then none
    else some none
  | VaArg.int t :: VaArg.double v :: rest, l =>
    if t = 0 then some (some l)
    else if t = P.STARSH_SPATIAL_NDIM then none
    else if t = P.STARSH_SPATIAL_BETA then ssdata_va_loop P rest { l with beta := v }
    else if t = P.STARSH_SPATIAL_NU then ssdata_va_loop P rest { l with nu := v }
    else if t = P.STARSH_SPATIAL_NOISE then ssdata_va_loop P rest { l with noise := v }
    else if t = P.STARSH_SPATIAL_PLACE then none
    else if t = P.STARSH_SPATIAL_SIGMA then ssdata_va_loop P rest { l with sigma := v }
    else some none

/-- The function `starsh_ssdata_generate_va`. The constant
`STARSH_PARTICLES_UNIFORM` comes from a header that is not embedded here and
is a parameter. -/
def starsh_ssdata_generate_va {α ω : Type} [LinearOrderedField α] (E : STARSH_ERRNO)
    (A : STARSH_MALLOC)
    (particles_generate : ω → Nat → Int → Int → Int × Option (STARSH_particles α) × ω)
    (P : STARSH_SPATIAL_PARAM) (STARSH_PARTICLES_UNIFORM : Int)
    (w : ω) (data : Option (Option (STARSH_ssdata α))) (count : Nat) (args : List (VaArg α)) :
    Option (Int × Option (Option (STARSH_ssdata α)) × ω) :=
  match ssdata_va_loop P args
      (SsdataLocals.mk 2 0.1 0.5 0 STARSH_PARTICLES_UNIFORM 1.0) with
  | none => none
  | some none => some (E.STARSH_WRONG_PARAMETER, data, w)
  | some (some l) =>
    starsh_ssdata_generate E A particles_generate w data count l.ndim l.beta l.nu l.noise
      l.place l.sigma

/-- One well-typed pair `(parameter constant, value)` of the argument list of
`starsh_ssdata_generate_va`. -/
inductive SpatialArg (α : Type) where
  | ndim (v : Int)
  | beta (v : α)
  | nu (v : α)
  | noise (v : α)
  | place (v : Int)
  | sigma (v : α)

/-- The two `va_list` arguments of a pair. -/
def SpatialArg.encode {α : Type} (P : STARSH_SPATIAL_PARAM) : SpatialArg α → List (VaArg α)
  | SpatialArg.ndim v => [VaArg.int P.STARSH_SPATIAL_NDIM, VaArg.int v]
  | SpatialArg.beta v => [VaArg.int P.STARSH_SPATIAL_BETA, VaArg.double v]
  | SpatialArg.nu v => [VaArg.int P.STARSH_SPATIAL_NU, VaArg.double v]
  | SpatialArg.noise v => [VaArg.int P.STARSH_SPATIAL_NOISE, VaArg.double v]
  | SpatialArg.place v => [VaArg.int P.STARSH_SPATIAL_PLACE, VaArg.int v]
  | SpatialArg.sigma v => [VaArg.int P.STARSH_SPATIAL_SIGMA, VaArg.double v]

/-- The arguments of a list of pairs, in order. -/
def encode_pairs {α : Type} (P : STARSH_SPATIAL_PARAM) (pairs : List (SpatialArg α)) :
    List (VaArg α) :=
  pairs.flatMap (SpatialArg.encode P)

/-- The value of the last occurrence in a list of values, or else the
default. -/
def last_or {β : Type} (vals : List β) (d : β) : β := vals.getLast?.getD d

/-- The values given for `ndim`, in order. -/
def ndim_values {α : Type} (pairs : List (SpatialArg α)) : List Int :=
  pairs.filterMap (fun a => match a with | SpatialArg.ndim v => some v | _ => none)

/-- The values given for `beta`, in order. -/
def beta_values {α : Type} (pairs : List (SpatialArg α)) : List α :=
  pairs.filterMap (fun a => match a with | SpatialArg.beta v => some v | _ => none)

/-- The values given for `nu`, in order. -/
def nu_values {α : Type} (pairs : List (SpatialArg α)) : List α :=
  pairs.filterMap (fun a => match a with | SpatialArg.nu v => some v | _ => none)

/-- The values given for `noise`, in order. -/
def noise_values {α : Type} (pairs : List (SpatialArg α)) : List α :=
  pairs.filterMap (fun a => match a with | SpatialArg.noise v => some v | _ => none)

/-- The values given for `place`, in order. -/
def place_values {α : Type} (pairs : List (SpatialArg α)) : List Int :=
  pairs.filterMap (fun a => match a with | SpatialArg.place v => some v | _ => none)

/-- The values given for `sigma`, in order. -/
def sigma_values {α : Type} (pairs : List (SpatialArg α)) : List α :=
  pairs.filterMap (fun a => match a with | SpatialArg.sigma v => some v | _ => none)

/-- The six parameter constants are non-zero and pairwise different (they are
the labels of one `switch`, and `0` ends the list). -/
def STARSH_SPATIAL_PARAM.Valid (P : STARSH_SPATIAL_PARAM) : Prop :=
  [0, P.STARSH_SPATIAL_NDIM, P.STARSH_SPATIAL_BETA, P.STARSH_SPATIAL_NU,
    P.STARSH_SPATIAL_NOISE, P.STARSH_SPATIAL_PLACE, P.STARSH_SPATIAL_SIGMA].Nodup

/-- The assignment a pair makes to the locals. -/
def SpatialArg.assign {α : Type} (l : SsdataLocals α) : SpatialArg α → SsdataLocals α
  | SpatialArg.ndim v => { l with ndim := v }
  | SpatialArg.beta v => { l with beta := v }
  | SpatialArg.nu v => { l with nu := v }
  | SpatialArg.noise v => { l with noise := v }
  | SpatialArg.place v => { l with place := v }
  | SpatialArg.sigma v => { l with sigma := v }

/-- Example constants: the parameter constants `1, …, 6`, the statuses
`STARSH_SUCCESS = 0` and `STARSH_WRONG_PARAMETER = 4`. -/
def exParam : STARSH_SPATIAL_PARAM := STARSH_SPATIAL_PARAM.mk 1 2 3 4 5 6

/-- Example status constants. -/
def exErrno : STARSH_ERRNO := STARSH_ERRNO.mk 0 4

/-- Example callee: it succeeds, stores `count` points with the coordinates
`place` and the state, and advances the state. -/
def exGenerate {α : Type} [Field α] :
    Nat → Nat → Int → Int → Int × Option (STARSH_particles α) × Nat :=
  fun w count ndim place => (0, some (STARSH_particles.mk count ndim [(place : α), (w : α)]), w + 1)

/-! ## Kernel selection (applications/spatial.c) -/

/-- The enumeration `STARSH_SPATIAL_KERNEL`; `outside v` is a value `v` of the
argument that is none of its twelve constants. -/
inductive STARSH_SPATIAL_KERNEL where
  | STARSH_SPATIAL_EXP
  | STARSH_SPATIAL_EXP_SIMD
  | STARSH_SPATIAL_SQREXP
  | STARSH_SPATIAL_SQREXP_SIMD
  | STARSH_SPATIAL_MATERN
  | STARSH_SPATIAL_MATERN_SIMD
  | STARSH_SPATIAL_MATERN2
  | STARSH_SPATIAL_MATERN2_SIMD
  | STARSH_SPATIAL_EXP_GCD
  | STARSH_SPATIAL_SQREXP_GCD
  | STARSH_SPATIAL_MATERN_GCD
  | STARSH_SPATIAL_MATERN2_GCD
  | outside (v : Int)


/-- The dimension suffix `_1d`, `_2d`, `_3d`, `_4d` or `_nd` of a kernel
function. -/
inductive KernelDim where
  | d1
  | d2
  | d3
  | d4
  | dn


/-- The kernel functions a pointer `STARSH_kernel *` of spatial.c can point
to, by name: `exp d` is `starsh_ssdata_block_exp_kernel_<d>`, `exp_simd d` is
`starsh_ssdata_block_exp_kernel_<d>_simd`, `exp_2d_simd_gcd` is
`starsh_ssdata_block_exp_kernel_2d_simd_gcd`, and so on. -/
inductive SpatialKernelFn where
  | exp (d : KernelDim)
  | exp_simd (d : KernelDim)
  | sqrexp (d : KernelDim)
  | sqrexp_simd (d : KernelDim)
  | matern (d : KernelDim)
  | matern_simd (d : KernelDim)
  | matern2 (d : KernelDim)
  | matern2_simd (d : KernelDim)
  | exp_2d_simd_gcd
  | sqrexp_2d_simd_gcd
  | matern_2d_simd_gcd
  | matern2_2d_simd_gcd


/-- The function `starsh_ssdata_get_kernel_1d`: the returned status and the
pointer variable behind `kernel` afterwards; `GSL` tells whether the macro
`GSL` is defined. -/
def starsh_ssdata_get_kernel_1d (E : STARSH_ERRNO) (GSL : Bool)
    (kernel : Option SpatialKernelFn) (type : STARSH_SPATIAL_KERNEL) :
    Int × Option SpatialKernelFn :=
  match type with
  | STARSH_SPATIAL_KERNEL.STARSH_SPATIAL_EXP =>
    (E.STARSH_SUCCESS, some (SpatialKernelFn.exp KernelDim.d1))
  | STARSH_SPATIAL_KERNEL.STARSH_SPATIAL_EXP_SIMD =>
    (E.STARSH_SUCCESS, some (SpatialKernelFn.exp_simd KernelDim.d1))
  | STARSH_SPATIAL_KERNEL.STARSH_SPATIAL_SQREXP =>
    (E.STARSH_SUCCESS, some (SpatialKernelFn.sqrexp KernelDim.d1))
  | STARSH_SPATIAL_KERNEL.STARSH_SPATIAL_SQREXP_SIMD =>
    (E.STARSH_SUCCESS, some (SpatialKernelFn.sqrexp_simd KernelDim.d1))
  | STARSH_SPATIAL_KERNEL.STARSH_SPATIAL_MATERN =>
    if GSL then (E.STARSH_SUCCESS, some (SpatialKernelFn.matern KernelDim.d1))
    else (E.STARSH_WRONG_PARAMETER, kernel)
  | STARSH_SPATIAL_KERNEL.STARSH_SPATIAL_MATERN_SIMD =>
    if GSL then (E.STARSH_SUCCESS, some (SpatialKernelFn.matern_simd KernelDim.d1))
    else (E.STARSH_WRONG_PARAMETER, kernel)
  | STARSH_SPATIAL_KERNEL.STARSH_SPATIAL_MATERN2 =>
    if GSL then (E.STARSH_SUCCESS, some (SpatialKernelFn.matern2 KernelDim.d1))
    else (E.STARSH_WRONG_PARAMETER, kernel)
  | STARSH_SPATIAL_KERNEL.STARSH_SPATIAL_MATERN2_SIMD =>
    if GSL then (E.STARSH_SUCCESS, some (SpatialKernelFn.matern2_simd KernelDim.d1))
    else (E.STARSH_WRONG_PARAMETER, kernel)
  | STARSH_SPATIAL_KERNEL.STARSH_SPATIAL_EXP_GCD => (E.STARSH_SUCCESS, kernel)
  | STARSH_SPATIAL_KERNEL.STARSH_SPATIAL_SQREXP_GCD => (E.STARSH_SUCCESS, kernel)
  | STARSH_SPATIAL_KERNEL.STARSH_SPATIAL_MATERN_GCD => (E.STARSH_SUCCESS, kernel)
  | STARSH_SPATIAL_KERNEL.STARSH_SPATIAL_MATERN2_GCD => (E.STARSH_SUCCESS, kernel)
  | STARSH_SPATIAL_KERNEL.outside _ => (E.STARSH_WRONG_PARAMETER, kernel)

/-- The function `starsh_ssdata_get_kernel_2d`. -/
def starsh_ssdata_get_kernel_2d (E : STARSH_ERRNO) (GSL : Bool)
    (kernel : Option SpatialKernelFn) (type : STARSH_SPATIAL_KERNEL) :
    Int × Option SpatialKernelFn :=
  match type with
  | STARSH_SPATIAL_KERNEL.STARSH_SPATIAL_EXP =>
    (E.STARSH_SUCCESS, some (SpatialKernelFn.exp KernelDim.d2))
  | STARSH_SPATIAL_KERNEL.STARSH_SPATIAL_EXP_SIMD =>
    (E.STARSH_SUCCESS, some (SpatialKernelFn.exp_simd KernelDim.d2))
  | STARSH_SPATIAL_KERNEL.STARSH_SPATIAL_SQREXP =>
    (E.STARSH_SUCCESS, some (SpatialKernelFn.sqrexp KernelDim.d2))
  | STARSH_SPATIAL_KERNEL.STARSH_SPATIAL_SQREXP_SIMD =>
    (E.STARSH_SUCCESS, some (SpatialKernelFn.sqrexp_simd KernelDim.d2))
  | STARSH_SPATIAL_KERNEL.STARSH_SPATIAL_EXP_GCD =>
    (E.STARSH_SUCCESS, some SpatialKernelFn.exp_2d_simd_gcd)
  | STARSH_SPATIAL_KERNEL.STARSH_SPATIAL_SQREXP_GCD =>
    (E.STARSH_SUCCESS, some SpatialKernelFn.sqrexp_2d_simd_gcd)
  | STARSH_SPATIAL_KERNEL.STARSH_SPATIAL_MATERN =>
    if GSL then (E.STARSH_SUCCESS, some (SpatialKernelFn.matern KernelDim.d2))
    else (E.STARSH_WRONG_PARAMETER, kernel)
  | STARSH_SPATIAL_KERNEL.STARSH_SPATIAL_MATERN_SIMD =>
    if GSL then (E.STARSH_SUCCESS, some (SpatialKernelFn.matern_simd KernelDim.d2))
    else (E.STARSH_WRONG_PARAMETER, kernel)
  | STARSH_SPATIAL_KERNEL.STARSH_SPATIAL_MATERN2 =>
    if GSL then (E.STARSH_SUCCESS, some (SpatialKernelFn.matern2 KernelDim.d2))
    else (E.STARSH_WRONG_PARAMETER, kernel)
  | STARSH_SPATIAL_KERNEL.STARSH_SPATIAL_MATERN2_SIMD =>
    if GSL then (E.STARSH_SUCCESS, some (SpatialKernelFn.matern2_simd KernelDim.d2))
    else (E.STARSH_WRONG_PARAMETER, kernel)
  | STARSH_SPATIAL_KERNEL.STARSH_SPATIAL_MATERN_GCD =>
    if GSL then (E.STARSH_SUCCESS, some SpatialKernelFn.matern_2d_simd_gcd)
    else (E.STARSH_WRONG_PARAMETER, kernel)
  | STARSH_SPATIAL_KERNEL.STARSH_SPATIAL_MATERN2_GCD =>
    if GSL then (E.STARSH_SUCCESS, some SpatialKernelFn.matern2_2d_simd_gcd)
    else (E.STARSH_WRONG_PARAMETER, kernel)
  | STARSH_SPATIAL_KERNEL.outside _ => (E.STARSH_WRONG_PARAMETER, kernel)

/-- The function `starsh_ssdata_get_kernel_3d`: the returned status and the
pointer variable behind `kernel` afterwards; `GSL` tells whether the macro
`GSL` is defined. -/
def starsh_ssdata_get_kernel_3d (E : STARSH_ERRNO) (GSL : Bool)
    (kernel : Option SpatialKernelFn) (type : STARSH_SPATIAL_KERNEL) :
    Int × Option SpatialKernelFn :=
  match type with
  | STARSH_SPATIAL_KERNEL.STARSH_SPATIAL_EXP =>
    (E.STARSH_SUCCESS, some (SpatialKernelFn.exp KernelDim.d3))
  | STARSH_SPATIAL_KERNEL.STARSH_SPATIAL_EXP_SIMD =>
    (E.STARSH_SUCCESS, some (SpatialKernelFn.exp_simd KernelDim.d3))
  | STARSH_SPATIAL_KERNEL.STARSH_SPATIAL_SQREXP =>
    (E.STARSH_SUCCESS, some (SpatialKernelFn.sqrexp KernelDim.d3))
  | STARSH_SPATIAL_KERNEL.STARSH_SPATIAL_SQREXP_SIMD =>
    (E.STARSH_SUCCESS, some (SpatialKernelFn.sqrexp_simd KernelDim.d3))
  | STARSH_SPATIAL_KERNEL.STARSH_SPATIAL_MATERN =>
    if GSL then (E.STARSH_SUCCESS, some (SpatialKernelFn.matern KernelDim.d3))
    else (E.STARSH_WRONG_PARAMETER, kernel)
  | STARSH_SPATIAL_KERNEL.STARSH_SPATIAL_MATERN_SIMD =>
    if GSL then (E.STARSH_SUCCESS, some (SpatialKernelFn.matern_simd KernelDim.d3))
    else (E.STARSH_WRONG_PARAMETER, kernel)
  | STARSH_SPATIAL_KERNEL.STARSH_SPATIAL_MATERN2 =>
    if GSL then (E.STARSH_SUCCESS, some (SpatialKernelFn.matern2 KernelDim.d3))
    else (E.STARSH_WRONG_PARAMETER, kernel)
  | STARSH_SPATIAL_KERNEL.STARSH_SPATIAL_MATERN2_SIMD =>
    if GSL then (E.STARSH_SUCCESS, some (SpatialKernelFn.matern2_simd KernelDim.d3))
    else (E.STARSH_WRONG_PARAMETER, kernel)
  | STARSH_SPATIAL_KERNEL.STARSH_SPATIAL_EXP_GCD => (E.STARSH_SUCCESS, kernel)
  | STARSH_SPATIAL_KERNEL.STARSH_SPATIAL_SQREXP_GCD => (E.STARSH_SUCCESS, kernel)
  | STARSH_SPATIAL_KERNEL.STARSH_SPATIAL_MATERN_GCD => (E.STARSH_SUCCESS, kernel)
  | STARSH_SPATIAL_KERNEL.STARSH_SPATIAL_MATERN2_GCD => (E.STARSH_SUCCESS, kernel)
  | STARSH_SPATIAL_KERNEL.outside _ => (E.STARSH_WRONG_PARAMETER, kernel)

/-- The function `starsh_ssdata_get_kernel_4d`: the returned status and the
pointer variable behind `kernel` afterwards; `GSL` tells whether the macro
`GSL` is defined. -/
def starsh_ssdata_get_kernel_4d (E : STARSH_ERRNO) (GSL : Bool)
    (kernel : Option SpatialKernelFn) (type : STARSH_SPATIAL_KERNEL) :
    Int × Option SpatialKernelFn :=
  match type with
  | STARSH_SPATIAL_KERNEL.STARSH_SPATIAL_EXP =>
    (E.STARSH_SUCCESS, some (SpatialKernelFn.exp KernelDim.d4))
  | STARSH_SPATIAL_KERNEL.STARSH_SPATIAL_EXP_SIMD =>
    (E.STARSH_SUCCESS, some (SpatialKernelFn.exp_simd KernelDim.d4))
  | STARSH_SPATIAL_KERNEL.STARSH_SPATIAL_SQREXP =>
    (E.STARSH_SUCCESS, some (SpatialKernelFn.sqrexp KernelDim.d4))
  | STARSH_SPATIAL_KERNEL.STARSH_SPATIAL_SQREXP_SIMD =>
    (E.STARSH_SUCCESS, some (SpatialKernelFn.sqrexp_simd KernelDim.d4))
  | STARSH_SPATIAL_KERNEL.STARSH_SPATIAL_MATERN =>
    if GSL then (E.STARSH_SUCCESS, some (SpatialKernelFn.matern KernelDim.d4))
    else (E.STARSH_WRONG_PARAMETER, kernel)
  | STARSH_SPATIAL_KERNEL.STARSH_SPATIAL_MATERN_SIMD =>
    if GSL then (E.STARSH_SUCCESS, some (SpatialKernelFn.matern_simd KernelDim.d4))
    else (E.STARSH_WRONG_PARAMETER, kernel)
  | STARSH_SPATIAL_KERNEL.STARSH_SPATIAL_MATERN2 =>
    if GSL then (E.STARSH_SUCCESS, some (SpatialKernelFn.matern2 KernelDim.d4))
    else (E.STARSH_WRONG_PARAMETER, kernel)
  | STARSH_SPATIAL_KERNEL.STARSH_SPATIAL_MATERN2_SIMD =>
    if GSL then (E.STARSH_SUCCESS, some (SpatialKernelFn.matern2_simd KernelDim.d4))
    else (E.STARSH_WRONG_PARAMETER, kernel)
  | STARSH_SPATIAL_KERNEL.STARSH_SPATIAL_EXP_GCD => (E.STARSH_SUCCESS, kernel)
  | STARSH_SPATIAL_KERNEL.STARSH_SPATIAL_SQREXP_GCD => (E.STARSH_SUCCESS, kernel)
  | STARSH_SPATIAL_KERNEL.STARSH_SPATIAL_MATERN_GCD => (E.STARSH_SUCCESS, kernel)
  | STARSH_SPATIAL_KERNEL.STARSH_SPATIAL_MATERN2_GCD => (E.STARSH_SUCCESS, kernel)
  | STARSH_SPATIAL_KERNEL.outside _ => (E.STARSH_WRONG_PARAMETER, kernel)

/-- The function `starsh_ssdata_get_kernel_nd`: the returned status and the
pointer variable behind `kernel` afterwards; `GSL` tells whether the macro
`GSL` is defined. -/
def starsh_ssdata_get_kernel_nd (E : STARSH_ERRNO) (GSL : Bool)
    (kernel : Option SpatialKernelFn) (type : STARSH_SPATIAL_KERNEL) :
    Int × Option SpatialKernelFn :=
  match type with
  | STARSH_SPATIAL_KERNEL.STARSH_SPATIAL_EXP =>
    (E.STARSH_SUCCESS, some (SpatialKernelFn.exp KernelDim.dn))
  | STARSH_SPATIAL_KERNEL.STARSH_SPATIAL_EXP_SIMD =>
    (E.STARSH_SUCCESS, some (SpatialKernelFn.exp_simd KernelDim.dn))
  | STARSH_SPATIAL_KERNEL.STARSH_SPATIAL_SQREXP =>
    (E.STARSH_SUCCESS, some (SpatialKernelFn.sqrexp KernelDim.dn))
  | STARSH_SPATIAL_KERNEL.STARSH_SPATIAL_SQREXP_SIMD =>
    (E.STARSH_SUCCESS, some (SpatialKernelFn.sqrexp_simd KernelDim.dn))
  | STARSH_SPATIAL_KERNEL.STARSH_SPATIAL_MATERN =>
    if GSL then (E.STARSH_SUCCESS, some (SpatialKernelFn.matern KernelDim.dn))
    else (E.STARSH_WRONG_PARAMETER, kernel)
  | STARSH_SPATIAL_KERNEL.STARSH_SPATIAL_MATERN_SIMD =>
    if GSL then (E.STARSH_SUCCESS, some (SpatialKernelFn.matern_simd KernelDim.dn))
    else (E.STARSH_WRONG_PARAMETER, kernel)
  | STARSH_SPATIAL_KERNEL.STARSH_SPATIAL_MATERN2 =>
    if GSL then (E.STARSH_SUCCESS, some (SpatialKernelFn.matern2 KernelDim.dn))
    else (E.STARSH_WRONG_PARAMETER, kernel)
  | STARSH_SPATIAL_KERNEL.STARSH_SPATIAL_MATERN2_SIMD =>
    if GSL then (E.STARSH_SUCCESS, some (SpatialKernelFn.matern2_simd KernelDim.dn))
    else (E.STARSH_WRONG_PARAMETER, kernel)
  | STARSH_SPATIAL_KERNEL.STARSH_SPATIAL_EXP_GCD => (E.STARSH_SUCCESS, kernel)
  | STARSH_SPATIAL_KERNEL.STARSH_SPATIAL_SQREXP_GCD => (E.STARSH_SUCCESS, kernel)
  | STARSH_SPATIAL_KERNEL.STARSH_SPATIAL_MATERN_GCD => (E.STARSH_SUCCESS, kernel)
  | STARSH_SPATIAL_KERNEL.STARSH_SPATIAL_MATERN2_GCD => (E.STARSH_SUCCESS, kernel)
  | STARSH_SPATIAL_KERNEL.outside _ => (E.STARSH_WRONG_PARAMETER, kernel)

/-- The function `starsh_ssdata_get_kernel`: the `switch` on
`data->particles.ndim`. -/
def starsh_ssdata_get_kernel {α : Type} (E : STARSH_ERRNO) (GSL : Bool)
    (kernel : Option SpatialKernelFn) (data : STARSH_ssdata α) (type : STARSH_SPATIAL_KERNEL) :
    Int × Option SpatialKernelFn :=
  if data.particles.ndim = 1 then starsh_ssdata_get_kernel_1d E GSL kernel type
  else if data.particles.ndim = 2 then starsh_ssdata_get_kernel_2d E GSL kernel type
  else if data.particles.ndim = 3 then starsh_ssdata_get_kernel_3d E GSL kernel type
  else if data.particles.ndim = 4 then starsh_ssdata_get_kernel_4d E GSL kernel type
  else starsh_ssdata_get_kernel_nd E GSL kernel type

/-- The dimension suffix that belongs to `ndim`: the specialised one for
`1, 2, 3, 4` and the general `_nd` for every other value. -/
def kernel_dim (ndim : Int) : KernelDim :=
  if ndim = 1 then KernelDim.d1
  else if ndim = 2 then KernelDim.d2
  else if ndim = 3 then KernelDim.d3
  else if ndim = 4 then KernelDim.d4
  else KernelDim.dn

/-- Example object with three-dimensional points. -/
def exData3 {α : Type} [Field α] : STARSH_ssdata α :=
  STARSH_ssdata.mk (STARSH_particles.mk 1 3 [0, 0, 0]) 1 0 0 1

/-! ## The documented formula of the exponential great-circle kernel -/

/-- The entry `σ²·e^(−r/β) + μ·δ(r)` of the documentation of
`starsh_ssdata_block_exp_kernel_2d_simd_gcd`, with `σ`, `β` and `μ` read as the
fields `sigma`, `beta` and `noise` of `data1` and `r` the great-circle distance
of the point `ii` of `data1` and the point `jj` of `data2`. -/
def documented_exp_gcd_value {α : Type} [Field α] [DecidableEq α] (L : Libm α)
    (data1 data2 : STARSH_ssdata α) (ii jj : Nat) : α :=
  data1.sigma * data1.sigma * L.exp (-(gcd_dist_val L data1 data2 ii jj) / data1.beta)
    + data1.noise * (if gcd_dist_val L data1 data2 ii jj = 0 then 1 else 0)

/-- Example kernel memory: the points `(0°, 0°)` and `(1°, 1°)`, the row index
`0` and the column index `0` (the same point), `sigma = 2`, `beta = 1`,
`noise = 0`, and a result buffer of one entry. -/
def exFrameC {α : Type} [Field α] : KernelFrame α :=
  { irow := [0], icol := [0],
    row_data := { particles := { count := 2, ndim := 2, point := [0, 1, 0, 1] },
                  beta := 1, nu := 0, noise := 0, sigma := 2 },
    col_data := { particles := { count := 2, ndim := 2, point := [0, 1, 0, 1] },
                  beta := 1, nu := 0, noise := 0, sigma := 2 },
    result := [0] }

/-! ## The variable-argument constructor of applications/rndtiled.c -/

/-- The constants `STARSH_RNDTILED_NB`, `STARSH_RNDTILED_DECAY` and
`STARSH_RNDTILED_DIAG`, defined in a header that is not embedded here: their
values are parameters. -/
structure STARSH_RNDTILED_PARAM where
  STARSH_RNDTILED_NB : Int
  STARSH_RNDTILED_DECAY : Int
  STARSH_RNDTILED_DIAG : Int

/-- The locals `nb`, `decay` and `add_diag` of `starsh_rndtiled_new_va`. -/
structure RndtiledLocals (α : Type) where
  nb : Int
  decay : α
  add_diag : α

/-- The `while` loop of `starsh_rndtiled_new_va` over the remaining arguments:
`none` is an undefined `va_arg` (no argument left, or one of the other type),
`some none` the `default` branch that returns `1`, and `some (some l)` the
locals when the loop meets the terminating `0`. -/
def rndtiled_va_loop {α : Type} (P : STARSH_RNDTILED_PARAM) :
    List (VaArg α) → RndtiledLocals α → Option (Option (RndtiledLocals α))
  | [], _ => none
  | VaArg.double _ :: _, _ => none
  | [VaArg.int t], l =>
    if t = 0 then some (some l)
    else if t = P.STARSH_RNDTILED_NB ∨ t = P.STARSH_RNDTILED_DECAY ∨
        t = P.STARSH_RNDTILED_DIAG
    then none
    else some none
  | VaArg.int t :: VaArg.int v :: rest, l =>
    if t = 0 then some (some l)
    else if t = P.STARSH_RNDTILED_NB then rndtiled_va_loop P rest { l with nb := v }
    else if t = P.STARSH_RNDTILED_DECAY then none
    else if t = P.STARSH_RNDTILED_DIAG then none
    else some none
  | VaArg.int t :: VaArg.double v :: rest, l =>
    if t = 0 then some (some l)
    else if t = P.STARSH_RNDTILED_NB then none
    else if t = P.STARSH_RNDTILED_DECAY then rndtiled_va_loop P rest { l with decay := v }
    else if t = P.STARSH_RNDTILED_DIAG then rndtiled_va_loop P rest { l with add_diag := v }
    else some none

/-- The function `starsh_rndtiled_new_va`. -/
def starsh_rndtiled_new_va {α : Type} [Field α] (A : STARSH_MALLOC)
    (lapack : Int → Int → List α) (P : STARSH_RNDTILED_PARAM)
    (data : Option (Option (STARSH_rndtiled α))) (n : Int) (dtype : Char)
    (args : List (VaArg α)) : Option (Int × Option (Option (STARSH_rndtiled α))) :=
  if dtype ≠ 'd' then some (1, data)
  else
    match rndtiled_va_loop P args (RndtiledLocals.mk n 0 0) with
    | none => none
    | some none => some (1, data)
    | some (some l) => starsh_rndtiled_new A lapack data n dtype l.nb l.decay l.add_diag

/-- One well-typed pair `(parameter constant, value)` of the argument list of
`starsh_rndtiled_new_va`. -/
inductive RndtiledArg (α : Type) where
  | nb (v : Int)
  | decay (v : α)
  | diag (v : α)

/-- The two `va_list` arguments of a pair. -/
def RndtiledArg.encode {α : Type} (P : STARSH_RNDTILED_PARAM) : RndtiledArg α → List (VaArg α)
  | RndtiledArg.nb v => [VaArg.int P.STARSH_RNDTILED_NB, VaArg.int v]
  | RndtiledArg.decay v => [VaArg.int P.STARSH_RNDTILED_DECAY, VaArg.double v]
  | RndtiledArg.diag v => [VaArg.int P.STARSH_RNDTILED_DIAG, VaArg.double v]

/-- The arguments of a list of pairs, in order. -/
def encode_rndtiled_pairs {α : Type} (P : STARSH_RNDTILED_PARAM)
    (pairs : List (RndtiledArg α)) : List (VaArg α) :=
  pairs.flatMap (RndtiledArg.encode P)

/-- The values given for `nb`, in order. -/
def nb_values {α : Type} (pairs : List (RndtiledArg α)) : List Int :=
  pairs.filterMap (fun a => match a with | RndtiledArg.nb v => some v | _ => none)

/-- The values given for `decay`, in order. -/
def decay_values {α : Type} (pairs : List (RndtiledArg α)) : List α :=
  pairs.filterMap (fun a => match a with | RndtiledArg.decay v => some v | _ => none)

/-- The values given for `add_diag`, in order. -/
def diag_values {α : Type} (pairs : List (RndtiledArg α)) : List α :=
  pairs.filterMap (fun a => match a with | RndtiledArg.diag v => some v | _ => none)

/-- The three parameter constants are non-zero and pairwise different (they
are the labels of one `switch`, and `0` ends the list). -/
def STARSH_RNDTILED_PARAM.Valid (P : STARSH_RNDTILED_PARAM) : Prop :=
  [0, P.STARSH_RNDTILED_NB, P.STARSH_RNDTILED_DECAY, P.STARSH_RNDTILED_DIAG].Nodup

/-- The assignment a pair makes to the locals. -/
def RndtiledArg.assign {α : Type} (l : RndtiledLocals α) : RndtiledArg α → RndtiledLocals α
  | RndtiledArg.nb v => { l with nb := v }
  | RndtiledArg.decay v => { l with decay := v }
  | RndtiledArg.diag v => { l with add_diag := v }

/-- Example parameter constants `1, 2, 3`. -/
def exRndParam : STARSH_RNDTILED_PARAM := STARSH_RNDTILED_PARAM.mk 1 2 3

/-! ## The far part of the matrix norm -/

/-- The weighted sum over the far blocks of the squared block norms: the
square of the Frobenius norm of the far part of the matrix. -/
def dfe_far_norm_sq {α δ : Type} [Field α] (M : STARSH_blrm α δ) : α :=
  ((List.range M.format.nblocks_far).map (fun bi =>
    symm_weight M.format.symm (blk_i M.format.block_far bi) (blk_j M.format.block_far bi)
      * far_normsq M bi)).sum

/-- The weighted sum over the near blocks of the squared block norms. -/
def dfe_near_norm_sq {α δ : Type} [Field α] (M : STARSH_blrm α δ) : α :=
  ((List.range M.format.nblocks_near).map (fun bi =>
    symm_weight M.format.symm (blk_i M.format.block_near bi) (blk_j M.format.block_near bi)
      * near_normsq M bi)).sum

/-- Example matrix on `exFormatN` whose two far blocks have rank `0`. -/
def exZ {α : Type} [Field α] : STARSH_blrm α Unit :=
  { format := exFormatN, far_rank := [0, 0], far_U := [[], []], far_V := [[], []],
    onfly := 1, near_D := [] }

/-! ## Stored and regenerated near blocks -/

/-- The memory of `starsh_blrm__dfe` with another matrix object behind `M`. -/
def DfeFrame.withM {α δ : Type} (M : STARSH_blrm α δ) (st : DfeFrame α δ) : DfeFrame α δ :=
  { st with M := M }

/-- The matrix with `onfly = 0` and the stored near blocks `D`. -/
def with_stored_near {α δ : Type} (M : STARSH_blrm α δ) (D : List (List α)) : STARSH_blrm α δ :=
  { M with onfly := 0, near_D := D }

/-- Every stored near block `D[bi]` holds exactly what the kernel writes for
that block. -/
def StoredNearExact {α δ : Type} [Field α] (M : STARSH_blrm α δ) (D : List (List α)) : Prop :=
  ∀ bi < M.format.nblocks_near, ∀ i j nrows ncols : Nat,
    dfe_block_dims M.format.row_cluster M.format.col_cluster M.format.block_near bi
      = some (i, j, nrows, ncols) →
    D[bi]? = dfe_kernel_block M.format i j nrows ncols

/-! ## Preconditions of `starsh_blrm__dfe` -/

/-- The callback stays inside its arguments on the cluster pair `(i, j)`: called
as `starsh_blrm__dfe` calls it, it returns and leaves a buffer of
`nrows·ncols` entries. -/
def KernelReturns {α δ : Type} [Field α] (F : STARSH_blrf α δ) (i j : Nat) : Prop :=
  ∃ D : List α,
    F.problem.kernel (F.row_cluster.size.getD i 0) (F.col_cluster.size.getD j 0)
        (F.row_cluster.pivot.drop (F.row_cluster.start.getD i 0))
        (F.col_cluster.pivot.drop (F.col_cluster.start.getD j 0))
        F.row_cluster.data F.col_cluster.data
        (List.replicate (F.row_cluster.size.getD i 0 * F.col_cluster.size.getD j 0) 0)
      = some D ∧
    D.length = F.row_cluster.size.getD i 0 * F.col_cluster.size.getD j 0

/-- The preconditions on the object: every cluster index in `block_far` and
`block_near` is below the cluster count, `start[i] + size[i]` does not exceed
the pivot length for every cluster, `U[bi]` holds `nrows·rank` and `V[bi]`
holds `ncols·rank` entries with `rank = far_rank[bi] ≥ 0`, and `near_D[bi]`
holds `nrows·ncols` entries when `onfly == 0`. -/
def DfePreconditions {α δ : Type} (M : STARSH_blrm α δ) : Prop :=
  (∀ bi < M.format.nblocks_far,
    BlockOk M.format.row_cluster M.format.col_cluster M.format.block_far bi) ∧
  (∀ bi < M.format.nblocks_near,
    BlockOk M.format.row_cluster M.format.col_cluster M.format.block_near bi) ∧
  ClusterRangesOk M.format.row_cluster ∧ ClusterRangesOk M.format.col_cluster ∧
  (∀ bi < M.format.nblocks_far,
    bi < M.far_rank.length ∧ 0 ≤ M.far_rank.getD bi 0 ∧
    bi < M.far_U.length ∧ bi < M.far_V.length ∧
    far_nrows M bi * far_rk M bi ≤ (M.far_U.getD bi []).length ∧
    far_ncols M bi * far_rk M bi ≤ (M.far_V.getD bi []).length) ∧
  (M.onfly = 0 → ∀ bi < M.format.nblocks_near,
    bi < M.near_D.length ∧
    near_nrows M bi * near_ncols M bi ≤ (M.near_D.getD bi []).length)

/-! ## The mesh deformation kernel (applications/mesh_deformation/virus.c) -/

/-- The functions of `<math.h>` that virus.c calls. -/
structure LibmRbf (α : Type) where
  exp : α → α
  sqrt : α → α
  log : α → α
  pow : α → α → α

/-- The function `Gaussian`. -/
def Gaussian {α : Type} [Field α] (L : LibmRbf α) (x : α) : α := L.exp (-(L.pow x 2))

/-- The function `Expon`. -/
def Expon {α : Type} [Field α] (L : LibmRbf α) (x : α) : α := L.exp (-x)

/-- The function `Maternc1`. -/
def Maternc1 {α : Type} [Field α] (L : LibmRbf α) (x : α) : α := L.exp (-x) + (1 + x)

/-- The function `Maternc2`. -/
def Maternc2 {α : Type} [Field α] (L : LibmRbf α) (x : α) : α :=
  L.exp (-x) + (3 + 3 * x + L.pow x 2)

/-- The function `QUAD`. -/
def QUAD {α : Type} [Field α] (L : LibmRbf α) (x : α) : α := 1 + L.pow x 2

/-- The function `InvQUAD`. -/
def InvQUAD {α : Type} [Field α] (L : LibmRbf α) (x : α) : α := 1 / (1 + L.pow x 2)

/-- The function `InvMQUAD`. -/
def InvMQUAD {α : Type} [Field α] (L : LibmRbf α) (x : α) : α := 1 / L.sqrt (1 + L.pow x 2)

/-- The function `TPS`. -/
def TPS {α : Type} [Field α] (L : LibmRbf α) (x : α) : α := L.pow x 2 * L.log x

/-- The function `Wendland`. -/
def Wendland {α : Type} [LinearOrderedField α] (L : LibmRbf α) (x : α) : α :=
  if x > 1 then 0 else L.pow (1 - x) 4 * (4 * x + 1)

/-- The function `CTPS`. -/
def CTPS {α : Type} [LinearOrderedField α] (L : LibmRbf α) (x : α) : α :=
  if x > 1 then 0 else L.pow (1 - x) 5

/-- The function `diff` on two arrays of three coordinates:
`r = 0; for (i = 0; i < 3; i++) r = r + pow(x[i] - y[i], 2); return pow(r, 0.5)`. -/
def diff {α : Type} [Field α] (L : LibmRbf α) (x y : List α) : Option α :=
  (forLoop 3 (fun i r =>
    (x[i]?).bind (fun a => (y[i]?).bind (fun b => some (r + L.pow (a - b) 2)))) 0).map
    (fun r => L.pow r 0.5)

/-- The fields of the struct `STARSH_mddata` that the kernel reads; the struct
is declared in a header that is not embedded here. -/
structure STARSH_mddata (α : Type) where
  particles : STARSH_particles α
  kernel : Int
  numobj : Int
  isreg : Int
  reg : α
  rad : α

/-- The store `a[idx] = v` with an `int` index. -/
def storeAt {α : Type} (a : List α) (idx : Int) (v : α) : Option (List α) :=
  if idx < 0 then none else store a idx.toNat v

/-- The compound assignment `a[idx] += v` with an `int` index. -/
def addAt {α : Type} [Add α] (a : List α) (idx : Int) (v : α) : Option (List α) :=
  (load a idx).bind (fun old => storeAt a idx (old + v))

/-- Lines 150-152: the local `rad`. -/
def virus_rad {α : Type} [LinearOrderedField α] (L : LibmRbf α) (data : STARSH_mddata α) : α :=
  if data.numobj > 1 ∧ data.rad < 0 then 0.25 * (data.numobj : α) * L.sqrt 3 else data.rad

/-- Lines 157-159 (and 162-164): the array
`{mesh[pos], mesh[pos+1], mesh[pos+2]}` with `pos = i0*3`. -/
def virus_point {α : Type} (mesh : List α) (i0 : Nat) : Option (List α) :=
  (load mesh ((i0 : Int) * 3)).bind (fun a =>
    (load mesh ((i0 : Int) * 3 + 1)).bind (fun b =>
      (load mesh ((i0 : Int) * 3 + 2)).bind (fun c => some [a, b, c])))

/-- Lines 166-185: the `switch` on `data->kernel`. -/
def virus_switch {α : Type} [LinearOrderedField α] (L : LibmRbf α) (kernel : Int)
    (A : List α) (idx : Int) (d : α) : Option (List α) :=
  if kernel = 0 then storeAt A idx (Gaussian L d)
  else if kernel = 1 then storeAt A idx (Expon L d)
  else if kernel = 2 then storeAt A idx (InvQUAD L d)
  else if kernel = 3 then storeAt A idx (InvMQUAD L d)
  else if kernel = 4 then storeAt A idx (Maternc1 L d)
  else if kernel = 5 then storeAt A idx (Maternc1 L d)
  else if kernel = 6 then storeAt A idx (TPS L d)
  else if kernel = 7 then storeAt A idx (CTPS L d)
  else storeAt A idx (Wendland L d)

/-- Lines 162-186: one iteration of the loop over `k`. -/
def virus_entry {α : Type} [LinearOrderedField α] (L : LibmRbf α) (data : STARSH_mddata α)
    (rad : α) (icol : List Nat) (lda : Int) (m i0 : Nat) (vi : List α) (k : Nat)
    (A : List α) : Option (List α) :=
  (icol[k]?).bind (fun j0 =>
    (virus_point data.particles.point j0).bind (fun vj =>
      (diff L vi vj).bind (fun r =>
        (virus_switch L data.kernel A (lda * (k : Int) + (m : Int)) (r / rad)).bind (fun A1 =>
          if i0 = j0 ∧ data.isreg ≠ 0 then addAt A1 (lda * (k : Int) + (m : Int)) data.reg
          else some A1))))

/-- The function `starsh_generate_3d_virus`: the buffer `result` afterwards. -/
def starsh_generate_3d_virus {α : Type} [LinearOrderedField α] (L : LibmRbf α)
    (nrows ncols : Int) (irow icol : List Nat) (row_data _col_data : STARSH_mddata α)
    (result : List α) (lda : Int) : Option (List α) :=
  forLoop nrows.toNat (fun m A =>
    (irow[m]?).bind (fun i0 =>
      (virus_point row_data.particles.point i0).bind (fun vi =>
        forLoop ncols.toNat
          (virus_entry L row_data (virus_rad L row_data) icol lda m i0 vi) A))) result

/-- The value the `switch` on `data->kernel` stores for the scaled distance
`d`. -/
def virus_rbf {α : Type} [LinearOrderedField α] (L : LibmRbf α) (kernel : Int) (d : α) : α :=
  if kernel = 0 then Gaussian L d
  else if kernel = 1 then Expon L d
  else if kernel = 2 then InvQUAD L d
  else if kernel = 3 then InvMQUAD L d
  else if kernel = 4 then Maternc1 L d
  else if kernel = 5 then Maternc1 L d
  else if kernel = 6 then TPS L d
  else if kernel = 7 then CTPS L d
  else Wendland L d

/-- The value `diff(vi, vj)` for the mesh points `i0` and `j0`:
`pow(Σ_{c<3} pow(mesh[3·i0+c] − mesh[3·j0+c], 2), 0.5)`. -/
def virus_dist {α : Type} [Field α] (L : LibmRbf α) (mesh : List α) (i0 j0 : Nat) : α :=
  L.pow (0 + L.pow (mesh.getD (3 * i0) 0 - mesh.getD (3 * j0) 0) 2
      + L.pow (mesh.getD (3 * i0 + 1) 0 - mesh.getD (3 * j0 + 1) 0) 2
      + L.pow (mesh.getD (3 * i0 + 2) 0 - mesh.getD (3 * j0 + 2) 0) 2) 0.5

/-- The bare basis-function value for the mesh points `i0` and `j0`: the
selected function at the distance divided by `rad`. -/
def virus_bare {α : Type} [LinearOrderedField α] (L : LibmRbf α) (data : STARSH_mddata α)
    (i0 j0 : Nat) : α :=
  virus_rbf L data.kernel (virus_dist L data.particles.point i0 j0 / virus_rad L data)

/-- The entry the kernel leaves for the mesh points `i0` and `j0`. -/
def virus_value {α : Type} [LinearOrderedField α] (L : LibmRbf α) (data : STARSH_mddata α)
    (i0 j0 : Nat) : α :=
  if i0 = j0 ∧ data.isreg ≠ 0 then virus_bare L data i0 j0 + data.reg
  else virus_bare L data i0 j0

/-- The loads of the kernel stay inside `irow`, `icol` and the mesh. -/
def VirusReadsOk {α : Type} (nrows ncols : Int) (irow icol : List Nat)
    (data : STARSH_mddata α) : Prop :=
  nrows.toNat ≤ irow.length ∧ ncols.toNat ≤ icol.length ∧
    (∀ m < nrows.toNat, 3 * irow.getD m 0 + 2 < data.particles.point.length) ∧
    (∀ k < ncols.toNat, 3 * icol.getD k 0 + 2 < data.particles.point.length)

/-- The stores of the kernel stay inside `result`. -/
def VirusWritesOk {α : Type} (nrows ncols lda : Int) (result : List α) : Prop :=
  ∀ k < ncols.toNat, ∀ m < nrows.toNat, k * lda.toNat + m < result.length

/-- The table of the basis functions by kernel id as it is claimed: `0`
Gaussian, `1` Expon, `2` InvQUAD, `3` InvMQUAD, `4` Maternc1, `5` Maternc2, `6`
TPS, `7` CTPS, and Wendland for every other id. -/
def claimed_rbf {α : Type} [LinearOrderedField α] (L : LibmRbf α) (kernel : Int) (d : α) : α :=
  if kernel = 0 then Gaussian L d
  else if kernel = 1 then Expon L d
  else if kernel = 2 then InvQUAD L d
  else if kernel = 3 then InvMQUAD L d
  else if kernel = 4 then Maternc1 L d
  else if kernel = 5 then Maternc2 L d
  else if kernel = 6 then TPS L d
  else if kernel = 7 then CTPS L d
  else Wendland L d

/-- Example object: the mesh points `(0,0,0)` and `(1,0,0)`, kernel id `id`,
one object, no regularisation, `rad = 1`. -/
def exMesh {α : Type} [Field α] (id : Int) : STARSH_mddata α :=
  STARSH_mddata.mk (STARSH_particles.mk 2 3 [0, 0, 0, 1, 0, 0]) id 1 0 0 1

/-- Example object with regularisation: the mesh points `(0,0,0)` and
`(1,0,0)`, kernel id `0`, two objects, `isreg = 1`, `reg = 5` and the negative
`rad = −1`, for which the kernel scales by `0.25·numobj·sqrt(3)`. -/
def exMeshReg {α : Type} [Field α] : STARSH_mddata α :=
  STARSH_mddata.mk (STARSH_particles.mk 2 3 [0, 0, 0, 1, 0, 0]) 0 2 1 5 (-1)

/-! ## The quotient of the `return` statement over exact arithmetic -/

/-- The quotient `a/b` over exact arithmetic: a division by `0` has no value. -/
def exact_div {α : Type} [Field α] [DecidableEq α] (a b : α) : Option α :=
  if b = 0 then none else some (a / b)

/-- The value `starsh_blrm__dfe(M)` returns when the quotient `diff/norm` of
its `return` statement is taken over exact arithmetic: there is no value when
`norm` is `0`. -/
def starsh_blrm__dfe_exact {α δ : Type} [Field α] [DecidableEq α] (sqrt : α → α)
    (M : STARSH_blrm α δ) : Option α :=
  (starsh_blrm__dfe_run sqrt M).bind (fun r => exact_div r.2.diff r.2.norm)

/-- Example format with the kernel that is `0` everywhere: far blocks `(0,1)`
and `(1,0)`, near blocks `(0,0)` and `(1,1)`. -/
def exFormatO {α : Type} [Field α] : STARSH_blrf α Unit :=
  { problem := { kernel := entry_kernel (fun _ _ => 0) }, symm := 'N', row_cluster := exCluster,
    col_cluster := exCluster, nblocks_far := 2, block_far := [0, 1, 1, 0],
    nblocks_near := 2, block_near := [0, 0, 1, 1] }

/-- Example matrix on `exFormatO`: the zero matrix, with far blocks of rank `0`
and regenerated near blocks. -/
def exO {α : Type} [Field α] : STARSH_blrm α Unit :=
  { format := exFormatO, far_rank := [0, 0], far_U := [[], []], far_V := [[], []],
    onfly := 1, near_D := [] }

/-! ## Lists, loops and stores -/

theorem getElem?_eq_some_getD {β : Type} (xs : List β) (i : Nat) (d : β)
    (h : i < xs.length) : xs[i]? = some (xs.getD i d) := by
  simp [List.getD, List.getElem?_eq_getElem h]

theorem forLoop_succ {σ : Type} (n : Nat) (body : Nat → σ → Option σ) (s : σ) :
    forLoop (n + 1) body s = (forLoop n body s).bind (body n) := rfl

theorem set_append_drop {β : Type} (A xs : List β) (n : Nat) (v : β) (hA : A.length = n)
    (hn : n < xs.length) : (A ++ xs.drop n).set n v = (A ++ [v]) ++ xs.drop (n + 1) := by
  subst hA
  rw [List.set_append_right _ _ (le_refl _), List.drop_eq_getElem_cons hn, Nat.sub_self,
    List.set_cons_zero, List.append_assoc, List.singleton_append]

/-- A loop whose iteration `k` stores a value `h k` at index `k` fills the
first `n` entries of the array. -/
theorem forLoop_fill {β : Type} (g : Nat → Option β) (h : Nat → β) (n : Nat)
    (init : List β) (hlen : n ≤ init.length) (hg : ∀ k < n, g k = some (h k)) :
    forLoop n (fun k a => (g k).bind (store a k)) init
      = some ((List.range n).map h ++ init.drop n) := by
  induction n with
  | zero => simp [forLoop]
  | succ m ih =>
    rw [forLoop_succ, ih (Nat.le_of_succ_le hlen) (fun k hk => hg k (Nat.lt_succ_of_lt hk))]
    simp only [Option.some_bind, hg m (Nat.lt_succ_self m), store]
    have hm : m < init.length := hlen
    have hl : m < ((List.range m).map h ++ init.drop m).length := by
      simp; omega
    rw [if_pos hl, set_append_drop _ _ _ _ (by simp) hm, List.range_succ, List.map_append]
    simp

/-! ## The blocks of `starsh_blrm__dfe` -/

theorem cblas_dnrm2_eq {α : Type} [Field α] (sqrt : α → α) (N : Nat) (X : List α)
    (h : N ≤ X.length) : cblas_dnrm2 sqrt N X = some (sqrt (sumsq (X.take N))) := by
  simp [cblas_dnrm2, h]

theorem dfe_col_norms_eq {α : Type} [Field α] (sqrt : α → α) (nrows ncols : Nat) (D : List α)
    (h : nrows * ncols ≤ D.length) :
    dfe_col_norms sqrt nrows ncols D
      = some ((List.range ncols).map
          (fun k => sqrt (sumsq ((D.drop (k * nrows)).take nrows)))) := by
  unfold dfe_col_norms
  rw [forLoop_fill (fun k => cblas_dnrm2 sqrt nrows (D.drop (k * nrows)))
    (fun k => sqrt (sumsq ((D.drop (k * nrows)).take nrows))) ncols _ (by simp)]
  · simp
  · intro k hk
    apply cblas_dnrm2_eq
    rw [List.length_drop]
    have h1 : (k + 1) * nrows ≤ nrows * ncols := by
      rw [Nat.mul_comm nrows ncols]
      exact Nat.mul_le_mul_right _ hk
    have h2 : (k + 1) * nrows = k * nrows + nrows := by ring
    omega

theorem dfe_block_fnorm_eq {α : Type} [Field α] (sqrt : α → α) (nrows ncols : Nat)
    (D : List α) (h : nrows * ncols ≤ D.length) :
    dfe_block_fnorm sqrt nrows ncols D = some (colnorm2 sqrt nrows ncols D) := by
  simp only [dfe_block_fnorm, dfe_col_norms_eq sqrt nrows ncols D h, Option.bind_eq_bind,
    Option.some_bind]
  rw [cblas_dnrm2_eq _ _ _ (by simp), List.take_of_length_le (by simp)]
  rfl

theorem dfe_block_dims_eq {δ : Type} (R C : STARSH_cluster δ) (blocks : List Nat) (bi : Nat)
    (h : BlockOk R C blocks bi) :
    dfe_block_dims R C blocks bi
      = some (blk_i blocks bi, blk_j blocks bi, R.size.getD (blk_i blocks bi) 0,
          C.size.getD (blk_j blocks bi) 0) := by
  obtain ⟨h1, h2, h3⟩ := h
  simp only [blk_i, blk_j] at h2 h3 ⊢
  simp only [dfe_block_dims, Option.bind_eq_bind,
    getElem?_eq_some_getD blocks (2 * bi) 0 (by omega),
    getElem?_eq_some_getD blocks (2 * bi + 1) 0 h1, Option.some_bind,
    getElem?_eq_some_getD R.size _ 0 h2, getElem?_eq_some_getD C.size _ 0 h3]
  rfl

theorem dfe_kernel_block_eq {α δ : Type} [Field α] (F : STARSH_blrf α δ) (i j : Nat)
    (h : KernelOk F i j) :
    dfe_kernel_block F i j (F.row_cluster.size.getD i 0) (F.col_cluster.size.getD j 0)
        = some (kernel_block F i j) ∧
      (kernel_block F i j).length
        = F.row_cluster.size.getD i 0 * F.col_cluster.size.getD j 0 := by
  obtain ⟨_, _, h3⟩ := h
  unfold kernel_block
  cases hk : dfe_kernel_block F i j (F.row_cluster.size.getD i 0)
      (F.col_cluster.size.getD j 0) with
  | none => rw [hk] at h3; simp at h3
  | some D =>
    rw [hk] at h3
    simp only [Option.map_some', Option.some.injEq] at h3
    exact ⟨rfl, h3⟩

theorem dgemm_guard (m k la : Nat) (h : m * k ≤ la) :
    ∀ r < m, ∀ l < k, r + l * m < la := by
  intro r hr l hl
  have h1 : (l + 1) * m ≤ k * m := Nat.mul_le_mul_right _ hl
  have h2 : (l + 1) * m = l * m + m := by ring
  have h3 : k * m = m * k := Nat.mul_comm _ _
  omega

theorem cblas_dgemm_NT_isSome {α : Type} [Field α] (m n k : Nat) (alpha beta : α)
    (A B C : List α) (hA : m * k ≤ A.length) (hB : n * k ≤ B.length)
    (hC : m * n ≤ C.length) :
    ∃ D, cblas_dgemm_NT m n k alpha A m B n beta C m = some D ∧ D.length = C.length := by
  unfold cblas_dgemm_NT
  rw [if_pos ⟨dgemm_guard m k _ hA, dgemm_guard n k _ hB, dgemm_guard m n _ hC, le_refl m⟩]
  exact ⟨_, rfl, by simp⟩

theorem far_diff_buf_spec {α δ : Type} [Field α] (M : STARSH_blrm α δ) (bi : Nat)
    (h : FarBlockOk M bi) :
    cblas_dgemm_NT (far_nrows M bi) (far_ncols M bi) (far_rk M bi) (-1) (M.far_U.getD bi [])
        (far_nrows M bi) (M.far_V.getD bi []) (far_ncols M bi) 1 (far_D M bi)
        (far_nrows M bi) = some (far_diff_buf M bi) ∧
      (far_diff_buf M bi).length = far_nrows M bi * far_ncols M bi := by
  obtain ⟨_, _, _, _, _, hU, hV, hK⟩ := h
  have hD := (dfe_kernel_block_eq M.format _ _ hK).2
  obtain ⟨D, h1, h2⟩ := cblas_dgemm_NT_isSome (far_nrows M bi) (far_ncols M bi) (far_rk M bi)
    (-1) 1 (M.far_U.getD bi []) (M.far_V.getD bi []) (far_D M bi) hU hV (le_of_eq hD.symm)
  unfold far_diff_buf
  rw [h1]
  exact ⟨rfl, by rw [Option.getD_some, h2]; exact hD⟩

theorem dfe_far_norms_eq {α δ : Type} [Field α] (sqrt : α → α) (M : STARSH_blrm α δ)
    (bi : Nat) (h : FarBlockOk M bi) :
    dfe_far_norms sqrt M bi
      = some (blk_i M.format.block_far bi, blk_j M.format.block_far bi,
          colnorm2 sqrt (far_nrows M bi) (far_ncols M bi) (far_D M bi),
          colnorm2 sqrt (far_nrows M bi) (far_ncols M bi) (far_diff_buf M bi)) := by
  have hdg := far_diff_buf_spec M bi h
  obtain ⟨hB, hr, hr0, hU, hV, _, _, hK⟩ := h
  have hker := dfe_kernel_block_eq M.format _ _ hK
  have hneg : ¬ M.far_rank.getD bi 0 < 0 := not_lt.mpr hr0
  simp only [dfe_far_norms, Option.bind_eq_bind, dfe_block_dims_eq _ _ _ _ hB,
    Option.some_bind, getElem?_eq_some_getD M.far_rank bi 0 hr, hker.1,
    getElem?_eq_some_getD M.far_U bi [] hU, getElem?_eq_some_getD M.far_V bi [] hV]
  rw [dfe_block_fnorm_eq sqrt _ _ _ (le_of_eq hker.2.symm)]
  simp only [Option.some_bind, if_neg hneg]
  have hdg1 := hdg.1
  simp only [far_nrows, far_ncols, far_rk, far_D] at hdg1 ⊢
  rw [hdg1]
  simp only [Option.some_bind]
  have hdg2 := dfe_block_fnorm_eq sqrt _ _ _ (le_of_eq hdg.2.symm)
  simp only [far_nrows, far_ncols] at hdg2
  rw [hdg2]
  rfl

theorem dfe_near_norm_stored_eq {α δ : Type} [Field α] (sqrt : α → α) (M : STARSH_blrm α δ)
    (bi : Nat) (h : NearBlockOk M bi) (ho : M.onfly = 0) :
    dfe_near_norm_stored sqrt M bi
      = some (blk_i M.format.block_near bi, blk_j M.format.block_near bi,
          colnorm2 sqrt (near_nrows M bi) (near_ncols M bi) (near_D_used M bi)) := by
  obtain ⟨hB, h2⟩ := h
  rw [if_pos ho] at h2
  have h3 := dfe_block_fnorm_eq sqrt _ _ _ h2.2
  simp only [near_nrows, near_ncols] at h3
  simp only [dfe_near_norm_stored, Option.bind_eq_bind, dfe_block_dims_eq _ _ _ _ hB,
    Option.some_bind, getElem?_eq_some_getD M.near_D bi [] h2.1, h3, near_D_used, if_pos ho]
  rfl

theorem dfe_near_norm_onfly_eq {α δ : Type} [Field α] (sqrt : α → α) (M : STARSH_blrm α δ)
    (bi : Nat) (h : NearBlockOk M bi) (ho : M.onfly ≠ 0) :
    dfe_near_norm_onfly sqrt M bi
      = some (blk_i M.format.block_near bi, blk_j M.format.block_near bi,
          colnorm2 sqrt (near_nrows M bi) (near_ncols M bi) (near_D_used M bi)) := by
  obtain ⟨hB, h2⟩ := h
  rw [if_neg ho] at h2
  have hker := dfe_kernel_block_eq M.format _ _ h2
  have h3 := dfe_block_fnorm_eq sqrt _ _ _ (le_of_eq hker.2.symm)
  simp only [dfe_near_norm_onfly, Option.bind_eq_bind, dfe_block_dims_eq _ _ _ _ hB,
    Option.some_bind, hker.1, h3, near_D_used, if_neg ho]
  rfl

/-! ## The loops over the blocks -/

theorem store_eq {β : Type} (a : List β) (k : Nat) (v : β) (h : k < a.length) :
    store a k v = some (a.set k v) := by
  simp [store, h]

theorem scaleAt_set {β : Type} [Mul β] (a : List β) (k : Nat) (v c : β) (h : k < a.length) :
    scaleAt (a.set k v) k c = some (a.set k (v * c)) := by
  have h1 : k < (a.set k v).length := by simpa using h
  have h2 : (a.set k v)[k]? = some v := by simp [h]
  simp only [scaleAt, h2, Option.some_bind, store_eq _ _ _ h1, List.set_set]

theorem dfe_far_step_eq {α δ : Type} [Field α] (sqrt : α → α) (bi : Nat)
    (st : DfeFrame α δ) (i j : Nat) (tn td : α)
    (h : dfe_far_norms sqrt st.M bi = some (i, j, tn, td))
    (h1 : bi < st.block_norm.length) (h2 : bi < st.far_block_diff.length) :
    dfe_far_step sqrt bi st
      = some { st with
          block_norm := st.block_norm.set bi (symm_scaled sqrt st.M.format.symm i j tn),
          far_block_diff :=
            st.far_block_diff.set bi (symm_scaled sqrt st.M.format.symm i j td) } := by
  simp only [dfe_far_step, h, Option.bind_eq_bind, Option.some_bind, store_eq _ _ _ h1,
    store_eq _ _ _ h2, symm_scaled]
  by_cases hc : i ≠ j ∧ st.M.format.symm = 'S'
  · simp only [if_pos hc, scaleAt_set _ _ _ _ h1, scaleAt_set _ _ _ _ h2, Option.some_bind]
    rfl
  · simp only [if_neg hc]
    rfl

theorem dfe_near_step_eq {α δ : Type} [Field α] (sqrt : α → α)
    (near_norm : STARSH_blrm α δ → Nat → Option (Nat × Nat × α)) (nbf bi : Nat)
    (st : DfeFrame α δ) (i j : Nat) (v : α)
    (h : near_norm st.M bi = some (i, j, v)) (h1 : nbf + bi < st.block_norm.length) :
    dfe_near_step sqrt near_norm nbf bi st
      = some { st with
          block_norm :=
            st.block_norm.set (nbf + bi) (symm_scaled sqrt st.M.format.symm i j v) } := by
  simp only [dfe_near_step, h, Option.bind_eq_bind, Option.some_bind, store_eq _ _ _ h1,
    symm_scaled]
  by_cases hc : i ≠ j ∧ st.M.format.symm = 'S'
  · simp only [if_pos hc, scaleAt_set _ _ _ _ h1, Option.some_bind]
    rfl
  · simp only [if_neg hc]
    rfl

theorem fill_step {β : Type} (h : Nat → β) (xs : List β) (m : Nat) (v : β) (hv : v = h m)
    (hm : m < xs.length) :
    ((List.range m).map h ++ xs.drop m).set m v
      = (List.range (m + 1)).map h ++ xs.drop (m + 1) := by
  rw [set_append_drop _ xs m v (by simp) hm, List.range_succ, List.map_append, hv]
  rfl

theorem far_loop_eq {α δ : Type} [Field α] (sqrt : α → α) (M : STARSH_blrm α δ)
    (fi fj : Nat → Nat) (tn td : Nat → α) (n : Nat) (bn fd : List α) (d nn : α)
    (hf : ∀ bi < n, dfe_far_norms sqrt M bi = some (fi bi, fj bi, tn bi, td bi))
    (h1 : n ≤ bn.length) (h2 : n ≤ fd.length) :
    forLoop n (dfe_far_step sqrt)
        { M := M, block_norm := bn, far_block_diff := fd, diff := d, norm := nn }
      = some
          { M := M,
            block_norm := (List.range n).map
                (fun bi => symm_scaled sqrt M.format.symm (fi bi) (fj bi) (tn bi)) ++ bn.drop n,
            far_block_diff := (List.range n).map
                (fun bi => symm_scaled sqrt M.format.symm (fi bi) (fj bi) (td bi)) ++ fd.drop n,
            diff := d, norm := nn } := by
  induction n with
  | zero => simp [forLoop]
  | succ m ih =>
    rw [forLoop_succ, ih (fun k hk => hf k (Nat.lt_succ_of_lt hk)) (Nat.le_of_succ_le h1)
      (Nat.le_of_succ_le h2), Option.some_bind,
      dfe_far_step_eq sqrt m _ _ _ _ _ (hf m (Nat.lt_succ_self m))
        (by simp only [List.length_append, List.length_map, List.length_range,
              List.length_drop]; omega)
        (by simp only [List.length_append, List.length_map, List.length_range,
              List.length_drop]; omega)]
    simp only [Option.some.injEq, DfeFrame.mk.injEq, true_and, and_true]
    exact ⟨fill_step _ _ _ _ rfl h1, fill_step _ _ _ _ rfl h2⟩

theorem near_loop_eq {α δ : Type} [Field α] (sqrt : α → α)
    (near_norm : STARSH_blrm α δ → Nat → Option (Nat × Nat × α)) (M : STARSH_blrm α δ)
    (ni nj : Nat → Nat) (nv : Nat → α) (nbf n : Nat) (pre rest fd : List α) (d nn : α)
    (hf : ∀ bi < n, near_norm M bi = some (ni bi, nj bi, nv bi))
    (hp : pre.length = nbf) (h1 : n ≤ rest.length) :
    forLoop n (dfe_near_step sqrt near_norm nbf)
        { M := M, block_norm := pre ++ rest, far_block_diff := fd, diff := d, norm := nn }
      = some
          { M := M,
            block_norm := pre ++ ((List.range n).map
                (fun bi => symm_scaled sqrt M.format.symm (ni bi) (nj bi) (nv bi))
                  ++ rest.drop n),
            far_block_diff := fd, diff := d, norm := nn } := by
  induction n with
  | zero => simp [forLoop]
  | succ m ih =>
    rw [forLoop_succ, ih (fun k hk => hf k (Nat.lt_succ_of_lt hk)) (Nat.le_of_succ_le h1),
      Option.some_bind,
      dfe_near_step_eq sqrt near_norm nbf m _ _ _ _ (hf m (Nat.lt_succ_self m))
        (by simp only [List.length_append, List.length_map, List.length_range,
              List.length_drop]; omega)]
    simp only [Option.some.injEq, DfeFrame.mk.injEq, true_and, and_true]
    rw [List.set_append_right _ _ (by omega), hp, Nat.add_sub_cancel_left]
    exact congrArg _ (fill_step _ _ _ _ rfl h1)

/-- On a well-formed object `starsh_blrm__dfe` returns `diff/norm`, and its
memory at the `return` is `dfe_final`. -/
theorem dfe_run_eq {α δ : Type} [Field α] (sqrt : α → α) (M : STARSH_blrm α δ)
    (h : WellFormed M) :
    starsh_blrm__dfe_run sqrt M
      = some (dfe_diff sqrt M / dfe_norm sqrt M, dfe_final sqrt M) := by
  obtain ⟨hfar, hnear⟩ := h
  have hF := far_loop_eq sqrt M (blk_i M.format.block_far) (blk_j M.format.block_far)
    (fun bi => colnorm2 sqrt (far_nrows M bi) (far_ncols M bi) (far_D M bi))
    (fun bi => colnorm2 sqrt (far_nrows M bi) (far_ncols M bi) (far_diff_buf M bi))
    M.format.nblocks_far (List.replicate (M.format.nblocks_far + M.format.nblocks_near) 0)
    (List.replicate M.format.nblocks_far 0) 0 0
    (fun bi hbi => dfe_far_norms_eq sqrt M bi (hfar bi hbi)) (by simp) (by simp)
  have hdrop1 : (List.replicate (M.format.nblocks_far + M.format.nblocks_near) (0 : α)).drop
      M.format.nblocks_far = List.replicate M.format.nblocks_near 0 := by simp
  have hdrop2 : (List.replicate M.format.nblocks_far (0 : α)).drop M.format.nblocks_far = [] := by
    simp
  rw [hdrop1, hdrop2, List.append_nil] at hF
  have hN : dfe_near_loop sqrt M.format.nblocks_far M.format.nblocks_near
      { M := M, block_norm := far_norm_list sqrt M ++ List.replicate M.format.nblocks_near 0,
        far_block_diff := far_diff_list sqrt M, diff := 0, norm := 0 }
      = some { M := M, block_norm := far_norm_list sqrt M ++ near_norm_list sqrt M,
               far_block_diff := far_diff_list sqrt M, diff := 0, norm := 0 } := by
    unfold dfe_near_loop
    by_cases ho : M.onfly = 0
    · rw [if_pos ho, near_loop_eq sqrt _ M (blk_i M.format.block_near)
        (blk_j M.format.block_near)
        (fun bi => colnorm2 sqrt (near_nrows M bi) (near_ncols M bi) (near_D_used M bi))
        M.format.nblocks_far M.format.nblocks_near _ _ _ _ _
        (fun bi hbi => dfe_near_norm_stored_eq sqrt M bi (hnear bi hbi) ho)
        (by simp [far_norm_list]) (by simp)]
      simp [near_norm_list, near_norm_val]
    · rw [if_neg ho, near_loop_eq sqrt _ M (blk_i M.format.block_near)
        (blk_j M.format.block_near)
        (fun bi => colnorm2 sqrt (near_nrows M bi) (near_ncols M bi) (near_D_used M bi))
        M.format.nblocks_far M.format.nblocks_near _ _ _ _ _
        (fun bi hbi => dfe_near_norm_onfly_eq sqrt M bi (hnear bi hbi) ho)
        (by simp [far_norm_list]) (by simp)]
      simp [near_norm_list, near_norm_val]
  have hd : cblas_dnrm2 sqrt M.format.nblocks_far (far_diff_list sqrt M)
      = some (dfe_diff sqrt M) := by
    rw [cblas_dnrm2_eq _ _ _ (by simp [far_diff_list]),
      List.take_of_length_le (by simp [far_diff_list])]
    rfl
  have hn : cblas_dnrm2 sqrt (M.format.nblocks_far + M.format.nblocks_near)
      (far_norm_list sqrt M ++ near_norm_list sqrt M) = some (dfe_norm sqrt M) := by
    rw [cblas_dnrm2_eq _ _ _ (by simp [far_norm_list, near_norm_list]),
      List.take_of_length_le (by simp [far_norm_list, near_norm_list])]
    rfl
  have hF2 : forLoop M.format.nblocks_far (dfe_far_step sqrt)
      { M := M, block_norm := List.replicate (M.format.nblocks_far + M.format.nblocks_near) 0,
        far_block_diff := List.replicate M.format.nblocks_far 0, diff := 0, norm := 0 }
      = some { M := M,
               block_norm := far_norm_list sqrt M ++ List.replicate M.format.nblocks_near 0,
               far_block_diff := far_diff_list sqrt M, diff := 0, norm := 0 } := hF
  unfold starsh_blrm__dfe_run
  simp only [Option.bind_eq_bind]
  rw [hF2]
  simp only [Option.some_bind]
  rw [hN]
  simp only [Option.some_bind]
  rw [hd, hn]
  rfl

/-! ## Sums of squares -/

theorem sumsq_nil {α : Type} [Field α] : sumsq ([] : List α) = 0 := rfl

theorem sumsq_append {α : Type} [Field α] (xs ys : List α) :
    sumsq (xs ++ ys) = sumsq xs + sumsq ys := by
  simp [sumsq]

theorem sumsq_map_range {α : Type} [Field α] (n : Nat) (f : Nat → α) :
    sumsq ((List.range n).map f) = ((List.range n).map (fun k => f k * f k)).sum := by
  simp [sumsq, Function.comp_def]

theorem sumsq_take_eq {α : Type} [Field α] (xs : List α) (n : Nat) :
    sumsq (xs.take n) = ((List.range n).map (fun r => xs.getD r 0 * xs.getD r 0)).sum := by
  induction n with
  | zero => simp [sumsq]
  | succ m ih =>
    rw [List.take_succ, sumsq_append, ih, List.range_succ, List.map_append, List.sum_append]
    congr 1
    cases h : xs[m]? with
    | none => simp [sumsq, List.getD, h]
    | some v => simp [sumsq, List.getD, h]

theorem getD_drop_eq {α : Type} (xs : List α) (s r : Nat) (d : α) :
    (xs.drop s).getD r d = xs.getD (s + r) d := by
  simp [List.getD, List.getElem?_drop]

/-- The sum of the squares of column `c` of a column-major matrix. -/
theorem sumsq_column {α : Type} [Field α] (D : List α) (nrows c : Nat) :
    sumsq ((D.drop (c * nrows)).take nrows)
      = ((List.range nrows).map
          (fun r => D.getD (r + c * nrows) 0 * D.getD (r + c * nrows) 0)).sum := by
  rw [sumsq_take_eq]
  congr 1
  apply List.map_congr_left
  intro r _
  rw [getD_drop_eq, Nat.add_comm]

theorem block_sq_congr {α : Type} [Field α] (nrows ncols : Nat)
    (A B : Nat → Nat → α) (h : ∀ r < nrows, ∀ c < ncols, A r c = B r c) :
    block_sq nrows ncols A = block_sq nrows ncols B := by
  unfold block_sq
  congr 1
  apply List.map_congr_left
  intro c hc
  congr 1
  apply List.map_congr_left
  intro r hr
  rw [h r (List.mem_range.mp hr) c (List.mem_range.mp hc)]

theorem frobenius_congr {α : Type} [Field α] (sqrt : α → α) (nrows ncols : Nat)
    (A B : Nat → Nat → α) (h : ∀ r < nrows, ∀ c < ncols, A r c = B r c) :
    frobenius sqrt nrows ncols A = frobenius sqrt nrows ncols B := by
  unfold frobenius
  rw [block_sq_congr nrows ncols A B h]

/-! ## Exact real arithmetic -/

theorem sumsq_nonneg (xs : List ℝ) : 0 ≤ sumsq xs := by
  unfold sumsq
  apply List.sum_nonneg
  intro x hx
  obtain ⟨y, _, rfl⟩ := List.mem_map.mp hx
  exact mul_self_nonneg y

/-- Over the reals the norm of the column norms is the Frobenius norm. -/
theorem colnorm2_real (nrows ncols : Nat) (D : List ℝ) :
    colnorm2 Real.sqrt nrows ncols D
      = frobenius Real.sqrt nrows ncols (fun r c => D.getD (r + c * nrows) 0) := by
  unfold colnorm2 frobenius block_sq
  rw [sumsq_map_range]
  congr 2
  apply List.map_congr_left
  intro c _
  rw [Real.mul_self_sqrt (sumsq_nonneg _), sumsq_column]

/-! ## The block after `cblas_dgemm` -/

theorem cblas_dgemm_NT_entry {α : Type} [Field α] (m n k : Nat) (alpha beta : α)
    (A B C D : List α) (h : cblas_dgemm_NT m n k alpha A m B n beta C m = some D)
    (r c : Nat) (hr : r < m) (hc : c < n) :
    D.getD (r + c * m) 0
      = alpha * dot_NT k A m B n r c + beta * C.getD (r + c * m) 0 := by
  unfold cblas_dgemm_NT at h
  split at h
  · rename_i hg
    have hp : r + c * m < C.length := hg.2.2.1 r hr c hc
    have hmod : (r + c * m) % m = r := by
      rw [Nat.add_mul_mod_self_right]
      exact Nat.mod_eq_of_lt hr
    have hdiv : (r + c * m) / m = c := by
      rw [Nat.add_mul_div_right _ _ (by omega), Nat.div_eq_of_lt hr, Nat.zero_add]
    simp only [Option.some.injEq] at h
    rw [← h, List.getD_eq_getElem?_getD, List.getElem?_map,
      List.getElem?_range hp]
    simp only [Option.map_some', Option.getD_some, hmod, hdiv, hr, hc, and_self, if_true]
  · simp at h

theorem far_diff_buf_entry {α δ : Type} [Field α] (M : STARSH_blrm α δ) (bi : Nat)
    (h : FarBlockOk M bi) (r c : Nat) (hr : r < far_nrows M bi) (hc : c < far_ncols M bi) :
    (far_diff_buf M bi).getD (r + c * far_nrows M bi) 0
      = (far_D M bi).getD (r + c * far_nrows M bi) 0 - far_UVt M bi r c := by
  rw [cblas_dgemm_NT_entry _ _ _ _ _ _ _ _ _ (far_diff_buf_spec M bi h).1 r c hr hc]
  unfold far_UVt
  ring

/-- Lines 39-66 over the reals: `tmpnorm` is the Frobenius norm of `D` and
`tmpdiff` the Frobenius norm of `D − U·Vᵗ`. -/
theorem dfe_far_norms_real {δ : Type} (M : STARSH_blrm ℝ δ) (bi : Nat)
    (h : FarBlockOk M bi) :
    dfe_far_norms Real.sqrt M bi
      = some (blk_i M.format.block_far bi, blk_j M.format.block_far bi,
          frobenius Real.sqrt (far_nrows M bi) (far_ncols M bi)
            (fun r c => (far_D M bi).getD (r + c * far_nrows M bi) 0),
          frobenius Real.sqrt (far_nrows M bi) (far_ncols M bi)
            (fun r c => (far_D M bi).getD (r + c * far_nrows M bi) 0 - far_UVt M bi r c)) := by
  rw [dfe_far_norms_eq Real.sqrt M bi h, colnorm2_real, colnorm2_real,
    frobenius_congr Real.sqrt _ _ _ _ (fun r hr c hc => far_diff_buf_entry M bi h r c hr hc)]

/-! ## The example objects -/

theorem entry_kernel_computes {α δ : Type} [Field α] (K : Nat → Nat → α) (rd cd : δ) :
    KernelComputes (entry_kernel K) rd cd K := by
  intro nrows ncols irow icol buf h1 h2 h3
  refine ⟨_, if_pos ⟨h1, h2, le_of_eq h3.symm⟩, by simp [h3], ?_⟩
  intro a ha b hb
  have hp : a + b * nrows < nrows * ncols := by
    have h4 : (b + 1) * nrows ≤ ncols * nrows := Nat.mul_le_mul_right _ hb
    have h5 : (b + 1) * nrows = b * nrows + nrows := by ring
    have h6 : ncols * nrows = nrows * ncols := Nat.mul_comm _ _
    omega
  have hmod : (a + b * nrows) % nrows = a := by
    rw [Nat.add_mul_mod_self_right]
    exact Nat.mod_eq_of_lt ha
  have hdiv : (a + b * nrows) / nrows = b := by
    rw [Nat.add_mul_div_right _ _ (by omega), Nat.div_eq_of_lt ha, Nat.zero_add]
  rw [List.getD_eq_getElem?_getD, List.getElem?_map, List.getElem?_range (by omega)]
  simp only [Option.map_some', Option.getD_some, hp, if_true, hmod, hdiv]

theorem exN_wf {α : Type} [Field α] : WellFormed (exN : STARSH_blrm α Unit) := by
  constructor
  · intro bi hbi
    have hbi2 : bi < 2 := hbi
    interval_cases bi <;>
      simp [FarBlockOk, BlockOk, KernelOk, exN, exFormatN, exCluster, blk_i, blk_j, far_nrows,
        far_ncols, far_rk, dfe_kernel_block, entry_kernel]
  · intro bi hbi
    have hbi2 : bi < 2 := hbi
    interval_cases bi <;>
      simp [NearBlockOk, BlockOk, KernelOk, exN, exFormatN, exCluster, blk_i, blk_j,
        dfe_kernel_block, entry_kernel]

theorem exS_wf {α : Type} [Field α] : WellFormed (exS : STARSH_blrm α Unit) := by
  constructor
  · intro bi hbi
    have hbi2 : bi < 1 := hbi
    interval_cases bi
    simp [FarBlockOk, BlockOk, KernelOk, exS, exFormatS, exCluster, blk_i, blk_j, far_nrows,
        far_ncols, far_rk, dfe_kernel_block, entry_kernel]
  · intro bi hbi
    have hbi2 : bi < 2 := hbi
    interval_cases bi <;>
      simp [NearBlockOk, BlockOk, exS, exFormatS, exCluster, blk_i, blk_j,
        near_nrows, near_ncols]

/-! ## Claims about the memory of `starsh_blrm__dfe` -/

/-- C8: on a well-formed object `starsh_blrm__dfe` returns, and the object `M`
in its memory at the `return` is the object it was called with: every far rank,
every entry of every `U[bi]` and `V[bi]`, every stored near block, the `onfly`
flag, the block lists and the cluster tables are unchanged; only the local
buffers of the frame are written. -/
theorem C8_dfe_leaves_input_unchanged {α δ : Type} [Field α] (sqrt : α → α)
    (M : STARSH_blrm α δ) (h : WellFormed M) :
    ∃ v fr, starsh_blrm__dfe_run sqrt M = some (v, fr) ∧ fr.M = M := by
  exact ⟨_, _, dfe_run_eq sqrt M h, rfl⟩

theorem C8_witness :
    WellFormed (exN : STARSH_blrm ℝ Unit) ∧
      ∃ v fr, starsh_blrm__dfe_run Real.sqrt (exN : STARSH_blrm ℝ Unit) = some (v, fr) ∧
        fr.M = exN :=
  ⟨exN_wf, C8_dfe_leaves_input_unchanged Real.sqrt exN exN_wf⟩

theorem getElem?_map_range {β : Type} (f : Nat → β) (n k : Nat) (h : k < n) :
    ((List.range n).map f)[k]? = some (f k) := by
  rw [List.getElem?_map, List.getElem?_range h]
  rfl

/-- C4: at the `return`, `far_block_norm[bi]` and `far_block_diff[bi]` hold the
block norm and the block error norm of lines 56 and 66 multiplied by `√2`
exactly when `i != j` and the symmetry flag is `'S'`, and `near_block_norm[bi]`
holds the near block norm multiplied by `√2` under the same condition; no
scaling is applied otherwise. -/
theorem C4_symmetric_scaling {δ : Type} (M : STARSH_blrm ℝ δ) (h : WellFormed M) :
    ∃ v fr, starsh_blrm__dfe_run Real.sqrt M = some (v, fr) ∧
      (∀ bi < M.format.nblocks_far, ∃ i j tmpnorm tmpdiff,
        dfe_far_norms Real.sqrt M bi = some (i, j, tmpnorm, tmpdiff) ∧
        fr.block_norm[bi]?
          = some (if i ≠ j ∧ M.format.symm = 'S' then tmpnorm * Real.sqrt 2 else tmpnorm) ∧
        fr.far_block_diff[bi]?
          = some (if i ≠ j ∧ M.format.symm = 'S' then tmpdiff * Real.sqrt 2 else tmpdiff)) ∧
      (∀ bi < M.format.nblocks_near, ∃ i j nrm,
        (if M.onfly = 0 then dfe_near_norm_stored Real.sqrt M bi
          else dfe_near_norm_onfly Real.sqrt M bi) = some (i, j, nrm) ∧
        fr.block_norm[M.format.nblocks_far + bi]?
          = some (if i ≠ j ∧ M.format.symm = 'S' then nrm * Real.sqrt 2 else nrm)) := by
  refine ⟨_, _, dfe_run_eq Real.sqrt M h, ?_, ?_⟩
  · intro bi hbi
    refine ⟨_, _, _, _, dfe_far_norms_eq Real.sqrt M bi (h.1 bi hbi), ?_, ?_⟩
    · show (far_norm_list Real.sqrt M ++ near_norm_list Real.sqrt M)[bi]? = _
      rw [List.getElem?_append_left (by simpa [far_norm_list] using hbi)]
      exact getElem?_map_range _ _ _ hbi
    · show (far_diff_list Real.sqrt M)[bi]? = _
      exact getElem?_map_range _ _ _ hbi
  · intro bi hbi
    have hval : (far_norm_list Real.sqrt M ++ near_norm_list Real.sqrt M)[
        M.format.nblocks_far + bi]? = some (near_norm_val Real.sqrt M bi) := by
      rw [List.getElem?_append_right (by simp [far_norm_list])]
      simp only [far_norm_list, List.length_map, List.length_range, Nat.add_sub_cancel_left]
      exact getElem?_map_range _ _ _ hbi
    by_cases ho : M.onfly = 0
    · exact ⟨_, _, _, by rw [if_pos ho]; exact dfe_near_norm_stored_eq _ M bi (h.2 bi hbi) ho,
        hval⟩
    · exact ⟨_, _, _, by rw [if_neg ho]; exact dfe_near_norm_onfly_eq _ M bi (h.2 bi hbi) ho,
        hval⟩

theorem C4_witness :
    WellFormed (exS : STARSH_blrm ℝ Unit) ∧
    ∃ v fr, starsh_blrm__dfe_run Real.sqrt (exS : STARSH_blrm ℝ Unit) = some (v, fr) ∧
      (∀ bi < (exS : STARSH_blrm ℝ Unit).format.nblocks_far, ∃ i j tmpnorm tmpdiff,
        dfe_far_norms Real.sqrt (exS : STARSH_blrm ℝ Unit) bi = some (i, j, tmpnorm, tmpdiff) ∧
        fr.block_norm[bi]?
          = some (if i ≠ j ∧ (exS : STARSH_blrm ℝ Unit).format.symm = 'S'
              then tmpnorm * Real.sqrt 2 else tmpnorm) ∧
        fr.far_block_diff[bi]?
          = some (if i ≠ j ∧ (exS : STARSH_blrm ℝ Unit).format.symm = 'S'
              then tmpdiff * Real.sqrt 2 else tmpdiff)) ∧
      (∀ bi < (exS : STARSH_blrm ℝ Unit).format.nblocks_near, ∃ i j nrm,
        (if (exS : STARSH_blrm ℝ Unit).onfly = 0
          then dfe_near_norm_stored Real.sqrt (exS : STARSH_blrm ℝ Unit) bi
          else dfe_near_norm_onfly Real.sqrt (exS : STARSH_blrm ℝ Unit) bi) = some (i, j, nrm) ∧
        fr.block_norm[(exS : STARSH_blrm ℝ Unit).format.nblocks_far + bi]?
          = some (if i ≠ j ∧ (exS : STARSH_blrm ℝ Unit).format.symm = 'S'
              then nrm * Real.sqrt 2 else nrm)) :=
  ⟨exS_wf, C4_symmetric_scaling exS exS_wf⟩

/-- C6: for a well-formed far block over the reals, the value `tmpnorm` that
line 56 stores in `far_block_norm[bi]` before the symmetric scaling (the 2-norm
of the column 2-norms of `D`, read column-major with leading dimension
`nrows`) is the Frobenius norm of `D`, and the value `tmpdiff` that line 66
stores in `far_block_diff[bi]` is the Frobenius norm of `D − U[bi]·V[bi]ᵗ` with
`(U·Vᵗ)[r,c] = Σ_{k<rank} U[r + k·nrows]·V[c + k·ncols]`. -/
theorem C6_far_block_frobenius {δ : Type} (M : STARSH_blrm ℝ δ) (bi : Nat)
    (h : FarBlockOk M bi) :
    ∃ i j tmpnorm tmpdiff, dfe_far_norms Real.sqrt M bi = some (i, j, tmpnorm, tmpdiff) ∧
      tmpnorm = colnorm2 Real.sqrt (far_nrows M bi) (far_ncols M bi) (far_D M bi) ∧
      tmpnorm = frobenius Real.sqrt (far_nrows M bi) (far_ncols M bi)
        (fun r c => (far_D M bi).getD (r + c * far_nrows M bi) 0) ∧
      tmpdiff = frobenius Real.sqrt (far_nrows M bi) (far_ncols M bi)
        (fun r c => (far_D M bi).getD (r + c * far_nrows M bi) 0
          - ((List.range (far_rk M bi)).map (fun k =>
              (M.far_U.getD bi []).getD (r + k * far_nrows M bi) 0
                * (M.far_V.getD bi []).getD (c + k * far_ncols M bi) 0)).sum) :=
  ⟨_, _, _, _, dfe_far_norms_real M bi h, (colnorm2_real _ _ _).symm, rfl, rfl⟩

theorem C6_witness :
    FarBlockOk (exN : STARSH_blrm ℝ Unit) 1 ∧
    ∃ i j tmpnorm tmpdiff,
      dfe_far_norms Real.sqrt (exN : STARSH_blrm ℝ Unit) 1 = some (i, j, tmpnorm, tmpdiff) ∧
      tmpnorm = colnorm2 Real.sqrt (far_nrows (exN : STARSH_blrm ℝ Unit) 1)
        (far_ncols (exN : STARSH_blrm ℝ Unit) 1) (far_D (exN : STARSH_blrm ℝ Unit) 1) ∧
      tmpnorm = frobenius Real.sqrt (far_nrows (exN : STARSH_blrm ℝ Unit) 1)
        (far_ncols (exN : STARSH_blrm ℝ Unit) 1)
        (fun r c => (far_D (exN : STARSH_blrm ℝ Unit) 1).getD
          (r + c * far_nrows (exN : STARSH_blrm ℝ Unit) 1) 0) ∧
      tmpdiff = frobenius Real.sqrt (far_nrows (exN : STARSH_blrm ℝ Unit) 1)
        (far_ncols (exN : STARSH_blrm ℝ Unit) 1)
        (fun r c => (far_D (exN : STARSH_blrm ℝ Unit) 1).getD
            (r + c * far_nrows (exN : STARSH_blrm ℝ Unit) 1) 0
          - ((List.range (far_rk (exN : STARSH_blrm ℝ Unit) 1)).map (fun k =>
              ((exN : STARSH_blrm ℝ Unit).far_U.getD 1 []).getD
                  (r + k * far_nrows (exN : STARSH_blrm ℝ Unit) 1) 0
                * ((exN : STARSH_blrm ℝ Unit).far_V.getD 1 []).getD
                  (c + k * far_ncols (exN : STARSH_blrm ℝ Unit) 1) 0)).sum) :=
  ⟨exN_wf.1 1 (by decide), C6_far_block_frobenius exN 1 (exN_wf.1 1 (by decide))⟩

/-- C7: at the `return`, `far_block_diff` has one entry per far block, the
error norm of that block (scaled by `√2` for an off-diagonal block of a
symmetric format), and the numerator `diff` is its 2-norm; `block_norm` has
one entry per far block followed by one per near block, the norm of that block
(scaled the same way, the near block stored or regenerated), and the
denominator `norm` is its 2-norm; the returned value is `diff/norm`. Replacing
the near part of the object (number, list and contents of the near blocks,
stored or regenerated) changes neither `far_block_diff` nor `diff` nor the
far entries of `block_norm`, and the near entries of `block_norm` are then the
norms of the new near blocks. -/
theorem C7_numerator_far_blocks_only {α δ : Type} [Field α] (sqrt : α → α)
    (M : STARSH_blrm α δ) (nblocks_near : Nat) (block_near : List Nat) (onfly : Int)
    (near_D : List (List α)) (h : WellFormed M)
    (h2 : WellFormed (with_near M nblocks_near block_near onfly near_D)) :
    ∃ v fr v2 fr2, starsh_blrm__dfe_run sqrt M = some (v, fr) ∧
      starsh_blrm__dfe_run sqrt (with_near M nblocks_near block_near onfly near_D)
        = some (v2, fr2) ∧
      fr.far_block_diff.length = M.format.nblocks_far ∧
      (∀ bi < M.format.nblocks_far, ∃ i j tmpnorm tmpdiff,
        dfe_far_norms sqrt M bi = some (i, j, tmpnorm, tmpdiff) ∧
        fr.far_block_diff[bi]?
          = some (if i ≠ j ∧ M.format.symm = 'S' then tmpdiff * sqrt 2 else tmpdiff) ∧
        fr.block_norm[bi]?
          = some (if i ≠ j ∧ M.format.symm = 'S' then tmpnorm * sqrt 2 else tmpnorm)) ∧
      fr.diff = sqrt (sumsq fr.far_block_diff) ∧
      fr.block_norm.length = M.format.nblocks_far + M.format.nblocks_near ∧
      (∀ bi < M.format.nblocks_near, ∃ i j nrm,
        (if M.onfly = 0 then dfe_near_norm_stored sqrt M bi
          else dfe_near_norm_onfly sqrt M bi) = some (i, j, nrm) ∧
        fr.block_norm[M.format.nblocks_far + bi]?
          = some (if i ≠ j ∧ M.format.symm = 'S' then nrm * sqrt 2 else nrm)) ∧
      fr.norm = sqrt (sumsq fr.block_norm) ∧
      v = fr.diff / fr.norm ∧
      fr2.far_block_diff = fr.far_block_diff ∧ fr2.diff = fr.diff ∧
      fr2.block_norm.length = M.format.nblocks_far + nblocks_near ∧
      fr2.block_norm.take M.format.nblocks_far = fr.block_norm.take M.format.nblocks_far ∧
      (∀ bi < nblocks_near, ∃ i j nrm,
        (if onfly = 0
          then dfe_near_norm_stored sqrt (with_near M nblocks_near block_near onfly near_D) bi
          else dfe_near_norm_onfly sqrt (with_near M nblocks_near block_near onfly near_D) bi)
          = some (i, j, nrm) ∧
        fr2.block_norm[M.format.nblocks_far + bi]?
          = some (if i ≠ j ∧ M.format.symm = 'S' then nrm * sqrt 2 else nrm)) ∧
      fr2.norm = sqrt (sumsq fr2.block_norm) ∧
      v2 = fr2.diff / fr2.norm := by
  have near_entry : ∀ (N : STARSH_blrm α δ), WellFormed N → ∀ bi < N.format.nblocks_near,
      ∃ i j nrm,
        (if N.onfly = 0 then dfe_near_norm_stored sqrt N bi
          else dfe_near_norm_onfly sqrt N bi) = some (i, j, nrm) ∧
        (far_norm_list sqrt N ++ near_norm_list sqrt N)[N.format.nblocks_far + bi]?
          = some (if i ≠ j ∧ N.format.symm = 'S' then nrm * sqrt 2 else nrm) := by
    intro N hN bi hbi
    have hval : (far_norm_list sqrt N ++ near_norm_list sqrt N)[
        N.format.nblocks_far + bi]? = some (near_norm_val sqrt N bi) := by
      rw [List.getElem?_append_right (by simp [far_norm_list])]
      simp only [far_norm_list, List.length_map, List.length_range, Nat.add_sub_cancel_left]
      exact getElem?_map_range _ _ _ hbi
    by_cases ho : N.onfly = 0
    · exact ⟨_, _, _, by rw [if_pos ho]; exact dfe_near_norm_stored_eq _ N bi (hN.2 bi hbi) ho,
        hval⟩
    · exact ⟨_, _, _, by rw [if_neg ho]; exact dfe_near_norm_onfly_eq _ N bi (hN.2 bi hbi) ho,
        hval⟩
  refine ⟨_, _, _, _, dfe_run_eq sqrt M h, dfe_run_eq sqrt _ h2,
    by simp [dfe_final, far_diff_list], ?_, rfl,
    by simp [dfe_final, far_norm_list, near_norm_list], near_entry M h, rfl, rfl, rfl, rfl,
    by simp [dfe_final, far_norm_list, near_norm_list, with_near], ?_,
    near_entry (with_near M nblocks_near block_near onfly near_D) h2, rfl, rfl⟩
  · intro bi hbi
    refine ⟨_, _, _, _, dfe_far_norms_eq sqrt M bi (h.1 bi hbi), ?_, ?_⟩
    · show (far_diff_list sqrt M)[bi]? = _
      exact getElem?_map_range _ _ _ hbi
    · show (far_norm_list sqrt M ++ near_norm_list sqrt M)[bi]? = _
      rw [List.getElem?_append_left (by simpa [far_norm_list] using hbi)]
      exact getElem?_map_range _ _ _ hbi
  · show (far_norm_list sqrt (with_near M nblocks_near block_near onfly near_D)
        ++ near_norm_list sqrt (with_near M nblocks_near block_near onfly near_D)).take
          M.format.nblocks_far
      = (far_norm_list sqrt M ++ near_norm_list sqrt M).take M.format.nblocks_far
    have e1 : (far_norm_list sqrt (with_near M nblocks_near block_near onfly near_D)).length
        = M.format.nblocks_far := by simp [far_norm_list, with_near]
    have e2 : (far_norm_list sqrt M).length = M.format.nblocks_far := by simp [far_norm_list]
    rw [List.take_append_of_le_length (le_of_eq e1.symm),
      List.take_append_of_le_length (le_of_eq e2.symm), List.take_of_length_le (le_of_eq e1),
      List.take_of_length_le (le_of_eq e2)]
    rfl

theorem exN_one_stored_wf {α : Type} [Field α] :
    WellFormed (with_near (exN : STARSH_blrm α Unit) 1 [0, 0] 0 [[7]]) := by
  refine ⟨exN_wf.1, ?_⟩
  intro bi hbi
  have hbi1 : bi < 1 := hbi
  interval_cases bi
  simp [NearBlockOk, BlockOk, KernelOk, with_near, exN, exFormatN, exCluster, blk_i, blk_j,
    near_nrows, near_ncols, dfe_kernel_block, entry_kernel]

theorem C7_witness :
    WellFormed (exN : STARSH_blrm ℝ Unit) ∧
    WellFormed (with_near (exN : STARSH_blrm ℝ Unit) 1 [0, 0] 0 [[7]]) ∧
    ∃ v fr v2 fr2, starsh_blrm__dfe_run Real.sqrt (exN : STARSH_blrm ℝ Unit) = some (v, fr) ∧
      starsh_blrm__dfe_run Real.sqrt (with_near (exN : STARSH_blrm ℝ Unit) 1 [0, 0] 0 [[7]])
        = some (v2, fr2) ∧
      fr.far_block_diff.length = 2 ∧ fr.block_norm.length = 4 ∧ fr2.block_norm.length = 3 ∧
      fr2.far_block_diff = fr.far_block_diff ∧ fr2.diff = fr.diff ∧
      fr2.block_norm.take 2 = fr.block_norm.take 2 ∧
      fr.diff = Real.sqrt (sumsq fr.far_block_diff) ∧
      fr.norm = Real.sqrt (sumsq fr.block_norm) ∧
      fr2.norm = Real.sqrt (sumsq fr2.block_norm) ∧
      v = fr.diff / fr.norm ∧ v2 = fr2.diff / fr2.norm := by
  obtain ⟨v, fr, v2, fr2, h1, h2, h3, _, h5, h6, _, h8, h9, h10, h11, h12, h13, _, h15, h16⟩ :=
    C7_numerator_far_blocks_only Real.sqrt exN 1 [0, 0] 0 [[7]] exN_wf exN_one_stored_wf
  exact ⟨exN_wf, exN_one_stored_wf, v, fr, v2, fr2, h1, h2, h3, h6, h12, h10, h11, h13, h5, h8,
    h15, h9, h16⟩

/-! ## The returned value over the reals -/

theorem block_sq_nonneg (nrows ncols : Nat) (A : Nat → Nat → ℝ) : 0 ≤ block_sq nrows ncols A := by
  unfold block_sq
  apply List.sum_nonneg
  intro x hx
  obtain ⟨c, _, rfl⟩ := List.mem_map.mp hx
  apply List.sum_nonneg
  intro y hy
  obtain ⟨r, _, rfl⟩ := List.mem_map.mp hy
  exact mul_self_nonneg _

theorem symm_weight_nonneg (symm : Char) (i j : Nat) : (0 : ℝ) ≤ symm_weight symm i j := by
  unfold symm_weight
  split <;> norm_num

theorem symm_scaled_sq (symm : Char) (i j : Nat) (S : ℝ) (hS : 0 ≤ S) :
    symm_scaled Real.sqrt symm i j (Real.sqrt S) * symm_scaled Real.sqrt symm i j (Real.sqrt S)
      = symm_weight symm i j * S := by
  unfold symm_scaled symm_weight
  split
  · have h2 : Real.sqrt 2 * Real.sqrt 2 = 2 := Real.mul_self_sqrt (by norm_num)
    have hS2 : Real.sqrt S * Real.sqrt S = S := Real.mul_self_sqrt hS
    calc Real.sqrt S * Real.sqrt 2 * (Real.sqrt S * Real.sqrt 2)
        = (Real.sqrt S * Real.sqrt S) * (Real.sqrt 2 * Real.sqrt 2) := by ring
      _ = 2 * S := by rw [h2, hS2]; ring
  · rw [Real.mul_self_sqrt hS, one_mul]

theorem far_norm_val_sq {δ : Type} (M : STARSH_blrm ℝ δ) (bi : Nat) :
    far_norm_val Real.sqrt M bi * far_norm_val Real.sqrt M bi
      = symm_weight M.format.symm (blk_i M.format.block_far bi) (blk_j M.format.block_far bi)
          * far_normsq M bi := by
  unfold far_norm_val
  rw [colnorm2_real]
  exact symm_scaled_sq _ _ _ _ (block_sq_nonneg _ _ _)

theorem far_diff_val_sq {δ : Type} (M : STARSH_blrm ℝ δ) (bi : Nat) (h : FarBlockOk M bi) :
    far_diff_val Real.sqrt M bi * far_diff_val Real.sqrt M bi
      = symm_weight M.format.symm (blk_i M.format.block_far bi) (blk_j M.format.block_far bi)
          * far_diffsq M bi := by
  unfold far_diff_val
  rw [colnorm2_real,
    frobenius_congr Real.sqrt _ _ _ _ (fun r hr c hc => far_diff_buf_entry M bi h r c hr hc)]
  exact symm_scaled_sq _ _ _ _ (block_sq_nonneg _ _ _)

theorem near_norm_val_sq {δ : Type} (M : STARSH_blrm ℝ δ) (bi : Nat) :
    near_norm_val Real.sqrt M bi * near_norm_val Real.sqrt M bi
      = symm_weight M.format.symm (blk_i M.format.block_near bi)
          (blk_j M.format.block_near bi) * near_normsq M bi := by
  unfold near_norm_val
  rw [colnorm2_real]
  exact symm_scaled_sq _ _ _ _ (block_sq_nonneg _ _ _)

theorem dfe_diff_real {δ : Type} (M : STARSH_blrm ℝ δ) (h : WellFormed M) :
    dfe_diff Real.sqrt M = Real.sqrt (dfe_diff_sq M) := by
  unfold dfe_diff dfe_diff_sq far_diff_list
  rw [sumsq_map_range]
  congr 2
  apply List.map_congr_left
  intro bi hbi
  exact far_diff_val_sq M bi (h.1 bi (List.mem_range.mp hbi))

theorem dfe_norm_real {δ : Type} (M : STARSH_blrm ℝ δ) :
    dfe_norm Real.sqrt M = Real.sqrt (dfe_norm_sq M) := by
  unfold dfe_norm dfe_norm_sq far_norm_list near_norm_list
  rw [sumsq_append, sumsq_map_range, sumsq_map_range]
  congr 3
  · apply List.map_congr_left
    intro bi _
    exact far_norm_val_sq M bi
  · apply List.map_congr_left
    intro bi _
    exact near_norm_val_sq M bi

/-- Over the reals `starsh_blrm__dfe` returns the square root of the weighted
sum of the squared far-block errors divided by the square root of the weighted
sum of the squared norms of all blocks. -/
theorem dfe_real {δ : Type} (M : STARSH_blrm ℝ δ) (h : WellFormed M) :
    starsh_blrm__dfe Real.sqrt M
      = some (Real.sqrt (dfe_diff_sq M) / Real.sqrt (dfe_norm_sq M)) := by
  unfold starsh_blrm__dfe
  rw [dfe_run_eq Real.sqrt M h, dfe_diff_real M h, dfe_norm_real M]
  rfl

theorem dfe_diff_sq_nonneg {δ : Type} (M : STARSH_blrm ℝ δ) : 0 ≤ dfe_diff_sq M := by
  unfold dfe_diff_sq
  apply List.sum_nonneg
  intro x hx
  obtain ⟨bi, _, rfl⟩ := List.mem_map.mp hx
  exact mul_nonneg (symm_weight_nonneg _ _ _) (block_sq_nonneg _ _ _)

theorem dfe_norm_sq_nonneg {δ : Type} (M : STARSH_blrm ℝ δ) : 0 ≤ dfe_norm_sq M := by
  unfold dfe_norm_sq
  apply add_nonneg
  · apply List.sum_nonneg
    intro x hx
    obtain ⟨bi, _, rfl⟩ := List.mem_map.mp hx
    exact mul_nonneg (symm_weight_nonneg _ _ _) (block_sq_nonneg _ _ _)
  · apply List.sum_nonneg
    intro x hx
    obtain ⟨bi, _, rfl⟩ := List.mem_map.mp hx
    exact mul_nonneg (symm_weight_nonneg _ _ _) (block_sq_nonneg _ _ _)

theorem exE_wf {α : Type} [Field α] : WellFormed (exE : STARSH_blrm α Unit) := by
  constructor
  · intro bi hbi
    have hbi2 : bi < 2 := hbi
    interval_cases bi <;>
      simp [FarBlockOk, BlockOk, KernelOk, exE, exFormatN, exCluster, blk_i, blk_j, far_nrows,
        far_ncols, far_rk, dfe_kernel_block, entry_kernel]
  · intro bi hbi
    have hbi2 : bi < 2 := hbi
    interval_cases bi <;>
      simp [NearBlockOk, BlockOk, KernelOk, exE, exFormatN, exCluster, blk_i, blk_j,
        dfe_kernel_block, entry_kernel]

/-! ## Claims about the returned value -/

theorem block_sq_zero {α : Type} [Field α] (nrows ncols : Nat) :
    block_sq nrows ncols (fun _ _ => (0 : α)) = 0 := by
  unfold block_sq
  apply List.sum_eq_zero
  intro x hx
  obtain ⟨c, _, rfl⟩ := List.mem_map.mp hx
  apply List.sum_eq_zero
  intro y hy
  obtain ⟨r, _, rfl⟩ := List.mem_map.mp hy
  exact mul_zero 0

/-- C3: over the reals, when the factors of every far block reproduce the
kernel's block exactly (`U[bi]·V[bi]ᵗ = D`) and the norm of the matrix is
non-zero, `starsh_blrm__dfe` returns exactly `0`. -/
theorem C3_exact_factors_return_zero {δ : Type} (M : STARSH_blrm ℝ δ) (h : WellFormed M)
    (hexact : ∀ bi < M.format.nblocks_far, ∀ r < far_nrows M bi, ∀ c < far_ncols M bi,
      far_UVt M bi r c = (far_D M bi).getD (r + c * far_nrows M bi) 0)
    (_hnz : dfe_norm Real.sqrt M ≠ 0) :
    starsh_blrm__dfe Real.sqrt M = some 0 := by
  have hz : dfe_diff_sq M = 0 := by
    unfold dfe_diff_sq
    apply List.sum_eq_zero
    intro x hx
    obtain ⟨bi, hbi, rfl⟩ := List.mem_map.mp hx
    have hb : far_diffsq M bi = 0 := by
      unfold far_diffsq
      rw [block_sq_congr _ _ _ (fun _ _ => (0 : ℝ))
        (fun r hr c hc => by rw [hexact bi (List.mem_range.mp hbi) r hr c hc, sub_self])]
      exact block_sq_zero _ _
    rw [hb, mul_zero]
  rw [dfe_real M h, hz, Real.sqrt_zero, zero_div]

theorem exE_exact : ∀ bi < (exE : STARSH_blrm ℝ Unit).format.nblocks_far,
    ∀ r < far_nrows (exE : STARSH_blrm ℝ Unit) bi, ∀ c < far_ncols (exE : STARSH_blrm ℝ Unit) bi,
    far_UVt (exE : STARSH_blrm ℝ Unit) bi r c
      = (far_D (exE : STARSH_blrm ℝ Unit) bi).getD
          (r + c * far_nrows (exE : STARSH_blrm ℝ Unit) bi) 0 := by
  intro bi hbi
  have hbi2 : bi < 2 := hbi
  interval_cases bi
  · intro r hr c hc
    have hr1 : r < 1 := hr
    have hc1 : c < 1 := hc
    interval_cases r
    interval_cases c
    simp [far_UVt, far_D, far_rk, far_nrows, far_ncols, dot_NT, kernel_block, dfe_kernel_block,
      entry_kernel, exE, exFormatN, exCluster, exK, blk_i, blk_j, List.range_succ]
  · intro r hr c hc
    have hr1 : r < 1 := hr
    have hc1 : c < 1 := hc
    interval_cases r
    interval_cases c
    simp [far_UVt, far_D, far_rk, far_nrows, far_ncols, dot_NT, kernel_block, dfe_kernel_block,
      entry_kernel, exE, exFormatN, exCluster, exK, blk_i, blk_j, List.range_succ]

theorem exE_norm_sq : dfe_norm_sq (exE : STARSH_blrm ℝ Unit) = 10 := by
  simp [dfe_norm_sq, far_normsq, near_normsq, block_sq, symm_weight, far_D, near_D_used,
    far_nrows, far_ncols, near_nrows, near_ncols, kernel_block, dfe_kernel_block,
    entry_kernel, exE, exFormatN, exCluster, exK, blk_i, blk_j, List.range_succ]
  norm_num

theorem C3_witness :
    WellFormed (exE : STARSH_blrm ℝ Unit) ∧
    (∀ bi < (exE : STARSH_blrm ℝ Unit).format.nblocks_far,
      ∀ r < far_nrows (exE : STARSH_blrm ℝ Unit) bi,
      ∀ c < far_ncols (exE : STARSH_blrm ℝ Unit) bi,
      far_UVt (exE : STARSH_blrm ℝ Unit) bi r c
        = (far_D (exE : STARSH_blrm ℝ Unit) bi).getD
            (r + c * far_nrows (exE : STARSH_blrm ℝ Unit) bi) 0) ∧
    dfe_norm Real.sqrt (exE : STARSH_blrm ℝ Unit) ≠ 0 ∧
    starsh_blrm__dfe Real.sqrt (exE : STARSH_blrm ℝ Unit) = some 0 :=
  have hnz : dfe_norm Real.sqrt (exE : STARSH_blrm ℝ Unit) ≠ 0 := by
    rw [dfe_norm_real, exE_norm_sq]
    exact (Real.sqrt_pos.mpr (by norm_num)).ne.symm
  ⟨exE_wf, exE_exact, hnz, C3_exact_factors_return_zero exE exE_wf exE_exact hnz⟩

theorem sq_le_of_sqrt_le (a b ε : ℝ) (ha : 0 ≤ a) (hb : 0 ≤ b)
    (h : Real.sqrt a ≤ ε * Real.sqrt b) : a ≤ ε * ε * b := by
  have h1 : Real.sqrt a * Real.sqrt a ≤ (ε * Real.sqrt b) * (ε * Real.sqrt b) :=
    mul_self_le_mul_self (Real.sqrt_nonneg a) h
  rw [Real.mul_self_sqrt ha] at h1
  have h2 : (ε * Real.sqrt b) * (ε * Real.sqrt b) = ε * ε * (Real.sqrt b * Real.sqrt b) := by
    ring
  rw [h2, Real.mul_self_sqrt hb] at h1
  exact h1

theorem sum_map_range_le (n : Nat) (f g : Nat → ℝ) (h : ∀ k < n, f k ≤ g k) :
    ((List.range n).map f).sum ≤ ((List.range n).map g).sum :=
  List.sum_le_sum (fun k hk => h k (List.mem_range.mp hk))

/-- C2: over the reals, for a tolerance `ε ≥ 0` and a well-formed object
(symmetric or not) whose every far block satisfies
`‖D − U·Vᵗ‖_F ≤ ε·‖D‖_F` and whose matrix norm is non-zero, `starsh_blrm__dfe`
returns a value `≤ ε`, so the test's check `rel_err/tol > 10` does not fire. -/
theorem C2_tolerance_bound {δ : Type} (M : STARSH_blrm ℝ δ) (ε : ℝ) (hε : 0 ≤ ε)
    (h : WellFormed M)
    (hblk : ∀ bi < M.format.nblocks_far,
      frobenius Real.sqrt (far_nrows M bi) (far_ncols M bi)
          (fun r c => (far_D M bi).getD (r + c * far_nrows M bi) 0 - far_UVt M bi r c)
        ≤ ε * frobenius Real.sqrt (far_nrows M bi) (far_ncols M bi)
          (fun r c => (far_D M bi).getD (r + c * far_nrows M bi) 0))
    (hnz : dfe_norm Real.sqrt M ≠ 0) :
    ∃ v, starsh_blrm__dfe Real.sqrt M = some v ∧ v ≤ ε ∧ ¬ (v / ε > 10) := by
  refine ⟨_, dfe_real M h, ?_⟩
  have hfar : dfe_diff_sq M ≤ ε * ε * dfe_norm_sq M := by
    have h1 : dfe_diff_sq M ≤ ((List.range M.format.nblocks_far).map (fun bi =>
        ε * ε * (symm_weight M.format.symm (blk_i M.format.block_far bi)
          (blk_j M.format.block_far bi) * far_normsq M bi))).sum := by
      apply sum_map_range_le
      intro bi hbi
      have h2 := sq_le_of_sqrt_le _ _ ε (block_sq_nonneg _ _ _) (block_sq_nonneg _ _ _)
        (hblk bi hbi)
      have h3 := mul_le_mul_of_nonneg_left h2 (symm_weight_nonneg M.format.symm
        (blk_i M.format.block_far bi) (blk_j M.format.block_far bi))
      calc symm_weight M.format.symm (blk_i M.format.block_far bi)
              (blk_j M.format.block_far bi) * far_diffsq M bi
          ≤ symm_weight M.format.symm (blk_i M.format.block_far bi)
              (blk_j M.format.block_far bi) * (ε * ε * far_normsq M bi) := h3
        _ = ε * ε * (symm_weight M.format.symm (blk_i M.format.block_far bi)
              (blk_j M.format.block_far bi) * far_normsq M bi) := by ring
    rw [List.sum_map_mul_left] at h1
    have h4 : 0 ≤ ((List.range M.format.nblocks_near).map (fun bi =>
        symm_weight M.format.symm (blk_i M.format.block_near bi)
          (blk_j M.format.block_near bi) * near_normsq M bi)).sum := by
      apply List.sum_nonneg
      intro x hx
      obtain ⟨bi, _, rfl⟩ := List.mem_map.mp hx
      exact mul_nonneg (symm_weight_nonneg _ _ _) (block_sq_nonneg _ _ _)
    have h5 : 0 ≤ ε * ε := mul_nonneg hε hε
    unfold dfe_norm_sq
    nlinarith [mul_nonneg h5 h4]
  have hsq : Real.sqrt (dfe_diff_sq M) ≤ ε * Real.sqrt (dfe_norm_sq M) := by
    calc Real.sqrt (dfe_diff_sq M) ≤ Real.sqrt (ε * ε * dfe_norm_sq M) := Real.sqrt_le_sqrt hfar
      _ = ε * Real.sqrt (dfe_norm_sq M) := by
        rw [Real.sqrt_mul (mul_nonneg hε hε), Real.sqrt_mul_self hε]
  have hpos : 0 < Real.sqrt (dfe_norm_sq M) := by
    rw [dfe_norm_real] at hnz
    exact lt_of_le_of_ne (Real.sqrt_nonneg _) (Ne.symm hnz)
  have hv : Real.sqrt (dfe_diff_sq M) / Real.sqrt (dfe_norm_sq M) ≤ ε :=
    (div_le_iff₀ hpos).mpr hsq
  refine ⟨hv, ?_⟩
  rcases eq_or_lt_of_le hε with h0 | h0
  · rw [← h0, div_zero]
    norm_num
  · have h6 : Real.sqrt (dfe_diff_sq M) / Real.sqrt (dfe_norm_sq M) / ε ≤ 1 :=
      (div_le_one h0).mpr hv
    linarith

theorem exN_norm_sq : dfe_norm_sq (exN : STARSH_blrm ℝ Unit) = 10 := by
  simp [dfe_norm_sq, far_normsq, near_normsq, block_sq, symm_weight, far_D, near_D_used,
    far_nrows, far_ncols, near_nrows, near_ncols, kernel_block, dfe_kernel_block,
    entry_kernel, exN, exFormatN, exCluster, exK, blk_i, blk_j, List.range_succ]
  norm_num

theorem exN_blocks_within_one : ∀ bi < (exN : STARSH_blrm ℝ Unit).format.nblocks_far,
    frobenius Real.sqrt (far_nrows (exN : STARSH_blrm ℝ Unit) bi)
        (far_ncols (exN : STARSH_blrm ℝ Unit) bi)
        (fun r c => (far_D (exN : STARSH_blrm ℝ Unit) bi).getD
            (r + c * far_nrows (exN : STARSH_blrm ℝ Unit) bi) 0
          - far_UVt (exN : STARSH_blrm ℝ Unit) bi r c)
      ≤ 1 * frobenius Real.sqrt (far_nrows (exN : STARSH_blrm ℝ Unit) bi)
        (far_ncols (exN : STARSH_blrm ℝ Unit) bi)
        (fun r c => (far_D (exN : STARSH_blrm ℝ Unit) bi).getD
          (r + c * far_nrows (exN : STARSH_blrm ℝ Unit) bi) 0) := by
  intro bi hbi
  have hbi2 : bi < 2 := hbi
  interval_cases bi <;>
    simp [frobenius, block_sq, far_UVt, far_D, far_rk, far_nrows, far_ncols, dot_NT,
      kernel_block, dfe_kernel_block, entry_kernel, exN, exFormatN, exCluster, exK, blk_i,
      blk_j, List.range_succ]

theorem C2_witness :
    (0 : ℝ) ≤ 1 ∧ WellFormed (exN : STARSH_blrm ℝ Unit) ∧
    dfe_norm Real.sqrt (exN : STARSH_blrm ℝ Unit) ≠ 0 ∧
    ∃ v, starsh_blrm__dfe Real.sqrt (exN : STARSH_blrm ℝ Unit) = some v ∧ v ≤ 1 ∧
      ¬ (v / 1 > 10) :=
  have hnz : dfe_norm Real.sqrt (exN : STARSH_blrm ℝ Unit) ≠ 0 := by
    rw [dfe_norm_real, exN_norm_sq]
    exact (Real.sqrt_pos.mpr (by norm_num)).ne.symm
  ⟨zero_le_one, exN_wf, hnz,
    C2_tolerance_bound exN 1 zero_le_one exN_wf exN_blocks_within_one hnz⟩

/-! ## Block lists as lists of entries -/

theorem pairs_getD_even {β : Type} (l : List β) (f g : β → Nat) (k : Nat) (d : β)
    (h : k < l.length) : (l.flatMap (fun e => [f e, g e])).getD (2 * k) 0 = f (l.getD k d) := by
  induction l generalizing k with
  | nil => simp at h
  | cons a t ih =>
    cases k with
    | zero => simp
    | succ m =>
      have hm : m < t.length := by simpa using h
      have h2 : 2 * (m + 1) = 2 * m + 1 + 1 := by ring
      rw [List.flatMap_cons, h2]
      simpa using ih m hm

theorem pairs_getD_odd {β : Type} (l : List β) (f g : β → Nat) (k : Nat) (d : β)
    (h : k < l.length) :
    (l.flatMap (fun e => [f e, g e])).getD (2 * k + 1) 0 = g (l.getD k d) := by
  induction l generalizing k with
  | nil => simp at h
  | cons a t ih =>
    cases k with
    | zero => simp
    | succ m =>
      have hm : m < t.length := by simpa using h
      have h2 : 2 * (m + 1) + 1 = 2 * m + 1 + 1 + 1 := by ring
      rw [List.flatMap_cons, h2]
      simpa using ih m hm

theorem pairs_length {β : Type} (l : List β) (f g : β → Nat) :
    (l.flatMap (fun e => [f e, g e])).length = 2 * l.length := by
  induction l with
  | nil => rfl
  | cons a t ih =>
    rw [List.flatMap_cons, List.length_append, ih, List.length_cons]
    simp only [List.length_cons, List.length_nil]
    ring
theorem farBlockOk_iff {α δ : Type} [Field α] (M : STARSH_blrm α δ) (bi : Nat) :
    FarBlockOk M bi ↔
      (2 * bi + 1 < M.format.block_far.length ∧ bi < M.far_rank.length ∧
        bi < M.far_U.length ∧ bi < M.far_V.length) ∧ FarEntryOk M.format (far_entry M bi) := by
  unfold FarBlockOk FarEntryOk BlockOk far_entry far_nrows far_ncols far_rk
  constructor
  · rintro ⟨⟨h1, h2, h3⟩, h4, h5, h6, h7, h8, h9, h10⟩
    exact ⟨⟨h1, h4, h6, h7⟩, h2, h3, h5, h8, h9, h10⟩
  · rintro ⟨⟨h1, h4, h6, h7⟩, h2, h3, h5, h8, h9, h10⟩
    exact ⟨⟨h1, h2, h3⟩, h4, h5, h6, h7, h8, h9, h10⟩

theorem nearBlockOk_iff {α δ : Type} [Field α] (M : STARSH_blrm α δ) (bi : Nat) :
    NearBlockOk M bi ↔
      (2 * bi + 1 < M.format.block_near.length ∧ (M.onfly = 0 → bi < M.near_D.length)) ∧
        NearEntryOk M.format M.onfly (near_entry M bi) := by
  unfold NearBlockOk NearEntryOk BlockOk near_entry near_nrows near_ncols
  by_cases ho : M.onfly = 0
  · simp only [if_pos ho]
    constructor
    · rintro ⟨⟨h1, h2, h3⟩, h4, h5⟩
      exact ⟨⟨h1, fun _ => h4⟩, h2, h3, h5⟩
    · rintro ⟨⟨h1, h4⟩, h2, h3, h5⟩
      exact ⟨⟨h1, h2, h3⟩, h4 ho, h5⟩
  · simp only [if_neg ho]
    constructor
    · rintro ⟨⟨h1, h2, h3⟩, h5⟩
      exact ⟨⟨h1, fun h => absurd h ho⟩, h2, h3, h5⟩
    · rintro ⟨⟨h1, _⟩, h2, h3, h5⟩
      exact ⟨⟨h1, h2, h3⟩, h5⟩

theorem getD_map_eq {β γ : Type} (l : List β) (f : β → γ) (k : Nat) (d : γ) (h : k < l.length) :
    (l.map f).getD k d = f (l.get ⟨k, h⟩) := by
  simp [List.getD, List.getElem?_map, List.getElem?_eq_getElem h]

theorem far_entry_with_blocks {α δ : Type} (M : STARSH_blrm α δ) (symm : Char)
    (fars : List (FarEntry α)) (nears : List (NearEntry α)) (k : Nat) (h : k < fars.length) :
    far_entry (with_blocks M symm fars nears) k = fars.get ⟨k, h⟩ := by
  have hd : fars.getD k (fars.get ⟨k, h⟩) = fars.get ⟨k, h⟩ := by
    simp [List.getD, List.getElem?_eq_getElem h]
  unfold far_entry with_blocks blk_i blk_j
  simp only [pairs_getD_even fars _ _ k (fars.get ⟨k, h⟩) h,
    pairs_getD_odd fars _ _ k (fars.get ⟨k, h⟩) h, hd, getD_map_eq _ _ _ _ h]

theorem near_entry_with_blocks {α δ : Type} (M : STARSH_blrm α δ) (symm : Char)
    (fars : List (FarEntry α)) (nears : List (NearEntry α)) (k : Nat) (h : k < nears.length) :
    near_entry (with_blocks M symm fars nears) k = nears.get ⟨k, h⟩ := by
  have hd : nears.getD k (nears.get ⟨k, h⟩) = nears.get ⟨k, h⟩ := by
    simp [List.getD, List.getElem?_eq_getElem h]
  unfold near_entry with_blocks blk_i blk_j
  simp only [pairs_getD_even nears _ _ k (nears.get ⟨k, h⟩) h,
    pairs_getD_odd nears _ _ k (nears.get ⟨k, h⟩) h, hd, getD_map_eq _ _ _ _ h]

theorem map_range_get {β : Type} (l : List β) (f : Nat → β)
    (h : ∀ k (hk : k < l.length), f k = l.get ⟨k, hk⟩) :
    (List.range l.length).map f = l := by
  apply List.ext_getElem
  · simp
  · intro k h1 h2
    simp only [List.getElem_map, List.getElem_range]
    exact h k h2

theorem far_entries_with_blocks {α δ : Type} (M : STARSH_blrm α δ) (symm : Char)
    (fars : List (FarEntry α)) (nears : List (NearEntry α)) :
    far_entries (with_blocks M symm fars nears) = fars :=
  map_range_get fars _ (fun k hk => far_entry_with_blocks M symm fars nears k hk)

theorem near_entries_with_blocks {α δ : Type} (M : STARSH_blrm α δ) (symm : Char)
    (fars : List (FarEntry α)) (nears : List (NearEntry α)) :
    near_entries (with_blocks M symm fars nears) = nears :=
  map_range_get nears _ (fun k hk => near_entry_with_blocks M symm fars nears k hk)
theorem with_blocks_wf {α δ : Type} [Field α] (M : STARSH_blrm α δ) (symm : Char)
    (fars : List (FarEntry α)) (nears : List (NearEntry α))
    (hf : ∀ e ∈ fars, FarEntryOk M.format e)
    (hn : ∀ e ∈ nears, NearEntryOk M.format M.onfly e) :
    WellFormed (with_blocks M symm fars nears) := by
  constructor
  · intro bi hbi
    have hk : bi < fars.length := hbi
    rw [farBlockOk_iff, far_entry_with_blocks M symm fars nears bi hk]
    refine ⟨⟨?_, ?_, ?_, ?_⟩, hf _ (List.get_mem _ _ _)⟩
    · show 2 * bi + 1 < (fars.flatMap (fun e => [e.i, e.j])).length
      rw [pairs_length]
      omega
    · show bi < (fars.map (fun e => e.rank)).length
      simpa using hk
    · show bi < (fars.map (fun e => e.U)).length
      simpa using hk
    · show bi < (fars.map (fun e => e.V)).length
      simpa using hk
  · intro bi hbi
    have hk : bi < nears.length := hbi
    rw [nearBlockOk_iff, near_entry_with_blocks M symm fars nears bi hk]
    refine ⟨⟨?_, ?_⟩, hn _ (List.get_mem _ _ _)⟩
    · show 2 * bi + 1 < (nears.flatMap (fun e => [e.i, e.j])).length
      rw [pairs_length]
      omega
    · intro _
      show bi < (nears.map (fun e => e.D)).length
      simpa using hk

theorem far_entries_ok {α δ : Type} [Field α] (M : STARSH_blrm α δ) (h : WellFormed M) :
    ∀ e ∈ far_entries M, FarEntryOk M.format e := by
  intro e he
  obtain ⟨bi, hbi, rfl⟩ := List.mem_map.mp he
  exact ((farBlockOk_iff M bi).mp (h.1 bi (List.mem_range.mp hbi))).2

theorem near_entries_ok {α δ : Type} [Field α] (M : STARSH_blrm α δ) (h : WellFormed M) :
    ∀ e ∈ near_entries M, NearEntryOk M.format M.onfly e := by
  intro e he
  obtain ⟨bi, hbi, rfl⟩ := List.mem_map.mp he
  exact ((nearBlockOk_iff M bi).mp (h.2 bi (List.mem_range.mp hbi))).2

theorem dfe_diff_sq_entries {α δ : Type} [Field α] (M : STARSH_blrm α δ) :
    dfe_diff_sq M
      = ((far_entries M).map (fun e =>
          symm_weight M.format.symm e.i e.j * FarEntry.diffsq M.format e)).sum := by
  unfold dfe_diff_sq far_entries
  rw [List.map_map]
  rfl

theorem dfe_norm_sq_entries {α δ : Type} [Field α] (M : STARSH_blrm α δ) :
    dfe_norm_sq M
      = ((far_entries M).map (fun e =>
          symm_weight M.format.symm e.i e.j * FarEntry.normsq M.format e)).sum
        + ((near_entries M).map (fun e =>
          symm_weight M.format.symm e.i e.j * NearEntry.normsq M.format M.onfly e)).sum := by
  unfold dfe_norm_sq far_entries near_entries
  rw [List.map_map, List.map_map]
  rfl

theorem dfe_diff_sq_with_blocks {α δ : Type} [Field α] (M : STARSH_blrm α δ) (symm : Char)
    (fars : List (FarEntry α)) (nears : List (NearEntry α)) :
    dfe_diff_sq (with_blocks M symm fars nears)
      = (fars.map (fun e => symm_weight symm e.i e.j * FarEntry.diffsq M.format e)).sum := by
  rw [dfe_diff_sq_entries, far_entries_with_blocks]
  rfl

theorem dfe_norm_sq_with_blocks {α δ : Type} [Field α] (M : STARSH_blrm α δ) (symm : Char)
    (fars : List (FarEntry α)) (nears : List (NearEntry α)) :
    dfe_norm_sq (with_blocks M symm fars nears)
      = (fars.map (fun e => symm_weight symm e.i e.j * FarEntry.normsq M.format e)).sum
        + (nears.map (fun e =>
            symm_weight symm e.i e.j * NearEntry.normsq M.format M.onfly e)).sum := by
  rw [dfe_norm_sq_entries, far_entries_with_blocks, near_entries_with_blocks]
  rfl

/-- C9: over the reals the value `starsh_blrm__dfe` returns on a well-formed
object is invariant under any permutation of the far-block list (applied
consistently to `block_far`, `far_rank`, `far_U` and `far_V`) and any
permutation of the near-block list (applied consistently to `block_near` and
`near_D`). -/
theorem C9_block_order_invariance {δ : Type} (M : STARSH_blrm ℝ δ) (h : WellFormed M)
    (fars : List (FarEntry ℝ)) (nears : List (NearEntry ℝ))
    (hf : fars.Perm (far_entries M)) (hn : nears.Perm (near_entries M)) :
    starsh_blrm__dfe Real.sqrt (with_blocks M M.format.symm fars nears)
      = starsh_blrm__dfe Real.sqrt M := by
  have hwf : WellFormed (with_blocks M M.format.symm fars nears) :=
    with_blocks_wf M _ fars nears
      (fun e he => far_entries_ok M h e (hf.mem_iff.mp he))
      (fun e he => near_entries_ok M h e (hn.mem_iff.mp he))
  rw [dfe_real _ hwf, dfe_real M h, dfe_diff_sq_with_blocks, dfe_norm_sq_with_blocks,
    dfe_diff_sq_entries, dfe_norm_sq_entries, (hf.map _).sum_eq, (hf.map _).sum_eq,
    (hn.map _).sum_eq]
theorem C9_witness :
    WellFormed (exN : STARSH_blrm ℝ Unit) ∧
    [far_entry (exN : STARSH_blrm ℝ Unit) 1, far_entry exN 0].Perm
      (far_entries (exN : STARSH_blrm ℝ Unit)) ∧
    [near_entry (exN : STARSH_blrm ℝ Unit) 1, near_entry exN 0].Perm
      (near_entries (exN : STARSH_blrm ℝ Unit)) ∧
    starsh_blrm__dfe Real.sqrt
        (with_blocks (exN : STARSH_blrm ℝ Unit) (exN : STARSH_blrm ℝ Unit).format.symm
          [far_entry exN 1, far_entry exN 0] [near_entry exN 1, near_entry exN 0])
      = starsh_blrm__dfe Real.sqrt (exN : STARSH_blrm ℝ Unit) :=
  ⟨exN_wf, List.Perm.swap _ _ [], List.Perm.swap _ _ [],
    C9_block_order_invariance exN exN_wf _ _ (List.Perm.swap _ _ []) (List.Perm.swap _ _ [])⟩
theorem sum_range_swap {α : Type} [Field α] (m n : Nat) (A : Nat → Nat → α) :
    ((List.range n).map (fun c => ((List.range m).map (fun r => A r c)).sum)).sum
      = ((List.range m).map (fun r => ((List.range n).map (fun c => A r c)).sum)).sum := by
  induction n with
  | zero => simp
  | succ k ih =>
    simp only [List.range_succ, List.map_append, List.sum_append, List.map_cons, List.map_nil,
      List.sum_cons, List.sum_nil, add_zero]
    rw [ih, List.sum_map_add]

theorem block_sq_swap {α : Type} [Field α] (nrows ncols : Nat) (A : Nat → Nat → α) :
    block_sq ncols nrows (fun r c => A c r) = block_sq nrows ncols A := by
  unfold block_sq
  exact sum_range_swap ncols nrows (fun r c => A c r * A c r)

theorem kernel_block_entry {α δ : Type} [Field α] (F : STARSH_blrf α δ) (K : Nat → Nat → α)
    (hK : KernelComputes F.problem.kernel F.row_cluster.data F.col_cluster.data K)
    (hR : ClusterRangesOk F.row_cluster) (hC : ClusterRangesOk F.col_cluster)
    (i j : Nat) (hi : i < F.row_cluster.size.length) (hj : j < F.col_cluster.size.length) :
    KernelOk F i j ∧
      ∀ a < F.row_cluster.size.getD i 0, ∀ b < F.col_cluster.size.getD j 0,
        (kernel_block F i j).getD (a + b * F.row_cluster.size.getD i 0) 0
          = K (cluster_index F.row_cluster i a) (cluster_index F.col_cluster j b) := by
  obtain ⟨hi1, hi2⟩ := hR i hi
  obtain ⟨hj1, hj2⟩ := hC j hj
  obtain ⟨D, hD1, hD2, hD3⟩ := hK (F.row_cluster.size.getD i 0) (F.col_cluster.size.getD j 0)
    (F.row_cluster.pivot.drop (F.row_cluster.start.getD i 0))
    (F.col_cluster.pivot.drop (F.col_cluster.start.getD j 0))
    (List.replicate (F.row_cluster.size.getD i 0 * F.col_cluster.size.getD j 0) 0)
    (by rw [List.length_drop]; omega) (by rw [List.length_drop]; omega) (by simp)
  have hcall : dfe_kernel_block F i j (F.row_cluster.size.getD i 0)
      (F.col_cluster.size.getD j 0) = some D := by
    simp only [dfe_kernel_block, Option.bind_eq_bind,
      getElem?_eq_some_getD F.row_cluster.start i 0 hi1,
      getElem?_eq_some_getD F.col_cluster.start j 0 hj1, Option.some_bind]
    exact hD1
  refine ⟨⟨hi1, hj1, by rw [hcall]; simp [hD2]⟩, ?_⟩
  intro a ha b hb
  unfold kernel_block cluster_index
  rw [hcall, Option.getD_some, hD3 a ha b hb, getD_drop_eq, getD_drop_eq]
theorem dot_NT_swap {α : Type} [Field α] (k : Nat) (A B : List α) (la lb r c : Nat) :
    dot_NT k B lb A la r c = dot_NT k A la B lb c r := by
  unfold dot_NT
  congr 1
  apply List.map_congr_left
  intro l _
  exact mul_comm _ _

theorem far_mirror_sq {α δ : Type} [Field α] (F : STARSH_blrf α δ) (K : Nat → Nat → α)
    (hRC : F.row_cluster = F.col_cluster)
    (hK : KernelComputes F.problem.kernel F.row_cluster.data F.col_cluster.data K)
    (hKs : ∀ a b, K a b = K b a) (hR : ClusterRangesOk F.row_cluster)
    (e : FarEntry α) (he : FarEntryOk F e) :
    FarEntryOk F (mirror_far e) ∧ FarEntry.normsq F (mirror_far e) = FarEntry.normsq F e ∧
      FarEntry.diffsq F (mirror_far e) = FarEntry.diffsq F e := by
  have hC : ClusterRangesOk F.col_cluster := hRC ▸ hR
  have hsz : ∀ k, F.col_cluster.size.getD k 0 = F.row_cluster.size.getD k 0 := by
    intro k; rw [hRC]
  have hidx : ∀ k r, cluster_index F.col_cluster k r = cluster_index F.row_cluster k r := by
    intro k r; rw [hRC]
  obtain ⟨h1, h2, h3, h4, h5, _⟩ := he
  have h1c : e.i < F.col_cluster.size.length := by rw [← hRC]; exact h1
  have h2r : e.j < F.row_cluster.size.length := by rw [hRC]; exact h2
  have kij := kernel_block_entry F K hK hR hC e.i e.j h1 h2
  have kji := kernel_block_entry F K hK hR hC e.j e.i h2r h1c
  refine ⟨⟨h2r, h1c, h3, ?_, ?_, kji.1⟩, ?_, ?_⟩
  · show F.row_cluster.size.getD e.j 0 * e.rank.toNat ≤ e.V.length
    rw [← hsz]; exact h5
  · show F.col_cluster.size.getD e.i 0 * e.rank.toNat ≤ e.U.length
    rw [hsz]; exact h4
  · show block_sq (F.row_cluster.size.getD e.j 0) (F.col_cluster.size.getD e.i 0)
        (fun r c => (kernel_block F e.j e.i).getD (r + c * F.row_cluster.size.getD e.j 0) 0)
      = FarEntry.normsq F e
    unfold FarEntry.normsq
    rw [← block_sq_swap (F.row_cluster.size.getD e.i 0) (F.col_cluster.size.getD e.j 0),
      hsz e.i, hsz e.j]
    apply block_sq_congr
    intro r hr c hc
    rw [kji.2 r hr c (by rw [hsz]; exact hc), kij.2 c hc r (by rw [hsz]; exact hr), hidx, hidx]
    exact hKs _ _
  · show block_sq (F.row_cluster.size.getD e.j 0) (F.col_cluster.size.getD e.i 0)
        (fun r c => (kernel_block F e.j e.i).getD (r + c * F.row_cluster.size.getD e.j 0) 0
          - dot_NT e.rank.toNat e.V (F.row_cluster.size.getD e.j 0) e.U
              (F.col_cluster.size.getD e.i 0) r c)
      = FarEntry.diffsq F e
    unfold FarEntry.diffsq
    rw [← block_sq_swap (F.row_cluster.size.getD e.i 0) (F.col_cluster.size.getD e.j 0),
      hsz e.i, hsz e.j]
    apply block_sq_congr
    intro r hr c hc
    rw [kji.2 r hr c (by rw [hsz]; exact hc), kij.2 c hc r (by rw [hsz]; exact hr), hidx, hidx,
      dot_NT_swap, hKs]
theorem transpose_cm_entry {α : Type} [Field α] (nrows ncols : Nat) (D : List α) (r c : Nat)
    (hr : r < ncols) (hc : c < nrows) :
    (transpose_cm nrows ncols D).getD (r + c * ncols) 0 = D.getD (c + r * nrows) 0 := by
  have hp : r + c * ncols < nrows * ncols := by
    have h4 : (c + 1) * ncols ≤ nrows * ncols := Nat.mul_le_mul_right _ hc
    have h5 : (c + 1) * ncols = c * ncols + ncols := by ring
    omega
  have hmod : (r + c * ncols) % ncols = r := by
    rw [Nat.add_mul_mod_self_right]
    exact Nat.mod_eq_of_lt hr
  have hdiv : (r + c * ncols) / ncols = c := by
    rw [Nat.add_mul_div_right _ _ (by omega), Nat.div_eq_of_lt hr, Nat.zero_add]
  unfold transpose_cm
  rw [List.getD_eq_getElem?_getD, List.getElem?_map, List.getElem?_range hp]
  simp only [Option.map_some', Option.getD_some, hmod, hdiv]

theorem near_mirror_sq {α δ : Type} [Field α] (F : STARSH_blrf α δ) (K : Nat → Nat → α)
    (hRC : F.row_cluster = F.col_cluster)
    (hK : KernelComputes F.problem.kernel F.row_cluster.data F.col_cluster.data K)
    (hKs : ∀ a b, K a b = K b a) (hR : ClusterRangesOk F.row_cluster) (onfly : Int)
    (e : NearEntry α) (he : NearEntryOk F onfly e) :
    NearEntryOk F onfly (mirror_near F e) ∧
      NearEntry.normsq F onfly (mirror_near F e) = NearEntry.normsq F onfly e := by
  have hC : ClusterRangesOk F.col_cluster := hRC ▸ hR
  have hsz : ∀ k, F.col_cluster.size.getD k 0 = F.row_cluster.size.getD k 0 := by
    intro k; rw [hRC]
  have hidx : ∀ k r, cluster_index F.col_cluster k r = cluster_index F.row_cluster k r := by
    intro k r; rw [hRC]
  obtain ⟨h1, h2, h3⟩ := he
  have h1c : e.i < F.col_cluster.size.length := by rw [← hRC]; exact h1
  have h2r : e.j < F.row_cluster.size.length := by rw [hRC]; exact h2
  have kij := kernel_block_entry F K hK hR hC e.i e.j h1 h2
  have kji := kernel_block_entry F K hK hR hC e.j e.i h2r h1c
  by_cases ho : onfly = 0
  · refine ⟨⟨h2r, h1c, ?_⟩, ?_⟩
    · rw [if_pos ho]
      show F.row_cluster.size.getD e.j 0 * F.col_cluster.size.getD e.i 0
        ≤ (transpose_cm (F.row_cluster.size.getD e.i 0) (F.col_cluster.size.getD e.j 0)
            e.D).length
      unfold transpose_cm
      rw [List.length_map, List.length_range, hsz e.i, hsz e.j, Nat.mul_comm]
    · show block_sq (F.row_cluster.size.getD e.j 0) (F.col_cluster.size.getD e.i 0)
          (fun r c => (if onfly = 0
              then transpose_cm (F.row_cluster.size.getD e.i 0)
                (F.col_cluster.size.getD e.j 0) e.D
              else kernel_block F e.j e.i).getD (r + c * F.row_cluster.size.getD e.j 0) 0)
        = NearEntry.normsq F onfly e
      unfold NearEntry.normsq
      rw [← block_sq_swap (F.row_cluster.size.getD e.i 0) (F.col_cluster.size.getD e.j 0),
        hsz e.i, hsz e.j]
      apply block_sq_congr
      intro r hr c hc
      rw [if_pos ho, if_pos ho, transpose_cm_entry _ _ _ _ _ hr hc]
  · rw [NearEntryOk, if_neg ho] at *
    refine ⟨⟨h2r, h1c, kji.1⟩, ?_⟩
    show block_sq (F.row_cluster.size.getD e.j 0) (F.col_cluster.size.getD e.i 0)
          (fun r c => (if onfly = 0
              then transpose_cm (F.row_cluster.size.getD e.i 0)
                (F.col_cluster.size.getD e.j 0) e.D
              else kernel_block F e.j e.i).getD (r + c * F.row_cluster.size.getD e.j 0) 0)
        = NearEntry.normsq F onfly e
    unfold NearEntry.normsq
    rw [← block_sq_swap (F.row_cluster.size.getD e.i 0) (F.col_cluster.size.getD e.j 0),
      hsz e.i, hsz e.j]
    apply block_sq_congr
    intro r hr c hc
    rw [if_neg ho, if_neg ho, kji.2 r hr c (by rw [hsz]; exact hc),
      kij.2 c hc r (by rw [hsz]; exact hr), hidx, hidx]
    exact hKs _ _

theorem symm_weight_S_split {α β : Type} [Field α] (l : List β) (fi fj : β → Nat)
    (g : β → α) :
    (l.map (fun e => symm_weight 'S' (fi e) (fj e) * g e)).sum
      = (l.map g).sum + ((l.filter (fun e => decide (fi e ≠ fj e))).map g).sum := by
  induction l with
  | nil => simp
  | cons a t ih =>
    by_cases hc : fi a ≠ fj a
    · have hw : (symm_weight 'S' (fi a) (fj a) : α) = 2 := by simp [symm_weight, hc]
      rw [List.map_cons, List.sum_cons, ih, hw, List.map_cons, List.sum_cons,
        List.filter_cons_of_pos (by simpa using hc), List.map_cons, List.sum_cons]
      ring
    · have hw : (symm_weight 'S' (fi a) (fj a) : α) = 1 := by simp [symm_weight, hc]
      rw [List.map_cons, List.sum_cons, ih, hw, List.map_cons, List.sum_cons,
        List.filter_cons_of_neg (by simpa using hc)]
      ring

theorem symm_weight_N {α : Type} [Field α] (i j : Nat) : (symm_weight 'N' i j : α) = 1 := by
  simp [symm_weight]
theorem mirror_blrm_wf {α δ : Type} [Field α] (M : STARSH_blrm α δ) (K : Nat → Nat → α)
    (h : WellFormed M) (hRC : M.format.row_cluster = M.format.col_cluster)
    (hK : KernelComputes M.format.problem.kernel M.format.row_cluster.data
      M.format.col_cluster.data K)
    (hKs : ∀ a b, K a b = K b a) (hR : ClusterRangesOk M.format.row_cluster) :
    WellFormed (mirror_blrm M) := by
  apply with_blocks_wf
  · intro e he
    rcases List.mem_append.mp he with h1 | h1
    · exact far_entries_ok M h e h1
    · obtain ⟨e2, he2, rfl⟩ := List.mem_map.mp h1
      exact (far_mirror_sq M.format K hRC hK hKs hR e2
        (far_entries_ok M h e2 (List.mem_filter.mp he2).1)).1
  · intro e he
    rcases List.mem_append.mp he with h1 | h1
    · exact near_entries_ok M h e h1
    · obtain ⟨e2, he2, rfl⟩ := List.mem_map.mp h1
      exact (near_mirror_sq M.format K hRC hK hKs hR M.onfly e2
        (near_entries_ok M h e2 (List.mem_filter.mp he2).1)).1

/-- C5: over the reals, for a symmetric kernel and a well-formed symmetric
format (`symm == 'S'`, row cluster = column cluster), `starsh_blrm__dfe` returns
the same value as on the non-symmetric object that additionally stores the
mirror `(j, i)` of every stored off-diagonal block `(i, j)`, with the factors
`U` and `V` swapped or the near block transposed. -/
theorem C5_symmetric_equals_mirrored {δ : Type} (M : STARSH_blrm ℝ δ) (K : Nat → Nat → ℝ)
    (h : WellFormed M) (hS : M.format.symm = 'S')
    (hRC : M.format.row_cluster = M.format.col_cluster)
    (hK : KernelComputes M.format.problem.kernel M.format.row_cluster.data
      M.format.col_cluster.data K)
    (hKs : ∀ a b, K a b = K b a) (hR : ClusterRangesOk M.format.row_cluster) :
    starsh_blrm__dfe Real.sqrt (mirror_blrm M) = starsh_blrm__dfe Real.sqrt M := by
  have hfar : ∀ e ∈ (far_entries M).filter (fun e => decide (e.i ≠ e.j)),
      FarEntryOk M.format e := fun e he => far_entries_ok M h e (List.mem_filter.mp he).1
  have hnear : ∀ e ∈ (near_entries M).filter (fun e => decide (e.i ≠ e.j)),
      NearEntryOk M.format M.onfly e :=
    fun e he => near_entries_ok M h e (List.mem_filter.mp he).1
  have e1 : (((far_entries M).filter (fun e => decide (e.i ≠ e.j))).map
      (fun e => FarEntry.diffsq M.format (mirror_far e))).sum
      = (((far_entries M).filter (fun e => decide (e.i ≠ e.j))).map
          (fun e => FarEntry.diffsq M.format e)).sum := by
    congr 1
    apply List.map_congr_left
    intro e he
    exact (far_mirror_sq M.format K hRC hK hKs hR e (hfar e he)).2.2
  have e2 : (((far_entries M).filter (fun e => decide (e.i ≠ e.j))).map
      (fun e => FarEntry.normsq M.format (mirror_far e))).sum
      = (((far_entries M).filter (fun e => decide (e.i ≠ e.j))).map
          (fun e => FarEntry.normsq M.format e)).sum := by
    congr 1
    apply List.map_congr_left
    intro e he
    exact (far_mirror_sq M.format K hRC hK hKs hR e (hfar e he)).2.1
  have e3 : (((near_entries M).filter (fun e => decide (e.i ≠ e.j))).map
      (fun e => NearEntry.normsq M.format M.onfly (mirror_near M.format e))).sum
      = (((near_entries M).filter (fun e => decide (e.i ≠ e.j))).map
          (fun e => NearEntry.normsq M.format M.onfly e)).sum := by
    congr 1
    apply List.map_congr_left
    intro e he
    exact (near_mirror_sq M.format K hRC hK hKs hR M.onfly e (hnear e he)).2
  rw [dfe_real _ (mirror_blrm_wf M K h hRC hK hKs hR), dfe_real M h]
  unfold mirror_blrm
  rw [dfe_diff_sq_with_blocks, dfe_norm_sq_with_blocks, dfe_diff_sq_entries M,
    dfe_norm_sq_entries M, hS, symm_weight_S_split, symm_weight_S_split, symm_weight_S_split]
  simp only [symm_weight_N, one_mul, List.map_append, List.sum_append, List.map_map,
    Function.comp_def]
  rw [e1, e2, e3]
theorem sum_map_flatMap {α β γ : Type} [Field α] (l : List β) (f : β → List γ) (h : γ → α) :
    ((l.flatMap f).map h).sum = (l.map (fun i => ((f i).map h).sum)).sum := by
  induction l with
  | nil => simp
  | cons a t ih =>
    rw [List.flatMap_cons, List.map_append, List.sum_append, ih, List.map_cons, List.sum_cons]

theorem take_drop_eq_map_range {β : Type} (l : List β) (s n : Nat) (d : β)
    (h : s + n ≤ l.length) :
    (l.drop s).take n = (List.range n).map (fun r => l.getD (s + r) d) := by
  apply List.ext_getElem
  · simp; omega
  · intro k h1 h2
    have hk : k < n := by simpa using h2
    simp only [List.getElem_take, List.getElem_drop, List.getElem_map, List.getElem_range]
    rw [List.getD_eq_getElem?_getD, List.getElem?_eq_getElem (by omega)]
    rfl

theorem sum_cluster_indices {α δ : Type} [Field α] (R : STARSH_cluster δ)
    (hR : ClusterRangesOk R) (h : Nat → α) :
    ((cluster_indices R).map h).sum
      = ((List.range R.size.length).map (fun i =>
          ((List.range (R.size.getD i 0)).map (fun r => h (cluster_index R i r))).sum)).sum := by
  unfold cluster_indices
  rw [sum_map_flatMap]
  congr 1
  apply List.map_congr_left
  intro i hi
  rw [take_drop_eq_map_range _ _ _ 0 (hR i (List.mem_range.mp hi)).2, List.map_map]
  rfl

theorem sum_range_partition {α δ : Type} [Field α] (R : STARSH_cluster δ) (N : Nat)
    (hR : ClusterPartition R N) (h : Nat → α) :
    ((List.range N).map h).sum
      = ((List.range R.size.length).map (fun i =>
          ((List.range (R.size.getD i 0)).map (fun r => h (cluster_index R i r))).sum)).sum := by
  rw [← sum_cluster_indices R hR.1 h]
  exact ((hR.2.map h).sum_eq).symm
theorem sum_all_pairs {α : Type} [Field α] (m n : Nat) (F : Nat × Nat → α) :
    ((all_pairs m n).map F).sum
      = ((List.range m).map (fun i => ((List.range n).map (fun j => F (i, j))).sum)).sum := by
  unfold all_pairs
  rw [sum_map_flatMap]
  congr 1
  apply List.map_congr_left
  intro i _
  rw [List.map_map]
  rfl

/-- The sum of squares over the whole matrix is the sum over all cluster pairs
of the sums of squares over their blocks. -/
theorem block_sq_partition {α δ : Type} [Field α] (R C : STARSH_cluster δ) (Nr Nc : Nat)
    (hR : ClusterPartition R Nr) (hC : ClusterPartition C Nc) (G : Nat → Nat → α) :
    block_sq Nr Nc G
      = ((all_pairs R.size.length C.size.length).map (pair_sq R C G)).sum := by
  rw [sum_all_pairs]
  unfold block_sq pair_sq block_sq
  have hA : ∀ c, ((List.range Nr).map (fun r => G r c * G r c)).sum
      = ((List.range R.size.length).map (fun i =>
          ((List.range (R.size.getD i 0)).map
            (fun a => G (cluster_index R i a) c * G (cluster_index R i a) c)).sum)).sum :=
    fun c => sum_range_partition R Nr hR (fun r => G r c * G r c)
  simp only [hA]
  rw [sum_range_partition C Nc hC]
  rw [← sum_range_swap]
  congr 1
  apply List.map_congr_left
  intro j _
  rw [sum_range_swap]
theorem sum_block_pairs {α δ : Type} [Field α] (M : STARSH_blrm α δ) (P : Nat × Nat → α) :
    ((block_pairs M).map P).sum
      = ((List.range M.format.nblocks_far).map (fun bi =>
          P (blk_i M.format.block_far bi, blk_j M.format.block_far bi))).sum
        + ((List.range M.format.nblocks_near).map (fun bi =>
          P (blk_i M.format.block_near bi, blk_j M.format.block_near bi))).sum := by
  unfold block_pairs far_entries near_entries
  rw [List.map_append, List.sum_append, List.map_map, List.map_map, List.map_map, List.map_map]
  rfl

theorem symm_weight_not_S {α : Type} [Field α] (symm : Char) (i j : Nat) (h : symm ≠ 'S') :
    (symm_weight symm i j : α) = 1 := by
  simp [symm_weight, h]

/-- C1: over the reals, for a well-formed object on a non-symmetric format
(`symm != 'S'`) whose far and near lists together contain every cluster pair
exactly once, whose row and column clusters partition the index sets, whose
kernel computes the matrix `K` (`M_exact`) with non-zero norm, and for the
matrix `M_approx` the object represents (`U[bi]·V[bi]ᵗ` on each far block; on
each near block the stored block when `onfly == 0`, and in either mode equal to
the exact kernel values there), `starsh_blrm__dfe` returns
`‖M_exact − M_approx‖_F / ‖M_exact‖_F`. -/
theorem C1_relative_frobenius_error {δ : Type} (M : STARSH_blrm ℝ δ)
    (K Mapprox : Nat → Nat → ℝ) (Nr Nc : Nat) (h : WellFormed M)
    (hN : M.format.symm ≠ 'S')
    (hcover : (block_pairs M).Perm
      (all_pairs M.format.row_cluster.size.length M.format.col_cluster.size.length))
    (hrow : ClusterPartition M.format.row_cluster Nr)
    (hcol : ClusterPartition M.format.col_cluster Nc)
    (hK : KernelComputes M.format.problem.kernel M.format.row_cluster.data
      M.format.col_cluster.data K)
    (hfar : ∀ bi < M.format.nblocks_far, ∀ r < far_nrows M bi, ∀ c < far_ncols M bi,
      Mapprox (cluster_index M.format.row_cluster (blk_i M.format.block_far bi) r)
          (cluster_index M.format.col_cluster (blk_j M.format.block_far bi) c)
        = far_UVt M bi r c)
    (hnearD : M.onfly = 0 → ∀ bi < M.format.nblocks_near, ∀ r < near_nrows M bi,
      ∀ c < near_ncols M bi,
      Mapprox (cluster_index M.format.row_cluster (blk_i M.format.block_near bi) r)
          (cluster_index M.format.col_cluster (blk_j M.format.block_near bi) c)
        = (M.near_D.getD bi []).getD (r + c * near_nrows M bi) 0)
    (hnearK : ∀ bi < M.format.nblocks_near, ∀ r < near_nrows M bi, ∀ c < near_ncols M bi,
      Mapprox (cluster_index M.format.row_cluster (blk_i M.format.block_near bi) r)
          (cluster_index M.format.col_cluster (blk_j M.format.block_near bi) c)
        = K (cluster_index M.format.row_cluster (blk_i M.format.block_near bi) r)
            (cluster_index M.format.col_cluster (blk_j M.format.block_near bi) c))
    (_hnz : frobenius Real.sqrt Nr Nc K ≠ 0) :
    starsh_blrm__dfe Real.sqrt M
      = some (frobenius Real.sqrt Nr Nc (fun r c => K r c - Mapprox r c)
          / frobenius Real.sqrt Nr Nc K) := by
  have kfar : ∀ bi < M.format.nblocks_far, _ :=
    fun bi hbi => kernel_block_entry M.format K hK hrow.1 hcol.1 _ _
      (h.1 bi hbi).1.2.1 (h.1 bi hbi).1.2.2
  have knear : ∀ bi < M.format.nblocks_near, _ :=
    fun bi hbi => kernel_block_entry M.format K hK hrow.1 hcol.1 _ _
      (h.2 bi hbi).1.2.1 (h.2 bi hbi).1.2.2
  have h1 : ∀ bi < M.format.nblocks_far, far_normsq M bi
      = pair_sq M.format.row_cluster M.format.col_cluster K
          (blk_i M.format.block_far bi, blk_j M.format.block_far bi) := by
    intro bi hbi
    unfold far_normsq pair_sq
    apply block_sq_congr
    intro r hr c hc
    exact (kfar bi hbi).2 r hr c hc
  have h2 : ∀ bi < M.format.nblocks_far, far_diffsq M bi
      = pair_sq M.format.row_cluster M.format.col_cluster (fun r c => K r c - Mapprox r c)
          (blk_i M.format.block_far bi, blk_j M.format.block_far bi) := by
    intro bi hbi
    unfold far_diffsq pair_sq
    apply block_sq_congr
    intro r hr c hc
    dsimp only
    rw [hfar bi hbi r hr c hc]
    congr 1
    exact (kfar bi hbi).2 r hr c hc
  have h3 : ∀ bi < M.format.nblocks_near, near_normsq M bi
      = pair_sq M.format.row_cluster M.format.col_cluster K
          (blk_i M.format.block_near bi, blk_j M.format.block_near bi) := by
    intro bi hbi
    unfold near_normsq pair_sq
    apply block_sq_congr
    intro r hr c hc
    unfold near_D_used
    by_cases ho : M.onfly = 0
    · rw [if_pos ho, ← hnearK bi hbi r hr c hc, hnearD ho bi hbi r hr c hc]
    · rw [if_neg ho]
      exact (knear bi hbi).2 r hr c hc
  have h4 : ∀ bi < M.format.nblocks_near,
      pair_sq M.format.row_cluster M.format.col_cluster (fun r c => K r c - Mapprox r c)
          (blk_i M.format.block_near bi, blk_j M.format.block_near bi) = 0 := by
    intro bi hbi
    unfold pair_sq
    rw [block_sq_congr _ _ _ (fun _ _ => (0 : ℝ))
      (fun r hr c hc => by dsimp only; rw [hnearK bi hbi r hr c hc, sub_self])]
    exact block_sq_zero _ _
  have hnorm : dfe_norm_sq M = block_sq Nr Nc K := by
    rw [block_sq_partition _ _ Nr Nc hrow hcol, ← (hcover.map _).sum_eq, sum_block_pairs]
    unfold dfe_norm_sq
    congr 1
    · congr 1
      apply List.map_congr_left
      intro bi hbi
      rw [symm_weight_not_S _ _ _ hN, one_mul, h1 bi (List.mem_range.mp hbi)]
    · congr 1
      apply List.map_congr_left
      intro bi hbi
      rw [symm_weight_not_S _ _ _ hN, one_mul, h3 bi (List.mem_range.mp hbi)]
  have hdiff : dfe_diff_sq M = block_sq Nr Nc (fun r c => K r c - Mapprox r c) := by
    rw [block_sq_partition _ _ Nr Nc hrow hcol, ← (hcover.map _).sum_eq, sum_block_pairs]
    have hz : ((List.range M.format.nblocks_near).map (fun bi =>
        pair_sq M.format.row_cluster M.format.col_cluster (fun r c => K r c - Mapprox r c)
          (blk_i M.format.block_near bi, blk_j M.format.block_near bi))).sum = 0 := by
      apply List.sum_eq_zero
      intro x hx
      obtain ⟨bi, hbi, rfl⟩ := List.mem_map.mp hx
      exact h4 bi (List.mem_range.mp hbi)
    rw [hz, add_zero]
    unfold dfe_diff_sq
    congr 1
    apply List.map_congr_left
    intro bi hbi
    rw [symm_weight_not_S _ _ _ hN, one_mul, h2 bi (List.mem_range.mp hbi)]
  rw [dfe_real M h, hnorm, hdiff]
  rfl
theorem exD_wf {α : Type} [Field α] : WellFormed (exD : STARSH_blrm α Unit) := by
  constructor
  · intro bi hbi
    have hbi2 : bi < 2 := hbi
    interval_cases bi <;>
      simp [FarBlockOk, BlockOk, KernelOk, exD, exFormatN, exCluster, blk_i, blk_j, far_nrows,
        far_ncols, far_rk, dfe_kernel_block, entry_kernel]
  · intro bi hbi
    have hbi2 : bi < 2 := hbi
    interval_cases bi <;>
      simp [NearBlockOk, BlockOk, exD, exFormatN, exCluster, blk_i, blk_j,
        near_nrows, near_ncols]

theorem exCluster_partition : ClusterPartition exCluster 2 := by
  constructor
  · intro i hi
    have hi2 : i < 2 := hi
    interval_cases i <;> simp [exCluster]
  · decide

theorem exK_symm {α : Type} [Field α] (a b : Nat) : (exK a b : α) = exK b a := by
  simp [exK, eq_comm]

theorem exD_cover : (block_pairs (exD : STARSH_blrm ℝ Unit)).Perm (all_pairs 2 2) := by
  have h : block_pairs (exD : STARSH_blrm ℝ Unit) = [(0, 1), (1, 0), (0, 0), (1, 1)] := by
    simp [block_pairs, far_entries, near_entries, far_entry, near_entry, exD, exFormatN,
      blk_i, blk_j, List.range_succ]
  rw [h]
  decide

theorem exK_frobenius : frobenius Real.sqrt 2 2 (exK : Nat → Nat → ℝ) ≠ 0 := by
  have h : block_sq 2 2 (exK : Nat → Nat → ℝ) = 10 := by
    simp [block_sq, exK, List.range_succ]
    norm_num
  rw [frobenius, h]
  exact (Real.sqrt_pos.mpr (by norm_num)).ne.symm

theorem C1_witness :
    WellFormed (exD : STARSH_blrm ℝ Unit) ∧
    (exD : STARSH_blrm ℝ Unit).format.symm ≠ 'S' ∧
    (block_pairs (exD : STARSH_blrm ℝ Unit)).Perm (all_pairs 2 2) ∧
    ClusterPartition exCluster 2 ∧
    frobenius Real.sqrt 2 2 (exK : Nat → Nat → ℝ) ≠ 0 ∧
    starsh_blrm__dfe Real.sqrt (exD : STARSH_blrm ℝ Unit)
      = some (frobenius Real.sqrt 2 2 (fun r c => (exK r c : ℝ) - exApprox r c)
          / frobenius Real.sqrt 2 2 (exK : Nat → Nat → ℝ)) :=
  ⟨exD_wf, by decide, exD_cover, exCluster_partition, exK_frobenius,
    C1_relative_frobenius_error exD exK exApprox 2 2 exD_wf (by decide) exD_cover
      exCluster_partition exCluster_partition (entry_kernel_computes exK () ())
      (by
        intro bi hbi
        have hbi2 : bi < 2 := hbi
        interval_cases bi <;>
        · intro r hr c hc
          have hr1 : r < 1 := hr
          have hc1 : c < 1 := hc
          interval_cases r
          interval_cases c
          simp [far_UVt, far_rk, far_nrows, far_ncols, dot_NT, exD, exFormatN, exCluster,
            exApprox, cluster_index, blk_i, blk_j, List.range_succ])
      (by
        intro _ bi hbi
        have hbi2 : bi < 2 := hbi
        interval_cases bi <;>
        · intro r hr c hc
          have hr1 : r < 1 := hr
          have hc1 : c < 1 := hc
          interval_cases r
          interval_cases c
          simp [near_nrows, exD, exFormatN, exCluster, exApprox, cluster_index, blk_i, blk_j])
      (by
        intro bi hbi
        have hbi2 : bi < 2 := hbi
        interval_cases bi <;>
        · intro r hr c hc
          have hr1 : r < 1 := hr
          have hc1 : c < 1 := hc
          interval_cases r
          interval_cases c
          simp [exD, exFormatN, exCluster, exApprox, exK, cluster_index, blk_i, blk_j])
      exK_frobenius⟩
theorem exCluster_ranges : ClusterRangesOk exCluster := exCluster_partition.1

theorem C5_witness :
    WellFormed (exS : STARSH_blrm ℝ Unit) ∧
    (exS : STARSH_blrm ℝ Unit).format.symm = 'S' ∧
    (exS : STARSH_blrm ℝ Unit).format.row_cluster
      = (exS : STARSH_blrm ℝ Unit).format.col_cluster ∧
    (∀ a b : Nat, (exK a b : ℝ) = exK b a) ∧
    starsh_blrm__dfe Real.sqrt (mirror_blrm (exS : STARSH_blrm ℝ Unit))
      = starsh_blrm__dfe Real.sqrt (exS : STARSH_blrm ℝ Unit) :=
  ⟨exS_wf, rfl, rfl, exK_symm,
    C5_symmetric_equals_mirrored exS exK exS_wf rfl rfl (entry_kernel_computes exK () ())
      exK_symm exCluster_ranges⟩
theorem filled_length {α : Type} [Field α] (val : Nat → Nat → α) (ld nrows J I : Nat)
    (res : List α) : (filled val ld nrows J I res).length = res.length := by
  simp [filled]

theorem filled_getElem? {α : Type} [Field α] (val : Nat → Nat → α) (ld nrows J I : Nat)
    (res : List α) (p : Nat) (hp : p < res.length) :
    (filled val ld nrows J I res)[p]?
      = some (if p % ld < nrows ∧ (p / ld < J ∨ (p / ld = J ∧ p % ld < I))
          then val (p % ld) (p / ld) else res.getD p 0) := by
  unfold filled
  rw [List.getElem?_map, List.getElem?_range hp]
  rfl

theorem filled_zero {α : Type} [Field α] (val : Nat → Nat → α) (ld nrows : Nat)
    (res : List α) : filled val ld nrows 0 0 res = res := by
  apply List.ext_getElem?
  intro p
  by_cases hp : p < res.length
  · rw [filled_getElem? _ _ _ _ _ _ _ hp, getElem?_eq_some_getD res p 0 hp]
    simp
  · rw [List.getElem?_eq_none (by rw [filled_length]; omega),
      List.getElem?_eq_none (by omega)]

theorem filled_next {α : Type} [Field α] (val : Nat → Nat → α) (ld nrows J : Nat)
    (res : List α) : filled val ld nrows J nrows res = filled val ld nrows (J + 1) 0 res := by
  unfold filled
  apply List.map_congr_left
  intro p _
  have hiff : (p % ld < nrows ∧ (p / ld < J ∨ (p / ld = J ∧ p % ld < nrows)))
      ↔ (p % ld < nrows ∧ (p / ld < J + 1 ∨ (p / ld = J + 1 ∧ p % ld < 0))) := by
    constructor
    · rintro ⟨h1, h2⟩
      exact ⟨h1, Or.inl (by omega)⟩
    · rintro ⟨h1, h2⟩
      refine ⟨h1, ?_⟩
      rcases h2 with h2 | h2
      · by_cases h3 : p / ld < J
        · exact Or.inl h3
        · exact Or.inr ⟨by omega, h1⟩
      · omega
  simp only [hiff]

theorem filled_set {α : Type} [Field α] (val : Nat → Nat → α) (ld nrows J I : Nat)
    (res : List α) (hI : I < nrows) (hld : nrows ≤ ld) :
    (filled val ld nrows J I res).set (J * ld + I) (val I J)
      = filled val ld nrows J (I + 1) res := by
  have hIld : I < ld := by omega
  have hmod : (J * ld + I) % ld = I := by
    rw [Nat.add_comm, Nat.add_mul_mod_self_right]
    exact Nat.mod_eq_of_lt hIld
  have hdiv : (J * ld + I) / ld = J := by
    rw [Nat.add_comm, Nat.add_mul_div_right _ _ (by omega), Nat.div_eq_of_lt hIld, Nat.zero_add]
  apply List.ext_getElem?
  intro p
  by_cases hp : p < res.length
  · rw [List.getElem?_set, filled_length, filled_getElem? _ _ _ _ _ _ _ hp,
      filled_getElem? _ _ _ _ _ _ _ hp]
    by_cases hk : J * ld + I = p
    · subst hk
      rw [if_pos rfl, if_pos hp, hmod, hdiv]
      rw [if_pos ⟨hI, Or.inr ⟨rfl, Nat.lt_succ_self I⟩⟩]
    · rw [if_neg hk]
      have hne : ¬ (p / ld = J ∧ p % ld = I) := by
        rintro ⟨h1, h2⟩
        apply hk
        have := Nat.div_add_mod p ld
        rw [h1, h2] at this
        rw [← this, Nat.mul_comm]
      have hiff : (p % ld < nrows ∧ (p / ld < J ∨ (p / ld = J ∧ p % ld < I)))
          ↔ (p % ld < nrows ∧ (p / ld < J ∨ (p / ld = J ∧ p % ld < I + 1))) := by
        constructor
        · rintro ⟨h1, h2⟩
          refine ⟨h1, ?_⟩
          rcases h2 with h2 | h2
          · exact Or.inl h2
          · exact Or.inr ⟨h2.1, by omega⟩
        · rintro ⟨h1, h2⟩
          refine ⟨h1, ?_⟩
          rcases h2 with h2 | h2
          · exact Or.inl h2
          · refine Or.inr ⟨h2.1, ?_⟩
            have h3 : p % ld ≠ I := fun h4 => hne ⟨h2.1, h4⟩
            omega
      simp only [hiff]
  · rw [List.getElem?_eq_none (by rw [List.length_set, filled_length]; omega),
      List.getElem?_eq_none (by rw [filled_length]; omega)]
theorem inner_fill {α : Type} [Field α] (body : Nat → KernelFrame α → Option (KernelFrame α))
    (val : Nat → Nat → α) (ld nrows J : Nat) (mem : KernelFrame α) (hld : nrows ≤ ld)
    (hbody : ∀ i < nrows, ∀ res : List α, res.length = mem.result.length →
      body i { mem with result := res }
        = some { mem with result := res.set (J * ld + i) (val i J) })
    (I : Nat) (hI : I ≤ nrows) :
    forLoop I body { mem with result := filled val ld nrows J 0 mem.result }
      = some { mem with result := filled val ld nrows J I mem.result } := by
  induction I with
  | zero => rfl
  | succ k ih =>
    rw [forLoop_succ, ih (Nat.le_of_succ_le hI), Option.some_bind,
      hbody k hI _ (filled_length _ _ _ _ _ _), filled_set _ _ _ _ _ _ hI hld]

theorem outer_fill {α : Type} [Field α]
    (body : Nat → Nat → KernelFrame α → Option (KernelFrame α))
    (val : Nat → Nat → α) (ld nrows ncols : Nat) (mem : KernelFrame α) (hld : nrows ≤ ld)
    (hbody : ∀ j < ncols, ∀ i < nrows, ∀ res : List α, res.length = mem.result.length →
      body j i { mem with result := res }
        = some { mem with result := res.set (j * ld + i) (val i j) })
    (J : Nat) (hJ : J ≤ ncols) :
    forLoop J (fun j m => forLoop nrows (fun i m => body j i m) m) mem
      = some { mem with result := filled val ld nrows J 0 mem.result } := by
  induction J with
  | zero =>
    rw [filled_zero]
    rfl
  | succ k ih =>
    rw [forLoop_succ, ih (Nat.le_of_succ_le hJ), Option.some_bind,
      inner_fill (fun i m => body k i m) val ld nrows k mem hld (hbody k hJ) nrows (le_refl _),
      filled_next]

theorem write_result_eq {α : Type} (m : KernelFrame α) (j i : Nat) (ld : Int) (v : α)
    (hld : 0 ≤ ld) (h : j * ld.toNat + i < m.result.length) :
    write_result m (j * ld + i) v
      = some { m with result := m.result.set (j * ld.toNat + i) v } := by
  have hidx : ((j : Int) * ld + (i : Int)).toNat = j * ld.toNat + i := by
    have h1 : ((j : Int) * ld + (i : Int)) = ((j * ld.toNat + i : Nat) : Int) := by
      push_cast
      rw [Int.toNat_of_nonneg hld]
    rw [h1, Int.toNat_natCast]
  have hnn : ¬ ((j : Int) * ld + (i : Int) < 0) := by
    have : (0 : Int) ≤ (j : Int) * ld := mul_nonneg (Int.natCast_nonneg j) hld
    have : (0 : Int) ≤ (i : Int) := Int.natCast_nonneg i
    omega
  unfold write_result
  rw [if_neg hnn, hidx, store_eq _ _ _ h]
  rfl

theorem gcd_dist_eq {α : Type} [Field α] (L : Libm α) (m : KernelFrame α) (i j : Nat)
    (hi : i < m.irow.length) (hj : j < m.icol.length)
    (hii : m.row_data.particles.count + m.irow.getD i 0 < m.row_data.particles.point.length)
    (hjj : m.col_data.particles.count + m.icol.getD j 0 < m.col_data.particles.point.length) :
    gcd_dist L m.row_data.particles.count m.col_data.particles.count m i j
      = some (gcd_dist_val L m.row_data m.col_data (m.irow.getD i 0) (m.icol.getD j 0)) := by
  have h1 : (m.row_data.particles.point.drop m.row_data.particles.count)[m.irow.getD i 0]?
      = some (m.row_data.particles.point.getD
          (m.row_data.particles.count + m.irow.getD i 0) 0) := by
    rw [getElem?_eq_some_getD _ _ 0 (by rw [List.length_drop]; omega), getD_drop_eq]
  have h2 : (m.col_data.particles.point.drop m.col_data.particles.count)[m.icol.getD j 0]?
      = some (m.col_data.particles.point.getD
          (m.col_data.particles.count + m.icol.getD j 0) 0) := by
    rw [getElem?_eq_some_getD _ _ 0 (by rw [List.length_drop]; omega), getD_drop_eq]
  have h3 : m.irow.getD i 0 < m.row_data.particles.point.length := by omega
  have h4 : m.icol.getD j 0 < m.col_data.particles.point.length := by omega
  simp only [gcd_dist, Option.bind_eq_bind, getElem?_eq_some_getD m.irow i 0 hi,
    getElem?_eq_some_getD m.icol j 0 hj, Option.some_bind,
    getElem?_eq_some_getD m.row_data.particles.point _ 0 h3,
    getElem?_eq_some_getD m.col_data.particles.point _ 0 h4, h1, h2]
  rfl
theorem filled_post {α : Type} [Field α] (val : Nat → Nat → α) (nrows ncols ld : Int)
    (mem : KernelFrame α) (hld : nrows ≤ ld) (hw : GcdWritesOk nrows ncols ld mem) :
    GcdKernelPost val nrows ncols ld mem
      { mem with result := filled val ld.toNat nrows.toNat ncols.toNat 0 mem.result } := by
  refine ⟨rfl, rfl, rfl, rfl, filled_length _ _ _ _ _ _, ?_, ?_⟩
  · intro i j hi hj
    have hi2 : i < nrows.toNat := Int.lt_toNat.mpr hi
    have hj2 : j < ncols.toNat := Int.lt_toNat.mpr hj
    have hld2 : nrows.toNat ≤ ld.toNat := Int.toNat_le_toNat hld
    have hIld : i < ld.toNat := by omega
    have hmod : (j * ld.toNat + i) % ld.toNat = i := by
      rw [Nat.add_comm, Nat.add_mul_mod_self_right]
      exact Nat.mod_eq_of_lt hIld
    have hdiv : (j * ld.toNat + i) / ld.toNat = j := by
      rw [Nat.add_comm, Nat.add_mul_div_right _ _ (by omega), Nat.div_eq_of_lt hIld,
        Nat.zero_add]
    show (filled val ld.toNat nrows.toNat ncols.toNat 0 mem.result)[j * ld.toNat + i]? = _
    rw [filled_getElem? _ _ _ _ _ _ _ (hw j hj2 i hi2), hmod, hdiv,
      if_pos ⟨hi2, Or.inl hj2⟩]
  · intro p hp
    show (filled val ld.toNat nrows.toNat ncols.toNat 0 mem.result)[p]? = _
    by_cases hlen : p < mem.result.length
    · rw [filled_getElem? _ _ _ _ _ _ _ hlen, getElem?_eq_some_getD _ _ 0 hlen]
      have hnot : ¬ (p % ld.toNat < nrows.toNat ∧ (p / ld.toNat < ncols.toNat
          ∨ (p / ld.toNat = ncols.toNat ∧ p % ld.toNat < 0))) := by
        rintro ⟨h1, h2⟩
        rcases h2 with h2 | h2
        · apply hp (p % ld.toNat) (p / ld.toNat) (Int.lt_toNat.mp h1) (Int.lt_toNat.mp h2)
          have := Nat.div_add_mod p ld.toNat
          rw [Nat.mul_comm] at this
          exact this.symm
        · omega
      rw [if_neg hnot]
    · rw [List.getElem?_eq_none (by rw [filled_length]; omega),
        List.getElem?_eq_none (by omega)]

theorem exp_gcd_kernel_eq {α : Type} [Field α] [DecidableEq α] (L : Libm α)
    (nrows ncols ld : Int) (mem : KernelFrame α) (hld : nrows ≤ ld)
    (hr : GcdReadsOk nrows ncols mem) (hw : GcdWritesOk nrows ncols ld mem) :
    starsh_ssdata_block_exp_kernel_2d_simd_gcd L nrows ncols mem ld
      = some { mem with
          result := filled (fun i j => exp_gcd_value L mem.row_data mem.col_data
              (mem.irow.getD i 0) (mem.icol.getD j 0))
            ld.toNat nrows.toNat ncols.toNat 0 mem.result } := by
  unfold starsh_ssdata_block_exp_kernel_2d_simd_gcd
  apply outer_fill _ _ ld.toNat nrows.toNat ncols.toNat mem (Int.toNat_le_toNat hld) _ _
    (le_refl _)
  intro j hj i hi res hres
  have hnr : 0 < nrows := by
    by_contra hc
    have : nrows.toNat = 0 := Int.toNat_eq_zero.mpr (by omega)
    omega
  obtain ⟨h1, h2, h3, h4⟩ := hr
  have hd := gcd_dist_eq L { mem with result := res } i j (by show i < mem.irow.length; omega)
    (by show j < mem.icol.length; omega) (h3 i hi) (h4 j hj)
  have hwr : ∀ v : α, write_result { mem with result := res } (j * ld + i) v
      = some { mem with result := res.set (j * ld.toNat + i) v } := by
    intro v
    exact write_result_eq { mem with result := res } j i ld v (by omega)
      (by show j * ld.toNat + i < res.length; rw [hres]; exact hw j hj i hi)
  show (gcd_dist L mem.row_data.particles.count mem.col_data.particles.count
      { mem with result := res } i j).bind _ = _
  rw [hd, Option.some_bind]
  simp only [hwr]
  unfold exp_gcd_value
  split <;> rfl

theorem sqrexp_gcd_kernel_eq {α : Type} [Field α] [DecidableEq α] (L : Libm α)
    (nrows ncols ld : Int) (mem : KernelFrame α) (hld : nrows ≤ ld)
    (hr : GcdReadsOk nrows ncols mem) (hw : GcdWritesOk nrows ncols ld mem) :
    starsh_ssdata_block_sqrexp_kernel_2d_simd_gcd L nrows ncols mem ld
      = some { mem with
          result := filled (fun i j => sqrexp_gcd_value L mem.row_data mem.col_data
              (mem.irow.getD i 0) (mem.icol.getD j 0))
            ld.toNat nrows.toNat ncols.toNat 0 mem.result } := by
  unfold starsh_ssdata_block_sqrexp_kernel_2d_simd_gcd
  apply outer_fill _ _ ld.toNat nrows.toNat ncols.toNat mem (Int.toNat_le_toNat hld) _ _
    (le_refl _)
  intro j hj i hi res hres
  have hnr : 0 < nrows := by
    by_contra hc
    have : nrows.toNat = 0 := Int.toNat_eq_zero.mpr (by omega)
    omega
  obtain ⟨h1, h2, h3, h4⟩ := hr
  have hd := gcd_dist_eq L { mem with result := res } i j (by show i < mem.irow.length; omega)
    (by show j < mem.icol.length; omega) (h3 i hi) (h4 j hj)
  have hwr : ∀ v : α, write_result { mem with result := res } (j * ld + i) v
      = some { mem with result := res.set (j * ld.toNat + i) v } := by
    intro v
    exact write_result_eq { mem with result := res } j i ld v (by omega)
      (by show j * ld.toNat + i < res.length; rw [hres]; exact hw j hj i hi)
  show (gcd_dist L mem.row_data.particles.count mem.col_data.particles.count
      { mem with result := res } i j).bind _ = _
  rw [hd, Option.some_bind]
  simp only [hwr]
  unfold sqrexp_gcd_value
  split <;> rfl

/-- C10: for a leading dimension `ld ≥ nrows` and in-bounds memory, both
great-circle kernels return, write the value for the row index `irow[i]` and
the column index `icol[j]` at `result[j*ld + i]` for every `0 ≤ i < nrows`,
`0 ≤ j < ncols`, leave every other position of `result` (in particular the
padding rows `nrows ≤ i < ld` of each column) unchanged, and do not modify
`row_data`, `col_data`, `irow` or `icol`. -/
theorem C10_gcd_kernels_fill_and_frame {α : Type} [Field α] [DecidableEq α] (L : Libm α)
    (nrows ncols ld : Int) (mem : KernelFrame α) (hld : nrows ≤ ld)
    (hr : GcdReadsOk nrows ncols mem) (hw : GcdWritesOk nrows ncols ld mem) :
    (∃ after, starsh_ssdata_block_exp_kernel_2d_simd_gcd L nrows ncols mem ld = some after ∧
      GcdKernelPost (fun i j => exp_gcd_value L mem.row_data mem.col_data
        (mem.irow.getD i 0) (mem.icol.getD j 0)) nrows ncols ld mem after ∧
      ∀ i j : Nat, nrows ≤ (i : Int) → (i : Int) < ld →
        after.result[j * ld.toNat + i]? = mem.result[j * ld.toNat + i]?) ∧
    (∃ after, starsh_ssdata_block_sqrexp_kernel_2d_simd_gcd L nrows ncols mem ld = some after ∧
      GcdKernelPost (fun i j => sqrexp_gcd_value L mem.row_data mem.col_data
        (mem.irow.getD i 0) (mem.icol.getD j 0)) nrows ncols ld mem after ∧
      ∀ i j : Nat, nrows ≤ (i : Int) → (i : Int) < ld →
        after.result[j * ld.toNat + i]? = mem.result[j * ld.toNat + i]?) := by
  have hpad : ∀ (val : Nat → Nat → α) (after : KernelFrame α),
      GcdKernelPost val nrows ncols ld mem after →
      ∀ i j : Nat, nrows ≤ (i : Int) → (i : Int) < ld →
        after.result[j * ld.toNat + i]? = mem.result[j * ld.toNat + i]? := by
    intro val after hpost i j hi1 hi2
    apply hpost.2.2.2.2.2.2
    intro i2 j2 hi3 _ heq
    have hi2n : i < ld.toNat := Int.lt_toNat.mpr hi2
    have hi3n : i2 < ld.toNat := Int.lt_toNat.mpr (lt_of_lt_of_le hi3 hld)
    have e1 : (j * ld.toNat + i) % ld.toNat = i := by
      rw [Nat.add_comm, Nat.add_mul_mod_self_right]
      exact Nat.mod_eq_of_lt hi2n
    have e2 : (j2 * ld.toNat + i2) % ld.toNat = i2 := by
      rw [Nat.add_comm, Nat.add_mul_mod_self_right]
      exact Nat.mod_eq_of_lt hi3n
    have e3 : i = i2 := by rw [← e1, heq, e2]
    omega
  exact ⟨⟨_, exp_gcd_kernel_eq L nrows ncols ld mem hld hr hw, filled_post _ _ _ _ _ hld hw,
      hpad _ _ (filled_post _ _ _ _ _ hld hw)⟩,
    ⟨_, sqrexp_gcd_kernel_eq L nrows ncols ld mem hld hr hw, filled_post _ _ _ _ _ hld hw,
      hpad _ _ (filled_post _ _ _ _ _ hld hw)⟩⟩
theorem exFrame_reads {α : Type} [Field α] : GcdReadsOk 1 1 (exFrame : KernelFrame α) := by
  refine ⟨by simp [exFrame], by simp [exFrame], ?_, ?_⟩
  · intro i hi
    have hi1 : i < 1 := hi
    interval_cases i
    simp [exFrame]
  · intro j hj
    have hj1 : j < 1 := hj
    interval_cases j
    simp [exFrame]

theorem exFrame_writes {α : Type} [Field α] : GcdWritesOk 1 1 2 (exFrame : KernelFrame α) := by
  intro j hj i hi
  have hi1 : i < 1 := hi
  have hj1 : j < 1 := hj
  interval_cases i
  interval_cases j
  simp [exFrame]

theorem C10_witness :
    (1 : Int) ≤ 2 ∧ GcdReadsOk 1 1 (exFrame : KernelFrame ℝ) ∧
    GcdWritesOk 1 1 2 (exFrame : KernelFrame ℝ) ∧
    (∃ after, starsh_ssdata_block_exp_kernel_2d_simd_gcd
        (Libm.mk Real.sqrt Real.sin Real.cos Real.arcsin Real.exp) 1 1
        (exFrame : KernelFrame ℝ) 2 = some after ∧
      GcdKernelPost (fun i j => exp_gcd_value
          (Libm.mk Real.sqrt Real.sin Real.cos Real.arcsin Real.exp)
          (exFrame : KernelFrame ℝ).row_data (exFrame : KernelFrame ℝ).col_data
          ((exFrame : KernelFrame ℝ).irow.getD i 0) ((exFrame : KernelFrame ℝ).icol.getD j 0))
        1 1 2 exFrame after ∧
      ∀ i j : Nat, (1 : Int) ≤ (i : Int) → (i : Int) < 2 →
        after.result[j * (2 : Int).toNat + i]?
          = (exFrame : KernelFrame ℝ).result[j * (2 : Int).toNat + i]?) ∧
    (∃ after, starsh_ssdata_block_sqrexp_kernel_2d_simd_gcd
        (Libm.mk Real.sqrt Real.sin Real.cos Real.arcsin Real.exp) 1 1
        (exFrame : KernelFrame ℝ) 2 = some after ∧
      GcdKernelPost (fun i j => sqrexp_gcd_value
          (Libm.mk Real.sqrt Real.sin Real.cos Real.arcsin Real.exp)
          (exFrame : KernelFrame ℝ).row_data (exFrame : KernelFrame ℝ).col_data
          ((exFrame : KernelFrame ℝ).irow.getD i 0) ((exFrame : KernelFrame ℝ).icol.getD j 0))
        1 1 2 exFrame after ∧
      ∀ i j : Nat, (1 : Int) ≤ (i : Int) → (i : Int) < 2 →
        after.result[j * (2 : Int).toNat + i]?
          = (exFrame : KernelFrame ℝ).result[j * (2 : Int).toNat + i]?) :=
  ⟨by decide, exFrame_reads, exFrame_writes,
    C10_gcd_kernels_fill_and_frame (Libm.mk Real.sqrt Real.sin Real.cos Real.arcsin Real.exp)
      1 1 2 exFrame (by decide) exFrame_reads exFrame_writes⟩

/-! ## Values of the examples -/

/-- The example `exN`: one far block in error by `1`, matrix norm `√10`. -/
theorem exN_value :
    starsh_blrm__dfe Real.sqrt (exN : STARSH_blrm ℝ Unit) = some (1 / Real.sqrt 10) := by
  have hd : dfe_diff_sq (exN : STARSH_blrm ℝ Unit) = 1 := by
    simp [dfe_diff_sq, far_diffsq, block_sq, symm_weight, far_D, far_UVt, far_rk, dot_NT,
      far_nrows, far_ncols, kernel_block, dfe_kernel_block, entry_kernel, exN, exFormatN,
      exCluster, exK, blk_i, blk_j, List.range_succ]
  rw [dfe_real exN exN_wf, hd, exN_norm_sq, Real.sqrt_one]

/-- The symmetric example `exS`: its only far block `(0,1)`, in error by `1`,
counts twice. -/
theorem exS_value :
    starsh_blrm__dfe Real.sqrt (exS : STARSH_blrm ℝ Unit)
      = some (Real.sqrt 2 / Real.sqrt 10) := by
  have hd : dfe_diff_sq (exS : STARSH_blrm ℝ Unit) = 2 := by
    simp [dfe_diff_sq, far_diffsq, block_sq, symm_weight, far_D, far_UVt, far_rk, dot_NT,
      far_nrows, far_ncols, kernel_block, dfe_kernel_block, entry_kernel, exS, exFormatS,
      exCluster, exK, blk_i, blk_j, List.range_succ]
  have hn : dfe_norm_sq (exS : STARSH_blrm ℝ Unit) = 10 := by
    simp [dfe_norm_sq, far_normsq, near_normsq, block_sq, symm_weight, far_D, near_D_used,
      far_nrows, far_ncols, near_nrows, near_ncols, kernel_block, dfe_kernel_block,
      entry_kernel, exS, exFormatS, exCluster, exK, blk_i, blk_j, List.range_succ]
    norm_num
  rw [dfe_real exS exS_wf, hd, hn]

/-! ## The random tiled kernel -/

theorem load_eq {β : Type} (a : List β) (idx : Int) (d : β) (h0 : 0 ≤ idx)
    (h1 : idx.toNat < a.length) : load a idx = some (a.getD idx.toNat d) := by
  unfold load
  rw [if_neg (by omega), getElem?_eq_some_getD a _ d h1]

theorem c_div_eq (a b : Int) (hb : b ≠ 0) : c_div a b = some (Int.tdiv a b) := by
  unfold c_div
  rw [if_neg hb]

/-- The index `ii + k·n` of column `k` of `U` lies inside `U`. -/
theorem rndtiled_index_ok {α : Type} (data : STARSH_rndtiled α) (hd : RndtiledOk data)
    (ii k : Nat) (hii : (ii : Int) < data.n) (hk : k < data.block_size.toNat) :
    0 ≤ (ii : Int) + (k : Int) * data.n ∧
      ((ii : Int) + (k : Int) * data.n).toNat < data.U.length := by
  obtain ⟨_, hn, hU, _⟩ := hd
  have h1 : 0 ≤ (k : Int) * data.n := mul_nonneg (Int.ofNat_nonneg k) hn
  refine ⟨by omega, ?_⟩
  have h2 : ((ii : Int) + (k : Int) * data.n).toNat = ii + k * data.n.toNat := by
    have h3 : (((ii + k * data.n.toNat : Nat)) : Int) = (ii : Int) + (k : Int) * data.n := by
      push_cast
      rw [Int.toNat_of_nonneg hn]
    rw [← h3, Int.toNat_ofNat]
  rw [h2]
  have h4 : ii < data.n.toNat := by omega
  have h5 : (k + 1) * data.n.toNat ≤ data.block_size.toNat * data.n.toNat :=
    Nat.mul_le_mul_right _ hk
  have h6 : (k + 1) * data.n.toNat = k * data.n.toNat + data.n.toNat := by ring
  have h7 : data.n.toNat * data.block_size.toNat = data.block_size.toNat * data.n.toNat :=
    Nat.mul_comm _ _
  omega

theorem rndtiled_dot_eq {α : Type} [Field α] (data : STARSH_rndtiled α) (hd : RndtiledOk data)
    (ii jj : Nat) (hii : (ii : Int) < data.n) (hjj : (jj : Int) < data.n) :
    rndtiled_dot data ii jj = some (rndtiled_sum data ii jj) := by
  unfold rndtiled_dot rndtiled_sum
  have key : ∀ m : Nat, m ≤ data.block_size.toNat →
      forLoop m (fun k res => do
        let a ← load data.U (ii + k * data.n)
        let b ← load data.U (jj + k * data.n)
        let s ← data.S[k]?
        pure (res + a * b * s)) (0 : α)
      = some ((List.range m).map (fun (k : Nat) =>
          data.U.getD ((ii : Int) + (k : Int) * data.n).toNat 0
            * data.U.getD ((jj : Int) + (k : Int) * data.n).toNat 0
            * data.S.getD k 0)).sum := by
    intro m
    induction m with
    | zero => intro _; rfl
    | succ k ih =>
      intro hk
      have hk2 : k < data.block_size.toNat := hk
      rw [forLoop_succ, ih (Nat.le_of_succ_le hk), Option.some_bind]
      obtain ⟨a0, a1⟩ := rndtiled_index_ok data hd ii k hii hk2
      obtain ⟨b0, b1⟩ := rndtiled_index_ok data hd jj k hjj hk2
      have hS : k < data.S.length := lt_of_lt_of_le hk2 hd.2.2.2
      rw [load_eq _ _ 0 a0 a1, load_eq _ _ 0 b0 b1, getElem?_eq_some_getD _ _ 0 hS]
      simp only [Option.bind_eq_bind, Option.some_bind, Option.pure_def]
      rw [List.range_succ, List.map_append, List.sum_append]
      simp
  exact key _ (le_refl _)

theorem filledT_length {α : Type} [Field α] (val : Nat → Nat → α) (nrows ncols I J : Nat)
    (res : List α) : (filledT val nrows ncols I J res).length = res.length := by
  simp [filledT]

theorem filledT_getElem? {α : Type} [Field α] (val : Nat → Nat → α) (nrows ncols I J : Nat)
    (res : List α) (p : Nat) (hp : p < res.length) :
    (filledT val nrows ncols I J res)[p]?
      = some (if (p % nrows < I ∧ p / nrows < ncols) ∨ (p % nrows = I ∧ p / nrows < J)
          then val (p % nrows) (p / nrows) else res.getD p 0) := by
  unfold filledT
  rw [List.getElem?_map, List.getElem?_range hp]
  rfl

theorem filledT_zero {α : Type} [Field α] (val : Nat → Nat → α) (nrows ncols : Nat)
    (res : List α) : filledT val nrows ncols 0 0 res = res := by
  apply List.ext_getElem?
  intro p
  by_cases hp : p < res.length
  · rw [filledT_getElem? _ _ _ _ _ _ _ hp, getElem?_eq_some_getD res p 0 hp]
    simp
  · rw [List.getElem?_eq_none (by rw [filledT_length]; omega),
      List.getElem?_eq_none (by omega)]

theorem filledT_next {α : Type} [Field α] (val : Nat → Nat → α) (nrows ncols I : Nat)
    (res : List α) :
    filledT val nrows ncols I ncols res = filledT val nrows ncols (I + 1) 0 res := by
  unfold filledT
  apply List.map_congr_left
  intro p _
  have hiff : ((p % nrows < I ∧ p / nrows < ncols) ∨ (p % nrows = I ∧ p / nrows < ncols))
      ↔ ((p % nrows < I + 1 ∧ p / nrows < ncols) ∨ (p % nrows = I + 1 ∧ p / nrows < 0)) := by
    constructor
    · rintro (⟨h1, h2⟩ | ⟨h1, h2⟩)
      · exact Or.inl ⟨by omega, h2⟩
      · exact Or.inl ⟨by omega, h2⟩
    · rintro (⟨h1, h2⟩ | ⟨h1, h2⟩)
      · by_cases h3 : p % nrows < I
        · exact Or.inl ⟨h3, h2⟩
        · exact Or.inr ⟨by omega, h2⟩
      · exact absurd h2 (Nat.not_lt_zero _)
  simp only [hiff]

theorem filledT_set {α : Type} [Field α] (val : Nat → Nat → α) (nrows ncols I J : Nat)
    (res : List α) (hI : I < nrows) :
    (filledT val nrows ncols I J res).set (J * nrows + I) (val I J)
      = filledT val nrows ncols I (J + 1) res := by
  have hmod : (J * nrows + I) % nrows = I := by
    rw [Nat.add_comm, Nat.add_mul_mod_self_right]
    exact Nat.mod_eq_of_lt hI
  have hdiv : (J * nrows + I) / nrows = J := by
    rw [Nat.add_comm, Nat.add_mul_div_right _ _ (by omega), Nat.div_eq_of_lt hI, Nat.zero_add]
  apply List.ext_getElem?
  intro p
  by_cases hp : p < res.length
  · rw [List.getElem?_set, filledT_length, filledT_getElem? _ _ _ _ _ _ _ hp,
      filledT_getElem? _ _ _ _ _ _ _ hp]
    by_cases hk : J * nrows + I = p
    · subst hk
      rw [if_pos rfl, if_pos hp, hmod, hdiv]
      rw [if_pos (Or.inr ⟨rfl, Nat.lt_succ_self J⟩)]
    · rw [if_neg hk]
      have hne : ¬ (p / nrows = J ∧ p % nrows = I) := by
        rintro ⟨h1, h2⟩
        apply hk
        have := Nat.div_add_mod p nrows
        rw [h1, h2] at this
        rw [← this, Nat.mul_comm]
      have hiff : ((p % nrows < I ∧ p / nrows < ncols) ∨ (p % nrows = I ∧ p / nrows < J))
          ↔ ((p % nrows < I ∧ p / nrows < ncols) ∨ (p % nrows = I ∧ p / nrows < J + 1)) := by
        constructor
        · rintro (h | ⟨h1, h2⟩)
          · exact Or.inl h
          · exact Or.inr ⟨h1, by omega⟩
        · rintro (h | ⟨h1, h2⟩)
          · exact Or.inl h
          · refine Or.inr ⟨h1, ?_⟩
            have h3 : p / nrows ≠ J := fun h4 => hne ⟨h4, h1⟩
            omega
      simp only [hiff]
  · rw [List.getElem?_eq_none (by rw [List.length_set, filledT_length]; omega),
      List.getElem?_eq_none (by rw [filledT_length]; omega)]

/-- One iteration of the `j` loop stores the entry of the pair `(ii, icol[j])`. -/
theorem rndtiled_entry_eq {α : Type} [Field α] (data : STARSH_rndtiled α) (hd : RndtiledOk data)
    (nrows : Nat) (icol : List Nat) (i ii j : Nat) (buffer : List α)
    (hj : j < icol.length) (hii : (ii : Int) < data.n)
    (hjj : ((icol.getD j 0 : Nat) : Int) < data.n) (hb : j * nrows + i < buffer.length) :
    rndtiled_entry data nrows icol i ii j buffer
      = some (buffer.set (j * nrows + i) (rndtiled_value data ii (icol.getD j 0))) := by
  unfold rndtiled_entry rndtiled_value
  rw [getElem?_eq_some_getD icol j 0 hj]
  simp only [Option.bind_eq_bind, Option.some_bind]
  rw [c_div_eq _ _ (ne_of_gt hd.1), Option.some_bind, rndtiled_dot_eq data hd ii _ hii hjj,
    Option.some_bind]
  by_cases h : ii = icol.getD j 0
  · rw [if_pos h, if_pos h, store_eq _ _ _ hb]
  · rw [if_neg h, if_neg h, store_eq _ _ _ hb]

theorem rndtiled_inner_fill {α : Type} [Field α] (data : STARSH_rndtiled α)
    (hd : RndtiledOk data) (nrows ncols : Nat) (irow icol : List Nat) (result : List α)
    (hcol : ncols ≤ icol.length)
    (hcn : ∀ j < ncols, ((icol.getD j 0 : Nat) : Int) < data.n)
    (hres : nrows * ncols ≤ result.length) (I : Nat) (hI : I < nrows)
    (hii : ((irow.getD I 0 : Nat) : Int) < data.n) (J : Nat) (hJ : J ≤ ncols) :
    forLoop J (fun j buffer => rndtiled_entry data nrows icol I (irow.getD I 0) j buffer)
        (filledT (fun i j => rndtiled_value data (irow.getD i 0) (icol.getD j 0))
          nrows ncols I 0 result)
      = some (filledT (fun i j => rndtiled_value data (irow.getD i 0) (icol.getD j 0))
          nrows ncols I J result) := by
  induction J with
  | zero => rfl
  | succ k ih =>
    have hk : k < ncols := hJ
    have hpos : k * nrows + I < result.length := by
      have h1 : (k + 1) * nrows ≤ ncols * nrows := Nat.mul_le_mul_right _ hk
      have h2 : (k + 1) * nrows = k * nrows + nrows := by ring
      have h3 : ncols * nrows = nrows * ncols := Nat.mul_comm _ _
      omega
    rw [forLoop_succ, ih (Nat.le_of_succ_le hJ), Option.some_bind,
      rndtiled_entry_eq data hd nrows icol I _ k _ (lt_of_lt_of_le hk hcol) hii (hcn k hk)
        (by rw [filledT_length]; exact hpos)]
    rw [filledT_set (fun i j => rndtiled_value data (irow.getD i 0) (icol.getD j 0))
      nrows ncols I k result hI]

/-- The kernel fills the column-major `nrows×ncols` block. -/
theorem rndtiled_kernel_eq {α : Type} [Field α] (data cd : STARSH_rndtiled α)
    (hd : RndtiledOk data) (nrows ncols : Nat) (irow icol : List Nat) (result : List α)
    (hrow : nrows ≤ irow.length) (hcol : ncols ≤ icol.length)
    (hrn : ∀ i < nrows, ((irow.getD i 0 : Nat) : Int) < data.n)
    (hcn : ∀ j < ncols, ((icol.getD j 0 : Nat) : Int) < data.n)
    (hres : nrows * ncols ≤ result.length) :
    starsh_rndtiled_block_kernel nrows ncols irow icol data cd result
      = some (filledT (fun i j => rndtiled_value data (irow.getD i 0) (icol.getD j 0))
          nrows ncols nrows 0 result) := by
  unfold starsh_rndtiled_block_kernel
  have key : ∀ I : Nat, I ≤ nrows →
      forLoop I (fun i buffer => do
        let ii ← irow[i]?
        let _ibrow ← c_div ii data.block_size
        forLoop ncols (fun j buffer => rndtiled_entry data nrows icol i ii j buffer) buffer)
        result
      = some (filledT (fun i j => rndtiled_value data (irow.getD i 0) (icol.getD j 0))
          nrows ncols I 0 result) := by
    intro I
    induction I with
    | zero => intro _; rw [filledT_zero]; rfl
    | succ k ih =>
      intro hk
      have hk2 : k < nrows := hk
      rw [forLoop_succ, ih (Nat.le_of_succ_le hk), Option.some_bind,
        getElem?_eq_some_getD irow k 0 (lt_of_lt_of_le hk2 hrow)]
      simp only [Option.bind_eq_bind, Option.some_bind]
      rw [c_div_eq _ _ (ne_of_gt hd.1), Option.some_bind,
        rndtiled_inner_fill data hd nrows ncols irow icol result hcol hcn hres k hk2
          (hrn k hk2) ncols (le_refl _), filledT_next]
  exact key nrows (le_refl _)

/-- After the kernel every position of the block holds its entry and every
other position keeps its value. -/
theorem filledT_post {α : Type} [Field α] (val : Nat → Nat → α) (nrows ncols : Nat)
    (res : List α) (hres : nrows * ncols ≤ res.length) :
    (∀ i j : Nat, i < nrows → j < ncols →
      (filledT val nrows ncols nrows 0 res)[j * nrows + i]? = some (val i j)) ∧
    (∀ p : Nat, nrows * ncols ≤ p →
      (filledT val nrows ncols nrows 0 res)[p]? = res[p]?) := by
  constructor
  · intro i j hi hj
    have hpos : j * nrows + i < res.length := by
      have h1 : (j + 1) * nrows ≤ ncols * nrows := Nat.mul_le_mul_right _ hj
      have h2 : (j + 1) * nrows = j * nrows + nrows := by ring
      have h3 : ncols * nrows = nrows * ncols := Nat.mul_comm _ _
      omega
    have hmod : (j * nrows + i) % nrows = i := by
      rw [Nat.add_comm, Nat.add_mul_mod_self_right]
      exact Nat.mod_eq_of_lt hi
    have hdiv : (j * nrows + i) / nrows = j := by
      rw [Nat.add_comm, Nat.add_mul_div_right _ _ (by omega), Nat.div_eq_of_lt hi, Nat.zero_add]
    rw [filledT_getElem? _ _ _ _ _ _ _ hpos, hmod, hdiv, if_pos (Or.inl ⟨hi, hj⟩)]
  · intro p hp
    by_cases hlt : p < res.length
    · rw [filledT_getElem? _ _ _ _ _ _ _ hlt, getElem?_eq_some_getD res p 0 hlt]
      have hnot : ¬ ((p % nrows < nrows ∧ p / nrows < ncols) ∨ (p % nrows = nrows ∧ p / nrows < 0)) := by
        rintro (⟨h1, h2⟩ | ⟨_, h2⟩)
        · have h3 : nrows * (p / nrows) + p % nrows = p := Nat.div_add_mod p nrows
          have h4 : nrows * (p / nrows + 1) ≤ nrows * ncols := Nat.mul_le_mul_left _ h2
          have h5 : nrows * (p / nrows + 1) = nrows * (p / nrows) + nrows := by ring
          omega
        · exact absurd h2 (Nat.not_lt_zero _)
      rw [if_neg hnot]
    · rw [List.getElem?_eq_none (by rw [filledT_length]; omega),
        List.getElem?_eq_none (by omega)]

theorem exT_ok {α : Type} [Field α] : RndtiledOk (exT : STARSH_rndtiled α) := by
  unfold RndtiledOk exT
  simp

/-- C19: for an object laid out for `n` and `block_size > 0`, index lists with
entries in `[0, n)` and a buffer of at least `nrows·ncols` entries,
`starsh_rndtiled_block_kernel` returns, and `result[j*nrows+i]` then holds
`Σ_{k<block_size} U[ii+k·n]·U[jj+k·n]·S[k]` with `ii = irow[i]`, `jj = icol[j]`,
plus `add_diag` exactly when `ii == jj`; the rest of the buffer is untouched,
and the outcome does not depend on `col_data`. -/
theorem C19_rndtiled_block_kernel {α : Type} [Field α] (row_data col_data : STARSH_rndtiled α)
    (nrows ncols : Nat) (irow icol : List Nat) (result : List α)
    (hd : RndtiledOk row_data) (hrow : nrows ≤ irow.length) (hcol : ncols ≤ icol.length)
    (hrn : ∀ i < nrows, ((irow.getD i 0 : Nat) : Int) < row_data.n)
    (hcn : ∀ j < ncols, ((icol.getD j 0 : Nat) : Int) < row_data.n)
    (hres : nrows * ncols ≤ result.length) :
    ∃ out : List α,
      starsh_rndtiled_block_kernel nrows ncols irow icol row_data col_data result = some out ∧
      out.length = result.length ∧
      (∀ i j : Nat, i < nrows → j < ncols →
        out[j * nrows + i]?
          = some (rndtiled_sum row_data (irow.getD i 0) (icol.getD j 0)
              + if irow.getD i 0 = icol.getD j 0 then row_data.add_diag else 0)) ∧
      (∀ p : Nat, nrows * ncols ≤ p → out[p]? = result[p]?) ∧
      (∀ other : STARSH_rndtiled α,
        starsh_rndtiled_block_kernel nrows ncols irow icol row_data other result = some out) := by
  refine ⟨_, rndtiled_kernel_eq row_data col_data hd nrows ncols irow icol result hrow hcol
    hrn hcn hres, filledT_length _ _ _ _ _ _, ?_, (filledT_post _ nrows ncols result hres).2,
    fun other => rndtiled_kernel_eq row_data other hd nrows ncols irow icol result hrow hcol
      hrn hcn hres⟩
  intro i j hi hj
  rw [(filledT_post _ nrows ncols result hres).1 i j hi hj]
  unfold rndtiled_value
  by_cases h : irow.getD i 0 = icol.getD j 0
  · rw [if_pos h, if_pos h]
  · rw [if_neg h, if_neg h, add_zero]

theorem C19_witness :
    ∃ out : List ℚ,
      starsh_rndtiled_block_kernel 2 2 [0, 1] [1, 2] exT exT [0, 0, 0, 0, 7] = some out ∧
      out.length = 5 ∧
      (∀ i j : Nat, i < 2 → j < 2 →
        out[j * 2 + i]?
          = some (rndtiled_sum (exT : STARSH_rndtiled ℚ) ([0, 1].getD i 0) ([1, 2].getD j 0)
              + if [0, 1].getD i 0 = [1, 2].getD j 0 then (exT : STARSH_rndtiled ℚ).add_diag
                else 0)) ∧
      (∀ p : Nat, 2 * 2 ≤ p → out[p]? = [0, 0, 0, 0, (7 : ℚ)][p]?) ∧
      (∀ other : STARSH_rndtiled ℚ,
        starsh_rndtiled_block_kernel 2 2 [0, 1] [1, 2] exT other [0, 0, 0, 0, 7] = some out) :=
  C19_rndtiled_block_kernel exT exT 2 2 [0, 1] [1, 2] [0, 0, 0, 0, 7] exT_ok (by decide)
    (by decide) (by decide) (by decide) (by decide)

theorem sum_map_range_eq_finset {β : Type} [AddCommMonoid β] (f : Nat → β) (n : Nat) :
    ((List.range n).map f).sum = ∑ k : Fin n, f k.val := by
  rw [← Finset.sum_range (fun k => f k)]
  induction n with
  | zero => rfl
  | succ m ih => rw [List.range_succ, List.map_append, List.sum_append, ih,
      Finset.sum_range_succ]; simp

theorem rndtiled_low_rank (data : STARSH_rndtiled ℝ) (nrows ncols : Nat) (irow icol : List Nat)
    (out : List ℝ)
    (hout : ∀ i j : Nat, i < nrows → j < ncols →
      out.getD (j * nrows + i) 0 = rndtiled_sum data (irow.getD i 0) (icol.getD j 0)) :
    block_matrix nrows ncols out
        = rndtiled_A data irow nrows
            * Matrix.diagonal (fun k : Fin data.block_size.toNat => data.S.getD k.val 0)
            * (rndtiled_A data icol ncols).transpose ∧
      (block_matrix nrows ncols out).rank ≤ data.block_size.toNat := by
  have h1 : block_matrix nrows ncols out
        = rndtiled_A data irow nrows
            * Matrix.diagonal (fun k : Fin data.block_size.toNat => data.S.getD k.val 0)
            * (rndtiled_A data icol ncols).transpose := by
    ext i j
    rw [Matrix.mul_apply]
    simp only [Matrix.mul_diagonal, Matrix.transpose_apply]
    unfold block_matrix rndtiled_A
    simp only [Matrix.of_apply]
    rw [hout i.val j.val i.isLt j.isLt]
    unfold rndtiled_sum
    rw [sum_map_range_eq_finset]
    apply Finset.sum_congr rfl
    intro k _
    ring
  refine ⟨h1, ?_⟩
  rw [h1]
  exact le_trans (Matrix.rank_mul_le_left _ _) (Matrix.rank_le_width _)

/-- On a format over the random tiled kernel the block of a cluster pair is
filled with the entries of the global indices of the two clusters. -/
theorem rndtiled_kernel_block {α : Type} [Field α] (F : STARSH_blrf α (STARSH_rndtiled α))
    (hk : F.problem.kernel = starsh_rndtiled_block_kernel)
    (hd : RndtiledOk F.row_cluster.data)
    (hR : ClusterRangesOk F.row_cluster) (hC : ClusterRangesOk F.col_cluster)
    (hRn : ClusterIndicesBelow F.row_cluster F.row_cluster.data.n)
    (hCn : ClusterIndicesBelow F.col_cluster F.row_cluster.data.n)
    (i j : Nat) (hi : i < F.row_cluster.size.length) (hj : j < F.col_cluster.size.length) :
    KernelOk F i j ∧
      ∀ a < F.row_cluster.size.getD i 0, ∀ b < F.col_cluster.size.getD j 0,
        (kernel_block F i j).getD (a + b * F.row_cluster.size.getD i 0) 0
          = rndtiled_value F.row_cluster.data (cluster_index F.row_cluster i a)
              (cluster_index F.col_cluster j b) := by
  obtain ⟨hi1, hi2⟩ := hR i hi
  obtain ⟨hj1, hj2⟩ := hC j hj
  have hcall : dfe_kernel_block F i j (F.row_cluster.size.getD i 0)
      (F.col_cluster.size.getD j 0)
      = some (filledT (fun a b => rndtiled_value F.row_cluster.data
          ((F.row_cluster.pivot.drop (F.row_cluster.start.getD i 0)).getD a 0)
          ((F.col_cluster.pivot.drop (F.col_cluster.start.getD j 0)).getD b 0))
          (F.row_cluster.size.getD i 0) (F.col_cluster.size.getD j 0)
          (F.row_cluster.size.getD i 0) 0
          (List.replicate (F.row_cluster.size.getD i 0 * F.col_cluster.size.getD j 0) 0)) := by
    simp only [dfe_kernel_block, Option.bind_eq_bind,
      getElem?_eq_some_getD F.row_cluster.start i 0 hi1,
      getElem?_eq_some_getD F.col_cluster.start j 0 hj1, Option.some_bind]
    rw [hk]
    apply rndtiled_kernel_eq _ _ hd
    · rw [List.length_drop]; omega
    · rw [List.length_drop]; omega
    · intro a ha
      rw [getD_drop_eq]
      exact hRn i hi a ha
    · intro b hb
      rw [getD_drop_eq]
      exact hCn j hj b hb
    · simp
  refine ⟨⟨hi1, hj1, by rw [hcall]; simp [filledT_length]⟩, ?_⟩
  intro a ha b hb
  unfold kernel_block cluster_index
  rw [hcall, Option.getD_some]
  have hpost := (filledT_post (fun a b => rndtiled_value F.row_cluster.data
          ((F.row_cluster.pivot.drop (F.row_cluster.start.getD i 0)).getD a 0)
          ((F.col_cluster.pivot.drop (F.col_cluster.start.getD j 0)).getD b 0))
      (F.row_cluster.size.getD i 0) (F.col_cluster.size.getD j 0)
      (List.replicate (F.row_cluster.size.getD i 0 * F.col_cluster.size.getD j 0) 0)
      (by simp)).1 a b ha hb
  rw [Nat.add_comm a, List.getD_eq_getElem?_getD, hpost, Option.getD_some, getD_drop_eq,
    getD_drop_eq]

theorem getD_map_range {β : Type} (f : Nat → β) (n k : Nat) (d : β) (h : k < n) :
    ((List.range n).map f).getD k d = f k := by
  rw [List.getD_eq_getElem?_getD, getElem?_map_range f n k h, Option.getD_some]

theorem cm_index (m r l K : Nat) (hr : r < m) (hl : l < K) :
    r + l * m < m * K ∧ (r + l * m) % m = r ∧ (r + l * m) / m = l := by
  refine ⟨?_, ?_, ?_⟩
  · have h1 : (l + 1) * m ≤ K * m := Nat.mul_le_mul_right _ hl
    have h2 : (l + 1) * m = l * m + m := by ring
    have h3 : K * m = m * K := Nat.mul_comm _ _
    omega
  · rw [Nat.add_mul_mod_self_right]
    exact Nat.mod_eq_of_lt hr
  · rw [Nat.add_mul_div_right _ _ (by omega), Nat.div_eq_of_lt hr, Nat.zero_add]

/-- The product `U[bi]·V[bi]ᵗ` of the factors `A·diag(S)` and `B` is the sum
the kernel computes. -/
theorem rndtiled_far_UVt {α : Type} [Field α] (M : STARSH_blrm α (STARSH_rndtiled α)) (bi : Nat)
    (hf : RndtiledFactors M bi) (r c : Nat) (hr : r < far_nrows M bi)
    (hc : c < far_ncols M bi) :
    far_UVt M bi r c
      = rndtiled_sum M.format.row_cluster.data
          (cluster_index M.format.row_cluster (blk_i M.format.block_far bi) r)
          (cluster_index M.format.col_cluster (blk_j M.format.block_far bi) c) := by
  obtain ⟨_, _, _, h4, h5, h6⟩ := hf
  unfold far_UVt dot_NT rndtiled_sum far_rk
  rw [h4, h5, h6]
  apply congrArg
  apply List.map_congr_left
  intro l hl
  have hl2 : l < M.format.row_cluster.data.block_size.toNat := List.mem_range.mp hl
  obtain ⟨a1, a2, a3⟩ := cm_index (far_nrows M bi) r l _ hr hl2
  obtain ⟨b1, b2, b3⟩ := cm_index (far_ncols M bi) c l _ hc hl2
  unfold rndtiled_AS_cm rndtiled_B_cm
  rw [getD_map_range _ _ _ _ a1, getD_map_range _ _ _ _ b1, a2, a3, b2, b3]
  ring

/-- A matrix over the random tiled kernel whose far blocks carry the factors
`A·diag(S)` and `B` is well formed. -/
theorem rndtiled_wf {α : Type} [Field α] (M : STARSH_blrm α (STARSH_rndtiled α))
    (hk : M.format.problem.kernel = starsh_rndtiled_block_kernel)
    (hd : RndtiledOk M.format.row_cluster.data)
    (hR : ClusterRangesOk M.format.row_cluster) (hC : ClusterRangesOk M.format.col_cluster)
    (hRn : ClusterIndicesBelow M.format.row_cluster M.format.row_cluster.data.n)
    (hCn : ClusterIndicesBelow M.format.col_cluster M.format.row_cluster.data.n)
    (hfar : ∀ bi < M.format.nblocks_far,
      BlockOk M.format.row_cluster M.format.col_cluster M.format.block_far bi ∧
        RndtiledFactors M bi)
    (hnear : ∀ bi < M.format.nblocks_near,
      BlockOk M.format.row_cluster M.format.col_cluster M.format.block_near bi ∧
        (M.onfly = 0 → bi < M.near_D.length ∧
          near_nrows M bi * near_ncols M bi ≤ (M.near_D.getD bi []).length)) :
    WellFormed M := by
  constructor
  · intro bi hbi
    obtain ⟨hb, f1, f2, f3, f4, f5, f6⟩ := hfar bi hbi
    refine ⟨hb, f1, ?_, f2, f3, ?_, ?_,
      (rndtiled_kernel_block M.format hk hd hR hC hRn hCn _ _ hb.2.1 hb.2.2).1⟩
    · rw [f4]; exact le_of_lt hd.1
    · rw [f5]; unfold far_rk rndtiled_AS_cm; rw [f4]; simp
    · rw [f6]; unfold far_rk rndtiled_B_cm; rw [f4]; simp
  · intro bi hbi
    obtain ⟨hb, hn⟩ := hnear bi hbi
    refine ⟨hb, ?_⟩
    by_cases ho : M.onfly = 0
    · rw [if_pos ho]; exact hn ho
    · rw [if_neg ho]
      exact (rndtiled_kernel_block M.format hk hd hR hC hRn hCn _ _ hb.2.1 hb.2.2).1

/-- With the factors `A·diag(S)` and `B` on far blocks whose global row and
column indices differ (or with `add_diag = 0`), the numerator of the error is
zero. -/
theorem rndtiled_diff_sq_zero {α : Type} [Field α] (M : STARSH_blrm α (STARSH_rndtiled α))
    (hk : M.format.problem.kernel = starsh_rndtiled_block_kernel)
    (hd : RndtiledOk M.format.row_cluster.data)
    (hR : ClusterRangesOk M.format.row_cluster) (hC : ClusterRangesOk M.format.col_cluster)
    (hRn : ClusterIndicesBelow M.format.row_cluster M.format.row_cluster.data.n)
    (hCn : ClusterIndicesBelow M.format.col_cluster M.format.row_cluster.data.n)
    (hfar : ∀ bi < M.format.nblocks_far,
      BlockOk M.format.row_cluster M.format.col_cluster M.format.block_far bi ∧
        RndtiledFactors M bi ∧
        RndtiledOffDiag M.format (blk_i M.format.block_far bi) (blk_j M.format.block_far bi)) :
    dfe_diff_sq M = 0 := by
  unfold dfe_diff_sq
  apply List.sum_eq_zero
  intro x hx
  obtain ⟨bi, hbi, rfl⟩ := List.mem_map.mp hx
  obtain ⟨hb, hf, hoff⟩ := hfar bi (List.mem_range.mp hbi)
  have hb0 : far_diffsq M bi = 0 := by
    unfold far_diffsq
    rw [block_sq_congr _ _ _ (fun _ _ => (0 : α)) ?_]
    · exact block_sq_zero _ _
    · intro r hr c hc
      have hent := (rndtiled_kernel_block M.format hk hd hR hC hRn hCn _ _ hb.2.1 hb.2.2).2
        r hr c hc
      unfold far_D far_nrows
      rw [hent, rndtiled_far_UVt M bi hf r c hr hc]
      unfold rndtiled_value
      rcases hoff with hne | hz
      · rw [if_neg (hne r hr c hc), sub_self]
      · rw [hz, add_zero, ite_self, sub_self]
  rw [hb0, mul_zero]

theorem exClusterT_ranges {α : Type} [Field α] :
    ClusterRangesOk (exClusterT : STARSH_cluster (STARSH_rndtiled α)) := by
  intro i hi
  have hi2 : i < 2 := hi
  interval_cases i <;> simp [exClusterT]

theorem exClusterT_below {α : Type} [Field α] :
    ClusterIndicesBelow (exClusterT : STARSH_cluster (STARSH_rndtiled α)) 3 := by
  intro i hi
  have hi2 : i < 2 := hi
  interval_cases i
  · intro a ha
    have ha2 : a < 1 := ha
    interval_cases a
    simp [cluster_index, exClusterT]
  · intro a ha
    have ha2 : a < 2 := ha
    interval_cases a <;> simp [cluster_index, exClusterT]

theorem exR_far {α : Type} [Field α] :
    ∀ bi < (exR : STARSH_blrm α (STARSH_rndtiled α)).format.nblocks_far,
      BlockOk (exR : STARSH_blrm α (STARSH_rndtiled α)).format.row_cluster
          (exR : STARSH_blrm α (STARSH_rndtiled α)).format.col_cluster
          (exR : STARSH_blrm α (STARSH_rndtiled α)).format.block_far bi ∧
        RndtiledFactors (exR : STARSH_blrm α (STARSH_rndtiled α)) bi ∧
        RndtiledOffDiag (exR : STARSH_blrm α (STARSH_rndtiled α)).format
          (blk_i (exR : STARSH_blrm α (STARSH_rndtiled α)).format.block_far bi)
          (blk_j (exR : STARSH_blrm α (STARSH_rndtiled α)).format.block_far bi) := by
  intro bi hbi
  have hbi2 : bi < 2 := hbi
  interval_cases bi
  · refine ⟨by simp [BlockOk, exR, exFormatT, exClusterT, blk_i, blk_j], ?_, Or.inl ?_⟩
    · simp [RndtiledFactors, rndtiled_AS_cm, rndtiled_B_cm, exR, exFormatT, exClusterT, exT,
        blk_i, blk_j, far_nrows, far_ncols, cluster_index, List.range_succ]
    · intro a ha b hb
      have ha2 : a < 1 := ha
      have hb2 : b < 2 := hb
      interval_cases a
      interval_cases b <;> simp [cluster_index, exR, exFormatT, exClusterT, blk_i, blk_j]
  · refine ⟨by simp [BlockOk, exR, exFormatT, exClusterT, blk_i, blk_j], ?_, Or.inl ?_⟩
    · simp [RndtiledFactors, rndtiled_AS_cm, rndtiled_B_cm, exR, exFormatT, exClusterT, exT,
        blk_i, blk_j, far_nrows, far_ncols, cluster_index, List.range_succ]
      norm_num
    · intro a ha b hb
      have ha2 : a < 2 := ha
      have hb2 : b < 1 := hb
      interval_cases b
      interval_cases a <;> simp [cluster_index, exR, exFormatT, exClusterT, blk_i, blk_j]

theorem exR_near {α : Type} [Field α] :
    ∀ bi < (exR : STARSH_blrm α (STARSH_rndtiled α)).format.nblocks_near,
      BlockOk (exR : STARSH_blrm α (STARSH_rndtiled α)).format.row_cluster
          (exR : STARSH_blrm α (STARSH_rndtiled α)).format.col_cluster
          (exR : STARSH_blrm α (STARSH_rndtiled α)).format.block_near bi ∧
        ((exR : STARSH_blrm α (STARSH_rndtiled α)).onfly = 0 →
          bi < (exR : STARSH_blrm α (STARSH_rndtiled α)).near_D.length ∧
          near_nrows (exR : STARSH_blrm α (STARSH_rndtiled α)) bi
              * near_ncols (exR : STARSH_blrm α (STARSH_rndtiled α)) bi
            ≤ ((exR : STARSH_blrm α (STARSH_rndtiled α)).near_D.getD bi []).length) := by
  intro bi hbi
  have hbi2 : bi < 2 := hbi
  interval_cases bi <;>
    simp [BlockOk, exR, exFormatT, exClusterT, blk_i, blk_j]

theorem exR_norm_sq : dfe_norm_sq (exR : STARSH_blrm ℝ (STARSH_rndtiled ℝ)) = 21075 := by
  have hent := fun i j hi hj =>
    (rndtiled_kernel_block (exFormatT : STARSH_blrf ℝ (STARSH_rndtiled ℝ)) rfl exT_ok
      exClusterT_ranges exClusterT_ranges exClusterT_below exClusterT_below i j hi hj).2
  have f0 : far_normsq (exR : STARSH_blrm ℝ (STARSH_rndtiled ℝ)) 0 = 1300 := by
    unfold far_normsq far_D
    refine Eq.trans (block_sq_congr _ _ _ _ (hent 0 1 (by decide) (by decide))) ?_
    simp [block_sq, rndtiled_value, rndtiled_sum, cluster_index, far_nrows, far_ncols, exR,
      exFormatT, exClusterT, exT, blk_i, blk_j, List.range_succ]
    norm_num
  have f1 : far_normsq (exR : STARSH_blrm ℝ (STARSH_rndtiled ℝ)) 1 = 1300 := by
    unfold far_normsq far_D
    refine Eq.trans (block_sq_congr _ _ _ _ (hent 1 0 (by decide) (by decide))) ?_
    simp [block_sq, rndtiled_value, rndtiled_sum, cluster_index, far_nrows, far_ncols, exR,
      exFormatT, exClusterT, exT, blk_i, blk_j, List.range_succ]
    norm_num
  have n0 : near_normsq (exR : STARSH_blrm ℝ (STARSH_rndtiled ℝ)) 0 = 225 := by
    unfold near_normsq near_D_used
    rw [if_neg (by decide)]
    refine Eq.trans (block_sq_congr _ _ _ _ (hent 0 0 (by decide) (by decide))) ?_
    simp [block_sq, rndtiled_value, rndtiled_sum, cluster_index, near_nrows, near_ncols, exR,
      exFormatT, exClusterT, exT, blk_i, blk_j, List.range_succ]
    norm_num
  have n1 : near_normsq (exR : STARSH_blrm ℝ (STARSH_rndtiled ℝ)) 1 = 18250 := by
    unfold near_normsq near_D_used
    rw [if_neg (by decide)]
    refine Eq.trans (block_sq_congr _ _ _ _ (hent 1 1 (by decide) (by decide))) ?_
    simp [block_sq, rndtiled_value, rndtiled_sum, cluster_index, near_nrows, near_ncols, exR,
      exFormatT, exClusterT, exT, blk_i, blk_j, List.range_succ]
    norm_num
  unfold dfe_norm_sq
  have hr : List.range (exR : STARSH_blrm ℝ (STARSH_rndtiled ℝ)).format.nblocks_far = [0, 1] :=
    rfl
  have hn : List.range (exR : STARSH_blrm ℝ (STARSH_rndtiled ℝ)).format.nblocks_near = [0, 1] :=
    rfl
  rw [hr, hn]
  simp only [List.map_cons, List.map_nil, List.sum_cons, List.sum_nil, f0, f1, n0, n1]
  simp [symm_weight, exR, exFormatT]
  norm_num

/-- C20: over the reals, a block written by `starsh_rndtiled_block_kernel` for
row and column index lists without a common global index (or with
`add_diag = 0`) is the matrix `A·diag(S)·Bᵗ` with `A[i,k] = U[irow[i] + k·n]`
and `B[j,k] = U[icol[j] + k·n]`, `k < block_size`, so its rank is at most
`block_size`; and on a matrix over this kernel whose every far block is such a
block, has rank `block_size` and the factors `U[bi] = A·diag(S)`, `V[bi] = B`,
and whose norm is non-zero, `starsh_blrm__dfe` returns `0`. -/
theorem C20_rndtiled_low_rank_exact (data col_data : STARSH_rndtiled ℝ) (nrows ncols : Nat)
    (irow icol : List Nat) (result : List ℝ) (M : STARSH_blrm ℝ (STARSH_rndtiled ℝ))
    (hd : RndtiledOk data) (hrow : nrows ≤ irow.length) (hcol : ncols ≤ icol.length)
    (hrn : ∀ i < nrows, ((irow.getD i 0 : Nat) : Int) < data.n)
    (hcn : ∀ j < ncols, ((icol.getD j 0 : Nat) : Int) < data.n)
    (hres : nrows * ncols ≤ result.length)
    (hoff : (∀ i < nrows, ∀ j < ncols, irow.getD i 0 ≠ icol.getD j 0) ∨ data.add_diag = 0)
    (hk : M.format.problem.kernel = starsh_rndtiled_block_kernel)
    (hdM : RndtiledOk M.format.row_cluster.data)
    (hR : ClusterRangesOk M.format.row_cluster) (hC : ClusterRangesOk M.format.col_cluster)
    (hRn : ClusterIndicesBelow M.format.row_cluster M.format.row_cluster.data.n)
    (hCn : ClusterIndicesBelow M.format.col_cluster M.format.row_cluster.data.n)
    (hfar : ∀ bi < M.format.nblocks_far,
      BlockOk M.format.row_cluster M.format.col_cluster M.format.block_far bi ∧
        RndtiledFactors M bi ∧
        RndtiledOffDiag M.format (blk_i M.format.block_far bi) (blk_j M.format.block_far bi))
    (hnear : ∀ bi < M.format.nblocks_near,
      BlockOk M.format.row_cluster M.format.col_cluster M.format.block_near bi ∧
        (M.onfly = 0 → bi < M.near_D.length ∧
          near_nrows M bi * near_ncols M bi ≤ (M.near_D.getD bi []).length))
    (_hnz : dfe_norm Real.sqrt M ≠ 0) :
    (∃ out : List ℝ,
      starsh_rndtiled_block_kernel nrows ncols irow icol data col_data result = some out ∧
      block_matrix nrows ncols out
        = rndtiled_A data irow nrows
            * Matrix.diagonal (fun k : Fin data.block_size.toNat => data.S.getD k.val 0)
            * (rndtiled_A data icol ncols).transpose ∧
      (block_matrix nrows ncols out).rank ≤ data.block_size.toNat) ∧
    starsh_blrm__dfe Real.sqrt M = some 0 := by
  constructor
  · refine ⟨_, rndtiled_kernel_eq data col_data hd nrows ncols irow icol result hrow hcol
      hrn hcn hres, ?_⟩
    apply rndtiled_low_rank
    intro i j hi hj
    rw [List.getD_eq_getElem?_getD, (filledT_post _ nrows ncols result hres).1 i j hi hj,
      Option.getD_some]
    unfold rndtiled_value
    rcases hoff with hne | hz
    · rw [if_neg (hne i hi j hj)]
    · rw [hz, add_zero, ite_self]
  · have hwf : WellFormed M :=
      rndtiled_wf M hk hdM hR hC hRn hCn (fun bi hbi => ⟨(hfar bi hbi).1, (hfar bi hbi).2.1⟩)
        hnear
    rw [dfe_real M hwf, rndtiled_diff_sq_zero M hk hdM hR hC hRn hCn hfar, Real.sqrt_zero,
      zero_div]

theorem C20_witness :
    (∃ out : List ℝ,
      starsh_rndtiled_block_kernel 1 2 [0] [1, 2] exT exT [0, 0] = some out ∧
      block_matrix 1 2 out
        = rndtiled_A (exT : STARSH_rndtiled ℝ) [0] 1
            * Matrix.diagonal (fun k : Fin (exT : STARSH_rndtiled ℝ).block_size.toNat =>
                (exT : STARSH_rndtiled ℝ).S.getD k.val 0)
            * (rndtiled_A (exT : STARSH_rndtiled ℝ) [1, 2] 2).transpose ∧
      (block_matrix 1 2 out).rank ≤ (exT : STARSH_rndtiled ℝ).block_size.toNat) ∧
    starsh_blrm__dfe Real.sqrt (exR : STARSH_blrm ℝ (STARSH_rndtiled ℝ)) = some 0 :=
  C20_rndtiled_low_rank_exact exT exT 1 2 [0] [1, 2] [0, 0] exR exT_ok (by decide) (by decide)
    (by decide) (by decide) (by decide) (Or.inl (by decide)) rfl exT_ok exClusterT_ranges
    exClusterT_ranges exClusterT_below exClusterT_below exR_far exR_near
    (by
      rw [dfe_norm_real, exR_norm_sq]
      exact (Real.sqrt_pos.mpr (by norm_num)).ne.symm)

/-! ## The constructor of the random tiled matrix -/

theorem c_mod_eq (a b : Int) (hb : b ≠ 0) : c_mod a b = some (Int.tmod a b) := by
  unfold c_mod
  rw [if_neg hb]

/-- The loop that fills `S` stays inside the array. -/
theorem rndtiled_new_S_isSome {α : Type} [Field α] (block_size : Int) (decay : α)
    (hbs : 0 < block_size) :
    ∃ S : List α, rndtiled_new_S block_size decay = some S ∧ S.length = block_size.toNat := by
  unfold rndtiled_new_S
  have hL : 0 < block_size.toNat := by omega
  rw [store_eq _ _ _ (by rw [List.length_replicate]; exact hL), Option.some_bind]
  have key : ∀ m : Nat, m ≤ block_size.toNat - 1 → ∀ S0 : List α,
      S0.length = block_size.toNat →
      ∃ S : List α, forLoop m (fun t S =>
        (S[t]?).bind (fun prev => store S (t + 1) (prev * decay))) S0 = some S ∧
        S.length = block_size.toNat := by
    intro m
    induction m with
    | zero => intro _ S0 h0; exact ⟨S0, rfl, h0⟩
    | succ k ih =>
      intro hk S0 h0
      obtain ⟨S1, h1, h2⟩ := ih (Nat.le_of_succ_le hk) S0 h0
      rw [forLoop_succ, h1, Option.some_bind,
        getElem?_eq_some_getD S1 k 0 (by omega), Option.some_bind,
        store_eq _ _ _ (by omega)]
      exact ⟨_, rfl, by rw [List.length_set]; exact h2⟩
  exact key _ (le_refl _) _ (by rw [List.length_set, List.length_replicate])

/-- A call with `dtype != 'd'` or `n % block_size != 0` returns `1` and leaves
the pointer variable as it was. -/
theorem rndtiled_new_rejects {α : Type} [Field α] (A : STARSH_MALLOC)
    (lapack : Int → Int → List α) (data : Option (Option (STARSH_rndtiled α))) (n : Int)
    (dtype : Char) (block_size : Int) (decay add_diag : α) (hbs : block_size ≠ 0)
    (hbad : dtype ≠ 'd' ∨ Int.tmod n block_size ≠ 0) :
    starsh_rndtiled_new A lapack data n dtype block_size decay add_diag = some (1, data) := by
  unfold starsh_rndtiled_new
  by_cases hd : dtype ≠ 'd'
  · rw [if_pos hd]
  · rw [if_neg hd, c_mod_eq _ _ hbs, Option.some_bind]
    rcases hbad with h | h
    · exact absurd h hd
    · rw [if_pos h]

/-- A call with `dtype == 'd'`, `block_size > 0` dividing `n` and successful
allocations returns `0` and creates the object. -/
theorem rndtiled_new_accepts {α : Type} [Field α] (A : STARSH_MALLOC)
    (lapack : Int → Int → List α) (slot : Option (STARSH_rndtiled α)) (n : Int)
    (block_size : Int) (decay add_diag : α) (hbs : 0 < block_size)
    (hA : ∀ k, A.ok k = true) (hdiv : Int.tmod n block_size = 0) :
    ∃ S : List α, S.length = block_size.toNat ∧
      starsh_rndtiled_new A lapack (some slot) n 'd' block_size decay add_diag
        = some (0, some (some (STARSH_rndtiled.mk n 'd' (Int.tdiv n block_size) block_size
            (lapack n block_size) S add_diag))) := by
  obtain ⟨S, hS, hlen⟩ := rndtiled_new_S_isSome block_size decay hbs
  refine ⟨S, hlen, ?_⟩
  unfold starsh_rndtiled_new
  rw [if_neg (by decide), c_mod_eq _ _ (ne_of_gt hbs), Option.some_bind, hdiv,
    if_neg (by decide), c_div_eq _ _ (ne_of_gt hbs), Option.some_bind]
  unfold rndtiled_new_alloc
  simp only [hA, Bool.true_eq_false, if_false]
  rw [hS, Option.some_bind]
  unfold rndtiled_new_object
  simp only [hA, if_true]

/-- C18 (as stated, refuted): with `n = 0` and `block_size = 1` the function
returns `0` and creates an object of size `0`, and with `block_size = 0` it
evaluates `n % block_size`, which is undefined. -/
theorem C18_counterexample :
    starsh_rndtiled_new exMalloc (fun _ _ => []) (some none) 0 'd' 1 (0 : ℚ) 0
        = some (0, some (some (STARSH_rndtiled.mk 0 'd' 0 1 [] [1] 0))) ∧
      starsh_rndtiled_new exMalloc (fun _ _ => []) (some none) 4 'd' 0 (0 : ℚ) 0 = none := by
  constructor <;> rfl

/-- C18 (amended): the sign of `n` is not checked. For `n ≤ 0`, `block_size > 0`,
a valid address `data` and successful allocations, `starsh_rndtiled_new`
returns a non-zero status exactly when `dtype != 'd'` or `n % block_size != 0`;
otherwise it returns `0` and creates an object with the non-positive size `n`
and the non-positive `nblocks = n / block_size`. -/
theorem C18_nonpositive_size_not_rejected {α : Type} [Field α] (A : STARSH_MALLOC)
    (lapack : Int → Int → List α) (slot : Option (STARSH_rndtiled α)) (n : Int)
    (dtype : Char) (block_size : Int) (decay add_diag : α) (hn : n ≤ 0)
    (hbs : 0 < block_size) (hA : ∀ k, A.ok k = true) :
    ∃ (code : Int) (out : Option (Option (STARSH_rndtiled α))),
      starsh_rndtiled_new A lapack (some slot) n dtype block_size decay add_diag
        = some (code, out) ∧
      (code ≠ 0 ↔ (dtype ≠ 'd' ∨ Int.tmod n block_size ≠ 0)) ∧
      (code = 0 → ∃ obj : STARSH_rndtiled α, out = some (some obj) ∧ obj.n = n ∧
        obj.n ≤ 0 ∧ obj.block_size = block_size ∧ obj.nblocks = Int.tdiv n block_size ∧
        obj.nblocks ≤ 0) := by
  by_cases hbad : dtype ≠ 'd' ∨ Int.tmod n block_size ≠ 0
  · exact ⟨1, some slot, rndtiled_new_rejects A lapack _ n dtype block_size decay add_diag
      (ne_of_gt hbs) hbad, ⟨fun _ => hbad, fun _ => by decide⟩,
      fun h => absurd h (by decide)⟩
  · have hd : dtype = 'd' := by
      by_contra h
      exact hbad (Or.inl h)
    have hm : Int.tmod n block_size = 0 := by
      by_contra h
      exact hbad (Or.inr h)
    subst hd
    obtain ⟨S, _, hS⟩ := rndtiled_new_accepts A lapack slot n block_size decay add_diag hbs hA hm
    have hq : Int.tdiv n block_size ≤ 0 := by
      obtain ⟨m, rfl⟩ : ∃ m : Nat, n = -(m : Int) := ⟨n.natAbs, by omega⟩
      rw [Int.neg_tdiv]
      have : 0 ≤ Int.tdiv (m : Int) block_size :=
        Int.tdiv_nonneg (Int.ofNat_nonneg m) (le_of_lt hbs)
      omega
    exact ⟨0, _, hS, ⟨fun h => absurd rfl h, fun h => absurd h hbad⟩,
      fun _ => ⟨_, rfl, rfl, hn, rfl, rfl, hq⟩⟩

theorem C18_witness :
    ∃ (code : Int) (out : Option (Option (STARSH_rndtiled ℚ))),
      starsh_rndtiled_new exMalloc (fun _ _ => []) (some none) 0 'd' 1 (1 / 2) 7
        = some (code, out) ∧
      (code ≠ 0 ↔ ('d' ≠ 'd' ∨ Int.tmod 0 1 ≠ 0)) ∧
      (code = 0 → ∃ obj : STARSH_rndtiled ℚ, out = some (some obj) ∧ obj.n = 0 ∧
        obj.n ≤ 0 ∧ obj.block_size = 1 ∧ obj.nblocks = Int.tdiv 0 1 ∧
        obj.nblocks ≤ 0) :=
  C18_nonpositive_size_not_rejected exMalloc (fun _ _ => []) none 0 'd' 1 (1 / 2) 7
    (by decide) (by decide) (fun _ => rfl)

/-! ## Creation of the spatial statistics object -/

theorem last_or_cons {β : Type} (v : β) (vals : List β) (d : β) :
    last_or (v :: vals) d = last_or vals v := by
  unfold last_or
  cases vals with
  | nil => rfl
  | cons x xs =>
    rw [List.getLast?_cons_cons]
    simp [List.getLast?_eq_getLast]

theorem valid_ne (P : STARSH_SPATIAL_PARAM) (hP : P.Valid) :
    (P.STARSH_SPATIAL_NDIM ≠ 0 ∧ P.STARSH_SPATIAL_BETA ≠ 0 ∧ P.STARSH_SPATIAL_NU ≠ 0 ∧
      P.STARSH_SPATIAL_NOISE ≠ 0 ∧ P.STARSH_SPATIAL_PLACE ≠ 0 ∧ P.STARSH_SPATIAL_SIGMA ≠ 0) ∧
    (P.STARSH_SPATIAL_BETA ≠ P.STARSH_SPATIAL_NDIM ∧ P.STARSH_SPATIAL_NU ≠ P.STARSH_SPATIAL_NDIM ∧
      P.STARSH_SPATIAL_NOISE ≠ P.STARSH_SPATIAL_NDIM ∧
      P.STARSH_SPATIAL_PLACE ≠ P.STARSH_SPATIAL_NDIM ∧
      P.STARSH_SPATIAL_SIGMA ≠ P.STARSH_SPATIAL_NDIM) ∧
    (P.STARSH_SPATIAL_NU ≠ P.STARSH_SPATIAL_BETA ∧ P.STARSH_SPATIAL_NOISE ≠ P.STARSH_SPATIAL_BETA ∧
      P.STARSH_SPATIAL_PLACE ≠ P.STARSH_SPATIAL_BETA ∧
      P.STARSH_SPATIAL_SIGMA ≠ P.STARSH_SPATIAL_BETA) ∧
    (P.STARSH_SPATIAL_NOISE ≠ P.STARSH_SPATIAL_NU ∧ P.STARSH_SPATIAL_PLACE ≠ P.STARSH_SPATIAL_NU ∧
      P.STARSH_SPATIAL_SIGMA ≠ P.STARSH_SPATIAL_NU) ∧
    (P.STARSH_SPATIAL_PLACE ≠ P.STARSH_SPATIAL_NOISE ∧
      P.STARSH_SPATIAL_SIGMA ≠ P.STARSH_SPATIAL_NOISE) ∧
    P.STARSH_SPATIAL_SIGMA ≠ P.STARSH_SPATIAL_PLACE := by
  unfold STARSH_SPATIAL_PARAM.Valid at hP
  simp only [List.nodup_cons, List.mem_cons, List.mem_singleton, not_or, List.not_mem_nil,
    not_false_eq_true, List.nodup_nil, and_true] at hP
  obtain ⟨⟨a1, a2, a3, a4, a5, a6⟩, ⟨b2, b3, b4, b5, b6⟩, ⟨c3, c4, c5, c6⟩, ⟨d4, d5, d6⟩,
    ⟨e5, e6⟩, f6⟩ := hP
  exact ⟨⟨Ne.symm a1, Ne.symm a2, Ne.symm a3, Ne.symm a4, Ne.symm a5, Ne.symm a6⟩,
    ⟨Ne.symm b2, Ne.symm b3, Ne.symm b4, Ne.symm b5, Ne.symm b6⟩,
    ⟨Ne.symm c3, Ne.symm c4, Ne.symm c5, Ne.symm c6⟩, ⟨Ne.symm d4, Ne.symm d5, Ne.symm d6⟩,
    ⟨Ne.symm e5, Ne.symm e6⟩, Ne.symm f6⟩

/-- One pair of the argument list is consumed by one round of the loop. -/
theorem ssdata_va_loop_pair {α : Type} (P : STARSH_SPATIAL_PARAM) (hP : P.Valid)
    (a : SpatialArg α) (tail : List (VaArg α)) (l : SsdataLocals α) :
    ssdata_va_loop P (SpatialArg.encode P a ++ tail) l
      = ssdata_va_loop P tail (SpatialArg.assign l a) := by
  obtain ⟨⟨a1, a2, a3, a4, a5, a6⟩, ⟨b2, b3, b4, b5, b6⟩, ⟨c3, c4, c5, c6⟩, ⟨d4, d5, d6⟩,
    ⟨e5, e6⟩, f6⟩ := valid_ne P hP
  cases a <;>
    simp [SpatialArg.encode, SpatialArg.assign, ssdata_va_loop, a1, a2, a3, a4, a5, a6, b2, b3,
      b4, b5, b6, c3, c4, c5, c6, d4, d5, d6, e5, e6, f6]

theorem ssdata_va_loop_pairs {α : Type} (P : STARSH_SPATIAL_PARAM) (hP : P.Valid)
    (pairs : List (SpatialArg α)) (tail : List (VaArg α)) (l : SsdataLocals α) :
    ssdata_va_loop P (encode_pairs P pairs ++ tail) l
      = ssdata_va_loop P tail (pairs.foldl SpatialArg.assign l) := by
  induction pairs generalizing l with
  | nil => rfl
  | cons a rest ih =>
    unfold encode_pairs at ih ⊢
    rw [List.flatMap_cons, List.append_assoc, ssdata_va_loop_pair P hP, ih, List.foldl_cons]

/-- After the pairs every local holds the value of its last occurrence, or
else the value it had. -/
theorem foldl_assign_last {α : Type} (pairs : List (SpatialArg α)) (l : SsdataLocals α) :
    pairs.foldl SpatialArg.assign l
      = SsdataLocals.mk (last_or (ndim_values pairs) l.ndim) (last_or (beta_values pairs) l.beta)
          (last_or (nu_values pairs) l.nu) (last_or (noise_values pairs) l.noise)
          (last_or (place_values pairs) l.place) (last_or (sigma_values pairs) l.sigma) := by
  induction pairs generalizing l with
  | nil => rfl
  | cons a rest ih =>
    rw [List.foldl_cons, ih]
    cases a <;>
      simp [SpatialArg.assign, ndim_values, beta_values, nu_values, noise_values, place_values,
        sigma_values, last_or_cons]

/-- C12: `starsh_ssdata_init` returns `STARSH_WRONG_PARAMETER` if and only if
`data` is `NULL`, `ndim ≤ 0`, `beta ≤ 0`, `nu < 0`, `noise < 0` or `sigma < 0`,
and then leaves the pointer variable as it was; otherwise, the allocation
succeeding, it returns `STARSH_SUCCESS` and `*data` holds the given `count`,
`ndim`, `point`, `beta`, `nu`, `noise` and `sigma`. The status constants are
different, and a failed allocation returns a status other than
`STARSH_WRONG_PARAMETER`. -/
theorem C12_ssdata_init {α : Type} [LinearOrderedField α] (E : STARSH_ERRNO) (A : STARSH_MALLOC)
    (data : Option (Option (STARSH_ssdata α))) (count : Nat) (ndim : Int) (point : List α)
    (beta nu noise sigma : α) (hE : E.STARSH_SUCCESS ≠ E.STARSH_WRONG_PARAMETER)
    (hM : A.err ≠ E.STARSH_WRONG_PARAMETER) :
    ((starsh_ssdata_init E A data count ndim point beta nu noise sigma).1
        = E.STARSH_WRONG_PARAMETER ↔
      (data = none ∨ ndim ≤ 0 ∨ beta ≤ 0 ∨ nu < 0 ∨ noise < 0 ∨ sigma < 0)) ∧
    ((data = none ∨ ndim ≤ 0 ∨ beta ≤ 0 ∨ nu < 0 ∨ noise < 0 ∨ sigma < 0) →
      (starsh_ssdata_init E A data count ndim point beta nu noise sigma).2 = data) ∧
    (¬ (data = none ∨ ndim ≤ 0 ∨ beta ≤ 0 ∨ nu < 0 ∨ noise < 0 ∨ sigma < 0) →
      A.ok 0 = true →
      starsh_ssdata_init E A data count ndim point beta nu noise sigma
        = (E.STARSH_SUCCESS,
            some (some (STARSH_ssdata.mk (STARSH_particles.mk count ndim point) beta nu noise
              sigma)))) := by
  cases data with
  | none => simp [starsh_ssdata_init]
  | some slot =>
    by_cases h1 : ndim ≤ 0
    · simp [starsh_ssdata_init, h1]
    by_cases h2 : beta ≤ 0
    · simp [starsh_ssdata_init, h1, h2]
    by_cases h3 : nu < 0
    · simp [starsh_ssdata_init, h1, h2, h3]
    by_cases h4 : noise < 0
    · simp [starsh_ssdata_init, h1, h2, h3, h4]
    by_cases h5 : sigma < 0
    · simp [starsh_ssdata_init, h1, h2, h3, h4, h5]
    by_cases h6 : A.ok 0 = true
    · simp [starsh_ssdata_init, h1, h2, h3, h4, h5, h6, hE]
    · simp [starsh_ssdata_init, h1, h2, h3, h4, h5, h6, hM]

theorem C12_witness :
    ((starsh_ssdata_init exErrno exMalloc (some none) 2 2 [0, 1, 0, 1] (1 : ℚ) 0 0 1).1
        = exErrno.STARSH_WRONG_PARAMETER ↔
      ((some none : Option (Option (STARSH_ssdata ℚ))) = none ∨ (2 : Int) ≤ 0 ∨ (1 : ℚ) ≤ 0 ∨
        (0 : ℚ) < 0 ∨ (0 : ℚ) < 0 ∨ (1 : ℚ) < 0)) ∧
    (((some none : Option (Option (STARSH_ssdata ℚ))) = none ∨ (2 : Int) ≤ 0 ∨ (1 : ℚ) ≤ 0 ∨
        (0 : ℚ) < 0 ∨ (0 : ℚ) < 0 ∨ (1 : ℚ) < 0) →
      (starsh_ssdata_init exErrno exMalloc (some none) 2 2 [0, 1, 0, 1] (1 : ℚ) 0 0 1).2
        = some none) ∧
    (¬ ((some none : Option (Option (STARSH_ssdata ℚ))) = none ∨ (2 : Int) ≤ 0 ∨ (1 : ℚ) ≤ 0 ∨
        (0 : ℚ) < 0 ∨ (0 : ℚ) < 0 ∨ (1 : ℚ) < 0) →
      exMalloc.ok 0 = true →
      starsh_ssdata_init exErrno exMalloc (some none) 2 2 [0, 1, 0, 1] (1 : ℚ) 0 0 1
        = (exErrno.STARSH_SUCCESS,
            some (some (STARSH_ssdata.mk (STARSH_particles.mk 2 2 [0, 1, 0, 1]) 1 0 0 1)))) :=
  C12_ssdata_init exErrno exMalloc (some none) 2 2 [0, 1, 0, 1] 1 0 0 1 (by decide) (by decide)

/-- C13: on a list of `(constant, value)` pairs of the six `STARSH_SPATIAL_*`
constants followed by the terminating `0`, `starsh_ssdata_generate_va` returns
what `starsh_ssdata_generate` returns with every parameter taken from its
last occurrence, or else its default `ndim = 2`, `beta = 0.1`, `nu = 0.5`,
`noise = 0`, `place = STARSH_PARTICLES_UNIFORM`, `sigma = 1.0`. -/
theorem C13_generate_va_last_or_default {α ω : Type} [LinearOrderedField α] (E : STARSH_ERRNO)
    (A : STARSH_MALLOC)
    (particles_generate : ω → Nat → Int → Int → Int × Option (STARSH_particles α) × ω)
    (P : STARSH_SPATIAL_PARAM) (STARSH_PARTICLES_UNIFORM : Int) (w : ω)
    (data : Option (Option (STARSH_ssdata α))) (count : Nat) (pairs : List (SpatialArg α))
    (hP : P.Valid) :
    starsh_ssdata_generate_va E A particles_generate P STARSH_PARTICLES_UNIFORM w data count
        (encode_pairs P pairs ++ [VaArg.int 0])
      = starsh_ssdata_generate E A particles_generate w data count
          (last_or (ndim_values pairs) 2) (last_or (beta_values pairs) 0.1)
          (last_or (nu_values pairs) 0.5) (last_or (noise_values pairs) 0)
          (last_or (place_values pairs) STARSH_PARTICLES_UNIFORM)
          (last_or (sigma_values pairs) 1.0) := by
  unfold starsh_ssdata_generate_va
  rw [ssdata_va_loop_pairs P hP, foldl_assign_last]
  simp [ssdata_va_loop]

theorem exParam_valid : exParam.Valid := by
  unfold STARSH_SPATIAL_PARAM.Valid exParam
  decide

theorem C13_witness :
    starsh_ssdata_generate_va exErrno exMalloc exGenerate exParam 0 (7 : Nat) (some none) 3
        (encode_pairs exParam
          [SpatialArg.beta (2 : ℚ), SpatialArg.ndim 3, SpatialArg.beta 5] ++ [VaArg.int 0])
      = starsh_ssdata_generate exErrno exMalloc exGenerate 7 (some none) 3
          (last_or (ndim_values [SpatialArg.beta (2 : ℚ), SpatialArg.ndim 3, SpatialArg.beta 5])
            2)
          (last_or (beta_values [SpatialArg.beta (2 : ℚ), SpatialArg.ndim 3, SpatialArg.beta 5])
            0.1)
          (last_or (nu_values [SpatialArg.beta (2 : ℚ), SpatialArg.ndim 3, SpatialArg.beta 5])
            0.5)
          (last_or (noise_values [SpatialArg.beta (2 : ℚ), SpatialArg.ndim 3, SpatialArg.beta 5])
            0)
          (last_or (place_values [SpatialArg.beta (2 : ℚ), SpatialArg.ndim 3, SpatialArg.beta 5])
            0)
          (last_or (sigma_values [SpatialArg.beta (2 : ℚ), SpatialArg.ndim 3, SpatialArg.beta 5])
            1.0) :=
  C13_generate_va_last_or_default exErrno exMalloc exGenerate exParam 0 7 (some none) 3
    [SpatialArg.beta 2, SpatialArg.ndim 3, SpatialArg.beta 5] exParam_valid

/-- C14: when the loop of `starsh_ssdata_generate_va` meets, after any number of
well-formed pairs and before the terminating `0`, a non-zero constant that is
none of the six `STARSH_SPATIAL_*` constants, the function returns
`STARSH_WRONG_PARAMETER`; the pointer variable behind `data` and the
environment are as before, whatever `starsh_particles_generate` would do: the
generator is not called. -/
theorem C14_generate_va_unrecognised {α ω : Type} [LinearOrderedField α] (E : STARSH_ERRNO)
    (A : STARSH_MALLOC)
    (particles_generate : ω → Nat → Int → Int → Int × Option (STARSH_particles α) × ω)
    (P : STARSH_SPATIAL_PARAM) (STARSH_PARTICLES_UNIFORM : Int) (w : ω)
    (data : Option (Option (STARSH_ssdata α))) (count : Nat) (pairs : List (SpatialArg α))
    (t : Int) (rest : List (VaArg α)) (hP : P.Valid) (h0 : t ≠ 0)
    (ht : t ∉ [P.STARSH_SPATIAL_NDIM, P.STARSH_SPATIAL_BETA, P.STARSH_SPATIAL_NU,
      P.STARSH_SPATIAL_NOISE, P.STARSH_SPATIAL_PLACE, P.STARSH_SPATIAL_SIGMA]) :
    starsh_ssdata_generate_va E A particles_generate P STARSH_PARTICLES_UNIFORM w data count
        (encode_pairs P pairs ++ VaArg.int t :: rest)
      = some (E.STARSH_WRONG_PARAMETER, data, w) := by
  simp only [List.mem_cons, List.mem_singleton, not_or, List.not_mem_nil, not_false_eq_true,
    and_true] at ht
  obtain ⟨t1, t2, t3, t4, t5, t6⟩ := ht
  have hloop : ∀ l : SsdataLocals α, ssdata_va_loop P (VaArg.int t :: rest) l = some none := by
    intro l
    cases rest with
    | nil => simp [ssdata_va_loop, h0, t1, t2, t3, t4, t5, t6]
    | cons x xs =>
      cases x <;> simp [ssdata_va_loop, h0, t1, t2, t3, t4, t5, t6]
  unfold starsh_ssdata_generate_va
  rw [ssdata_va_loop_pairs P hP, hloop]

theorem C14_witness :
    starsh_ssdata_generate_va exErrno exMalloc exGenerate exParam 0 (7 : Nat) (some none) 3
        (encode_pairs exParam [SpatialArg.beta (2 : ℚ)]
          ++ VaArg.int 9 :: [VaArg.double 1, VaArg.int 0])
      = some (exErrno.STARSH_WRONG_PARAMETER, some none, 7) :=
  C14_generate_va_unrecognised exErrno exMalloc exGenerate exParam 0 7 (some none) 3
    [SpatialArg.beta 2] 9 [VaArg.double 1, VaArg.int 0] exParam_valid (by decide) (by decide)

/-! ## Kernel selection -/

/-- C16: `starsh_ssdata_get_kernel` dispatches on `data->particles.ndim`: the
types `STARSH_SPATIAL_EXP`, `EXP_SIMD`, `SQREXP` and `SQREXP_SIMD` return
`STARSH_SUCCESS` and set `*kernel` to the kernel of that name with the
dimension suffix of `ndim` (`_1d`, `_2d`, `_3d`, `_4d`, and `_nd` for every
other `ndim`); for `ndim = 2` the types `EXP_GCD` and `SQREXP_GCD` set `*kernel`
to the `_2d_simd_gcd` kernel of that name; and a type outside the enumeration
returns `STARSH_WRONG_PARAMETER` and leaves `*kernel` as it was. -/
theorem C16_get_kernel_dispatch {α : Type} (E : STARSH_ERRNO) (GSL : Bool)
    (kernel : Option SpatialKernelFn) (data : STARSH_ssdata α) :
    starsh_ssdata_get_kernel E GSL kernel data STARSH_SPATIAL_KERNEL.STARSH_SPATIAL_EXP
        = (E.STARSH_SUCCESS, some (SpatialKernelFn.exp (kernel_dim data.particles.ndim))) ∧
    starsh_ssdata_get_kernel E GSL kernel data STARSH_SPATIAL_KERNEL.STARSH_SPATIAL_EXP_SIMD
        = (E.STARSH_SUCCESS, some (SpatialKernelFn.exp_simd (kernel_dim data.particles.ndim))) ∧
    starsh_ssdata_get_kernel E GSL kernel data STARSH_SPATIAL_KERNEL.STARSH_SPATIAL_SQREXP
        = (E.STARSH_SUCCESS, some (SpatialKernelFn.sqrexp (kernel_dim data.particles.ndim))) ∧
    starsh_ssdata_get_kernel E GSL kernel data STARSH_SPATIAL_KERNEL.STARSH_SPATIAL_SQREXP_SIMD
        = (E.STARSH_SUCCESS,
            some (SpatialKernelFn.sqrexp_simd (kernel_dim data.particles.ndim))) ∧
    (data.particles.ndim = 2 →
      starsh_ssdata_get_kernel E GSL kernel data STARSH_SPATIAL_KERNEL.STARSH_SPATIAL_EXP_GCD
          = (E.STARSH_SUCCESS, some SpatialKernelFn.exp_2d_simd_gcd) ∧
      starsh_ssdata_get_kernel E GSL kernel data STARSH_SPATIAL_KERNEL.STARSH_SPATIAL_SQREXP_GCD
          = (E.STARSH_SUCCESS, some SpatialKernelFn.sqrexp_2d_simd_gcd)) ∧
    (∀ v : Int,
      starsh_ssdata_get_kernel E GSL kernel data (STARSH_SPATIAL_KERNEL.outside v)
        = (E.STARSH_WRONG_PARAMETER, kernel)) := by
  unfold starsh_ssdata_get_kernel kernel_dim
  by_cases h1 : data.particles.ndim = 1
  · simp [h1, starsh_ssdata_get_kernel_1d]
  by_cases h2 : data.particles.ndim = 2
  · simp [h2, starsh_ssdata_get_kernel_2d]
  by_cases h3 : data.particles.ndim = 3
  · simp [h3, starsh_ssdata_get_kernel_3d]
  by_cases h4 : data.particles.ndim = 4
  · simp [h4, starsh_ssdata_get_kernel_4d]
  · simp [h1, h2, h3, h4, starsh_ssdata_get_kernel_nd]

/-- C15 (what the code does): for the four great-circle-distance types and
every object whose `particles.ndim` is not `2`, `starsh_ssdata_get_kernel`
returns `STARSH_SUCCESS` and leaves `*kernel` as it was: after the error
message the `switch` is left by `break`, not by
`return STARSH_WRONG_PARAMETER`. -/
theorem C15_gcd_outside_2d_returns_success {α : Type} (E : STARSH_ERRNO) (GSL : Bool)
    (kernel : Option SpatialKernelFn) (data : STARSH_ssdata α) (type : STARSH_SPATIAL_KERNEL)
    (hd : data.particles.ndim ≠ 2)
    (ht : type = STARSH_SPATIAL_KERNEL.STARSH_SPATIAL_EXP_GCD ∨
      type = STARSH_SPATIAL_KERNEL.STARSH_SPATIAL_SQREXP_GCD ∨
      type = STARSH_SPATIAL_KERNEL.STARSH_SPATIAL_MATERN_GCD ∨
      type = STARSH_SPATIAL_KERNEL.STARSH_SPATIAL_MATERN2_GCD) :
    starsh_ssdata_get_kernel E GSL kernel data type = (E.STARSH_SUCCESS, kernel) := by
  unfold starsh_ssdata_get_kernel
  rw [if_neg hd]
  rcases ht with h | h | h | h <;> subst h <;>
    (split_ifs <;> rfl)

theorem C15_witness :
    starsh_ssdata_get_kernel exErrno false none (exData3 : STARSH_ssdata ℚ)
        STARSH_SPATIAL_KERNEL.STARSH_SPATIAL_EXP_GCD
      = (exErrno.STARSH_SUCCESS, none) :=
  C15_gcd_outside_2d_returns_success exErrno false none exData3
    STARSH_SPATIAL_KERNEL.STARSH_SPATIAL_EXP_GCD (by decide) (Or.inl rfl)

/-! ## The formula of the exponential great-circle kernel -/

/-- Over the reals and for `beta ≠ 0` the stored value is
`sigma·e^(−r/beta) + noise·δ(r)`. -/
theorem exp_gcd_value_real (data1 data2 : STARSH_ssdata ℝ) (ii jj : Nat)
    (hb : data1.beta ≠ 0) :
    exp_gcd_value (Libm.mk Real.sqrt Real.sin Real.cos Real.arcsin Real.exp) data1 data2 ii jj
      = data1.sigma * Real.exp
          (-(gcd_dist_val (Libm.mk Real.sqrt Real.sin Real.cos Real.arcsin Real.exp)
            data1 data2 ii jj) / data1.beta)
        + data1.noise *
          (if gcd_dist_val (Libm.mk Real.sqrt Real.sin Real.cos Real.arcsin Real.exp)
            data1 data2 ii jj = 0 then 1 else 0) := by
  unfold exp_gcd_value
  by_cases hr : gcd_dist_val (Libm.mk Real.sqrt Real.sin Real.cos Real.arcsin Real.exp)
      data1 data2 ii jj = 0
  · rw [hr]
    simp
  · have hq : gcd_dist_val (Libm.mk Real.sqrt Real.sin Real.cos Real.arcsin Real.exp)
        data1 data2 ii jj / (-data1.beta) ≠ 0 :=
      div_ne_zero hr (neg_ne_zero.mpr hb)
    rw [if_neg hq, if_neg hr, mul_zero, add_zero, div_neg, neg_div]

/-- The distance of the kernels is the haversine formula with the radius
`6371`, the degrees converted with the constant `PI` of the file. -/
theorem gcd_dist_val_haversine (data1 data2 : STARSH_ssdata ℝ) (ii jj : Nat) :
    gcd_dist_val (Libm.mk Real.sqrt Real.sin Real.cos Real.arcsin Real.exp) data1 data2 ii jj
      = 2 * 6371 * Real.arcsin (Real.sqrt
          (Real.sin ((deg2rad (data2.particles.point.getD jj 0)
              - deg2rad (data1.particles.point.getD ii 0)) / 2) ^ 2
            + Real.cos (deg2rad (data1.particles.point.getD ii 0))
              * Real.cos (deg2rad (data2.particles.point.getD jj 0))
              * Real.sin ((deg2rad (data2.particles.point.getD (data2.particles.count + jj) 0)
                  - deg2rad (data1.particles.point.getD (data1.particles.count + ii) 0)) / 2)
                ^ 2)) := by
  unfold gcd_dist_val distanceEarth earthRadiusKm
  norm_num
  congr 2
  ring

theorem exFrameC_reads {α : Type} [Field α] : GcdReadsOk 1 1 (exFrameC : KernelFrame α) := by
  refine ⟨by simp [exFrameC], by simp [exFrameC], ?_, ?_⟩
  · intro i hi
    have hi1 : i < 1 := hi
    interval_cases i
    simp [exFrameC]
  · intro j hj
    have hj1 : j < 1 := hj
    interval_cases j
    simp [exFrameC]

theorem exFrameC_writes {α : Type} [Field α] : GcdWritesOk 1 1 1 (exFrameC : KernelFrame α) := by
  intro j hj i hi
  have hi1 : i < 1 := hi
  have hj1 : j < 1 := hj
  interval_cases i
  interval_cases j
  simp [exFrameC]

theorem exFrameC_dist :
    gcd_dist_val (Libm.mk Real.sqrt Real.sin Real.cos Real.arcsin Real.exp)
      (exFrameC : KernelFrame ℝ).row_data (exFrameC : KernelFrame ℝ).col_data 0 0 = 0 := by
  simp [gcd_dist_val, distanceEarth, deg2rad, exFrameC]

/-- C11 (as stated, refuted): for `sigma = 2`, `beta = 1`, `noise = 0` and twice
the same point the kernel stores `sigma + noise = 2`, and the formula
`σ²·e^(−r/β) + μ·δ(r)` with `σ = sigma` gives `4`. -/
theorem C11_counterexample :
    ∃ after : KernelFrame ℝ,
      starsh_ssdata_block_exp_kernel_2d_simd_gcd
          (Libm.mk Real.sqrt Real.sin Real.cos Real.arcsin Real.exp) 1 1 exFrameC 1
        = some after ∧
      after.result[0]? = some 2 ∧
      documented_exp_gcd_value (Libm.mk Real.sqrt Real.sin Real.cos Real.arcsin Real.exp)
          (exFrameC : KernelFrame ℝ).row_data (exFrameC : KernelFrame ℝ).col_data
          ((exFrameC : KernelFrame ℝ).irow.getD 0 0) ((exFrameC : KernelFrame ℝ).icol.getD 0 0)
        = 4 ∧
      after.result[0]?
        ≠ some (documented_exp_gcd_value
            (Libm.mk Real.sqrt Real.sin Real.cos Real.arcsin Real.exp)
            (exFrameC : KernelFrame ℝ).row_data (exFrameC : KernelFrame ℝ).col_data
            ((exFrameC : KernelFrame ℝ).irow.getD 0 0)
            ((exFrameC : KernelFrame ℝ).icol.getD 0 0)) := by
  have hk := exp_gcd_kernel_eq (Libm.mk Real.sqrt Real.sin Real.cos Real.arcsin Real.exp)
    1 1 1 (exFrameC : KernelFrame ℝ) (le_refl _) exFrameC_reads exFrameC_writes
  have hpost := (filled_post (fun i j => exp_gcd_value
      (Libm.mk Real.sqrt Real.sin Real.cos Real.arcsin Real.exp)
      (exFrameC : KernelFrame ℝ).row_data (exFrameC : KernelFrame ℝ).col_data
      ((exFrameC : KernelFrame ℝ).irow.getD i 0) ((exFrameC : KernelFrame ℝ).icol.getD j 0))
    1 1 1 (exFrameC : KernelFrame ℝ) (le_refl _) exFrameC_writes).2.2.2.2.2.1 0 0
      (by decide) (by decide)
  have hi : (exFrameC : KernelFrame ℝ).irow.getD 0 0 = 0 := rfl
  have hj : (exFrameC : KernelFrame ℝ).icol.getD 0 0 = 0 := rfl
  have hv : exp_gcd_value (Libm.mk Real.sqrt Real.sin Real.cos Real.arcsin Real.exp)
      (exFrameC : KernelFrame ℝ).row_data (exFrameC : KernelFrame ℝ).col_data 0 0 = 2 := by
    unfold exp_gcd_value
    rw [exFrameC_dist]
    simp [exFrameC]
  have hdoc : documented_exp_gcd_value
      (Libm.mk Real.sqrt Real.sin Real.cos Real.arcsin Real.exp)
      (exFrameC : KernelFrame ℝ).row_data (exFrameC : KernelFrame ℝ).col_data 0 0 = 4 := by
    unfold documented_exp_gcd_value
    rw [exFrameC_dist]
    simp [exFrameC]
    norm_num
  dsimp only at hpost
  rw [hi, hj, hv] at hpost
  rw [hi, hj]
  simp only [Int.toNat_one, Nat.zero_mul, Nat.add_zero] at hpost
  refine ⟨_, hk, hpost, hdoc, ?_⟩
  intro h
  have h2 : some (2 : ℝ) = some (documented_exp_gcd_value
      (Libm.mk Real.sqrt Real.sin Real.cos Real.arcsin Real.exp)
      (exFrameC : KernelFrame ℝ).row_data (exFrameC : KernelFrame ℝ).col_data 0 0) :=
    hpost.symm.trans h
  rw [hdoc] at h2
  norm_num at h2

/-- C11 (amended): over the reals, for in-bounds memory, `ld ≥ nrows` and
`beta ≠ 0`, `starsh_ssdata_block_exp_kernel_2d_simd_gcd` returns and fills
entry `(i, j)` with `s·e^(−r_ij/β) + μ·δ(r_ij)`, where `s`, `β` and `μ` are the
fields `sigma` (the square of the variance, not squared again), `beta` and
`noise` of `row_data`, `δ(0) = 1` and `δ(x) = 0` otherwise, and `r_ij` is the
haversine distance with radius `6371` of the row point `irow[i]` and the
column point `icol[j]`. -/
theorem C11_exp_gcd_formula (nrows ncols ld : Int) (mem : KernelFrame ℝ) (hld : nrows ≤ ld)
    (hr : GcdReadsOk nrows ncols mem) (hw : GcdWritesOk nrows ncols ld mem)
    (hb : mem.row_data.beta ≠ 0) :
    (∃ after : KernelFrame ℝ,
      starsh_ssdata_block_exp_kernel_2d_simd_gcd
          (Libm.mk Real.sqrt Real.sin Real.cos Real.arcsin Real.exp) nrows ncols mem ld
        = some after ∧
      ∀ i j : Nat, (i : Int) < nrows → (j : Int) < ncols →
        after.result[j * ld.toNat + i]?
          = some (mem.row_data.sigma * Real.exp
                (-(gcd_dist_val (Libm.mk Real.sqrt Real.sin Real.cos Real.arcsin Real.exp)
                  mem.row_data mem.col_data (mem.irow.getD i 0) (mem.icol.getD j 0))
                  / mem.row_data.beta)
              + mem.row_data.noise *
                (if gcd_dist_val (Libm.mk Real.sqrt Real.sin Real.cos Real.arcsin Real.exp)
                  mem.row_data mem.col_data (mem.irow.getD i 0) (mem.icol.getD j 0) = 0
                then 1 else 0))) ∧
    (∀ ii jj : Nat,
      gcd_dist_val (Libm.mk Real.sqrt Real.sin Real.cos Real.arcsin Real.exp)
          mem.row_data mem.col_data ii jj
        = 2 * 6371 * Real.arcsin (Real.sqrt
            (Real.sin ((deg2rad (mem.col_data.particles.point.getD jj 0)
                - deg2rad (mem.row_data.particles.point.getD ii 0)) / 2) ^ 2
              + Real.cos (deg2rad (mem.row_data.particles.point.getD ii 0))
                * Real.cos (deg2rad (mem.col_data.particles.point.getD jj 0))
                * Real.sin
                    ((deg2rad (mem.col_data.particles.point.getD
                        (mem.col_data.particles.count + jj) 0)
                      - deg2rad (mem.row_data.particles.point.getD
                        (mem.row_data.particles.count + ii) 0)) / 2) ^ 2))) := by
  refine ⟨⟨_, exp_gcd_kernel_eq _ nrows ncols ld mem hld hr hw, ?_⟩,
    fun ii jj => gcd_dist_val_haversine mem.row_data mem.col_data ii jj⟩
  intro i j hi hj
  have hpost := (filled_post (fun i j => exp_gcd_value
      (Libm.mk Real.sqrt Real.sin Real.cos Real.arcsin Real.exp) mem.row_data mem.col_data
      (mem.irow.getD i 0) (mem.icol.getD j 0)) nrows ncols ld mem hld hw).2.2.2.2.2.1 i j hi hj
  dsimp only at hpost
  rw [exp_gcd_value_real _ _ _ _ hb] at hpost
  exact hpost

theorem C11_witness :
    (∃ after : KernelFrame ℝ,
      starsh_ssdata_block_exp_kernel_2d_simd_gcd
          (Libm.mk Real.sqrt Real.sin Real.cos Real.arcsin Real.exp) 1 1 exFrame 2
        = some after ∧
      ∀ i j : Nat, (i : Int) < 1 → (j : Int) < 1 →
        after.result[j * (2 : Int).toNat + i]?
          = some ((exFrame : KernelFrame ℝ).row_data.sigma * Real.exp
                (-(gcd_dist_val (Libm.mk Real.sqrt Real.sin Real.cos Real.arcsin Real.exp)
                  (exFrame : KernelFrame ℝ).row_data (exFrame : KernelFrame ℝ).col_data
                  ((exFrame : KernelFrame ℝ).irow.getD i 0)
                  ((exFrame : KernelFrame ℝ).icol.getD j 0))
                  / (exFrame : KernelFrame ℝ).row_data.beta)
              + (exFrame : KernelFrame ℝ).row_data.noise *
                (if gcd_dist_val (Libm.mk Real.sqrt Real.sin Real.cos Real.arcsin Real.exp)
                  (exFrame : KernelFrame ℝ).row_data (exFrame : KernelFrame ℝ).col_data
                  ((exFrame : KernelFrame ℝ).irow.getD i 0)
                  ((exFrame : KernelFrame ℝ).icol.getD j 0) = 0
                then 1 else 0))) ∧
    (∀ ii jj : Nat,
      gcd_dist_val (Libm.mk Real.sqrt Real.sin Real.cos Real.arcsin Real.exp)
          (exFrame : KernelFrame ℝ).row_data (exFrame : KernelFrame ℝ).col_data ii jj
        = 2 * 6371 * Real.arcsin (Real.sqrt
            (Real.sin ((deg2rad ((exFrame : KernelFrame ℝ).col_data.particles.point.getD jj 0)
                - deg2rad ((exFrame : KernelFrame ℝ).row_data.particles.point.getD ii 0)) / 2) ^ 2
              + Real.cos (deg2rad ((exFrame : KernelFrame ℝ).row_data.particles.point.getD ii 0))
                * Real.cos (deg2rad ((exFrame : KernelFrame ℝ).col_data.particles.point.getD jj 0))
                * Real.sin
                    ((deg2rad ((exFrame : KernelFrame ℝ).col_data.particles.point.getD
                        ((exFrame : KernelFrame ℝ).col_data.particles.count + jj) 0)
                      - deg2rad ((exFrame : KernelFrame ℝ).row_data.particles.point.getD
                        ((exFrame : KernelFrame ℝ).row_data.particles.count + ii) 0)) / 2)
                  ^ 2))) :=
  C11_exp_gcd_formula 1 1 2 exFrame (by decide) exFrame_reads exFrame_writes
    (by simp [exFrame])

/-! ## The variable-argument constructor of the random tiled matrix -/

theorem rndtiled_valid_ne (P : STARSH_RNDTILED_PARAM) (hP : P.Valid) :
    (P.STARSH_RNDTILED_NB ≠ 0 ∧ P.STARSH_RNDTILED_DECAY ≠ 0 ∧ P.STARSH_RNDTILED_DIAG ≠ 0) ∧
    (P.STARSH_RNDTILED_DECAY ≠ P.STARSH_RNDTILED_NB ∧
      P.STARSH_RNDTILED_DIAG ≠ P.STARSH_RNDTILED_NB) ∧
    P.STARSH_RNDTILED_DIAG ≠ P.STARSH_RNDTILED_DECAY := by
  unfold STARSH_RNDTILED_PARAM.Valid at hP
  simp only [List.nodup_cons, List.mem_cons, List.mem_singleton, not_or, List.not_mem_nil,
    not_false_eq_true, List.nodup_nil, and_true] at hP
  obtain ⟨⟨a1, a2, a3⟩, ⟨b2, b3⟩, c3⟩ := hP
  exact ⟨⟨Ne.symm a1, Ne.symm a2, Ne.symm a3⟩, ⟨Ne.symm b2, Ne.symm b3⟩, Ne.symm c3⟩

/-- One pair of the argument list is consumed by one round of the loop. -/
theorem rndtiled_va_loop_pair {α : Type} (P : STARSH_RNDTILED_PARAM) (hP : P.Valid)
    (a : RndtiledArg α) (tail : List (VaArg α)) (l : RndtiledLocals α) :
    rndtiled_va_loop P (RndtiledArg.encode P a ++ tail) l
      = rndtiled_va_loop P tail (RndtiledArg.assign l a) := by
  obtain ⟨⟨a1, a2, a3⟩, ⟨b2, b3⟩, c3⟩ := rndtiled_valid_ne P hP
  cases a <;>
    simp [RndtiledArg.encode, RndtiledArg.assign, rndtiled_va_loop, a1, a2, a3, b2, b3, c3]

theorem rndtiled_va_loop_pairs {α : Type} (P : STARSH_RNDTILED_PARAM) (hP : P.Valid)
    (pairs : List (RndtiledArg α)) (tail : List (VaArg α)) (l : RndtiledLocals α) :
    rndtiled_va_loop P (encode_rndtiled_pairs P pairs ++ tail) l
      = rndtiled_va_loop P tail (pairs.foldl RndtiledArg.assign l) := by
  induction pairs generalizing l with
  | nil => rfl
  | cons a rest ih =>
    unfold encode_rndtiled_pairs at ih ⊢
    rw [List.flatMap_cons, List.append_assoc, rndtiled_va_loop_pair P hP, ih, List.foldl_cons]

/-- After the pairs every local holds the value of its last occurrence, or
else the value it had. -/
theorem rndtiled_foldl_assign_last {α : Type} (pairs : List (RndtiledArg α))
    (l : RndtiledLocals α) :
    pairs.foldl RndtiledArg.assign l
      = RndtiledLocals.mk (last_or (nb_values pairs) l.nb) (last_or (decay_values pairs) l.decay)
          (last_or (diag_values pairs) l.add_diag) := by
  induction pairs generalizing l with
  | nil => rfl
  | cons a rest ih =>
    rw [List.foldl_cons, ih]
    cases a <;> simp [RndtiledArg.assign, nb_values, decay_values, diag_values, last_or_cons]

/-- An unrecognised non-zero constant takes the `default` branch. -/
theorem rndtiled_va_loop_default {α : Type} (P : STARSH_RNDTILED_PARAM) (t : Int)
    (rest : List (VaArg α)) (l : RndtiledLocals α) (h0 : t ≠ 0)
    (ht : t ∉ [P.STARSH_RNDTILED_NB, P.STARSH_RNDTILED_DECAY, P.STARSH_RNDTILED_DIAG]) :
    rndtiled_va_loop P (VaArg.int t :: rest) l = some none := by
  simp only [List.mem_cons, List.mem_singleton, not_or, List.not_mem_nil, not_false_eq_true,
    and_true] at ht
  obtain ⟨t1, t2, t3⟩ := ht
  cases rest with
  | nil => simp [rndtiled_va_loop, h0, t1, t2, t3]
  | cons x xs => cases x <;> simp [rndtiled_va_loop, h0, t1, t2, t3]

/-- C21: for `dtype == 'd'` and a list of `(constant, value)` pairs of
`STARSH_RNDTILED_NB`, `STARSH_RNDTILED_DECAY` and `STARSH_RNDTILED_DIAG`
followed by the terminating `0`, `starsh_rndtiled_new_va` returns what
`starsh_rndtiled_new(data, n, dtype, nb, decay, add_diag)` returns with every
parameter taken from its last occurrence, or else its default `nb = n`,
`decay = 0`, `add_diag = 0`; for `dtype != 'd'`, and when after any pairs a
non-zero constant that is none of the three is met, it returns `1` and leaves
the pointer variable behind `data` as it was. -/
theorem C21_rndtiled_new_va {α : Type} [Field α] (A : STARSH_MALLOC)
    (lapack : Int → Int → List α) (P : STARSH_RNDTILED_PARAM)
    (data : Option (Option (STARSH_rndtiled α))) (n : Int) (hP : P.Valid) :
    (∀ pairs : List (RndtiledArg α),
      starsh_rndtiled_new_va A lapack P data n 'd'
          (encode_rndtiled_pairs P pairs ++ [VaArg.int 0])
        = starsh_rndtiled_new A lapack data n 'd' (last_or (nb_values pairs) n)
            (last_or (decay_values pairs) 0) (last_or (diag_values pairs) 0)) ∧
    (∀ (dtype : Char) (args : List (VaArg α)), dtype ≠ 'd' →
      starsh_rndtiled_new_va A lapack P data n dtype args = some (1, data)) ∧
    (∀ (dtype : Char) (pairs : List (RndtiledArg α)) (t : Int) (rest : List (VaArg α)),
      t ≠ 0 →
      t ∉ [P.STARSH_RNDTILED_NB, P.STARSH_RNDTILED_DECAY, P.STARSH_RNDTILED_DIAG] →
      starsh_rndtiled_new_va A lapack P data n dtype
          (encode_rndtiled_pairs P pairs ++ VaArg.int t :: rest)
        = some (1, data)) := by
  refine ⟨?_, ?_, ?_⟩
  · intro pairs
    unfold starsh_rndtiled_new_va
    rw [if_neg (by decide), rndtiled_va_loop_pairs P hP, rndtiled_foldl_assign_last]
    simp [rndtiled_va_loop]
  · intro dtype args hd
    unfold starsh_rndtiled_new_va
    rw [if_pos hd]
  · intro dtype pairs t rest h0 ht
    unfold starsh_rndtiled_new_va
    by_cases hd : dtype ≠ 'd'
    · rw [if_pos hd]
    · rw [if_neg hd, rndtiled_va_loop_pairs P hP, rndtiled_va_loop_default P t rest _ h0 ht]

theorem exRndParam_valid : exRndParam.Valid := by
  unfold STARSH_RNDTILED_PARAM.Valid exRndParam
  decide

theorem C21_witness :
    (∀ pairs : List (RndtiledArg ℚ),
      starsh_rndtiled_new_va exMalloc (fun _ _ => [1, 2, 3, 4]) exRndParam (some none) 4 'd'
          (encode_rndtiled_pairs exRndParam pairs ++ [VaArg.int 0])
        = starsh_rndtiled_new exMalloc (fun _ _ => [1, 2, 3, 4]) (some none) 4 'd'
            (last_or (nb_values pairs) 4) (last_or (decay_values pairs) 0)
            (last_or (diag_values pairs) 0)) ∧
    (∀ (dtype : Char) (args : List (VaArg ℚ)), dtype ≠ 'd' →
      starsh_rndtiled_new_va exMalloc (fun _ _ => [1, 2, 3, 4]) exRndParam (some none) 4 dtype
        args = some (1, some none)) ∧
    (∀ (dtype : Char) (pairs : List (RndtiledArg ℚ)) (t : Int) (rest : List (VaArg ℚ)),
      t ≠ 0 →
      t ∉ [exRndParam.STARSH_RNDTILED_NB, exRndParam.STARSH_RNDTILED_DECAY,
        exRndParam.STARSH_RNDTILED_DIAG] →
      starsh_rndtiled_new_va exMalloc (fun _ _ => [1, 2, 3, 4]) exRndParam (some none) 4 dtype
          (encode_rndtiled_pairs exRndParam pairs ++ VaArg.int t :: rest)
        = some (1, some none)) :=
  C21_rndtiled_new_va exMalloc (fun _ _ => [1, 2, 3, 4]) exRndParam (some none) 4
    exRndParam_valid

/-! ## Symmetry of the random tiled matrix -/

theorem rndtiled_sum_comm {α : Type} [Field α] (data : STARSH_rndtiled α) (ii jj : Nat) :
    rndtiled_sum data ii jj = rndtiled_sum data jj ii := by
  unfold rndtiled_sum
  congr 1
  apply List.map_congr_left
  intro k _
  ring

theorem rndtiled_value_comm {α : Type} [Field α] (data : STARSH_rndtiled α) (ii jj : Nat) :
    rndtiled_value data ii jj = rndtiled_value data jj ii := by
  unfold rndtiled_value
  rw [rndtiled_sum_comm data ii jj]
  by_cases h : ii = jj
  · rw [if_pos h, if_pos h.symm]
  · rw [if_neg h, if_neg (fun h2 => h h2.symm)]

/-- C28: the matrix of `starsh_rndtiled_block_kernel` is symmetric. For an
object laid out for `n` and `block_size > 0` and index lists `a` (of `na`
entries) and `b` (of `nb` entries) with entries in `[0, n)`, the call with
`(irow, icol) = (a, b)` and the call with `(irow, icol) = (b, a)` both return,
and entry `(i, j)` of the first block, `result[j*na + i]`, equals entry
`(j, i)` of the second, `result[i*nb + j]`. -/
theorem C28_rndtiled_symmetric {α : Type} [Field α] (row_data col_data : STARSH_rndtiled α)
    (na nb : Nat) (a b : List Nat) (result1 result2 : List α)
    (hd : RndtiledOk row_data) (ha : na ≤ a.length) (hb : nb ≤ b.length)
    (han : ∀ i < na, ((a.getD i 0 : Nat) : Int) < row_data.n)
    (hbn : ∀ j < nb, ((b.getD j 0 : Nat) : Int) < row_data.n)
    (hres1 : na * nb ≤ result1.length) (hres2 : nb * na ≤ result2.length) :
    ∃ out1 out2 : List α,
      starsh_rndtiled_block_kernel na nb a b row_data col_data result1 = some out1 ∧
      starsh_rndtiled_block_kernel nb na b a row_data col_data result2 = some out2 ∧
      ∀ i j : Nat, i < na → j < nb →
        ∃ v : α, out1[j * na + i]? = some v ∧ out2[i * nb + j]? = some v := by
  refine ⟨_, _, rndtiled_kernel_eq row_data col_data hd na nb a b result1 ha hb han hbn hres1,
    rndtiled_kernel_eq row_data col_data hd nb na b a result2 hb ha hbn han hres2, ?_⟩
  intro i j hi hj
  refine ⟨rndtiled_value row_data (a.getD i 0) (b.getD j 0),
    (filledT_post _ na nb result1 hres1).1 i j hi hj, ?_⟩
  rw [(filledT_post _ nb na result2 hres2).1 j i hj hi]
  exact congrArg some (rndtiled_value_comm row_data _ _)

theorem C28_witness :
    ∃ out1 out2 : List ℚ,
      starsh_rndtiled_block_kernel 1 2 [0] [1, 2] exT exT [0, 0] = some out1 ∧
      starsh_rndtiled_block_kernel 2 1 [1, 2] [0] exT exT [0, 0] = some out2 ∧
      ∀ i j : Nat, i < 1 → j < 2 →
        ∃ v : ℚ, out1[j * 1 + i]? = some v ∧ out2[i * 2 + j]? = some v :=
  C28_rndtiled_symmetric exT exT 1 2 [0] [1, 2] [0, 0] [0, 0] exT_ok (by decide) (by decide)
    (by decide) (by decide) (by decide) (by decide)

/-! ## Symmetry of the great-circle kernels -/

theorem sin_half_sq_swap (x y : ℝ) :
    Real.sin ((x - y) / 2) * Real.sin ((x - y) / 2)
      = Real.sin ((y - x) / 2) * Real.sin ((y - x) / 2) := by
  have h : (x - y) / 2 = -((y - x) / 2) := by ring
  rw [h, Real.sin_neg]
  ring

/-- Over the reals `distanceEarth` is symmetric in its two points. -/
theorem distanceEarth_comm (lat1d lon1d lat2d lon2d : ℝ) :
    distanceEarth (Libm.mk Real.sqrt Real.sin Real.cos Real.arcsin Real.exp)
        lat1d lon1d lat2d lon2d
      = distanceEarth (Libm.mk Real.sqrt Real.sin Real.cos Real.arcsin Real.exp)
        lat2d lon2d lat1d lon1d := by
  unfold distanceEarth
  simp only []
  have hu := sin_half_sq_swap (deg2rad lat2d) (deg2rad lat1d)
  have hv := sin_half_sq_swap (deg2rad lon2d) (deg2rad lon1d)
  have key : Real.sin ((deg2rad lat2d - deg2rad lat1d) / 2)
        * Real.sin ((deg2rad lat2d - deg2rad lat1d) / 2)
      + Real.cos (deg2rad lat1d) * Real.cos (deg2rad lat2d)
        * Real.sin ((deg2rad lon2d - deg2rad lon1d) / 2)
        * Real.sin ((deg2rad lon2d - deg2rad lon1d) / 2)
      = Real.sin ((deg2rad lat1d - deg2rad lat2d) / 2)
        * Real.sin ((deg2rad lat1d - deg2rad lat2d) / 2)
      + Real.cos (deg2rad lat2d) * Real.cos (deg2rad lat1d)
        * Real.sin ((deg2rad lon1d - deg2rad lon2d) / 2)
        * Real.sin ((deg2rad lon1d - deg2rad lon2d) / 2) := by
    rw [hu, mul_assoc (Real.cos (deg2rad lat1d) * Real.cos (deg2rad lat2d)), hv]
    ring
  rw [key]

/-- Over the reals `distanceEarth` is `0` for coincident points. -/
theorem distanceEarth_self (latd lond : ℝ) :
    distanceEarth (Libm.mk Real.sqrt Real.sin Real.cos Real.arcsin Real.exp)
        latd lond latd lond = 0 := by
  simp [distanceEarth]

theorem gcd_dist_val_comm (data : STARSH_ssdata ℝ) (a b : Nat) :
    gcd_dist_val (Libm.mk Real.sqrt Real.sin Real.cos Real.arcsin Real.exp) data data a b
      = gcd_dist_val (Libm.mk Real.sqrt Real.sin Real.cos Real.arcsin Real.exp) data data b a := by
  unfold gcd_dist_val
  exact distanceEarth_comm _ _ _ _

theorem gcd_dist_val_self (data : STARSH_ssdata ℝ) (a : Nat) :
    gcd_dist_val (Libm.mk Real.sqrt Real.sin Real.cos Real.arcsin Real.exp) data data a a
      = 0 := by
  unfold gcd_dist_val
  exact distanceEarth_self _ _

theorem exp_gcd_value_comm (data : STARSH_ssdata ℝ) (a b : Nat) :
    exp_gcd_value (Libm.mk Real.sqrt Real.sin Real.cos Real.arcsin Real.exp) data data a b
      = exp_gcd_value (Libm.mk Real.sqrt Real.sin Real.cos Real.arcsin Real.exp) data data b a := by
  unfold exp_gcd_value
  rw [gcd_dist_val_comm data a b]

theorem sqrexp_gcd_value_comm (data : STARSH_ssdata ℝ) (a b : Nat) :
    sqrexp_gcd_value (Libm.mk Real.sqrt Real.sin Real.cos Real.arcsin Real.exp) data data a b
      = sqrexp_gcd_value (Libm.mk Real.sqrt Real.sin Real.cos Real.arcsin Real.exp) data data
          b a := by
  unfold sqrexp_gcd_value
  rw [gcd_dist_val_comm data a b]

theorem exp_gcd_value_self (data : STARSH_ssdata ℝ) (a : Nat) :
    exp_gcd_value (Libm.mk Real.sqrt Real.sin Real.cos Real.arcsin Real.exp) data data a a
      = data.sigma + data.noise := by
  unfold exp_gcd_value
  rw [gcd_dist_val_self, zero_div, if_pos rfl]

theorem sqrexp_gcd_value_self (data : STARSH_ssdata ℝ) (a : Nat) :
    sqrexp_gcd_value (Libm.mk Real.sqrt Real.sin Real.cos Real.arcsin Real.exp) data data a a
      = data.sigma + data.noise := by
  unfold sqrexp_gcd_value
  rw [gcd_dist_val_self, mul_zero, zero_div, if_pos rfl]

theorem gcd_swap_reads {α : Type} (nrows ncols : Int) (mem : KernelFrame α)
    (result2 : List α) (hsame : mem.col_data = mem.row_data)
    (hr : GcdReadsOk nrows ncols mem) :
    GcdReadsOk ncols nrows { mem with irow := mem.icol, icol := mem.irow, result := result2 } := by
  obtain ⟨h1, h2, h3, h4⟩ := hr
  refine ⟨h2, h1, ?_, ?_⟩
  · intro i hi
    have := h4 i hi
    rw [hsame] at this
    exact this
  · intro j hj
    have := h3 j hj
    show mem.col_data.particles.count + mem.irow.getD j 0 < mem.col_data.particles.point.length
    rw [hsame]
    exact this

/-- C29: over the reals `distanceEarth` is symmetric in its two points and `0`
for coincident points; and when `row_data` and `col_data` are the same object
(with `beta ≠ 0`, memory in bounds), the great-circle exponential and
squared-exponential kernels produce a symmetric matrix: the call with
`(irow, icol)` and the call with the two index lists exchanged both return,
entry `(i, j)` of the first equals entry `(j, i)` of the second, and the entry
of a point paired with itself is `sigma + noise`. -/
theorem C29_gcd_kernels_symmetric (nrows ncols ld ld2 : Int) (mem : KernelFrame ℝ)
    (result2 : List ℝ) (hsame : mem.col_data = mem.row_data)
    (_hb : mem.row_data.beta ≠ 0) (hld : nrows ≤ ld) (hld2 : ncols ≤ ld2)
    (hr : GcdReadsOk nrows ncols mem) (hw : GcdWritesOk nrows ncols ld mem)
    (hw2 : GcdWritesOk ncols nrows ld2
      { mem with irow := mem.icol, icol := mem.irow, result := result2 }) :
    (∀ lat1d lon1d lat2d lon2d : ℝ,
      distanceEarth (Libm.mk Real.sqrt Real.sin Real.cos Real.arcsin Real.exp)
          lat1d lon1d lat2d lon2d
        = distanceEarth (Libm.mk Real.sqrt Real.sin Real.cos Real.arcsin Real.exp)
          lat2d lon2d lat1d lon1d) ∧
    (∀ latd lond : ℝ,
      distanceEarth (Libm.mk Real.sqrt Real.sin Real.cos Real.arcsin Real.exp)
          latd lond latd lond = 0) ∧
    (∃ after after2 : KernelFrame ℝ,
      starsh_ssdata_block_exp_kernel_2d_simd_gcd
          (Libm.mk Real.sqrt Real.sin Real.cos Real.arcsin Real.exp) nrows ncols mem ld
        = some after ∧
      starsh_ssdata_block_exp_kernel_2d_simd_gcd
          (Libm.mk Real.sqrt Real.sin Real.cos Real.arcsin Real.exp) ncols nrows
          { mem with irow := mem.icol, icol := mem.irow, result := result2 } ld2
        = some after2 ∧
      ∀ i j : Nat, (i : Int) < nrows → (j : Int) < ncols →
        ∃ v : ℝ, after.result[j * ld.toNat + i]? = some v ∧
          after2.result[i * ld2.toNat + j]? = some v ∧
          (mem.irow.getD i 0 = mem.icol.getD j 0 →
            v = mem.row_data.sigma + mem.row_data.noise)) ∧
    (∃ after after2 : KernelFrame ℝ,
      starsh_ssdata_block_sqrexp_kernel_2d_simd_gcd
          (Libm.mk Real.sqrt Real.sin Real.cos Real.arcsin Real.exp) nrows ncols mem ld
        = some after ∧
      starsh_ssdata_block_sqrexp_kernel_2d_simd_gcd
          (Libm.mk Real.sqrt Real.sin Real.cos Real.arcsin Real.exp) ncols nrows
          { mem with irow := mem.icol, icol := mem.irow, result := result2 } ld2
        = some after2 ∧
      ∀ i j : Nat, (i : Int) < nrows → (j : Int) < ncols →
        ∃ v : ℝ, after.result[j * ld.toNat + i]? = some v ∧
          after2.result[i * ld2.toNat + j]? = some v ∧
          (mem.irow.getD i 0 = mem.icol.getD j 0 →
            v = mem.row_data.sigma + mem.row_data.noise)) := by
  have hr2 := gcd_swap_reads nrows ncols mem result2 hsame hr
  obtain ⟨irow, icol, rd, cd, res⟩ := mem
  have hcd : cd = rd := hsame
  subst hcd
  refine ⟨distanceEarth_comm, distanceEarth_self, ?_, ?_⟩
  · refine ⟨_, _, exp_gcd_kernel_eq _ nrows ncols ld _ hld hr hw,
      exp_gcd_kernel_eq _ ncols nrows ld2 _ hld2 hr2 hw2, ?_⟩
    intro i j hi hj
    have p1 := (filled_post (fun i j => exp_gcd_value
      (Libm.mk Real.sqrt Real.sin Real.cos Real.arcsin Real.exp) cd cd
      (irow.getD i 0) (icol.getD j 0)) nrows ncols ld
      (KernelFrame.mk irow icol cd cd res) hld hw).2.2.2.2.2.1 i j hi hj
    have p2 := (filled_post (fun i j => exp_gcd_value
      (Libm.mk Real.sqrt Real.sin Real.cos Real.arcsin Real.exp) cd cd
      (icol.getD i 0) (irow.getD j 0)) ncols nrows ld2
      (KernelFrame.mk icol irow cd cd result2) hld2 hw2).2.2.2.2.2.1 j i hj hi
    refine ⟨_, p1, ?_, ?_⟩
    · dsimp only
      rw [exp_gcd_value_comm]
      exact p2
    · intro he
      dsimp only at he ⊢
      rw [he]
      exact exp_gcd_value_self _ _
  · refine ⟨_, _, sqrexp_gcd_kernel_eq _ nrows ncols ld _ hld hr hw,
      sqrexp_gcd_kernel_eq _ ncols nrows ld2 _ hld2 hr2 hw2, ?_⟩
    intro i j hi hj
    have p1 := (filled_post (fun i j => sqrexp_gcd_value
      (Libm.mk Real.sqrt Real.sin Real.cos Real.arcsin Real.exp) cd cd
      (irow.getD i 0) (icol.getD j 0)) nrows ncols ld
      (KernelFrame.mk irow icol cd cd res) hld hw).2.2.2.2.2.1 i j hi hj
    have p2 := (filled_post (fun i j => sqrexp_gcd_value
      (Libm.mk Real.sqrt Real.sin Real.cos Real.arcsin Real.exp) cd cd
      (icol.getD i 0) (irow.getD j 0)) ncols nrows ld2
      (KernelFrame.mk icol irow cd cd result2) hld2 hw2).2.2.2.2.2.1 j i hj hi
    refine ⟨_, p1, ?_, ?_⟩
    · dsimp only
      rw [sqrexp_gcd_value_comm]
      exact p2
    · intro he
      dsimp only at he ⊢
      rw [he]
      exact sqrexp_gcd_value_self _ _

theorem exFrame_swap_writes :
    GcdWritesOk 1 1 1
      { (exFrame : KernelFrame ℝ) with
        irow := (exFrame : KernelFrame ℝ).icol, icol := (exFrame : KernelFrame ℝ).irow,
        result := [0] } := by
  intro j hj i hi
  have hi1 : i < 1 := hi
  have hj1 : j < 1 := hj
  interval_cases i
  interval_cases j
  simp

theorem C29_witness :
    (∀ lat1d lon1d lat2d lon2d : ℝ,
      distanceEarth (Libm.mk Real.sqrt Real.sin Real.cos Real.arcsin Real.exp)
          lat1d lon1d lat2d lon2d
        = distanceEarth (Libm.mk Real.sqrt Real.sin Real.cos Real.arcsin Real.exp)
          lat2d lon2d lat1d lon1d) ∧
    (∀ latd lond : ℝ,
      distanceEarth (Libm.mk Real.sqrt Real.sin Real.cos Real.arcsin Real.exp)
          latd lond latd lond = 0) ∧
    (∃ after after2 : KernelFrame ℝ,
      starsh_ssdata_block_exp_kernel_2d_simd_gcd
          (Libm.mk Real.sqrt Real.sin Real.cos Real.arcsin Real.exp) 1 1 exFrame 2
        = some after ∧
      starsh_ssdata_block_exp_kernel_2d_simd_gcd
          (Libm.mk Real.sqrt Real.sin Real.cos Real.arcsin Real.exp) 1 1
          { (exFrame : KernelFrame ℝ) with
            irow := (exFrame : KernelFrame ℝ).icol, icol := (exFrame : KernelFrame ℝ).irow,
            result := [0] } 1
        = some after2 ∧
      ∀ i j : Nat, (i : Int) < 1 → (j : Int) < 1 →
        ∃ v : ℝ, after.result[j * (2 : Int).toNat + i]? = some v ∧
          after2.result[i * (1 : Int).toNat + j]? = some v ∧
          ((exFrame : KernelFrame ℝ).irow.getD i 0 = (exFrame : KernelFrame ℝ).icol.getD j 0 →
            v = (exFrame : KernelFrame ℝ).row_data.sigma
              + (exFrame : KernelFrame ℝ).row_data.noise)) ∧
    (∃ after after2 : KernelFrame ℝ,
      starsh_ssdata_block_sqrexp_kernel_2d_simd_gcd
          (Libm.mk Real.sqrt Real.sin Real.cos Real.arcsin Real.exp) 1 1 exFrame 2
        = some after ∧
      starsh_ssdata_block_sqrexp_kernel_2d_simd_gcd
          (Libm.mk Real.sqrt Real.sin Real.cos Real.arcsin Real.exp) 1 1
          { (exFrame : KernelFrame ℝ) with
            irow := (exFrame : KernelFrame ℝ).icol, icol := (exFrame : KernelFrame ℝ).irow,
            result := [0] } 1
        = some after2 ∧
      ∀ i j : Nat, (i : Int) < 1 → (j : Int) < 1 →
        ∃ v : ℝ, after.result[j * (2 : Int).toNat + i]? = some v ∧
          after2.result[i * (1 : Int).toNat + j]? = some v ∧
          ((exFrame : KernelFrame ℝ).irow.getD i 0 = (exFrame : KernelFrame ℝ).icol.getD j 0 →
            v = (exFrame : KernelFrame ℝ).row_data.sigma
              + (exFrame : KernelFrame ℝ).row_data.noise)) :=
  C29_gcd_kernels_symmetric 1 1 2 1 exFrame [0] rfl (by simp [exFrame]) (by decide) (by decide)
    exFrame_reads exFrame_writes exFrame_swap_writes

/-! ## Far blocks of rank zero -/

theorem dfe_norm_sq_split {α δ : Type} [Field α] (M : STARSH_blrm α δ) :
    dfe_norm_sq M = dfe_far_norm_sq M + dfe_near_norm_sq M := rfl

theorem dfe_far_norm_sq_nonneg {δ : Type} (M : STARSH_blrm ℝ δ) : 0 ≤ dfe_far_norm_sq M := by
  unfold dfe_far_norm_sq
  apply List.sum_nonneg
  intro x hx
  obtain ⟨bi, _, rfl⟩ := List.mem_map.mp hx
  exact mul_nonneg (symm_weight_nonneg _ _ _) (block_sq_nonneg _ _ _)

theorem dfe_near_norm_sq_nonneg {δ : Type} (M : STARSH_blrm ℝ δ) : 0 ≤ dfe_near_norm_sq M := by
  unfold dfe_near_norm_sq
  apply List.sum_nonneg
  intro x hx
  obtain ⟨bi, _, rfl⟩ := List.mem_map.mp hx
  exact mul_nonneg (symm_weight_nonneg _ _ _) (block_sq_nonneg _ _ _)

/-- With every far block of rank `0` the numerator is the norm of the far
part. -/
theorem dfe_diff_sq_rank_zero {α δ : Type} [Field α] (M : STARSH_blrm α δ)
    (hr0 : ∀ bi < M.format.nblocks_far, M.far_rank.getD bi 0 = 0) :
    dfe_diff_sq M = dfe_far_norm_sq M := by
  unfold dfe_diff_sq dfe_far_norm_sq
  congr 1
  apply List.map_congr_left
  intro bi hbi
  congr 1
  unfold far_diffsq far_normsq
  apply block_sq_congr
  intro r _ c _
  have hz : far_UVt M bi r c = 0 := by
    unfold far_UVt far_rk dot_NT
    rw [hr0 bi (List.mem_range.mp hbi)]
    rfl
  rw [hz, sub_zero]

theorem dfe_exact_eq {α δ : Type} [Field α] [DecidableEq α] (sqrt : α → α)
    (M : STARSH_blrm α δ) (h : WellFormed M) (hnz : dfe_norm sqrt M ≠ 0) :
    starsh_blrm__dfe_exact sqrt M = starsh_blrm__dfe sqrt M := by
  unfold starsh_blrm__dfe_exact starsh_blrm__dfe
  rw [dfe_run_eq sqrt M h]
  show exact_div (dfe_diff sqrt M) (dfe_norm sqrt M) = some (dfe_diff sqrt M / dfe_norm sqrt M)
  unfold exact_div
  rw [if_neg hnz]

theorem dfe_exact_zero_norm {α δ : Type} [Field α] [DecidableEq α] (sqrt : α → α)
    (M : STARSH_blrm α δ) (h : WellFormed M) (hz : dfe_norm sqrt M = 0) :
    starsh_blrm__dfe_exact sqrt M = none := by
  unfold starsh_blrm__dfe_exact
  rw [dfe_run_eq sqrt M h]
  show exact_div (dfe_diff sqrt M) (dfe_norm sqrt M) = none
  unfold exact_div
  rw [if_pos hz]

theorem exO_wf {α : Type} [Field α] : WellFormed (exO : STARSH_blrm α Unit) := by
  constructor
  · intro bi hbi
    have hbi2 : bi < 2 := hbi
    interval_cases bi <;>
      simp [FarBlockOk, BlockOk, KernelOk, exO, exFormatO, exCluster, blk_i, blk_j, far_nrows,
        far_ncols, far_rk, dfe_kernel_block, entry_kernel]
  · intro bi hbi
    have hbi2 : bi < 2 := hbi
    interval_cases bi <;>
      simp [NearBlockOk, BlockOk, KernelOk, exO, exFormatO, exCluster, blk_i, blk_j,
        dfe_kernel_block, entry_kernel]

theorem exO_norm_sq : dfe_norm_sq (exO : STARSH_blrm ℝ Unit) = 0 := by
  simp [dfe_norm_sq, far_normsq, near_normsq, block_sq, symm_weight, far_D, near_D_used,
    far_nrows, far_ncols, near_nrows, near_ncols, kernel_block, dfe_kernel_block,
    entry_kernel, exO, exFormatO, exCluster, blk_i, blk_j, List.range_succ]

theorem exO_diff_sq : dfe_diff_sq (exO : STARSH_blrm ℝ Unit) = 0 := by
  simp [dfe_diff_sq, far_diffsq, block_sq, symm_weight, far_D, far_UVt, far_rk, dot_NT,
    far_nrows, far_ncols, kernel_block, dfe_kernel_block,
    entry_kernel, exO, exFormatO, exCluster, blk_i, blk_j, List.range_succ]

/-- C27 (as stated, refuted): on the zero matrix (kernel `0` everywhere, far
blocks of rank `0`) the run reaches the `return` with `diff = 0` and
`norm = 0`, so the returned quotient is `0/0`: over exact arithmetic there is
no returned value, and in particular no non-negative one. -/
theorem C27_counterexample :
    WellFormed (exO : STARSH_blrm ℝ Unit) ∧
    (∃ v fr, starsh_blrm__dfe_run Real.sqrt (exO : STARSH_blrm ℝ Unit) = some (v, fr) ∧
      fr.diff = 0 ∧ fr.norm = 0) ∧
    starsh_blrm__dfe_exact Real.sqrt (exO : STARSH_blrm ℝ Unit) = none ∧
    ¬ ∃ v : ℝ, starsh_blrm__dfe_exact Real.sqrt (exO : STARSH_blrm ℝ Unit) = some v ∧ 0 ≤ v := by
  have hd : dfe_diff Real.sqrt (exO : STARSH_blrm ℝ Unit) = 0 := by
    rw [dfe_diff_real _ exO_wf, exO_diff_sq, Real.sqrt_zero]
  have hn : dfe_norm Real.sqrt (exO : STARSH_blrm ℝ Unit) = 0 := by
    rw [dfe_norm_real, exO_norm_sq, Real.sqrt_zero]
  have hnone := dfe_exact_zero_norm Real.sqrt (exO : STARSH_blrm ℝ Unit) exO_wf hn
  refine ⟨exO_wf, ⟨_, _, dfe_run_eq Real.sqrt exO exO_wf, hd, hn⟩, hnone, ?_⟩
  rintro ⟨v, hv, _⟩
  rw [hnone] at hv
  exact Option.noConfusion hv

/-- C27 (amended): over the reals, on a well-formed matrix whose norm is
non-zero `starsh_blrm__dfe` returns a non-negative value; and when moreover
every far block has rank `0`, it returns the ratio of the norm of the far part
to the norm of the whole matrix, which lies in `[0, 1]` and is `1` when there
are no near blocks. -/
theorem C27_rank_zero_ratio {δ : Type} (M : STARSH_blrm ℝ δ) (h : WellFormed M)
    (hnz : dfe_norm Real.sqrt M ≠ 0) :
    (∃ v : ℝ, starsh_blrm__dfe_exact Real.sqrt M = some v ∧
      starsh_blrm__dfe Real.sqrt M = some v ∧ 0 ≤ v) ∧
    ((∀ bi < M.format.nblocks_far, M.far_rank.getD bi 0 = 0) →
      starsh_blrm__dfe_exact Real.sqrt M
          = some (Real.sqrt (dfe_far_norm_sq M)
              / Real.sqrt (dfe_far_norm_sq M + dfe_near_norm_sq M)) ∧
        starsh_blrm__dfe Real.sqrt M
          = some (Real.sqrt (dfe_far_norm_sq M)
              / Real.sqrt (dfe_far_norm_sq M + dfe_near_norm_sq M)) ∧
        0 ≤ Real.sqrt (dfe_far_norm_sq M)
              / Real.sqrt (dfe_far_norm_sq M + dfe_near_norm_sq M) ∧
        Real.sqrt (dfe_far_norm_sq M)
              / Real.sqrt (dfe_far_norm_sq M + dfe_near_norm_sq M) ≤ 1 ∧
        (M.format.nblocks_near = 0 →
          starsh_blrm__dfe_exact Real.sqrt M = some 1 ∧
            starsh_blrm__dfe Real.sqrt M = some 1)) := by
  have hex := dfe_exact_eq Real.sqrt M h hnz
  constructor
  · exact ⟨_, hex.trans (dfe_real M h), dfe_real M h,
      div_nonneg (Real.sqrt_nonneg _) (Real.sqrt_nonneg _)⟩
  · intro hr0
    have hval : starsh_blrm__dfe Real.sqrt M
        = some (Real.sqrt (dfe_far_norm_sq M)
            / Real.sqrt (dfe_far_norm_sq M + dfe_near_norm_sq M)) := by
      rw [dfe_real M h, dfe_diff_sq_rank_zero M hr0, dfe_norm_sq_split]
    have hpos : 0 < Real.sqrt (dfe_far_norm_sq M + dfe_near_norm_sq M) := by
      rw [dfe_norm_real, dfe_norm_sq_split] at hnz
      exact lt_of_le_of_ne (Real.sqrt_nonneg _) (Ne.symm hnz)
    refine ⟨hex.trans hval, hval, div_nonneg (Real.sqrt_nonneg _) (Real.sqrt_nonneg _), ?_, ?_⟩
    · rw [div_le_one hpos]
      apply Real.sqrt_le_sqrt
      have := dfe_near_norm_sq_nonneg M
      linarith
    · intro hn
      have hz : dfe_near_norm_sq M = 0 := by
        unfold dfe_near_norm_sq
        rw [hn]
        rfl
      have h1 : starsh_blrm__dfe Real.sqrt M = some 1 := by
        rw [hval]
        rw [hz, add_zero] at hpos ⊢
        rw [div_self (ne_of_gt hpos)]
      exact ⟨hex.trans h1, h1⟩

theorem exZ_wf {α : Type} [Field α] : WellFormed (exZ : STARSH_blrm α Unit) := by
  constructor
  · intro bi hbi
    have hbi2 : bi < 2 := hbi
    interval_cases bi <;>
      simp [FarBlockOk, BlockOk, KernelOk, exZ, exFormatN, exCluster, blk_i, blk_j, far_nrows,
        far_ncols, far_rk, dfe_kernel_block, entry_kernel]
  · intro bi hbi
    have hbi2 : bi < 2 := hbi
    interval_cases bi <;>
      simp [NearBlockOk, BlockOk, KernelOk, exZ, exFormatN, exCluster, blk_i, blk_j,
        dfe_kernel_block, entry_kernel]

theorem exZ_norm_sq : dfe_norm_sq (exZ : STARSH_blrm ℝ Unit) = 10 := by
  simp [dfe_norm_sq, far_normsq, near_normsq, block_sq, symm_weight, far_D, near_D_used,
    far_nrows, far_ncols, near_nrows, near_ncols, kernel_block, dfe_kernel_block,
    entry_kernel, exZ, exFormatN, exCluster, exK, blk_i, blk_j, List.range_succ]
  norm_num

theorem exZ_rank_zero : ∀ bi < (exZ : STARSH_blrm ℝ Unit).format.nblocks_far,
    (exZ : STARSH_blrm ℝ Unit).far_rank.getD bi 0 = 0 := by
  intro bi hbi
  have hbi2 : bi < 2 := hbi
  interval_cases bi <;> rfl

theorem C27_witness :
    WellFormed (exZ : STARSH_blrm ℝ Unit) ∧
    dfe_norm Real.sqrt (exZ : STARSH_blrm ℝ Unit) ≠ 0 ∧
    (∀ bi < (exZ : STARSH_blrm ℝ Unit).format.nblocks_far,
      (exZ : STARSH_blrm ℝ Unit).far_rank.getD bi 0 = 0) ∧
    (∃ v : ℝ, starsh_blrm__dfe_exact Real.sqrt (exZ : STARSH_blrm ℝ Unit) = some v ∧
      starsh_blrm__dfe Real.sqrt (exZ : STARSH_blrm ℝ Unit) = some v ∧ 0 ≤ v) ∧
    starsh_blrm__dfe_exact Real.sqrt (exZ : STARSH_blrm ℝ Unit)
      = some (Real.sqrt (dfe_far_norm_sq (exZ : STARSH_blrm ℝ Unit))
          / Real.sqrt (dfe_far_norm_sq (exZ : STARSH_blrm ℝ Unit)
              + dfe_near_norm_sq (exZ : STARSH_blrm ℝ Unit))) ∧
    Real.sqrt (dfe_far_norm_sq (exZ : STARSH_blrm ℝ Unit))
      / Real.sqrt (dfe_far_norm_sq (exZ : STARSH_blrm ℝ Unit)
          + dfe_near_norm_sq (exZ : STARSH_blrm ℝ Unit)) ≤ 1 :=
  have hnz : dfe_norm Real.sqrt (exZ : STARSH_blrm ℝ Unit) ≠ 0 := by
    rw [dfe_norm_real, exZ_norm_sq]
    exact (Real.sqrt_pos.mpr (by norm_num)).ne.symm
  ⟨exZ_wf, hnz, exZ_rank_zero, (C27_rank_zero_ratio exZ exZ_wf hnz).1,
    ((C27_rank_zero_ratio exZ exZ_wf hnz).2 exZ_rank_zero).1,
    ((C27_rank_zero_ratio exZ exZ_wf hnz).2 exZ_rank_zero).2.2.2.1⟩

/-! ## Stored and regenerated near blocks -/

/-- Two loops whose bodies commute with a map `T` of the state run in step. -/
theorem forLoop_sim {σ : Type} (T : σ → σ) (P : σ → Prop) (b0 b1 : Nat → σ → Option σ)
    (n : Nat)
    (hstep : ∀ k < n, ∀ s, P s →
      b0 k (T s) = (b1 k s).map T ∧ ∀ s', b1 k s = some s' → P s')
    (s : σ) (hs : P s) :
    forLoop n b0 (T s) = (forLoop n b1 s).map T ∧ ∀ s', forLoop n b1 s = some s' → P s' := by
  induction n with
  | zero =>
    refine ⟨rfl, ?_⟩
    intro s' h
    have : s = s' := Option.some.inj h
    rw [← this]
    exact hs
  | succ m ih =>
    obtain ⟨ih1, ih2⟩ := ih (fun k hk => hstep k (Nat.lt_succ_of_lt hk))
    rw [forLoop_succ, forLoop_succ, ih1]
    cases hm : forLoop m b1 s with
    | none =>
      refine ⟨rfl, ?_⟩
      intro s' h
      simp at h
    | some sm =>
      have hP := ih2 sm hm
      obtain ⟨h1, h2⟩ := hstep m (Nat.lt_succ_self m) sm hP
      simp only [Option.map_some', Option.some_bind]
      exact ⟨h1, h2⟩

theorem dfe_far_step_withM {α δ : Type} [Field α] (sqrt : α → α) (M0 M1 : STARSH_blrm α δ)
    (hn : ∀ bi, dfe_far_norms sqrt M0 bi = dfe_far_norms sqrt M1 bi)
    (hs : M0.format.symm = M1.format.symm) (bi : Nat) (s : DfeFrame α δ) (hM : s.M = M1) :
    dfe_far_step sqrt bi (DfeFrame.withM M0 s)
        = (dfe_far_step sqrt bi s).map (DfeFrame.withM M0) ∧
      ∀ s', dfe_far_step sqrt bi s = some s' → s'.M = M1 := by
  unfold dfe_far_step DfeFrame.withM
  simp only [hn, hM, hs, Option.bind_eq_bind]
  cases dfe_far_norms sqrt M1 bi with
  | none => simp
  | some r =>
    obtain ⟨i, j, tn, td⟩ := r
    simp only [Option.some_bind]
    cases store s.block_norm bi tn with
    | none => simp
    | some b1 =>
      simp only [Option.some_bind]
      cases store s.far_block_diff bi td with
      | none => simp
      | some d1 =>
        simp only [Option.some_bind]
        split
        · cases scaleAt b1 bi (sqrt 2) with
          | none => simp
          | some b2 =>
            cases scaleAt d1 bi (sqrt 2) with
            | none => simp
            | some d2 =>
              simp only [Option.some_bind, Option.pure_def, Option.map_some', true_and,
                Option.some.injEq]
              intro s' h
              rw [← h]
        · simp only [Option.pure_def, Option.map_some', true_and, Option.some.injEq]
          intro s' h
          rw [← h]

theorem dfe_near_step_withM {α δ : Type} [Field α] (sqrt : α → α) (M0 M1 : STARSH_blrm α δ)
    (nn0 nn1 : STARSH_blrm α δ → Nat → Option (Nat × Nat × α)) (nf bi : Nat)
    (hn : nn0 M0 bi = nn1 M1 bi)
    (hs : M0.format.symm = M1.format.symm) (s : DfeFrame α δ) (hM : s.M = M1) :
    dfe_near_step sqrt nn0 nf bi (DfeFrame.withM M0 s)
        = (dfe_near_step sqrt nn1 nf bi s).map (DfeFrame.withM M0) ∧
      ∀ s', dfe_near_step sqrt nn1 nf bi s = some s' → s'.M = M1 := by
  unfold dfe_near_step DfeFrame.withM
  simp only [hn, hM, hs, Option.bind_eq_bind]
  cases nn1 M1 bi with
  | none => simp
  | some r =>
    obtain ⟨i, j, v⟩ := r
    simp only [Option.some_bind]
    cases store s.block_norm (nf + bi) v with
    | none => simp
    | some b1 =>
      simp only [Option.some_bind]
      split
      · cases scaleAt b1 (nf + bi) (sqrt 2) with
        | none => simp
        | some b2 =>
          simp only [Option.some_bind, Option.pure_def, Option.map_some', true_and,
            Option.some.injEq]
          intro s' h
          rw [← h]
      · simp only [Option.pure_def, Option.map_some', true_and, Option.some.injEq]
        intro s' h
        rw [← h]

/-- The value returned depends on the matrix only through the far loop, the
near norms and the symmetry flag. -/
theorem dfe_run_sim {α δ : Type} [Field α] (sqrt : α → α) (M0 M1 : STARSH_blrm α δ)
    (hf : M0.format = M1.format)
    (hfar : ∀ bi, dfe_far_norms sqrt M0 bi = dfe_far_norms sqrt M1 bi)
    (hnear : ∀ s : DfeFrame α δ, s.M = M1 →
      dfe_near_loop sqrt M1.format.nblocks_far M1.format.nblocks_near (DfeFrame.withM M0 s)
          = (dfe_near_loop sqrt M1.format.nblocks_far M1.format.nblocks_near s).map
              (DfeFrame.withM M0)) :
    starsh_blrm__dfe sqrt M0 = starsh_blrm__dfe sqrt M1 := by
  unfold starsh_blrm__dfe starsh_blrm__dfe_run
  simp only [hf, Option.bind_eq_bind]
  have hs : M0.format.symm = M1.format.symm := by rw [hf]
  have h0 := forLoop_sim (DfeFrame.withM M0) (fun s => s.M = M1) (dfe_far_step sqrt)
    (dfe_far_step sqrt) M1.format.nblocks_far
    (fun k _ s hP => dfe_far_step_withM sqrt M0 M1 hfar hs k s hP)
    { M := M1, block_norm := List.replicate (M1.format.nblocks_far + M1.format.nblocks_near) 0,
      far_block_diff := List.replicate M1.format.nblocks_far 0, diff := 0, norm := 0 } rfl
  have e0 : DfeFrame.withM M0
      { M := M1, block_norm := List.replicate (M1.format.nblocks_far + M1.format.nblocks_near) 0,
        far_block_diff := List.replicate M1.format.nblocks_far 0, diff := 0, norm := 0 }
      = DfeFrame.mk M0 (List.replicate (M1.format.nblocks_far + M1.format.nblocks_near) 0)
          (List.replicate M1.format.nblocks_far 0) 0 0 := rfl
  rw [e0] at h0
  rw [h0.1]
  cases h1 : forLoop M1.format.nblocks_far (dfe_far_step sqrt)
      { M := M1, block_norm := List.replicate (M1.format.nblocks_far + M1.format.nblocks_near) 0,
        far_block_diff := List.replicate M1.format.nblocks_far 0, diff := 0, norm := 0 } with
  | none => rfl
  | some s1 =>
    simp only [Option.map_some', Option.some_bind]
    rw [hnear s1 (h0.2 s1 h1)]
    cases dfe_near_loop sqrt M1.format.nblocks_far M1.format.nblocks_near s1 with
    | none => rfl
    | some s2 =>
      simp only [Option.map_some', Option.some_bind, DfeFrame.withM]
      cases cblas_dnrm2 sqrt M1.format.nblocks_far s2.far_block_diff with
      | none => rfl
      | some d =>
        simp only [Option.some_bind]
        cases cblas_dnrm2 sqrt (M1.format.nblocks_far + M1.format.nblocks_near)
            s2.block_norm with
        | none => rfl
        | some nrm => rfl

theorem dfe_near_loop_sim {α δ : Type} [Field α] (sqrt : α → α) (M0 M1 : STARSH_blrm α δ)
    (nn0 nn1 : STARSH_blrm α δ → Nat → Option (Nat × Nat × α)) (nf nn : Nat)
    (hn : ∀ bi < nn, nn0 M0 bi = nn1 M1 bi) (hs : M0.format.symm = M1.format.symm)
    (s : DfeFrame α δ) (hM : s.M = M1) :
    forLoop nn (dfe_near_step sqrt nn0 nf) (DfeFrame.withM M0 s)
      = (forLoop nn (dfe_near_step sqrt nn1 nf) s).map (DfeFrame.withM M0) :=
  (forLoop_sim (DfeFrame.withM M0) (fun s => s.M = M1) (dfe_near_step sqrt nn0 nf)
    (dfe_near_step sqrt nn1 nf) nn
    (fun k hk s hP => dfe_near_step_withM sqrt M0 M1 nn0 nn1 nf k (hn k hk) hs s hP) s hM).1

/-- A stored near block that holds what the kernel writes has the norm of the
regenerated block. -/
theorem dfe_near_norm_stored_exact {α δ : Type} [Field α] (sqrt : α → α)
    (M : STARSH_blrm α δ) (D : List (List α)) (hD : StoredNearExact M D) (bi : Nat)
    (hbi : bi < M.format.nblocks_near) :
    dfe_near_norm_stored sqrt (with_stored_near M D) bi = dfe_near_norm_onfly sqrt M bi := by
  unfold dfe_near_norm_stored dfe_near_norm_onfly with_stored_near
  simp only [Option.bind_eq_bind]
  cases hd : dfe_block_dims M.format.row_cluster M.format.col_cluster M.format.block_near bi with
  | none => rfl
  | some r =>
    obtain ⟨i, j, nrows, ncols⟩ := r
    simp only [Option.some_bind]
    rw [hD bi hbi i j nrows ncols hd]

/-- C25: for every matrix with `onfly != 0`, `starsh_blrm__dfe` returns what it
returns on the same matrix with `onfly == 0` and stored near blocks that hold
exactly the kernel's values; and with `onfly != 0` the result does not depend
on `near_D`. -/
theorem C25_onfly_equals_stored {α δ : Type} [Field α] (sqrt : α → α) (M : STARSH_blrm α δ)
    (D : List (List α)) (ho : M.onfly ≠ 0) (hD : StoredNearExact M D) :
    starsh_blrm__dfe sqrt M = starsh_blrm__dfe sqrt (with_stored_near M D) ∧
    ∀ D2 : List (List α),
      starsh_blrm__dfe sqrt { M with near_D := D2 } = starsh_blrm__dfe sqrt M := by
  constructor
  · symm
    apply dfe_run_sim sqrt (with_stored_near M D) M rfl (fun _ => rfl)
    intro s hM
    unfold dfe_near_loop
    have h0 : (DfeFrame.withM (with_stored_near M D) s).M.onfly = 0 := rfl
    have h1 : ¬ s.M.onfly = 0 := by rw [hM]; exact ho
    rw [if_pos h0, if_neg h1]
    exact dfe_near_loop_sim sqrt (with_stored_near M D) M _ _ _ _
      (fun bi hbi => dfe_near_norm_stored_exact sqrt M D hD bi hbi) rfl s hM
  · intro D2
    apply dfe_run_sim sqrt { M with near_D := D2 } M rfl (fun _ => rfl)
    intro s hM
    unfold dfe_near_loop
    have h0 : ¬ (DfeFrame.withM { M with near_D := D2 } s).M.onfly = 0 := ho
    have h1 : ¬ s.M.onfly = 0 := by rw [hM]; exact ho
    rw [if_neg h0, if_neg h1]
    exact dfe_near_loop_sim sqrt { M with near_D := D2 } M _ _ _ _ (fun _ _ => rfl) rfl s hM

theorem exN_stored_exact {α : Type} [Field α] :
    StoredNearExact (exN : STARSH_blrm α Unit) [[2], [2]] := by
  intro bi hbi i j nrows ncols hd
  have hbi2 : bi < 2 := hbi
  interval_cases bi
  · simp [dfe_block_dims, exN, exFormatN, exCluster] at hd
    obtain ⟨rfl, rfl, rfl, rfl⟩ := hd
    simp [dfe_kernel_block, entry_kernel, exN, exFormatN, exCluster, exK, List.range_succ]
  · simp [dfe_block_dims, exN, exFormatN, exCluster] at hd
    obtain ⟨rfl, rfl, rfl, rfl⟩ := hd
    simp [dfe_kernel_block, entry_kernel, exN, exFormatN, exCluster, exK, List.range_succ]
    decide

theorem C25_witness :
    (starsh_blrm__dfe Real.sqrt (exN : STARSH_blrm ℝ Unit)
        = starsh_blrm__dfe Real.sqrt (with_stored_near (exN : STARSH_blrm ℝ Unit) [[2], [2]]) ∧
      ∀ D2 : List (List ℝ),
        starsh_blrm__dfe Real.sqrt { (exN : STARSH_blrm ℝ Unit) with near_D := D2 }
          = starsh_blrm__dfe Real.sqrt (exN : STARSH_blrm ℝ Unit)) ∧
    starsh_blrm__dfe Real.sqrt (exN : STARSH_blrm ℝ Unit) = some (1 / Real.sqrt 10) :=
  ⟨C25_onfly_equals_stored Real.sqrt exN [[2], [2]] (by decide) exN_stored_exact, exN_value⟩

/-! ## Memory safety of `starsh_blrm__dfe` -/

theorem kernelOk_of_returns {α δ : Type} [Field α] (F : STARSH_blrf α δ) (i j : Nat)
    (hR : ClusterRangesOk F.row_cluster) (hC : ClusterRangesOk F.col_cluster)
    (hi : i < F.row_cluster.size.length) (hj : j < F.col_cluster.size.length)
    (hk : KernelReturns F i j) : KernelOk F i j := by
  obtain ⟨hi1, _⟩ := hR i hi
  obtain ⟨hj1, _⟩ := hC j hj
  obtain ⟨D, hD1, hD2⟩ := hk
  refine ⟨hi1, hj1, ?_⟩
  simp only [dfe_kernel_block, Option.bind_eq_bind,
    getElem?_eq_some_getD F.row_cluster.start i 0 hi1,
    getElem?_eq_some_getD F.col_cluster.start j 0 hj1, Option.some_bind]
  rw [hD1, Option.map_some', hD2]

/-- The preconditions make the object well formed. -/
theorem wellFormed_of_preconditions {α δ : Type} [Field α] (M : STARSH_blrm α δ)
    (hpre : DfePreconditions M)
    (hk : ∀ i < M.format.row_cluster.size.length, ∀ j < M.format.col_cluster.size.length,
      KernelReturns M.format i j) :
    WellFormed M := by
  obtain ⟨hfar, hnear, hR, hC, hUV, hD⟩ := hpre
  constructor
  · intro bi hbi
    obtain ⟨h1, h2, h3, h4, h5, h6⟩ := hUV bi hbi
    have hb := hfar bi hbi
    exact ⟨hb, h1, h2, h3, h4, h5, h6,
      kernelOk_of_returns M.format _ _ hR hC hb.2.1 hb.2.2 (hk _ hb.2.1 _ hb.2.2)⟩
  · intro bi hbi
    have hb := hnear bi hbi
    refine ⟨hb, ?_⟩
    by_cases ho : M.onfly = 0
    · rw [if_pos ho]
      exact hD ho bi hbi
    · rw [if_neg ho]
      exact kernelOk_of_returns M.format _ _ hR hC hb.2.1 hb.2.2 (hk _ hb.2.1 _ hb.2.2)

/-- C26: under the preconditions (cluster indices of `block_far` and
`block_near` below the cluster count, `start[i] + size[i]` within the pivot
array, `U[bi]` of `nrows·rank` and `V[bi]` of `ncols·rank` entries with
`rank = far_rank[bi] ≥ 0`, `near_D[bi]` of `nrows·ncols` entries when
`onfly == 0`) and with a callback that stays inside its arguments, every array
read and write of `starsh_blrm__dfe` is in bounds: the function returns, with
the input unchanged in its memory. -/
theorem C26_dfe_in_bounds {α δ : Type} [Field α] (sqrt : α → α) (M : STARSH_blrm α δ)
    (hpre : DfePreconditions M)
    (hk : ∀ i < M.format.row_cluster.size.length, ∀ j < M.format.col_cluster.size.length,
      KernelReturns M.format i j) :
    ∃ (v : α) (st : DfeFrame α δ),
      starsh_blrm__dfe_run sqrt M = some (v, st) ∧ starsh_blrm__dfe sqrt M = some v ∧
        st.M = M := by
  have hwf := wellFormed_of_preconditions M hpre hk
  refine ⟨_, _, dfe_run_eq sqrt M hwf, ?_, rfl⟩
  unfold starsh_blrm__dfe
  rw [dfe_run_eq sqrt M hwf]
  rfl

theorem exN_preconditions {α : Type} [Field α] :
    DfePreconditions (exN : STARSH_blrm α Unit) := by
  refine ⟨?_, ?_, exCluster_ranges, exCluster_ranges, ?_, ?_⟩
  · intro bi hbi
    have hbi2 : bi < 2 := hbi
    interval_cases bi <;> simp [BlockOk, exN, exFormatN, exCluster, blk_i, blk_j]
  · intro bi hbi
    have hbi2 : bi < 2 := hbi
    interval_cases bi <;> simp [BlockOk, exN, exFormatN, exCluster, blk_i, blk_j]
  · intro bi hbi
    have hbi2 : bi < 2 := hbi
    interval_cases bi <;>
      simp [exN, exFormatN, exCluster, blk_i, blk_j, far_nrows, far_ncols, far_rk]
  · intro ho
    have h1 : (exN : STARSH_blrm α Unit).onfly = 1 := rfl
    rw [h1] at ho
    exact absurd ho (by decide)

theorem exN_kernel_returns {α : Type} [Field α] :
    ∀ i < (exN : STARSH_blrm α Unit).format.row_cluster.size.length,
      ∀ j < (exN : STARSH_blrm α Unit).format.col_cluster.size.length,
      KernelReturns (exN : STARSH_blrm α Unit).format i j := by
  intro i hi j hj
  have hi2 : i < 2 := hi
  have hj2 : j < 2 := hj
  interval_cases i <;> interval_cases j <;>
    simp [KernelReturns, entry_kernel, exN, exFormatN, exCluster]

theorem C26_witness :
    ∃ (v : ℝ) (st : DfeFrame ℝ Unit),
      starsh_blrm__dfe_run Real.sqrt (exN : STARSH_blrm ℝ Unit) = some (v, st) ∧
        starsh_blrm__dfe Real.sqrt (exN : STARSH_blrm ℝ Unit) = some v ∧ st.M = exN :=
  C26_dfe_in_bounds Real.sqrt exN exN_preconditions exN_kernel_returns

/-! ## The mesh deformation kernel -/

theorem storeAt_eq {β : Type} (a : List β) (idx : Int) (v : β) (h0 : 0 ≤ idx)
    (h1 : idx.toNat < a.length) : storeAt a idx v = some (a.set idx.toNat v) := by
  unfold storeAt
  rw [if_neg (by omega), store_eq _ _ _ h1]

theorem addAt_set {β : Type} [Add β] (a : List β) (idx : Int) (w v : β) (h0 : 0 ≤ idx)
    (h1 : idx.toNat < a.length) :
    addAt (a.set idx.toNat w) idx v = some (a.set idx.toNat (w + v)) := by
  unfold addAt load
  have h2 : idx.toNat < (a.set idx.toNat w).length := by rw [List.length_set]; exact h1
  rw [if_neg (by omega), List.getElem?_eq_getElem h2, List.getElem_set_self, Option.some_bind,
    storeAt_eq _ _ _ h0 h2, List.set_set]

theorem virus_point_eq {β : Type} (mesh : List β) (i0 : Nat) (d : β)
    (h : 3 * i0 + 2 < mesh.length) :
    virus_point mesh i0
      = some [mesh.getD (3 * i0) d, mesh.getD (3 * i0 + 1) d, mesh.getD (3 * i0 + 2) d] := by
  unfold virus_point
  have e0 : ((i0 : Int) * 3).toNat = 3 * i0 := by omega
  have e1 : ((i0 : Int) * 3 + 1).toNat = 3 * i0 + 1 := by omega
  have e2 : ((i0 : Int) * 3 + 2).toNat = 3 * i0 + 2 := by omega
  rw [load_eq _ _ d (by omega) (by omega), load_eq _ _ d (by omega) (by omega),
    load_eq _ _ d (by omega) (by omega), e0, e1, e2]
  rfl

theorem diff_eq {α : Type} [Field α] (L : LibmRbf α) (a b c a2 b2 c2 : α) :
    diff L [a, b, c] [a2, b2, c2]
      = some (L.pow (0 + L.pow (a - a2) 2 + L.pow (b - b2) 2 + L.pow (c - c2) 2) 0.5) := rfl

theorem virus_switch_eq {α : Type} [LinearOrderedField α] (L : LibmRbf α) (kernel : Int)
    (A : List α) (idx : Int) (d : α) (h0 : 0 ≤ idx) (h1 : idx.toNat < A.length) :
    virus_switch L kernel A idx d = some (A.set idx.toNat (virus_rbf L kernel d)) := by
  unfold virus_switch virus_rbf
  split_ifs <;> exact storeAt_eq _ _ _ h0 h1

/-- One iteration of the loop over `k` stores the entry of the pair
`(i0, icol[k])`. -/
theorem virus_entry_eq {α : Type} [LinearOrderedField α] (L : LibmRbf α)
    (data : STARSH_mddata α) (icol : List Nat) (lda : Int) (m i0 k : Nat) (A : List α)
    (hk : k < icol.length)
    (hj : 3 * icol.getD k 0 + 2 < data.particles.point.length) (hl : 0 ≤ lda)
    (hA : k * lda.toNat + m < A.length) :
    virus_entry L data (virus_rad L data) icol lda m i0
        [data.particles.point.getD (3 * i0) 0, data.particles.point.getD (3 * i0 + 1) 0,
          data.particles.point.getD (3 * i0 + 2) 0] k A
      = some (A.set (k * lda.toNat + m) (virus_value L data i0 (icol.getD k 0))) := by
  have hidx : (lda * (k : Int) + (m : Int)).toNat = k * lda.toNat + m := by
    have h1 : ((k * lda.toNat + m : Nat) : Int) = lda * (k : Int) + (m : Int) := by
      push_cast
      rw [Int.toNat_of_nonneg hl]
      ring
    rw [← h1, Int.toNat_ofNat]
  have h0 : 0 ≤ lda * (k : Int) + (m : Int) := by positivity
  unfold virus_entry
  rw [getElem?_eq_some_getD icol k 0 hk, Option.some_bind,
    virus_point_eq _ _ 0 hj, Option.some_bind, diff_eq, Option.some_bind,
    virus_switch_eq L _ A _ _ h0 (by rw [hidx]; exact hA), Option.some_bind]
  unfold virus_value virus_bare virus_dist
  by_cases hc : i0 = icol.getD k 0 ∧ data.isreg ≠ 0
  · rw [if_pos hc, if_pos hc, addAt_set _ _ _ _ h0 (by rw [hidx]; exact hA), hidx]
  · rw [if_neg hc, if_neg hc, hidx]

theorem virus_inner_fill {α : Type} [LinearOrderedField α] (L : LibmRbf α)
    (data : STARSH_mddata α) (nrows ncols lda : Int) (irow icol : List Nat) (result : List α)
    (hr : VirusReadsOk nrows ncols irow icol data) (hw : VirusWritesOk nrows ncols lda result)
    (hld : nrows ≤ lda) (m : Nat) (hm : m < nrows.toNat) (J : Nat) (hJ : J ≤ ncols.toNat) :
    forLoop J (virus_entry L data (virus_rad L data) icol lda m (irow.getD m 0)
        [data.particles.point.getD (3 * irow.getD m 0) 0,
          data.particles.point.getD (3 * irow.getD m 0 + 1) 0,
          data.particles.point.getD (3 * irow.getD m 0 + 2) 0])
        (filledT (fun i j => virus_value L data (irow.getD i 0) (icol.getD j 0))
          lda.toNat ncols.toNat m 0 result)
      = some (filledT (fun i j => virus_value L data (irow.getD i 0) (icol.getD j 0))
          lda.toNat ncols.toNat m J result) := by
  obtain ⟨_, h2, _, h4⟩ := hr
  have hl : 0 ≤ lda := by omega
  have hml : m < lda.toNat := by omega
  induction J with
  | zero => rfl
  | succ k ih =>
    have hk : k < ncols.toNat := hJ
    rw [forLoop_succ, ih (Nat.le_of_succ_le hJ), Option.some_bind,
      virus_entry_eq L data icol lda m _ k _ (lt_of_lt_of_le hk h2) (h4 k hk) hl
        (by rw [filledT_length]; exact hw k hk m hm)]
    rw [filledT_set (fun i j => virus_value L data (irow.getD i 0) (icol.getD j 0))
      lda.toNat ncols.toNat m k result hml]

/-- The kernel fills the `nrows×ncols` window of the column-major buffer with
leading dimension `lda`. -/
theorem virus_kernel_eq {α : Type} [LinearOrderedField α] (L : LibmRbf α)
    (row_data col_data : STARSH_mddata α) (nrows ncols lda : Int) (irow icol : List Nat)
    (result : List α) (hr : VirusReadsOk nrows ncols irow icol row_data)
    (hw : VirusWritesOk nrows ncols lda result) (hld : nrows ≤ lda) :
    starsh_generate_3d_virus L nrows ncols irow icol row_data col_data result lda
      = some (filledT (fun i j => virus_value L row_data (irow.getD i 0) (icol.getD j 0))
          lda.toNat ncols.toNat nrows.toNat 0 result) := by
  unfold starsh_generate_3d_virus
  have key : ∀ I : Nat, I ≤ nrows.toNat →
      forLoop I (fun m A =>
        (irow[m]?).bind (fun i0 =>
          (virus_point row_data.particles.point i0).bind (fun vi =>
            forLoop ncols.toNat
              (virus_entry L row_data (virus_rad L row_data) icol lda m i0 vi) A))) result
      = some (filledT (fun i j => virus_value L row_data (irow.getD i 0) (icol.getD j 0))
          lda.toNat ncols.toNat I 0 result) := by
    intro I
    induction I with
    | zero => intro _; rw [filledT_zero]; rfl
    | succ k ih =>
      intro hk
      have hk2 : k < nrows.toNat := hk
      rw [forLoop_succ, ih (Nat.le_of_succ_le hk), Option.some_bind,
        getElem?_eq_some_getD irow k 0 (lt_of_lt_of_le hk2 hr.1), Option.some_bind,
        virus_point_eq _ _ 0 (hr.2.2.1 k hk2), Option.some_bind,
        virus_inner_fill L row_data nrows ncols lda irow icol result hr hw hld k hk2
          ncols.toNat (le_refl _), filledT_next]
  exact key _ (le_refl _)

/-- After the kernel every position `j*lda + i` of the window holds its entry
and every other position keeps its value. -/
theorem filledT_window {α : Type} [Field α] (val : Nat → Nat → α) (ld nrows ncols : Nat)
    (res : List α) (hld : nrows ≤ ld)
    (hw : ∀ k < ncols, ∀ m < nrows, k * ld + m < res.length) :
    (∀ i j : Nat, i < nrows → j < ncols →
      (filledT val ld ncols nrows 0 res)[j * ld + i]? = some (val i j)) ∧
    (∀ p : Nat, (∀ i j : Nat, i < nrows → j < ncols → p ≠ j * ld + i) →
      (filledT val ld ncols nrows 0 res)[p]? = res[p]?) := by
  constructor
  · intro i j hi hj
    have hil : i < ld := by omega
    have hmod : (j * ld + i) % ld = i := by
      rw [Nat.add_comm, Nat.add_mul_mod_self_right]
      exact Nat.mod_eq_of_lt hil
    have hdiv : (j * ld + i) / ld = j := by
      rw [Nat.add_comm, Nat.add_mul_div_right _ _ (by omega), Nat.div_eq_of_lt hil, Nat.zero_add]
    rw [filledT_getElem? _ _ _ _ _ _ _ (hw j hj i hi), hmod, hdiv, if_pos (Or.inl ⟨hi, hj⟩)]
  · intro p hp
    by_cases hlt : p < res.length
    · rw [filledT_getElem? _ _ _ _ _ _ _ hlt, getElem?_eq_some_getD res p 0 hlt]
      have hnot : ¬ ((p % ld < nrows ∧ p / ld < ncols) ∨ (p % ld = nrows ∧ p / ld < 0)) := by
        rintro (⟨h1, h2⟩ | ⟨_, h2⟩)
        · apply hp (p % ld) (p / ld) h1 h2
          have h3 : ld * (p / ld) + p % ld = p := Nat.div_add_mod p ld
          rw [Nat.mul_comm] at h3
          exact h3.symm
        · exact absurd h2 (Nat.not_lt_zero _)
      rw [if_neg hnot]
    · rw [List.getElem?_eq_none (by rw [filledT_length]; omega),
        List.getElem?_eq_none (by omega)]

/-! ## The basis functions over the reals -/

theorem rbf_Gaussian_two :
    Gaussian (LibmRbf.mk Real.exp Real.sqrt Real.log Real.rpow) 2 = Real.exp (-4) := by
  simp only [Gaussian, Real.rpow_eq_pow, Real.rpow_two]
  norm_num

theorem rbf_Expon_two :
    Expon (LibmRbf.mk Real.exp Real.sqrt Real.log Real.rpow) 2 = Real.exp (-2) := rfl

theorem rbf_InvQUAD_two :
    InvQUAD (LibmRbf.mk Real.exp Real.sqrt Real.log Real.rpow) 2 = 1 / 5 := by
  simp only [InvQUAD, Real.rpow_eq_pow, Real.rpow_two]
  norm_num

theorem rbf_InvMQUAD_two :
    InvMQUAD (LibmRbf.mk Real.exp Real.sqrt Real.log Real.rpow) 2 = 1 / Real.sqrt 5 := by
  simp only [InvMQUAD, Real.rpow_eq_pow, Real.rpow_two]
  norm_num

theorem rbf_Maternc1_two :
    Maternc1 (LibmRbf.mk Real.exp Real.sqrt Real.log Real.rpow) 2 = Real.exp (-2) + 3 := by
  simp only [Maternc1]
  norm_num

theorem rbf_TPS_two :
    TPS (LibmRbf.mk Real.exp Real.sqrt Real.log Real.rpow) 2 = 4 * Real.log 2 := by
  simp only [TPS, Real.rpow_eq_pow, Real.rpow_two]
  norm_num

theorem rbf_CTPS_two :
    CTPS (LibmRbf.mk Real.exp Real.sqrt Real.log Real.rpow) 2 = 0 := by
  unfold CTPS
  rw [if_pos (by norm_num)]

theorem rbf_Wendland_two :
    Wendland (LibmRbf.mk Real.exp Real.sqrt Real.log Real.rpow) 2 = 0 := by
  unfold Wendland
  rw [if_pos (by norm_num)]

theorem rbf_QUAD_two :
    QUAD (LibmRbf.mk Real.exp Real.sqrt Real.log Real.rpow) 2 = 5 := by
  simp only [QUAD, Real.rpow_eq_pow, Real.rpow_two]
  norm_num

/-- The values at `2` of the functions selected by the ids `7, 0, 1, 2, 3, 6, 4`
increase strictly in this order. -/
theorem rbf_chain :
    0 < Real.exp (-4) ∧ Real.exp (-4) < Real.exp (-2) ∧ Real.exp (-2) < 1 / 5 ∧
      (1 : ℝ) / 5 < 1 / Real.sqrt 5 ∧ 1 / Real.sqrt 5 < 4 * Real.log 2 ∧
      4 * Real.log 2 < Real.exp (-2) + 3 := by
  have he : (5 : ℝ) < Real.exp 2 := by
    have h1 := Real.exp_one_gt_d9
    have h2 : Real.exp 2 = Real.exp 1 * Real.exp 1 := by
      rw [← Real.exp_add]
      norm_num
    rw [h2]
    nlinarith
  have hem : Real.exp (-2) < 1 / 5 := by
    rw [Real.exp_neg, inv_eq_one_div]
    exact one_div_lt_one_div_of_lt (by norm_num) he
  have hs0 : (2 : ℝ) < Real.sqrt 5 := by
    rw [show (2 : ℝ) = Real.sqrt 4 by
      rw [show (4 : ℝ) = 2 ^ 2 by norm_num, Real.sqrt_sq (by norm_num)]]
    exact Real.sqrt_lt_sqrt (by norm_num) (by norm_num)
  have hs1 : Real.sqrt 5 < 5 := by
    rw [Real.sqrt_lt' (by norm_num)]
    norm_num
  have hl0 := Real.log_two_gt_d9
  have hl1 := Real.log_two_lt_d9
  have hp : 0 < Real.exp (-2) := Real.exp_pos _
  refine ⟨Real.exp_pos _, Real.exp_lt_exp.mpr (by norm_num), hem,
    one_div_lt_one_div_of_lt (by linarith) hs1, ?_, by linarith⟩
  have h3 : 1 / Real.sqrt 5 < 1 / 2 := one_div_lt_one_div_of_lt (by norm_num) hs0
  linarith

/-! ## Claims about the mesh deformation kernel -/

/-- C24: for in-bounds memory and `lda ≥ nrows`, `starsh_generate_3d_virus`
returns, and entry `(m, k)` at `result[lda*k + m]` is the basis-function value
plus `data->reg` when `data->isreg` is non-zero and `irow[m] == icol[k]`, and
the bare basis-function value otherwise; the basis function is applied to the
distance of the two mesh points divided by `0.25·numobj·sqrt(3)` exactly when
`numobj > 1` and `data->rad < 0`, and by `data->rad` otherwise. Positions
outside the window keep their value and `col_data` is not read. -/
theorem C24_virus_regularisation {α : Type} [LinearOrderedField α] (L : LibmRbf α)
    (nrows ncols lda : Int) (irow icol : List Nat) (row_data col_data : STARSH_mddata α)
    (result : List α) (hr : VirusReadsOk nrows ncols irow icol row_data)
    (hw : VirusWritesOk nrows ncols lda result) (hld : nrows ≤ lda) :
    ∃ out : List α,
      starsh_generate_3d_virus L nrows ncols irow icol row_data col_data result lda = some out ∧
      out.length = result.length ∧
      (∀ m k : Nat, m < nrows.toNat → k < ncols.toNat →
        ((irow.getD m 0 = icol.getD k 0 ∧ row_data.isreg ≠ 0) →
          out[k * lda.toNat + m]?
            = some (virus_rbf L row_data.kernel
                (virus_dist L row_data.particles.point (irow.getD m 0) (icol.getD k 0)
                  / (if row_data.numobj > 1 ∧ row_data.rad < 0
                      then 0.25 * (row_data.numobj : α) * L.sqrt 3 else row_data.rad))
              + row_data.reg)) ∧
        (¬ (irow.getD m 0 = icol.getD k 0 ∧ row_data.isreg ≠ 0) →
          out[k * lda.toNat + m]?
            = some (virus_rbf L row_data.kernel
                (virus_dist L row_data.particles.point (irow.getD m 0) (icol.getD k 0)
                  / (if row_data.numobj > 1 ∧ row_data.rad < 0
                      then 0.25 * (row_data.numobj : α) * L.sqrt 3 else row_data.rad))))) ∧
      (∀ p : Nat, (∀ m k : Nat, m < nrows.toNat → k < ncols.toNat → p ≠ k * lda.toNat + m) →
        out[p]? = result[p]?) ∧
      (∀ other : STARSH_mddata α,
        starsh_generate_3d_virus L nrows ncols irow icol row_data other result lda
          = some out) := by
  have hwin := filledT_window
    (fun i j => virus_value L row_data (irow.getD i 0) (icol.getD j 0))
    lda.toNat nrows.toNat ncols.toNat result (Int.toNat_le_toNat hld) hw
  refine ⟨_, virus_kernel_eq L row_data col_data nrows ncols lda irow icol result hr hw hld,
    filledT_length _ _ _ _ _ _, ?_, hwin.2,
    fun other => virus_kernel_eq L row_data other nrows ncols lda irow icol result hr hw hld⟩
  intro m k hm hk
  rw [hwin.1 m k hm hk]
  unfold virus_value virus_bare virus_rad
  dsimp only
  constructor
  · intro hc
    rw [if_pos hc]
  · intro hc
    rw [if_neg hc]

theorem exMesh_reads {α : Type} [Field α] (id : Int) (a b : Nat) (ha : a < 2) (hb : b < 2) :
    VirusReadsOk 1 1 [a] [b] (exMesh id : STARSH_mddata α) := by
  refine ⟨by simp, by simp, ?_, ?_⟩
  · intro m hm
    have hm1 : m < 1 := hm
    interval_cases m
    simp [exMesh]
    omega
  · intro k hk
    have hk1 : k < 1 := hk
    interval_cases k
    simp [exMesh]
    omega

theorem exMesh_writes {α : Type} [Field α] : VirusWritesOk 1 1 1 ([0] : List α) := by
  intro k hk m hm
  have hm1 : m < 1 := hm
  have hk1 : k < 1 := hk
  interval_cases m
  interval_cases k
  simp

theorem exMeshReg_reads {α : Type} [Field α] :
    VirusReadsOk 1 2 [0] [0, 1] (exMeshReg : STARSH_mddata α) := by
  refine ⟨by simp, by simp, ?_, ?_⟩
  · intro m hm
    have hm1 : m < 1 := hm
    interval_cases m
    simp [exMeshReg]
  · intro k hk
    have hk2 : k < 2 := hk
    interval_cases k <;> simp [exMeshReg]

theorem exMeshReg_writes {α : Type} [Field α] : VirusWritesOk 1 2 1 ([0, 0] : List α) := by
  intro k hk m hm
  have hm1 : m < 1 := hm
  have hk2 : k < 2 := hk
  interval_cases m
  interval_cases k <;> simp

theorem exMeshReg_rad_sq : (0.25 * ((2 : Int) : ℝ) * Real.sqrt 3) ^ 2 = 3 / 4 := by
  rw [mul_pow, Real.sq_sqrt (by norm_num)]
  norm_num

theorem C24_witness :
    VirusReadsOk 1 2 [0] [0, 1] (exMeshReg : STARSH_mddata ℝ) ∧
    VirusWritesOk 1 2 1 ([0, 0] : List ℝ) ∧
    ∃ out : List ℝ,
      starsh_generate_3d_virus (LibmRbf.mk Real.exp Real.sqrt Real.log Real.rpow) 1 2 [0] [0, 1]
        exMeshReg exMeshReg [0, 0] 1 = some out ∧
      out[0]? = some (Gaussian (LibmRbf.mk Real.exp Real.sqrt Real.log Real.rpow)
          (virus_dist (LibmRbf.mk Real.exp Real.sqrt Real.log Real.rpow)
              (exMeshReg : STARSH_mddata ℝ).particles.point 0 0
            / (0.25 * ((2 : Int) : ℝ) * Real.sqrt 3)) + 5) ∧
      out[1]? = some (Gaussian (LibmRbf.mk Real.exp Real.sqrt Real.log Real.rpow)
          (virus_dist (LibmRbf.mk Real.exp Real.sqrt Real.log Real.rpow)
              (exMeshReg : STARSH_mddata ℝ).particles.point 0 1
            / (0.25 * ((2 : Int) : ℝ) * Real.sqrt 3))) ∧
      out[0]? = some 6 ∧ out[1]? = some (Real.exp (-(4 / 3))) := by
  obtain ⟨out, hrun, _, hent, _, _⟩ :=
    C24_virus_regularisation (LibmRbf.mk Real.exp Real.sqrt Real.log Real.rpow) 1 2 1 [0] [0, 1]
      exMeshReg exMeshReg [0, 0] exMeshReg_reads exMeshReg_writes (by decide)
  have h00 := (hent 0 0 (by decide) (by decide)).1 ⟨rfl, by decide⟩
  have h01 := (hent 0 1 (by decide) (by decide)).2 (fun hc => absurd hc.1 (by decide))
  have hrad : (exMeshReg : STARSH_mddata ℝ).numobj > 1 ∧ (exMeshReg : STARSH_mddata ℝ).rad < 0 :=
    ⟨by decide, by simp [exMeshReg]⟩
  rw [if_pos hrad] at h00 h01
  have e0 : out[0]? = some (Gaussian (LibmRbf.mk Real.exp Real.sqrt Real.log Real.rpow)
          (virus_dist (LibmRbf.mk Real.exp Real.sqrt Real.log Real.rpow)
              (exMeshReg : STARSH_mddata ℝ).particles.point 0 0
            / (0.25 * ((2 : Int) : ℝ) * Real.sqrt 3)) + 5) := by
    simpa [virus_rbf, exMeshReg] using h00
  have e1 : out[1]? = some (Gaussian (LibmRbf.mk Real.exp Real.sqrt Real.log Real.rpow)
          (virus_dist (LibmRbf.mk Real.exp Real.sqrt Real.log Real.rpow)
              (exMeshReg : STARSH_mddata ℝ).particles.point 0 1
            / (0.25 * ((2 : Int) : ℝ) * Real.sqrt 3))) := by
    simpa [virus_rbf, exMeshReg] using h01
  have d0 : virus_dist (LibmRbf.mk Real.exp Real.sqrt Real.log Real.rpow)
      (exMeshReg : STARSH_mddata ℝ).particles.point 0 0 = 0 := by
    simp [virus_dist, exMeshReg]
    exact Real.zero_rpow (by norm_num)
  have d1 : virus_dist (LibmRbf.mk Real.exp Real.sqrt Real.log Real.rpow)
      (exMeshReg : STARSH_mddata ℝ).particles.point 0 1 = 1 := by
    simp [virus_dist, exMeshReg]
  refine ⟨exMeshReg_reads, exMeshReg_writes, out, hrun, e0, e1, ?_, ?_⟩
  · rw [e0, d0]
    simp [Gaussian]
    norm_num
  · rw [e1, d1]
    simp only [Gaussian, Real.rpow_eq_pow, Real.rpow_two, div_pow, one_pow, exMeshReg_rad_sq]
    norm_num

theorem virus_rbf_lt_five (id : Int) :
    virus_rbf (LibmRbf.mk Real.exp Real.sqrt Real.log Real.rpow) id 2 < 5 := by
  obtain ⟨h0, h1, h2, h3, h4, h5⟩ := rbf_chain
  have h6 : Real.exp (-2) + 3 < 5 := by linarith
  unfold virus_rbf
  split_ifs
  · rw [rbf_Gaussian_two]; linarith
  · rw [rbf_Expon_two]; linarith
  · rw [rbf_InvQUAD_two]; linarith
  · rw [rbf_InvMQUAD_two]; linarith
  · rw [rbf_Maternc1_two]; linarith
  · rw [rbf_Maternc1_two]; linarith
  · rw [rbf_TPS_two]; linarith
  · rw [rbf_CTPS_two]; norm_num
  · rw [rbf_Wendland_two]; norm_num

theorem virus_rbf_distinct (a b : Int) (ha : a ∈ [0, 1, 2, 3, 4, 6, 7])
    (hb : b ∈ [0, 1, 2, 3, 4, 6, 7]) (hab : a ≠ b) :
    virus_rbf (LibmRbf.mk Real.exp Real.sqrt Real.log Real.rpow) a 2
      ≠ virus_rbf (LibmRbf.mk Real.exp Real.sqrt Real.log Real.rpow) b 2 := by
  obtain ⟨h0, h1, h2, h3, h4, h5⟩ := rbf_chain
  have v0 : virus_rbf (LibmRbf.mk Real.exp Real.sqrt Real.log Real.rpow) 0 2 = Real.exp (-4) :=
    rbf_Gaussian_two
  have v1 : virus_rbf (LibmRbf.mk Real.exp Real.sqrt Real.log Real.rpow) 1 2 = Real.exp (-2) :=
    rbf_Expon_two
  have v2 : virus_rbf (LibmRbf.mk Real.exp Real.sqrt Real.log Real.rpow) 2 2 = 1 / 5 :=
    rbf_InvQUAD_two
  have v3 : virus_rbf (LibmRbf.mk Real.exp Real.sqrt Real.log Real.rpow) 3 2
      = 1 / Real.sqrt 5 := rbf_InvMQUAD_two
  have v4 : virus_rbf (LibmRbf.mk Real.exp Real.sqrt Real.log Real.rpow) 4 2
      = Real.exp (-2) + 3 := rbf_Maternc1_two
  have v6 : virus_rbf (LibmRbf.mk Real.exp Real.sqrt Real.log Real.rpow) 6 2
      = 4 * Real.log 2 := rbf_TPS_two
  have v7 : virus_rbf (LibmRbf.mk Real.exp Real.sqrt Real.log Real.rpow) 7 2 = 0 :=
    rbf_CTPS_two
  simp only [List.mem_cons, List.mem_singleton, List.not_mem_nil, or_false] at ha hb
  rcases ha with rfl | rfl | rfl | rfl | rfl | rfl | rfl <;>
    rcases hb with rfl | rfl | rfl | rfl | rfl | rfl | rfl <;>
    first
      | exact absurd rfl hab
      | (simp only [v0, v1, v2, v3, v4, v6, v7]
         intro h
         linarith)

theorem exMesh_run (id : Int) (a b : Nat) (ha : a < 2) (hb : b < 2) :
    ∃ out : List ℝ,
      starsh_generate_3d_virus (LibmRbf.mk Real.exp Real.sqrt Real.log Real.rpow) 1 1 [a] [b]
        (exMesh id) (exMesh id) [0] 1 = some out ∧
      out[0]? = some (virus_value (LibmRbf.mk Real.exp Real.sqrt Real.log Real.rpow)
        (exMesh id) a b) := by
  have hwin := filledT_window
    (fun i j => virus_value (LibmRbf.mk Real.exp Real.sqrt Real.log Real.rpow)
      (exMesh id : STARSH_mddata ℝ) (([a] : List Nat).getD i 0) (([b] : List Nat).getD j 0))
    1 1 1 ([0] : List ℝ) (le_refl _) (by
      intro k hk m hm
      interval_cases k
      interval_cases m
      simp)
  refine ⟨_, virus_kernel_eq _ (exMesh id) (exMesh id) 1 1 1 [a] [b] [0]
    (exMesh_reads id a b ha hb) exMesh_writes (by decide), ?_⟩
  exact hwin.1 0 0 (by decide) (by decide)

theorem exMesh_dist_zero_one (id : Int) :
    virus_dist (LibmRbf.mk Real.exp Real.sqrt Real.log Real.rpow)
      (exMesh id : STARSH_mddata ℝ).particles.point 0 1 = 1 := by
  simp [virus_dist, exMesh]

theorem exMesh_dist_zero_zero (id : Int) :
    virus_dist (LibmRbf.mk Real.exp Real.sqrt Real.log Real.rpow)
      (exMesh id : STARSH_mddata ℝ).particles.point 0 0 = 0 := by
  simp [virus_dist, exMesh]
  exact Real.zero_rpow (by norm_num)

theorem exMesh_rad (id : Int) :
    virus_rad (LibmRbf.mk Real.exp Real.sqrt Real.log Real.rpow)
      (exMesh id : STARSH_mddata ℝ) = 1 := by
  simp [virus_rad, exMesh]

/-- C22: the documentation of `starsh_generate_3d_virus` states `A_ij = 1/r_ij`.
For the mesh points `(0,0,0)` and `(1,0,0)` (distance `1`), kernel id `0`,
`rad = 1` and no regularisation, the call returns and stores `exp(−1)` in the
entry of the pair, which is not `1/r_ij = 1`. -/
theorem C22_virus_entry_not_inverse_distance :
    ∃ out : List ℝ,
      starsh_generate_3d_virus (LibmRbf.mk Real.exp Real.sqrt Real.log Real.rpow) 1 1 [0] [1]
        (exMesh 0) (exMesh 0) [0] 1 = some out ∧
      out[0]? = some (Real.exp (-1)) ∧
      virus_dist (LibmRbf.mk Real.exp Real.sqrt Real.log Real.rpow)
        (exMesh 0 : STARSH_mddata ℝ).particles.point 0 1 = 1 ∧
      out[0]? ≠ some (1 / virus_dist (LibmRbf.mk Real.exp Real.sqrt Real.log Real.rpow)
        (exMesh 0 : STARSH_mddata ℝ).particles.point 0 1) := by
  obtain ⟨out, hrun, hout⟩ := exMesh_run 0 0 1 (by decide) (by decide)
  have hv : virus_value (LibmRbf.mk Real.exp Real.sqrt Real.log Real.rpow)
      (exMesh 0 : STARSH_mddata ℝ) 0 1 = Real.exp (-1) := by
    unfold virus_value virus_bare
    rw [exMesh_dist_zero_one, exMesh_rad, if_neg (by simp)]
    simp [virus_rbf, Gaussian, exMesh]
  rw [hv] at hout
  refine ⟨out, hrun, hout, exMesh_dist_zero_one 0, ?_⟩
  rw [hout, exMesh_dist_zero_one]
  intro h
  have h1 : Real.exp (-1) = 1 := by
    have := Option.some.inj h
    rw [this]
    norm_num
  have h2 : Real.exp (-1) < 1 := by
    rw [← Real.exp_zero]
    exact Real.exp_lt_exp.mpr (by norm_num)
  linarith

/-- C23 (as stated, refuted): with kernel id `5` and twice the same mesh point
(`d = 0`) the call stores `Maternc1(0) = 2`, while `Maternc2(0) = 4`; and no
kernel id selects `QUAD`, whose value at `d = 2` is `5` while the function
selected by any id is below `5` there. -/
theorem C23_counterexample :
    (∃ out : List ℝ,
      starsh_generate_3d_virus (LibmRbf.mk Real.exp Real.sqrt Real.log Real.rpow) 1 1 [0] [0]
        (exMesh 5) (exMesh 5) [0] 1 = some out ∧
      out[0]? = some 2 ∧
      out[0]? = some (Maternc1 (LibmRbf.mk Real.exp Real.sqrt Real.log Real.rpow) 0) ∧
      claimed_rbf (LibmRbf.mk Real.exp Real.sqrt Real.log Real.rpow)
        (exMesh 5 : STARSH_mddata ℝ).kernel 0 = 4) ∧
    QUAD (LibmRbf.mk Real.exp Real.sqrt Real.log Real.rpow) 2 = 5 ∧
    (∀ id : Int, virus_rbf (LibmRbf.mk Real.exp Real.sqrt Real.log Real.rpow) id 2
      ≠ QUAD (LibmRbf.mk Real.exp Real.sqrt Real.log Real.rpow) 2) := by
  refine ⟨?_, rbf_QUAD_two, ?_⟩
  · obtain ⟨out, hrun, hout⟩ := exMesh_run 5 0 0 (by decide) (by decide)
    have hv : virus_value (LibmRbf.mk Real.exp Real.sqrt Real.log Real.rpow)
        (exMesh 5 : STARSH_mddata ℝ) 0 0
          = Maternc1 (LibmRbf.mk Real.exp Real.sqrt Real.log Real.rpow) 0 := by
      unfold virus_value virus_bare
      rw [exMesh_dist_zero_zero, exMesh_rad, if_neg (by simp [exMesh])]
      simp [virus_rbf, exMesh]
    have hm : Maternc1 (LibmRbf.mk Real.exp Real.sqrt Real.log Real.rpow) 0 = 2 := by
      simp [Maternc1]
      norm_num
    rw [hv] at hout
    refine ⟨out, hrun, ?_, hout, ?_⟩
    · rw [hout, hm]
    · simp [claimed_rbf, exMesh, Maternc2]
      norm_num
  · intro id h
    have := virus_rbf_lt_five id
    rw [h, rbf_QUAD_two] at this
    exact lt_irrefl _ this

/-- C23 (amended): for in-bounds memory and `lda ≥ nrows`,
`starsh_generate_3d_virus` returns and entry `(m, k)` is `e`, plus `data->reg`
on a regularised coincident pair, where `e` is the radial basis function
selected by `data->kernel` applied to `d = diff(vi, vj) / rad`: `0` Gaussian,
`1` Expon, `2` InvQUAD, `3` InvMQUAD, `4` Maternc1, `6` TPS, `7` CTPS, and every
id below `0` or above `7` Wendland. The ids `0, 1, 2, 3, 4, 6, 7` select
pairwise different functions (they differ at `d = 2`), and `QUAD` is selected
by no id (at `d = 2` it differs from the function of every id). -/
theorem C23_virus_kernel_table {α : Type} [LinearOrderedField α] (L : LibmRbf α)
    (nrows ncols lda : Int) (irow icol : List Nat) (row_data col_data : STARSH_mddata α)
    (result : List α) (hr : VirusReadsOk nrows ncols irow icol row_data)
    (hw : VirusWritesOk nrows ncols lda result) (hld : nrows ≤ lda) :
    (∃ out : List α,
      starsh_generate_3d_virus L nrows ncols irow icol row_data col_data result lda = some out ∧
      ∀ m k : Nat, m < nrows.toNat → k < ncols.toNat →
        ∃ e : α,
          out[k * lda.toNat + m]?
            = some (if irow.getD m 0 = icol.getD k 0 ∧ row_data.isreg ≠ 0
                then e + row_data.reg else e) ∧
          (row_data.kernel = 0 → e = Gaussian L
            (virus_dist L row_data.particles.point (irow.getD m 0) (icol.getD k 0)
              / virus_rad L row_data)) ∧
          (row_data.kernel = 1 → e = Expon L
            (virus_dist L row_data.particles.point (irow.getD m 0) (icol.getD k 0)
              / virus_rad L row_data)) ∧
          (row_data.kernel = 2 → e = InvQUAD L
            (virus_dist L row_data.particles.point (irow.getD m 0) (icol.getD k 0)
              / virus_rad L row_data)) ∧
          (row_data.kernel = 3 → e = InvMQUAD L
            (virus_dist L row_data.particles.point (irow.getD m 0) (icol.getD k 0)
              / virus_rad L row_data)) ∧
          (row_data.kernel = 4 → e = Maternc1 L
            (virus_dist L row_data.particles.point (irow.getD m 0) (icol.getD k 0)
              / virus_rad L row_data)) ∧
          (row_data.kernel = 6 → e = TPS L
            (virus_dist L row_data.particles.point (irow.getD m 0) (icol.getD k 0)
              / virus_rad L row_data)) ∧
          (row_data.kernel = 7 → e = CTPS L
            (virus_dist L row_data.particles.point (irow.getD m 0) (icol.getD k 0)
              / virus_rad L row_data)) ∧
          (row_data.kernel < 0 ∨ 7 < row_data.kernel → e = Wendland L
            (virus_dist L row_data.particles.point (irow.getD m 0) (icol.getD k 0)
              / virus_rad L row_data))) ∧
    (∀ a ∈ ([0, 1, 2, 3, 4, 6, 7] : List Int), ∀ b ∈ ([0, 1, 2, 3, 4, 6, 7] : List Int),
      a ≠ b →
        virus_rbf (LibmRbf.mk Real.exp Real.sqrt Real.log Real.rpow) a 2
          ≠ virus_rbf (LibmRbf.mk Real.exp Real.sqrt Real.log Real.rpow) b 2) ∧
    (∀ id : Int, virus_rbf (LibmRbf.mk Real.exp Real.sqrt Real.log Real.rpow) id 2
      ≠ QUAD (LibmRbf.mk Real.exp Real.sqrt Real.log Real.rpow) 2) := by
  refine ⟨?_, fun a ha b hb hab => virus_rbf_distinct a b ha hb hab, ?_⟩
  · have hwin := filledT_window
      (fun i j => virus_value L row_data (irow.getD i 0) (icol.getD j 0))
      lda.toNat nrows.toNat ncols.toNat result (Int.toNat_le_toNat hld) hw
    refine ⟨_, virus_kernel_eq L row_data col_data nrows ncols lda irow icol result hr hw hld,
      ?_⟩
    intro m k hm hk
    refine ⟨virus_rbf L row_data.kernel
      (virus_dist L row_data.particles.point (irow.getD m 0) (icol.getD k 0)
        / virus_rad L row_data), ?_, ?_, ?_, ?_, ?_, ?_, ?_, ?_, ?_⟩
    · rw [hwin.1 m k hm hk]
      rfl
    · intro h
      simp [virus_rbf, h]
    · intro h
      simp [virus_rbf, h]
    · intro h
      simp [virus_rbf, h]
    · intro h
      simp [virus_rbf, h]
    · intro h
      simp [virus_rbf, h]
    · intro h
      simp [virus_rbf, h]
    · intro h
      simp [virus_rbf, h]
    · intro h
      unfold virus_rbf
      split_ifs <;> first | rfl | (exfalso; omega)
  · intro id h
    have := virus_rbf_lt_five id
    rw [h, rbf_QUAD_two] at this
    exact lt_irrefl _ this

theorem C23_witness :
    VirusReadsOk 1 1 [0] [1] (exMesh 0 : STARSH_mddata ℝ) ∧
      VirusWritesOk 1 1 1 ([0] : List ℝ) ∧
      ∃ out : List ℝ,
        starsh_generate_3d_virus (LibmRbf.mk Real.exp Real.sqrt Real.log Real.rpow) 1 1 [0] [1]
          (exMesh 0) (exMesh 0) [0] 1 = some out ∧
        out[0]? = some (Gaussian (LibmRbf.mk Real.exp Real.sqrt Real.log Real.rpow)
          (virus_dist (LibmRbf.mk Real.exp Real.sqrt Real.log Real.rpow)
              (exMesh 0 : STARSH_mddata ℝ).particles.point 0 1
            / virus_rad (LibmRbf.mk Real.exp Real.sqrt Real.log Real.rpow)
              (exMesh 0 : STARSH_mddata ℝ))) := by
  refine ⟨exMesh_reads 0 0 1 (by decide) (by decide), exMesh_writes, ?_⟩
  obtain ⟨⟨out, hrun, h⟩, _, _⟩ :=
    C23_virus_kernel_table (LibmRbf.mk Real.exp Real.sqrt Real.log Real.rpow) 1 1 1 [0] [1]
      (exMesh 0) (exMesh 0) [0] (exMesh_reads 0 0 1 (by decide) (by decide)) exMesh_writes
      (by decide)
  obtain ⟨e, he, h0, _⟩ := h 0 0 (by decide) (by decide)
  have h1 := h0 rfl
  refine ⟨out, hrun, ?_⟩
  refine Eq.trans he (congrArg some ?_)
  rw [if_neg (by decide)]
  exact h1
end StarsH
